import Mathlib

/-!
Write path of the score serializer

A shallow embedding of `src/engraving/rw/400/twrite.cpp` (class `TWrite`).

Conventions of the embedding

* The markup sink (`XmlWriter`) is an append-only list of the calls made on it
  (`XmlEvent`).  The write context is reached through the sink
  (`xml.context()`); the `ctx` parameter of the writers is the same object.
* Pointers are handles: an item carries its identity `eid`, the handle of its
  score, and the data the writers read from it.  The style sheet of each score,
  the one part of the score graph that a writer mutates, is kept in
  `WriteState.styles`; the score data that stays fixed is in `WriteState.scores`.
* A `double` is the rational number it stands for (`ℚ`).  The fuzzy compare of
  `writeProperty`, the one place where the code tests the result of floating-point
  arithmetic against a bound, is computed as binary64 arithmetic computes it
  (`roundDouble`: round to nearest, ties to even); infinities and NaN are left out.
  The quotients of the unit conversions, which are taken inside classes whose code is
  not part of the translated file, are exact.
* Classes, tables and constants that the writers use but whose code is not part
  of the translated file are parameters (fields of the structures below).
-/

namespace MuseScore

/-! ## Property model -/

/-- Property identifiers (`Pid`) named by the writers; `other` stands for the rest of the table. -/
inductive Pid where
  | AUTOPLACE | FONT_STYLE | OFFSET | COLOR | VISIBLE | Z | PLACEMENT | POSITION
  | STEM_DIRECTION | BEAM_NO_SLOPE | GROW_LEFT | GROW_RIGHT
  | MIN_DISTANCE | FRET_OFFSET | FRET_FRETS | FRET_STRINGS | FRET_NUT | MAG
  | FRET_NUM_POS | ORIENTATION
  | other (n : Nat)
deriving DecidableEq, Repr

/-- The identifier `Pid::ACCIDENTAL_BRACKET`, an entry of the rest of the table. -/
abbrev Pid.ACCIDENTAL_BRACKET : Pid := Pid.other 0

/-- The identifier `Pid::ACCIDENTAL_ROLE`, an entry of the rest of the table. -/
abbrev Pid.ACCIDENTAL_ROLE : Pid := Pid.other 1

/-- The identifier `Pid::SMALL`, an entry of the rest of the table. -/
abbrev Pid.SMALL : Pid := Pid.other 2

/-- The identifier `Pid::ACCIDENTAL_TYPE`, an entry of the rest of the table. -/
abbrev Pid.ACCIDENTAL_TYPE : Pid := Pid.other 3

/-- The identifier `Pid::HEAD_GROUP`, an entry of the rest of the table. -/
abbrev Pid.HEAD_GROUP : Pid := Pid.other 4

/-- The identifier `Pid::HEAD_TYPE`, an entry of the rest of the table. -/
abbrev Pid.HEAD_TYPE : Pid := Pid.other 5

/-- The identifier `Pid::MIRROR_HEAD`, an entry of the rest of the table. -/
abbrev Pid.MIRROR_HEAD : Pid := Pid.other 6

/-- The identifier `Pid::LINE_WIDTH_SPATIUM`, an entry of the rest of the table. -/
abbrev Pid.LINE_WIDTH_SPATIUM : Pid := Pid.other 7

/-- The identifier `Pid::ARPEGGIO_TYPE`, an entry of the rest of the table. -/
abbrev Pid.ARPEGGIO_TYPE : Pid := Pid.other 8

/-- The identifier `Pid::PLAY`, an entry of the rest of the table. -/
abbrev Pid.PLAY : Pid := Pid.other 9

/-- The identifier `Pid::TIME_STRETCH`, an entry of the rest of the table. -/
abbrev Pid.TIME_STRETCH : Pid := Pid.other 10

/-- The identifier `Pid::DIRECTION`, an entry of the rest of the table. -/
abbrev Pid.DIRECTION : Pid := Pid.other 11

/-- The identifier `Pid::ORNAMENT_STYLE`, an entry of the rest of the table. -/
abbrev Pid.ORNAMENT_STYLE : Pid := Pid.other 12

/-- The identifier `Pid::BARLINE_TYPE`, an entry of the rest of the table. -/
abbrev Pid.BARLINE_TYPE : Pid := Pid.other 13

/-- The identifier `Pid::BARLINE_SPAN`, an entry of the rest of the table. -/
abbrev Pid.BARLINE_SPAN : Pid := Pid.other 14

/-- The identifier `Pid::BARLINE_SPAN_FROM`, an entry of the rest of the table. -/
abbrev Pid.BARLINE_SPAN_FROM : Pid := Pid.other 15

/-- The identifier `Pid::BARLINE_SPAN_TO`, an entry of the rest of the table. -/
abbrev Pid.BARLINE_SPAN_TO : Pid := Pid.other 16

/-- The identifier `Pid::BOX_HEIGHT`, an entry of the rest of the table. -/
abbrev Pid.BOX_HEIGHT : Pid := Pid.other 17

/-- The identifier `Pid::BOX_WIDTH`, an entry of the rest of the table. -/
abbrev Pid.BOX_WIDTH : Pid := Pid.other 18

/-- The identifier `Pid::TOP_GAP`, an entry of the rest of the table. -/
abbrev Pid.TOP_GAP : Pid := Pid.other 19

/-- The identifier `Pid::BOTTOM_GAP`, an entry of the rest of the table. -/
abbrev Pid.BOTTOM_GAP : Pid := Pid.other 20

/-- The identifier `Pid::LEFT_MARGIN`, an entry of the rest of the table. -/
abbrev Pid.LEFT_MARGIN : Pid := Pid.other 21

/-- The identifier `Pid::RIGHT_MARGIN`, an entry of the rest of the table. -/
abbrev Pid.RIGHT_MARGIN : Pid := Pid.other 22

/-- The identifier `Pid::TOP_MARGIN`, an entry of the rest of the table. -/
abbrev Pid.TOP_MARGIN : Pid := Pid.other 23

/-- The identifier `Pid::BOTTOM_MARGIN`, an entry of the rest of the table. -/
abbrev Pid.BOTTOM_MARGIN : Pid := Pid.other 24

/-- The identifier `Pid::BOX_AUTOSIZE`, an entry of the rest of the table. -/
abbrev Pid.BOX_AUTOSIZE : Pid := Pid.other 25

/-- The identifier `Pid::CREATE_SYSTEM_HEADER`, an entry of the rest of the table. -/
abbrev Pid.CREATE_SYSTEM_HEADER : Pid := Pid.other 26

/-- The identifier `Pid::SYMBOL`, an entry of the rest of the table. -/
abbrev Pid.SYMBOL : Pid := Pid.other 27

/-- The identifier `Pid::PAUSE`, an entry of the rest of the table. -/
abbrev Pid.PAUSE : Pid := Pid.other 28

/-- The identifier `Pid::STAFF_MOVE`, an entry of the rest of the table. -/
abbrev Pid.STAFF_MOVE : Pid := Pid.other 29

/-- The identifier `Pid::CHORD_LINE_TYPE`, an entry of the rest of the table. -/
abbrev Pid.CHORD_LINE_TYPE : Pid := Pid.other 30

/-- The identifier `Pid::CHORD_LINE_STRAIGHT`, an entry of the rest of the table. -/
abbrev Pid.CHORD_LINE_STRAIGHT : Pid := Pid.other 31

/-- The identifier `Pid::CHORD_LINE_WAVY`, an entry of the rest of the table. -/
abbrev Pid.CHORD_LINE_WAVY : Pid := Pid.other 32

/-- The identifier `Pid::CLEF_TYPE_CONCERT`, an entry of the rest of the table. -/
abbrev Pid.CLEF_TYPE_CONCERT : Pid := Pid.other 33

/-- The identifier `Pid::CLEF_TYPE_TRANSPOSING`, an entry of the rest of the table. -/
abbrev Pid.CLEF_TYPE_TRANSPOSING : Pid := Pid.other 34

/-- The identifier `Pid::DYNAMIC_TYPE`, an entry of the rest of the table. -/
abbrev Pid.DYNAMIC_TYPE : Pid := Pid.other 35

/-- The identifier `Pid::VELOCITY`, an entry of the rest of the table. -/
abbrev Pid.VELOCITY : Pid := Pid.other 36

/-- The identifier `Pid::DYNAMIC_RANGE`, an entry of the rest of the table. -/
abbrev Pid.DYNAMIC_RANGE : Pid := Pid.other 37

/-- The identifier `Pid::VELO_CHANGE`, an entry of the rest of the table. -/
abbrev Pid.VELO_CHANGE : Pid := Pid.other 38

/-- The identifier `Pid::VELO_CHANGE_SPEED`, an entry of the rest of the table. -/
abbrev Pid.VELO_CHANGE_SPEED : Pid := Pid.other 39

/-- The identifier `Pid::TEXT_STYLE`, an entry of the rest of the table. -/
abbrev Pid.TEXT_STYLE : Pid := Pid.other 40

/-- The identifier `Pid::FONT_SIZE`, an entry of the rest of the table. -/
abbrev Pid.FONT_SIZE : Pid := Pid.other 41

/-- The identifier `Pid::FONT_FACE`, an entry of the rest of the table. -/
abbrev Pid.FONT_FACE : Pid := Pid.other 42

/-- The identifier `Pid::GLISS_TYPE`, an entry of the rest of the table. -/
abbrev Pid.GLISS_TYPE : Pid := Pid.other 43

/-- The identifier `Pid::GLISS_STYLE`, an entry of the rest of the table. -/
abbrev Pid.GLISS_STYLE : Pid := Pid.other 44

/-- The identifier `Pid::GLISS_EASEIN`, an entry of the rest of the table. -/
abbrev Pid.GLISS_EASEIN : Pid := Pid.other 45

/-- The identifier `Pid::GLISS_EASEOUT`, an entry of the rest of the table. -/
abbrev Pid.GLISS_EASEOUT : Pid := Pid.other 46

/-- The identifier `Pid::LINE_WIDTH`, an entry of the rest of the table. -/
abbrev Pid.LINE_WIDTH : Pid := Pid.other 47

/-- The identifier `Pid::LINE_STYLE`, an entry of the rest of the table. -/
abbrev Pid.LINE_STYLE : Pid := Pid.other 48

/-- The identifier `Pid::ANCHOR`, an entry of the rest of the table. -/
abbrev Pid.ANCHOR : Pid := Pid.other 49

/-- The identifier `Pid::DASH_LINE_LEN`, an entry of the rest of the table. -/
abbrev Pid.DASH_LINE_LEN : Pid := Pid.other 50

/-- The identifier `Pid::DASH_GAP_LEN`, an entry of the rest of the table. -/
abbrev Pid.DASH_GAP_LEN : Pid := Pid.other 51

/-- The identifier `Pid::TEMPO_CHANGE_TYPE`, an entry of the rest of the table. -/
abbrev Pid.TEMPO_CHANGE_TYPE : Pid := Pid.other 52

/-- The identifier `Pid::TEMPO_EASING_METHOD`, an entry of the rest of the table. -/
abbrev Pid.TEMPO_EASING_METHOD : Pid := Pid.other 53

/-- The identifier `Pid::TEMPO_CHANGE_FACTOR`, an entry of the rest of the table. -/
abbrev Pid.TEMPO_CHANGE_FACTOR : Pid := Pid.other 54

/-- The identifier `Pid::HAIRPIN_CIRCLEDTIP`, an entry of the rest of the table. -/
abbrev Pid.HAIRPIN_CIRCLEDTIP : Pid := Pid.other 55

/-- The identifier `Pid::END_TEXT`, an entry of the rest of the table. -/
abbrev Pid.END_TEXT : Pid := Pid.other 56

/-- The identifier `Pid::LINE_VISIBLE`, an entry of the rest of the table. -/
abbrev Pid.LINE_VISIBLE : Pid := Pid.other 57

/-- The identifier `Pid::SINGLE_NOTE_DYNAMICS`, an entry of the rest of the table. -/
abbrev Pid.SINGLE_NOTE_DYNAMICS : Pid := Pid.other 58

/-- The identifier `Pid::VELO_CHANGE_METHOD`, an entry of the rest of the table. -/
abbrev Pid.VELO_CHANGE_METHOD : Pid := Pid.other 59

/-- The identifier `Pid::HARMONY_TYPE`, an entry of the rest of the table. -/
abbrev Pid.HARMONY_TYPE : Pid := Pid.other 60

/-- Property types (`P_TYPE`) that `writeProperty` distinguishes. -/
inductive P_TYPE where
  | BOOL | INT | REAL | MILLIMETRE | POINT | STRING | OTHER
deriving DecidableEq, Repr

/-- The style flag of a property (`PropertyFlags`). -/
inductive PropertyFlags where
  | NOSTYLE | UNSTYLED | STYLED
deriving DecidableEq, Repr

/-- A typed property value; `invalid` is the default-constructed `PropertyValue()`. -/
inductive PropertyValue where
  | invalid
  | bool (b : Bool)
  | int (n : Int)
  | real (x : ℚ)
  | spatium (x : ℚ)
  | point (x y : ℚ)
  | string (s : String)
  | fraction (num den : Int)
deriving DecidableEq, Repr

namespace PropertyValue

/-- The accessor `PropertyValue::isValid`: every value but the default-constructed one is valid. -/
def isValid : PropertyValue → Bool
  | invalid => false
  | _ => true

/-- The conversion `PropertyValue::toInt`: the integer held by an integer or boolean value, 0
otherwise. -/
def toInt : PropertyValue → Int
  | int n => n
  | bool b => if b then 1 else 0
  | _ => 0

/-- The conversion `PropertyValue::toReal`: the number held by a numeric value, 0 otherwise. -/
def toReal : PropertyValue → ℚ
  | real x => x
  | spatium x => x
  | int n => n
  | _ => 0

/-- The conversion `PropertyValue::value<String>`: the string held by a string value, the
empty string otherwise. -/
def toStr : PropertyValue → String
  | string s => s
  | _ => ""

/-- The conversion `PropertyValue::value<PointF>`: the point held by a point value, the null
point otherwise. -/
def toPointF : PropertyValue → ℚ × ℚ
  | point x y => (x, y)
  | _ => (0, 0)

end PropertyValue

/-- Style identifiers (`Sid`) named by the writers. -/
inductive Sid where
  | autoplaceEnabled | concertPitch
  | other (n : Nat)
deriving DecidableEq, Repr

/-- The style sheet of a score: a value per style identifier. -/
abbrev MStyle := Sid → PropertyValue

/-! ## Fractions -/

/-- Modelled from the spec: the `Fraction` class is not part of the translated file. The
spec speaks of durations and positions that are zero or nonzero, valid, equal or different,
added to the tick cursor and scaled by a time-stretch; a fraction is a numerator/denominator
pair of whole notes and these operations act on the value of the pair. Overflow of the
components is not modelled. -/
structure Fraction where
  numerator : Int
  denominator : Int
deriving DecidableEq, Repr

namespace Fraction

/-- Modelled from the spec: `Fraction::isZero`, the value is zero. -/
def isZero (f : Fraction) : Bool := f.numerator == 0

/-- Modelled from the spec: `Fraction::isNotZero`, the value is not zero. -/
def isNotZero (f : Fraction) : Bool := f.numerator != 0

/-- Modelled from the spec: `Fraction::isValid`, the denominator is not zero. -/
def isValid (f : Fraction) : Bool := f.denominator != 0

/-- Modelled from the spec: `operator!=`, the two values differ (compared by
cross-multiplication). -/
def ne (a b : Fraction) : Bool :=
  a.numerator * b.denominator != b.numerator * a.denominator

/-- Modelled from the spec: `operator+=`, the sum of the two values. -/
def add (a b : Fraction) : Fraction :=
  { numerator := a.numerator * b.denominator + b.numerator * a.denominator,
    denominator := a.denominator * b.denominator }

/-- Modelled from the spec: `operator/=`, the quotient of the two values. -/
def div (a b : Fraction) : Fraction :=
  { numerator := a.numerator * b.denominator, denominator := a.denominator * b.numerator }

/-- The rational value of a fraction. -/
def toRat (f : Fraction) : ℚ := (f.numerator : ℚ) / (f.denominator : ℚ)

end Fraction

/-! ## Locations and links -/

/-- Modelled from the spec: the `Location` class is not part of the translated file.
The spec describes it as a (score, staff index, voice/track, tick) tuple that can be
turned into a relative form, a difference against another location. -/
structure Location where
  score : Nat
  staff : Int
  voice : Int
  tick : Int
  rel : Bool
deriving DecidableEq, Repr

namespace Location

/-- The setter `Location::setStaff`. -/
def setStaff (l : Location) (s : Int) : Location := { l with staff := s }

/-- Modelled from the spec: `Location::toRelative(ref)`, the difference of this location
against the reference location. -/
def toRelative (l ref : Location) : Location :=
  if l.rel then l
  else { l with staff := l.staff - ref.staff, voice := l.voice - ref.voice,
                tick := l.tick - ref.tick, rel := true }

end Location

/-- The kind of an element (`ElementType`), as far as the writers test it. -/
inductive ElementType where
  | ACCIDENTAL | ARPEGGIO | ARTICULATION | BEAM | BRACKET | BREATH | CHORD | REST
  | DYNAMIC | FERMATA | FRET_DIAGRAM | GLISSANDO | HAIRPIN | HARMONY | SPANNER_SEGMENT
  | CHORDLINE | HBOX
  | OTHER (name : String)
deriving DecidableEq, Repr

/-- Modelled from the spec: the element name `startElement(item)` opens, the class name of
the element's type. -/
def ElementType.typeName : ElementType → String
  | ACCIDENTAL => "Accidental"
  | ARPEGGIO => "Arpeggio"
  | ARTICULATION => "Articulation"
  | BEAM => "Beam"
  | BRACKET => "Bracket"
  | BREATH => "Breath"
  | CHORD => "Chord"
  | REST => "Rest"
  | DYNAMIC => "Dynamic"
  | FERMATA => "Fermata"
  | FRET_DIAGRAM => "FretDiagram"
  | GLISSANDO => "Glissando"
  | HAIRPIN => "Hairpin"
  | HARMONY => "Harmony"
  | SPANNER_SEGMENT => "Segment"
  | CHORDLINE => "ChordLine"
  | HBOX => "HBox"
  | OTHER name => name

/-- What `writeItemProperties` reads through the pointer to the main element of a link
group: its identity, type, score and `Location::positionForElement`. -/
structure MainElement where
  eid : Nat
  type : ElementType
  score : Nat
  position : Location
deriving DecidableEq, Repr

/-- A link group (`LinkedObjects`): its id, its number of members and its main element. -/
structure LinkedObjects where
  lid : Int
  size : Nat
  mainElement : MainElement
deriving DecidableEq, Repr

/-- A staff, as read by the link tag: its index and, when the staff is itself linked,
the index of the main staff of its link group (`toStaff(s->links()->mainElement())->idx()`). -/
structure Staff where
  idx : Nat
  links : Option Nat
deriving DecidableEq, Repr

/-- An element of the score graph, with the accessors the writers call on it. -/
structure EngravingItem where
  eid : Nat
  type : ElementType
  score : Nat
  propertyFlags : Pid → PropertyFlags
  getProperty : MStyle → Pid → PropertyValue
  propertyDefault : MStyle → Pid → PropertyValue
  offsetIsSpatiumDependent : Bool
  spatium : ℚ
  links : Option LinkedObjects
  staff : Option Staff
  position : Location
  track : Nat
  rtick : Int × Int
  tag : Nat
  styledProperties : List Pid

namespace EngravingItem

/-- Modelled from the spec: `EngravingObject::isStyled(pid)` is declared outside the
translated file; a property is styled when its style flag is `STYLED`. -/
def isStyled (item : EngravingItem) (pid : Pid) : Bool :=
  item.propertyFlags pid == PropertyFlags.STYLED

/-- The test `item->isBeam()`. -/
def isBeam (item : EngravingItem) : Bool := item.type == ElementType.BEAM

/-- The name `item->typeName()`. -/
def typeName (item : EngravingItem) : String := item.type.typeName

/-- The test `item->isRest()`. -/
def isRest (item : EngravingItem) : Bool := item.type == ElementType.REST

/-- The test `item->isChord()`. -/
def isChord (item : EngravingItem) : Bool := item.type == ElementType.CHORD

/-- The test `item->isChordLine()`. -/
def isChordLine (item : EngravingItem) : Bool := item.type == ElementType.CHORDLINE

/-- The test `item->isHBox()`. -/
def isHBox (item : EngravingItem) : Bool := item.type == ElementType.HBOX

end EngravingItem

/-! ## Sink, context and state -/

/-- One call on the markup sink. `tag` with value `invalid` is the value-less form
(`xml.tag("linkedMain")`); `tagProperty` is a property tag that passed the default test;
`location` is the output of `Location::write`; `write` is the virtual call `e->write(xml)`
on element `eid`; `writeXml` is the call `xml.writeXml(name, text)`; `spannerStart` and
`spannerEnd` are the calls `s->writeSpannerStart(xml, c, track)` and
`s->writeSpannerEnd(xml, c, track)` on spanner `sid` for element `eid`. -/
inductive XmlEvent where
  | startElement (name : String) (attrs : List (String × PropertyValue))
  | endElement
  | tag (name : String) (attrs : List (String × PropertyValue)) (value : PropertyValue)
  | tagProperty (pid : Pid) (value : PropertyValue)
  | location (loc : Location)
  | write (eid : Nat)
  | writeXml (name : String) (text : String)
  | spannerStart (sid : Nat) (eid : Nat) (track : Nat)
  | spannerEnd (sid : Nat) (eid : Nat) (track : Nat)
deriving DecidableEq, Repr

/-- Modelled from the spec: the write context (`WriteContext`, writecontext.h) is not part
of the translated file. It holds the cursor, the mode flags, the table from link-group id to
the registered local index, and the assignment of local indices. The spec does not fix the
numbering of local indices, so the context records the locations assigned so far in the pass
(`assigned`) and the numbering is a parameter (`localIndex`). -/
structure WriteContext where
  clipboardmode : Bool
  curTrack : Nat
  trackDiff : Int
  writeTrack : Bool
  writePosition : Bool
  canWrite : Nat → Bool
  lidLocalIndices : List (Int × Int)
  assigned : List Location
  localIndex : List Location → Location → Int
  curTick : Fraction := { numerator := 0, denominator := 1 }

namespace WriteContext

/-- Modelled from the spec: `incCurTick(t)` advances the tick cursor by `t`. -/
def incCurTick (ctx : WriteContext) (t : Fraction) : WriteContext :=
  { ctx with curTick := ctx.curTick.add t }

/-- Modelled from the spec: `assignLocalIndex(loc)` hands out the local index for `loc`
and records the assignment. -/
def assignLocalIndex (ctx : WriteContext) (loc : Location) : Int × WriteContext :=
  (ctx.localIndex ctx.assigned loc, { ctx with assigned := ctx.assigned ++ [loc] })

/-- Modelled from the spec: `setLidLocalIndex(lid, index)` registers the index under the
link-group id. -/
def setLidLocalIndex (ctx : WriteContext) (lid index : Int) : WriteContext :=
  { ctx with lidLocalIndices := (lid, index) :: ctx.lidLocalIndices }

/-- Modelled from the spec: `lidLocalIndex(lid)`, the index registered for the link-group
id, 0 when none is. -/
def lidLocalIndex (ctx : WriteContext) (lid : Int) : Int :=
  match ctx.lidLocalIndices.find? (fun e => e.1 == lid) with
  | some e => e.2
  | none => 0

end WriteContext

/-- The sink: the calls made so far and the context of the pass. -/
structure XmlWriter where
  out : List XmlEvent
  context : WriteContext

/-- A spanner as the chord-rest writer reads it through the spanner map: its identity,
`generated()`, `isSlur()`, `broken()` of the slur, and the identities of its start and end
elements. -/
structure Spanner where
  sid : Nat
  generated : Bool
  isSlur : Bool
  broken : Bool
  startElement : Option Nat
  endElement : Option Nat
deriving DecidableEq, Repr

/-- A score, as read by the writers (its style sheet apart). `findOverlapping start stop` is
the lookup `spannerMap().findOverlapping(start, stop)`. -/
structure Score where
  isMaster : Bool
  spatium : ℚ
  staff : Nat → Option Staff
  layerTags : Nat → String
  isPaletteScore : Bool
  findOverlapping : Int → Int → List Spanner := fun _ _ => []

/-- The update `MStyle::set(sid, v)`. -/
def MStyle.set (st : MStyle) (sid : Sid) (v : PropertyValue) : MStyle :=
  fun x => if x = sid then v else st x

/-- The boolean reading of a style value (`styleB`). -/
def MStyle.styleB (st : MStyle) (sid : Sid) : Bool :=
  match st sid with
  | PropertyValue.bool b => b
  | _ => false

/-- Beam modes (`BeamMode`): the two defaults the writers name; `other` stands for the rest
of the enumeration. -/
inductive BeamMode where
  | AUTO | NONE
  | other (n : Nat)
deriving DecidableEq, Repr

/-- Bracket types (`BracketType`). -/
inductive BracketType where
  | NORMAL | BRACE | SQUARE | LINE | NO_BRACKET
deriving DecidableEq, Repr

/-- Text types of an articulation (`ArticulationTextType`): `NO_TEXT`, which the writer
tests; `other` stands for the rest of the enumeration. -/
inductive ArticulationTextType where
  | NO_TEXT
  | other (n : Nat)
deriving DecidableEq, Repr

/-- Accidental types (`AccidentalType`): `NONE`, which the writers test; `other` stands for
the rest of the enumeration. -/
inductive AccidentalType where
  | NONE
  | other (n : Nat)
deriving DecidableEq, Repr

/-- Note types of a chord (`NoteType`); `other` stands for values outside the cases of the
chord writer's switch. -/
inductive NoteType where
  | NORMAL | ACCIACCATURA | APPOGGIATURA | GRACE4 | GRACE16 | GRACE32
  | GRACE8_AFTER | GRACE16_AFTER | GRACE32_AFTER
  | other (n : Nat)
deriving DecidableEq, Repr

/-- Dynamic types (`DynamicType`): `OTHER`, which the writer tests; `named` stands for the
rest of the enumeration. -/
inductive DynamicType where
  | OTHER
  | named (n : Nat)
deriving DecidableEq, Repr

/-- Kinds of a chord-symbol degree (`HDegreeType`). -/
inductive HDegreeType where
  | UNDEF | ADD | ALTER | SUBTRACT
deriving DecidableEq, Repr

/-- The case of a note name (`NoteCaseType`): `CAPITAL`, which the writer tests; `other n`
is the value with integer `n`. -/
inductive NoteCaseType where
  | CAPITAL
  | other (n : Int)
deriving DecidableEq, Repr

/-- The name tables `TConv::toXml` and `SymNames::nameForSymId`, which are not part of the
translated file: one table per enumeration the writers convert. Enumerations the writers
never test are carried by their integer value. -/
structure NameTables where
  beamMode : BeamMode → String := fun _ => ""
  durationType : Int → String := fun _ => ""
  bracketType : BracketType → String := fun _ => ""
  embelType : Int → String := fun _ => ""
  articulationTextType : ArticulationTextType → String := fun _ => ""
  symId : Int → String := fun _ => ""

/-- A transposition interval (`Interval`). -/
structure Interval where
  diatonic : Int
  chromatic : Int
deriving DecidableEq, Repr

/-- Process-wide values the writers read: `MScore::debugMode`, `MScore::testMode`, the
device constant `DPMM`, the property table's `propertyType`, the conversion
`Fraction::ticks()` of a fraction to integer ticks, the name tables, the static table
`TextLineBase::textLineBasePropertyIds()`, the constant `Tpc::TPC_INVALID` and the function
`transposeTpc(tpc, interval, useDoubleSharpsFlats)`. -/
structure Globals where
  debugMode : Bool
  testMode : Bool
  DPMM : ℚ
  propertyType : Pid → P_TYPE
  ticks : Fraction → Int := fun f => f.numerator * 1920 / f.denominator
  names : NameTables := {}
  textLineBasePropertyIds : List Pid := []
  TPC_INVALID : Int := -2
  transposeTpc : Int → Interval → Bool → Int := fun tpc _ _ => tpc

/-- The state threaded through the writers: the sink (with its context), the scores, the
style sheet of each score and the process-wide values. -/
structure WriteState where
  xml : XmlWriter
  scores : Nat → Score
  styles : Nat → MStyle
  globals : Globals

/-- The constant `VOICES`, the number of voices of a staff. -/
def VOICES : Nat := 4

/-- The constant `MAX_TAGS`, the number of layer tags. -/
def MAX_TAGS : Nat := 32

/-- The constant `mu::nidx`, the undefined index (`size_t(-1)`). -/
def nidx : Nat := 2 ^ 64 - 1

/-- The cast `static_cast<int>` of an integer: wrap to 32-bit two's complement. -/
def toInt32 (n : Int) : Int := (n + 2 ^ 31) % 2 ^ 32 - 2 ^ 31

namespace WriteState

/-- Append one call to the sink. -/
def emit (w : WriteState) (e : XmlEvent) : WriteState :=
  { w with xml := { w.xml with out := w.xml.out ++ [e] } }

/-- The call `xml.startElement(name, attrs)`. -/
def startElement (w : WriteState) (name : String)
    (attrs : List (String × PropertyValue)) : WriteState :=
  w.emit (XmlEvent.startElement name attrs)

/-- The call `xml.endElement()`. -/
def endElement (w : WriteState) : WriteState := w.emit XmlEvent.endElement

/-- The calls `xml.tag(name, value)` and `xml.tag(name)` (value `invalid`). -/
def tag (w : WriteState) (name : String) (value : PropertyValue) : WriteState :=
  w.emit (XmlEvent.tag name [] value)

/-- The call `xml.tag(name, attrs, value)`. -/
def tagAttrs (w : WriteState) (name : String) (attrs : List (String × PropertyValue))
    (value : PropertyValue) : WriteState :=
  w.emit (XmlEvent.tag name attrs value)

/-- Modelled from the spec: the 3-argument `xml.tag(name, value, def)` suppresses the tag
when the value equals the supplied default. -/
def tagDefault (w : WriteState) (name : String) (value dflt : PropertyValue) : WriteState :=
  if value = dflt then w else w.tag name value

/-- Modelled from the spec: `xml.tagProperty(pid, value, def)` omits the tag when the value
equals the default (exact equality) and writes the property tag otherwise. -/
def tagProperty (w : WriteState) (pid : Pid) (value dflt : PropertyValue) : WriteState :=
  if value = dflt then w else w.emit (XmlEvent.tagProperty pid value)

/-- The call `xml.tagFraction(name, f)`: a tag whose value is the fraction. -/
def tagFraction (w : WriteState) (name : String) (f : Fraction) : WriteState :=
  w.emit (XmlEvent.tag name [] (PropertyValue.fraction f.numerator f.denominator))

/-- The call `xml.tagPoint(name, p)`: a tag whose value is the point. -/
def tagPoint (w : WriteState) (name : String) (p : ℚ × ℚ) : WriteState :=
  w.emit (XmlEvent.tag name [] (PropertyValue.point p.1 p.2))

/-- The call `xml.writeXml(name, text)`. -/
def writeXml (w : WriteState) (name : String) (text : String) : WriteState :=
  w.emit (XmlEvent.writeXml name text)

/-- The context of the pass, `xml.context()`. -/
def ctx (w : WriteState) : WriteContext := w.xml.context

/-- Replace the context of the pass. -/
def setCtx (w : WriteState) (c : WriteContext) : WriteState :=
  { w with xml := { w.xml with context := c } }

/-- The score of the item, `item->score()`. -/
def scoreOf (w : WriteState) (item : EngravingItem) : Score := w.scores item.score

/-- The style sheet of the item's score. -/
def styleOf (w : WriteState) (item : EngravingItem) : MStyle := w.styles item.score

/-- The call `score->styleB(sid)` for the score with handle `score`. -/
def styleB (w : WriteState) (score : Nat) (sid : Sid) : Bool := (w.styles score).styleB sid

/-- The call `score->setStyleValue(sid, v)` for the score with handle `score`. -/
def setStyleValue (w : WriteState) (score : Nat) (sid : Sid) (v : PropertyValue) :
    WriteState :=
  { w with styles := fun s => if s = score then (w.styles s).set sid v else w.styles s }

/-- Append a list of calls to the sink. -/
def appendOut (w : WriteState) (es : List XmlEvent) : WriteState :=
  { w with xml := { w.xml with out := w.xml.out ++ es } }

/-- The calls made on the sink between state `w` and a later state `w2`. -/
def emitted (w w2 : WriteState) : List XmlEvent := w2.xml.out.drop w.xml.out.length

end WriteState

/-! ## Font style flags -/

/-- The conversion `FontStyle(n)`: the enumeration has underlying type `signed char`, the conversion keeps
the low eight bits (two's complement). -/
def FontStyle.ofInt (n : Int) : Int := (n + 128) % 256 - 128

/-- Bit positions of `FontStyle::Bold`, `Italic`, `Underline` and `Strike` (the masks are
`1 << 0` to `1 << 3`). -/
def FontStyle.Bold : Nat := 0
/-- Bit position of `FontStyle::Italic`. -/
def FontStyle.Italic : Nat := 1
/-- Bit position of `FontStyle::Underline`. -/
def FontStyle.Underline : Nat := 2
/-- Bit position of `FontStyle::Strike`. -/
def FontStyle.Strike : Nat := 3

/-- The test `fs & flag` for a single-bit flag: whether that bit of the two's complement
representation of `fs` is set. -/
def FontStyle.and (fs : Int) (bit : Nat) : Bool := decide ((fs / 2 ^ bit) % 2 = 1)

/-- Modelled from the spec: `Spatium::fromMM(mm, spatium)` re-expresses a length in spatium
units, the length divided by the spatium. -/
def Spatium.fromMM (mm sp : ℚ) : ℚ := mm / sp

/-! ## Double arithmetic -/

/-- Rounding of a rational to the nearest integer, ties to the even one (the rounding rule
of IEEE 754 arithmetic). -/
def roundHalfEven (x : ℚ) : Int :=
  if x - ⌊x⌋ < 1 / 2 then ⌊x⌋
  else if 1 / 2 < x - ⌊x⌋ then ⌊x⌋ + 1
  else if ⌊x⌋ % 2 = 0 then ⌊x⌋ else ⌊x⌋ + 1

/-- The power of two with an integer exponent. -/
def twoPow (e : Int) : ℚ :=
  if 0 ≤ e then ((2 ^ e.toNat : ℕ) : ℚ) else 1 / ((2 ^ (-e).toNat : ℕ) : ℚ)

/-- The number of binary digits of `n`, counted in at most `fuel` halvings (`fuel = n` is
enough). -/
def bitLength : Nat → Nat → Nat
  | 0, _ => 0
  | fuel + 1, n => if n = 0 then 0 else bitLength fuel (n / 2) + 1

/-- The exponent `e` of the binade of a positive `x`: `2 ^ e ≤ x < 2 ^ (e + 1)`. It is the
difference of the digit counts of numerator and denominator, or one less. -/
def binade (x : ℚ) : Int :=
  let e : Int := (bitLength x.num.toNat x.num.toNat : Int) - (bitLength x.den x.den : Int)
  if twoPow e ≤ x then e else e - 1

/-- The exponent of the spacing of the doubles around a magnitude `x`: the exponent of the
binade of `x`, and -1022, the exponent of the subnormal numbers, below it. -/
def doubleExponent (x : ℚ) : Int := max (binade x) (-1022)

/-- The double nearest to a magnitude `x` that is not negative: a significand of 53 bits,
rounded half to even. -/
def roundMagnitude (x : ℚ) : ℚ :=
  roundHalfEven (x / twoPow (doubleExponent x - 52)) * twoPow (doubleExponent x - 52)

/-- The value a real number takes as a `double` (binary64, round to nearest, ties to even).
The result of `a - b` on the doubles `a` and `b` is `roundDouble (a - b)`, and the literal
`0.0001` is `roundDouble (1 / 10000)`. Overflow to infinity is not modelled. -/
def roundDouble (x : ℚ) : ℚ := if x < 0 then - roundMagnitude (-x) else roundMagnitude x

/-! ## TWrite -/

namespace TWrite

/-- The font-style branch of `writeProperty` (twrite.cpp lines 106-122). -/
def writeFontStyle (w : WriteState) (p d : PropertyValue) : WriteState :=
  let ds := FontStyle.ofInt (if d.isValid then d.toInt else 0)
  let fs := FontStyle.ofInt p.toInt
  let w := if FontStyle.and fs FontStyle.Bold != FontStyle.and ds FontStyle.Bold
    then w.tag "bold" (PropertyValue.bool (FontStyle.and fs FontStyle.Bold)) else w
  let w := if FontStyle.and fs FontStyle.Italic != FontStyle.and ds FontStyle.Italic
    then w.tag "italic" (PropertyValue.bool (FontStyle.and fs FontStyle.Italic)) else w
  let w := if FontStyle.and fs FontStyle.Underline != FontStyle.and ds FontStyle.Underline
    then w.tag "underline" (PropertyValue.bool (FontStyle.and fs FontStyle.Underline)) else w
  let w := if FontStyle.and fs FontStyle.Strike != FontStyle.and ds FontStyle.Strike
    then w.tag "strike" (PropertyValue.bool (FontStyle.and fs FontStyle.Strike)) else w
  w

/-- The unit conversion of `writeProperty` (twrite.cpp lines 124-143): `none` when the
value is suppressed by the fuzzy compare, otherwise the value and default handed to
`tagProperty`. The fuzzy compare is the one of the code, on doubles: the difference is
rounded to a double, and the bound is the double `0.0001`. -/
def convertProperty (item : EngravingItem) (w : WriteState) (pid : Pid)
    (p d : PropertyValue) : Option (PropertyValue × PropertyValue) :=
  let type := w.globals.propertyType pid
  if type = P_TYPE.MILLIMETRE then
    let f1 := p.toReal
    if d.isValid ∧ |roundDouble (f1 - d.toReal)| < roundDouble (1 / 10000) then none
    else some (PropertyValue.spatium (Spatium.fromMM f1 (w.scoreOf item).spatium),
               PropertyValue.invalid)
  else if type = P_TYPE.POINT then
    let p1 := p.toPointF
    let p2 := d.toPointF
    if d.isValid ∧ (|roundDouble (p1.1 - p2.1)| < roundDouble (1 / 10000)
        ∧ |roundDouble (p1.2 - p2.2)| < roundDouble (1 / 10000))
    then none
    else
      let q := if item.offsetIsSpatiumDependent then (w.scoreOf item).spatium
               else w.globals.DPMM
      some (PropertyValue.point (p1.1 / q) (p1.2 / q), PropertyValue.invalid)
  else some (p, d)

/-- The writer `TWrite::writeProperty(item, xml, pid)` (twrite.cpp lines 93-145). -/
def writeProperty (item : EngravingItem) (w : WriteState) (pid : Pid) : WriteState :=
  if item.isStyled pid then w
  else
    let p := item.getProperty (w.styleOf item) pid
    if !p.isValid then w
    else
      let f := item.propertyFlags pid
      let d := if f ≠ PropertyFlags.STYLED then item.propertyDefault (w.styleOf item) pid
               else PropertyValue.invalid
      if pid = Pid.FONT_STYLE then writeFontStyle w p d
      else
        match convertProperty item w pid p d with
        | none => w
        | some (p, d) => w.tagProperty pid p d

/-- The writer `TWrite::writeStyledProperties(item, xml)` (twrite.cpp lines 147-152). -/
def writeStyledProperties (item : EngravingItem) (w : WriteState) : WriteState :=
  item.styledProperties.foldl (fun w pid => writeProperty item w pid) w

/-- The autoplace block of `writeItemProperties` (twrite.cpp lines 158-165). -/
def writeAutoplace (item : EngravingItem) (w : WriteState) : WriteState :=
  let autoplaceEnabled := w.styleB item.score Sid.autoplaceEnabled
  if !autoplaceEnabled then
    let w := w.setStyleValue item.score Sid.autoplaceEnabled (PropertyValue.bool true)
    let w := writeProperty item w Pid.AUTOPLACE
    w.setStyleValue item.score Sid.autoplaceEnabled (PropertyValue.bool autoplaceEnabled)
  else writeProperty item w Pid.AUTOPLACE

/-- The body of the link block of `writeItemProperties` (twrite.cpp lines 169-212), entered
for an item whose link group `links` has more than one member outside clipboard mode.
The `assert` on the types and the two log calls have no effect on the state. -/
def writeLinks (item : EngravingItem) (links : LinkedObjects) (w : WriteState) : WriteState :=
  let w := if w.globals.debugMode then w.tag "lid" (PropertyValue.int links.lid) else w
  let me := links.mainElement
  let s : Option Staff :=
    match item.staff with
    | some s => some s
    | none => (w.scoreOf item).staff (w.ctx.curTrack / VOICES)
  let loc := item.position
  if me.eid = item.eid then
    let w := w.tag "linkedMain" PropertyValue.invalid
    let r := w.ctx.assignLocalIndex loc
    let index := r.1
    let w := w.setCtx r.2
    w.setCtx (w.ctx.setLidLocalIndex links.lid index)
  else
    let loc :=
      match s with
      | some st =>
        match st.links with
        | some mainIdx => loc.setStaff (toInt32 mainIdx)
        | none => loc
      | none => loc
    let w := w.startElement "linked" []
    let w :=
      if !(w.scores me.score).isMaster then
        if me.score = item.score then w.tag "score" (PropertyValue.string "same") else w
      else w
    let mainLoc := me.position
    let r := w.ctx.assignLocalIndex mainLoc
    let guessedLocalIndex := r.1
    let w := w.setCtx r.2
    let w := if loc ≠ mainLoc then w.emit (XmlEvent.location (mainLoc.toRelative loc)) else w
    let indexDiff := w.ctx.lidLocalIndex links.lid - guessedLocalIndex
    let w := w.tagDefault "indexDiff" (PropertyValue.int indexDiff) (PropertyValue.int 0)
    w.endElement

/-- The link tag of `writeItemProperties` with its guard (twrite.cpp line 168). -/
def writeLinkTag (item : EngravingItem) (w : WriteState) : WriteState :=
  match item.links with
  | some links =>
    if links.size > 1 ∧ !w.ctx.clipboardmode then writeLinks item links w else w
  | none => w

/-- The track tag of `writeItemProperties` (twrite.cpp lines 214-220). -/
def writeTrackTag (item : EngravingItem) (w : WriteState) : WriteState :=
  if (w.ctx.writeTrack ∨ item.track ≠ w.ctx.curTrack) ∧ item.track ≠ nidx ∧ !item.isBeam then
    let t := toInt32 (toInt32 item.track + w.ctx.trackDiff)
    w.tag "track" (PropertyValue.int t)
  else w

/-- The position tag of `writeItemProperties` (twrite.cpp lines 221-223). -/
def writePositionTag (item : EngravingItem) (w : WriteState) : WriteState :=
  if w.ctx.writePosition then
    w.tagProperty Pid.POSITION (PropertyValue.fraction item.rtick.1 item.rtick.2)
      PropertyValue.invalid
  else w

/-- The layer tag of `writeItemProperties` (twrite.cpp lines 224-231): the first layer
index `i` in `1 .. MAX_TAGS - 1` whose bit is the item's tag. -/
def writeLayerTag (item : EngravingItem) (w : WriteState) : WriteState :=
  if item.tag ≠ 1 then
    match (List.range' 1 (MAX_TAGS - 1)).find? (fun i => item.tag == 2 ^ i) with
    | some i => w.tag "tag" (PropertyValue.string ((w.scoreOf item).layerTags i))
    | none => w
  else w

/-- The closing loop of `writeItemProperties` (twrite.cpp lines 232-236). -/
def writeNoStyleProperties (item : EngravingItem) (w : WriteState) : WriteState :=
  [Pid.OFFSET, Pid.COLOR, Pid.VISIBLE, Pid.Z, Pid.PLACEMENT].foldl
    (fun w pid =>
      if item.propertyFlags pid = PropertyFlags.NOSTYLE then writeProperty item w pid else w) w

/-- The writer `TWrite::writeItemProperties(item, xml, ctx)` (twrite.cpp lines 154-237). -/
def writeItemProperties (item : EngravingItem) (w : WriteState) : WriteState :=
  let w := writeAutoplace item w
  let w := writeLinkTag item w
  let w := writeTrackTag item w
  let w := writePositionTag item w
  let w := writeLayerTag item w
  writeNoStyleProperties item w

end TWrite

/-! ## Beam -/

/-- Vertical direction (`DirectionV`). -/
inductive DirectionV where
  | AUTO | UP | DOWN
deriving DecidableEq, Repr

/-- A beam fragment: the two-entry arrays `py1` and `py2`. -/
structure BeamFragment where
  py1 : ℚ × ℚ
  py2 : ℚ × ℚ
deriving DecidableEq, Repr

/-- Entry `idx` of a two-entry array. -/
def BeamFragment.at (a : ℚ × ℚ) (idx : Nat) : ℚ := if idx = 0 then a.1 else a.2

/-- A beam: the element itself, the chord-rests it owns (by identity), its direction,
`userModified()`, its fragments and `generated()`. -/
structure Beam where
  item : EngravingItem
  elements : List Nat
  beamDirection : DirectionV
  userModified : Bool
  beamFragments : List BeamFragment
  generated : Bool := false

/-- The function `lrint`: round to the nearest integer, ties to even. -/
def lrint (x : ℚ) : Int :=
  let f := ⌊x⌋
  if x - f < 1 / 2 then f
  else if 1 / 2 < x - f then f + 1
  else if f % 2 = 0 then f else f + 1

namespace TWrite

/-- The fragment loop of a user-modified beam (twrite.cpp lines 373-378). -/
def writeBeamFragments (b : Beam) (idx : Nat) (w : WriteState) : WriteState :=
  let _spatium := b.item.spatium
  b.beamFragments.foldl (fun w f =>
    let w := w.startElement "Fragment" []
    let w := w.tag "y1" (PropertyValue.real (BeamFragment.at f.py1 idx / _spatium))
    let w := w.tag "y2" (PropertyValue.real (BeamFragment.at f.py2 idx / _spatium))
    w.endElement) w

/-- The regression-test loop of the beam writer (twrite.cpp lines 384-388). -/
def writeBeamTestData (b : Beam) (idx : Nat) (w : WriteState) : WriteState :=
  let spatium8 := b.item.spatium * (1 / 8)
  b.beamFragments.foldl (fun w f =>
    let w := w.tag "l1" (PropertyValue.int (toInt32 (lrint (BeamFragment.at f.py1 idx / spatium8))))
    w.tag "l2" (PropertyValue.int (toInt32 (lrint (BeamFragment.at f.py2 idx / spatium8))))) w

/-- The writer `TWrite::write(Beam* b, xml, ctx)` (twrite.cpp lines 357-392). -/
def write_Beam (b : Beam) (w : WriteState) : WriteState :=
  if b.elements.isEmpty then w
  else
    let w := w.startElement b.item.typeName []
    let w := writeItemProperties b.item w
    let w := writeProperty b.item w Pid.STEM_DIRECTION
    let w := writeProperty b.item w Pid.BEAM_NO_SLOPE
    let w := writeProperty b.item w Pid.GROW_LEFT
    let w := writeProperty b.item w Pid.GROW_RIGHT
    let idx : Nat :=
      if b.beamDirection = DirectionV.AUTO ∨ b.beamDirection = DirectionV.DOWN then 0 else 1
    let w := if b.userModified then writeBeamFragments b idx w else w
    let w := if w.globals.testMode then writeBeamTestData b idx w else w
    w.endElement

end TWrite

/-! ## Fret diagram -/

/-- Marker kinds of a fret diagram (`FretMarkerType`). -/
inductive FretMarkerType where
  | NONE | CIRCLE | CROSS
deriving DecidableEq, Repr

/-- Dot kinds of a fret diagram (`FretDotType`). -/
inductive FretDotType where
  | NORMAL | CROSS | SQUARE | TRIANGLE
deriving DecidableEq, Repr

/-- The struct `FretItem::Marker`; `exists_` is the result of `exists()`. -/
structure FretItem.Marker where
  mtype : FretMarkerType
  exists_ : Bool
deriving DecidableEq, Repr

/-- The struct `FretItem::Dot`; `exists_` is the result of `exists()`. -/
structure FretItem.Dot where
  fret : Int
  dtype : FretDotType
  exists_ : Bool
deriving DecidableEq, Repr

/-- The struct `FretItem::Barre`; `exists_` is the result of `exists()`. -/
structure FretItem.Barre where
  startString : Int
  endString : Int
  exists_ : Bool
deriving DecidableEq, Repr

/-- A fret diagram with the accessors the writer calls: `strings()`, `frets()`,
`marker(i)`, `dot(i)`, `barre(fret)`, the map `barres()` in its iteration order (ascending
fret), `harmony()` (identity of the harmony element, if any), and the name tables of
`FretItem`. -/
structure FretDiagram where
  item : EngravingItem
  strings : Int
  frets : Int
  marker : Int → FretItem.Marker
  dot : Int → List FretItem.Dot
  barre : Int → FretItem.Barre
  barres : List (Int × FretItem.Barre)
  harmony : Option Nat
  markerTypeToName : FretMarkerType → String
  dotTypeToName : FretDotType → String
  markerToChar : FretMarkerType → Int

/-- The `dotExists` scan that each string loop of the writer starts with. -/
def FretDiagram.dotExists (allDots : List FretItem.Dot) : Bool :=
  allDots.any (fun d => d.exists_)

namespace TWrite

/-- The properties written first by the fret-diagram writer (twrite.cpp lines 815-824). -/
def fretDiagramPids : List Pid :=
  [Pid.MIN_DISTANCE, Pid.FRET_OFFSET, Pid.FRET_FRETS, Pid.FRET_STRINGS, Pid.FRET_NUT,
   Pid.MAG, Pid.FRET_NUM_POS, Pid.ORIENTATION]

/-- One iteration of the string loop of the new format (twrite.cpp lines 845-877). -/
def writeNewString (f : FretDiagram) (w : WriteState) (i : Int) : WriteState :=
  let m := f.marker i
  let allDots := f.dot i
  let dotExists := FretDiagram.dotExists allDots
  if !dotExists ∧ !m.exists_ then w
  else
    let w := w.startElement "string" [("no", PropertyValue.int i)]
    let w := if m.exists_ then w.tag "marker" (PropertyValue.string (f.markerTypeToName m.mtype))
             else w
    let w := allDots.foldl (fun w d =>
      if d.exists_ then
        w.tagAttrs "dot" [("fret", PropertyValue.int d.fret)]
          (PropertyValue.string (f.dotTypeToName d.dtype))
      else w) w
    w.endElement

/-- One iteration of the barre loop of the new format (twrite.cpp lines 881-886). -/
def writeNewBarre (f : FretDiagram) (w : WriteState) (fi : Int) : WriteState :=
  let b := f.barre fi
  if !b.exists_ then w
  else
    w.tagAttrs "barre" [("start", PropertyValue.int b.startString),
                        ("end", PropertyValue.int b.endString)] (PropertyValue.int fi)

/-- The new format (`writeNew`, twrite.cpp lines 841-888). -/
def writeNew (f : FretDiagram) (w : WriteState) : WriteState :=
  let w := (List.range f.strings.toNat).foldl
    (fun (w : WriteState) (i : Nat) => writeNewString f w (i : Int)) w
  (List.range' 1 f.frets.toNat).foldl
    (fun (w : WriteState) (fi : Nat) => writeNewBarre f w (fi : Int)) w

/-- The scan of the legacy format for the lowest dot (twrite.cpp lines 893-922): returns
`(lowestDotFret, furthestLeftLowestDot)`. -/
def scanLowestDot (f : FretDiagram) : Int × Int :=
  (List.range f.strings.toNat).foldl (fun (acc : Int × Int) (i : Nat) =>
    let allDots := f.dot (i : Int)
    let dotExists := FretDiagram.dotExists allDots
    if !dotExists then acc
    else
      allDots.foldl (fun (st : Int × Int) d =>
        let lowestDotFret := st.1
        let furthestLeftLowestDot := st.2
        if d.exists_ then
          if d.fret < lowestDotFret ∨ lowestDotFret = -1 then (d.fret, (i : Int))
          else if d.fret = lowestDotFret
              ∧ ((i : Int) < furthestLeftLowestDot ∨ furthestLeftLowestDot = -1) then
            (lowestDotFret, (i : Int))
          else st
        else st) acc) (-1, -1)

/-- The barre search of the legacy format (twrite.cpp lines 927-939): returns
`(barreStartString, barreFret)`, taken from the first barre of `barres()` that passes the
test, `(-1, -1)` when none does. -/
def findLegacyBarre (f : FretDiagram) (lowestDotFret furthestLeftLowestDot : Int) :
    Int × Int :=
  match f.barres.find? (fun e =>
      e.2.exists_ ∧ (e.1 ≤ lowestDotFret ∧ e.2.endString = -1
        ∧ ¬ (e.1 = lowestDotFret ∧ e.2.startString > furthestLeftLowestDot))) with
  | some e => (e.2.startString, e.1)
  | none => (-1, -1)

/-- One iteration of the string loop of the legacy format (twrite.cpp lines 942-974). -/
def writeOldString (f : FretDiagram) (barreStartString barreFret : Int) (w : WriteState)
    (i : Int) : WriteState :=
  let m := f.marker i
  let allDots := f.dot i
  let dotExists := FretDiagram.dotExists allDots
  if !dotExists ∧ !m.exists_ ∧ i ≠ barreStartString then w
  else
    let w := w.startElement "string" [("no", PropertyValue.int i)]
    let w := if m.exists_ then w.tag "marker" (PropertyValue.int (f.markerToChar m.mtype))
             else w
    let w := allDots.foldl (fun w d =>
      if d.exists_ ∧ ¬ (i = barreStartString ∧ d.fret = barreFret) then
        w.tag "dot" (PropertyValue.int d.fret)
      else w) w
    let w := if barreStartString = i then w.tag "dot" (PropertyValue.int barreFret) else w
    w.endElement

/-- The legacy format (`writeOld`, twrite.cpp lines 892-980). -/
def writeOld (f : FretDiagram) (w : WriteState) : WriteState :=
  let lo := scanLowestDot f
  let lowestDotFret := lo.1
  let furthestLeftLowestDot := lo.2
  let br := findLegacyBarre f lowestDotFret furthestLeftLowestDot
  let barreStartString := br.1
  let barreFret := br.2
  let w := (List.range f.strings.toNat).foldl
    (fun (w : WriteState) (i : Nat) => writeOldString f barreStartString barreFret w (i : Int)) w
  if barreFret > 0 then w.tag "barre" (PropertyValue.int 1) else w

/-- The writer `TWrite::write(const FretDiagram* f, xml, ctx)` (twrite.cpp lines 808-982). -/
def write_FretDiagram (f : FretDiagram) (w : WriteState) : WriteState :=
  if !w.ctx.canWrite f.item.eid then w
  else
    let w := w.startElement f.item.typeName []
    let w := fretDiagramPids.foldl (fun w p => writeProperty f.item w p) w
    let w := writeItemProperties f.item w
    let w := match f.harmony with
      | some h => w.emit (XmlEvent.write h)
      | none => w
    let w := w.startElement "fretDiagram" []
    let w := writeNew f w
    let w := w.endElement
    let w := writeOld f w
    w.endElement

end TWrite

/-! ## Chord-rest -/

/-- A duration type with dots (`TDuration`), as the chord-rest writer reads it: `type()`
(by its integer value), `dots()`, `isValid()` and the nominal duration `fraction()`. -/
structure TDuration where
  type : Int
  dots : Int
  isValid : Bool
  fraction : Fraction
deriving DecidableEq, Repr

/-- A chord or rest (`ChordRest`) with the accessors the shared block calls: `beamMode()`,
`actualDurationType()`, `ticks()`, `lyrics()` (by identity), `isGrace()`, `globalTicks()`,
the time-stretch of its staff (`staff()->timeStretch(tick)`, read only when the element has
a staff) and `beam()`. -/
structure ChordRest where
  item : EngravingItem
  beamMode : BeamMode
  actualDurationType : TDuration
  ticks : Fraction
  lyrics : List Nat
  isGrace : Bool
  globalTicks : Fraction
  timeStretch : Fraction → Fraction
  beam : Option Beam

namespace TWrite

/-- One iteration of the spanner loop of the chord-rest block (twrite.cpp lines 631-640). -/
def writeSlurTag (c : ChordRest) (w : WriteState) (s : Spanner) : WriteState :=
  if s.generated ∨ !s.isSlur ∨ s.broken ∨ !w.ctx.canWrite s.sid then w
  else if s.startElement = some c.item.eid then
    w.emit (XmlEvent.spannerStart s.sid c.item.eid c.item.track)
  else if s.endElement = some c.item.eid then
    w.emit (XmlEvent.spannerEnd s.sid c.item.eid c.item.track)
  else w

/-- The cursor block of the chord-rest writer (twrite.cpp lines 622-628). -/
def advanceCurTick (c : ChordRest) (w : WriteState) : WriteState :=
  if !c.isGrace then
    let t := c.globalTicks
    let t := if c.item.staff.isSome then t.div (c.timeStretch w.ctx.curTick) else t
    w.setCtx (w.ctx.incCurTick t)
  else w

/-- The beam-mode tag of the chord-rest block (twrite.cpp lines 597-599). -/
def writeBeamMode (c : ChordRest) (w : WriteState) : WriteState :=
  if (c.item.isRest ∧ c.beamMode ≠ BeamMode.NONE)
      ∨ (c.item.isChord ∧ c.beamMode ≠ BeamMode.AUTO) then
    w.tag "BeamMode" (PropertyValue.string (w.globals.names.beamMode c.beamMode))
  else w

/-- The "dots" tag of the chord-rest block (twrite.cpp lines 601-603). -/
def writeDots (c : ChordRest) (w : WriteState) : WriteState :=
  if c.actualDurationType.dots ≠ 0 then
    w.tag "dots" (PropertyValue.int c.actualDurationType.dots)
  else w

/-- The "durationType" tag of the chord-rest block (twrite.cpp lines 606-608). -/
def writeDurationType (c : ChordRest) (w : WriteState) : WriteState :=
  if c.actualDurationType.isValid then
    w.tag "durationType"
      (PropertyValue.string (w.globals.names.durationType c.actualDurationType.type))
  else w

/-- The "duration" tag of the chord-rest block (twrite.cpp lines 610-614). -/
def writeDuration (c : ChordRest) (w : WriteState) : WriteState :=
  if !c.ticks.isZero ∧ (!c.actualDurationType.fraction.isValid
      ∨ c.actualDurationType.fraction.ne c.ticks) then
    w.tagFraction "duration" c.ticks
  else w

/-- The lyrics loop of the chord-rest block (twrite.cpp lines 616-618). -/
def writeLyrics (c : ChordRest) (w : WriteState) : WriteState :=
  c.lyrics.foldl (fun w lyrics => w.emit (XmlEvent.write lyrics)) w

/-- The part of the chord-rest block before the cursor is read (twrite.cpp lines 590-618). -/
def writeChordRestHead (c : ChordRest) (w : WriteState) : WriteState :=
  let w := writeItemProperties c.item w
  let w := writeBeamMode c w
  let w := writeProperty c.item w Pid.SMALL
  let w := writeDots c w
  let w := writeProperty c.item w Pid.STAFF_MOVE
  let w := writeDurationType c w
  let w := writeDuration c w
  writeLyrics c w

/-- The writer `TWrite::writeProperties(const ChordRest* c, xml, ctx)` (twrite.cpp lines
588-642). -/
def writeProperties_ChordRest (c : ChordRest) (w : WriteState) : WriteState :=
  let w := writeChordRestHead c w
  let curTick := w.globals.ticks w.ctx.curTick
  let w := advanceCurTick c w
  ((w.scoreOf c.item).findOverlapping (curTick - 1) (curTick + 1)).foldl (writeSlurTag c) w

/-- The writer `TWrite::writeChordRestBeam(c, xml, ctx)` (twrite.cpp lines 580-586). -/
def writeChordRestBeam (c : ChordRest) (w : WriteState) : WriteState :=
  match c.beam with
  | some b =>
    if b.elements.head? = some c.item.eid ∧ (w.globals.testMode ∨ !b.generated) then
      write_Beam b w
    else w
  | none => w

end TWrite

/-! ## Element writers -/

/-- An action icon (`ActionIcon`): `actionType()` by its integer value and `actionCode()`. -/
structure ActionIcon where
  item : EngravingItem
  actionType : Int
  actionCode : String

/-- An accidental owned by an ambitus: its identity and `accidentalType()`. -/
structure AccidentalRef where
  eid : Nat
  accidentalType : AccidentalType
deriving DecidableEq, Repr

/-- An ambitus (`Ambitus`) with the accessors the writer calls and the class constants
`NOTEHEADGROUP_DEFAULT`, `NOTEHEADTYPE_DEFAULT`, `DIR_DEFAULT` and `LINEWIDTH_DEFAULT`;
enumerations are carried by their integer value. -/
structure Ambitus where
  item : EngravingItem
  noteHeadGroup : Int
  noteHeadType : Int
  direction : Int
  hasLine : Bool
  lineWidth : ℚ
  topPitch : Int
  topTpc : Int
  bottomPitch : Int
  bottomTpc : Int
  topAccidental : AccidentalRef
  bottomAccidental : AccidentalRef
  NOTEHEADGROUP_DEFAULT : Int
  NOTEHEADTYPE_DEFAULT : Int
  DIR_DEFAULT : Int
  LINEWIDTH_DEFAULT : ℚ

/-- An arpeggio (`Arpeggio`): `userLen1()`, `userLen2()` and `span()`. -/
structure Arpeggio where
  item : EngravingItem
  userLen1 : ℚ
  userLen2 : ℚ
  span : Int

/-- An articulation (`Articulation`): `channelName()`, `textType()` and `symId()`. -/
structure Articulation where
  item : EngravingItem
  channelName : String
  textType : ArticulationTextType
  symId : Int

/-- A bagpipe embellishment (`BagpipeEmbellishment`): `embelType()` by its integer value. -/
structure BagpipeEmbellishment where
  item : EngravingItem
  embelType : Int

/-- A bar line (`BarLine`): the elements attached to it (`el()`), by identity. -/
structure BarLine where
  item : EngravingItem
  el : List Nat

/-- A point of a bend (`PitchValue`). -/
structure PitchValue where
  time : Int
  pitch : Int
  vibrato : Bool
deriving DecidableEq, Repr

/-- A bend (`Bend`): its `points()`. -/
structure Bend where
  item : EngravingItem
  points : List PitchValue

/-- A frame (`Box` and its subclasses): the elements it holds (`el()`), by identity, and for
a text frame the identity of its text (`text()`). -/
structure Box where
  item : EngravingItem
  el : List Nat
  text : Nat := 0

/-- What the bracket writer reads from `bracketItem()`: `bracketType()` and `column()`. -/
structure BracketItem where
  bracketType : BracketType
  column : Nat
deriving DecidableEq, Repr

/-- A bracket (`Bracket`). -/
structure Bracket where
  item : EngravingItem
  bracketItem : BracketItem

/-- A clef (`Clef`): `showCourtesy()` and `forInstrumentChange()`. -/
structure Clef where
  item : EngravingItem
  showCourtesy : Bool
  forInstrumentChange : Bool

namespace TWrite

/-- The writer `TWrite::write(Accidental* a, xml, ctx)` (twrite.cpp lines 239-248). -/
def write_Accidental (a : EngravingItem) (w : WriteState) : WriteState :=
  let w := w.startElement a.typeName []
  let w := writeProperty a w Pid.ACCIDENTAL_BRACKET
  let w := writeProperty a w Pid.ACCIDENTAL_ROLE
  let w := writeProperty a w Pid.SMALL
  let w := writeProperty a w Pid.ACCIDENTAL_TYPE
  let w := writeItemProperties a w
  w.endElement

/-- The writer `TWrite::write(ActionIcon* a, xml, ctx)` (twrite.cpp lines 250-258). -/
def write_ActionIcon (a : ActionIcon) (w : WriteState) : WriteState :=
  let w := w.startElement a.item.typeName []
  let w := w.tag "subtype" (PropertyValue.int a.actionType)
  let w := if !a.actionCode.isEmpty then w.tag "action" (PropertyValue.string a.actionCode)
           else w
  w.endElement

/-- The writer `TWrite::write(Ambitus* a, xml, ctx)` (twrite.cpp lines 260-284). -/
def write_Ambitus (a : Ambitus) (w : WriteState) : WriteState :=
  let w := w.startElement a.item.typeName []
  let w := w.tagProperty Pid.HEAD_GROUP (PropertyValue.int a.noteHeadGroup)
    (PropertyValue.int a.NOTEHEADGROUP_DEFAULT)
  let w := w.tagProperty Pid.HEAD_TYPE (PropertyValue.int a.noteHeadType)
    (PropertyValue.int a.NOTEHEADTYPE_DEFAULT)
  let w := w.tagProperty Pid.MIRROR_HEAD (PropertyValue.int a.direction)
    (PropertyValue.int a.DIR_DEFAULT)
  let w := w.tagDefault "hasLine" (PropertyValue.bool a.hasLine) (PropertyValue.bool true)
  let w := w.tagProperty Pid.LINE_WIDTH_SPATIUM (PropertyValue.spatium a.lineWidth)
    (PropertyValue.spatium a.LINEWIDTH_DEFAULT)
  let w := w.tag "topPitch" (PropertyValue.int a.topPitch)
  let w := w.tag "topTpc" (PropertyValue.int a.topTpc)
  let w := w.tag "bottomPitch" (PropertyValue.int a.bottomPitch)
  let w := w.tag "bottomTpc" (PropertyValue.int a.bottomTpc)
  let w :=
    if a.topAccidental.accidentalType ≠ AccidentalType.NONE then
      let w := w.startElement "topAccidental" []
      let w := w.emit (XmlEvent.write a.topAccidental.eid)
      w.endElement
    else w
  let w :=
    if a.bottomAccidental.accidentalType ≠ AccidentalType.NONE then
      let w := w.startElement "bottomAccidental" []
      let w := w.emit (XmlEvent.write a.bottomAccidental.eid)
      w.endElement
    else w
  let w := writeItemProperties a.item w
  w.endElement

/-- The writer `TWrite::write(Arpeggio* a, xml, ctx)` (twrite.cpp lines 286-306). -/
def write_Arpeggio (a : Arpeggio) (w : WriteState) : WriteState :=
  if !w.ctx.canWrite a.item.eid then w
  else
    let w := w.startElement a.item.typeName []
    let w := writeItemProperties a.item w
    let w := writeProperty a.item w Pid.ARPEGGIO_TYPE
    let w := if a.userLen1 ≠ 0 then w.tag "userLen1" (PropertyValue.real (a.userLen1 / a.item.spatium))
             else w
    let w := if a.userLen2 ≠ 0 then w.tag "userLen2" (PropertyValue.real (a.userLen2 / a.item.spatium))
             else w
    let w := if a.span ≠ 1 then w.tag "span" (PropertyValue.int a.span) else w
    let w := writeProperty a.item w Pid.PLAY
    let w := writeProperty a.item w Pid.TIME_STRETCH
    w.endElement

/-- The writer `TWrite::write(const Articulation* a, xml, ctx)` (twrite.cpp lines 308-332). -/
def write_Articulation (a : Articulation) (w : WriteState) : WriteState :=
  if !w.ctx.canWrite a.item.eid then w
  else
    let w := w.startElement a.item.typeName []
    let w := if !a.channelName.isEmpty
      then w.tagAttrs "channe" [("name", PropertyValue.string a.channelName)]
        PropertyValue.invalid
      else w
    let w := writeProperty a.item w Pid.DIRECTION
    let w :=
      if a.textType ≠ ArticulationTextType.NO_TEXT then
        w.tag "subtype" (PropertyValue.string (w.globals.names.articulationTextType a.textType))
      else
        w.tag "subtype" (PropertyValue.string (w.globals.names.symId a.symId))
    let w := writeProperty a.item w Pid.PLAY
    let w := writeProperty a.item w Pid.ORNAMENT_STYLE
    let w := a.item.styledProperties.foldl (fun w pid => writeProperty a.item w pid) w
    let w := writeItemProperties a.item w
    w.endElement

/-- The writer `TWrite::write(BagpipeEmbellishment* b, xml, ctx)` (twrite.cpp lines
334-339). -/
def write_BagpipeEmbellishment (b : BagpipeEmbellishment) (w : WriteState) : WriteState :=
  let w := w.startElement b.item.typeName []
  let w := w.tag "subtype" (PropertyValue.string (w.globals.names.embelType b.embelType))
  w.endElement

/-- The writer `TWrite::write(BarLine* b, xml, ctx)` (twrite.cpp lines 341-355). -/
def write_BarLine (b : BarLine) (w : WriteState) : WriteState :=
  let w := w.startElement b.item.typeName []
  let w := writeProperty b.item w Pid.BARLINE_TYPE
  let w := writeProperty b.item w Pid.BARLINE_SPAN
  let w := writeProperty b.item w Pid.BARLINE_SPAN_FROM
  let w := writeProperty b.item w Pid.BARLINE_SPAN_TO
  let w := b.el.foldl (fun w e => w.emit (XmlEvent.write e)) w
  let w := writeItemProperties b.item w
  w.endElement

/-- The writer `TWrite::write(Bend* b, xml, ctx)` (twrite.cpp lines 394-404). -/
def write_Bend (b : Bend) (w : WriteState) : WriteState :=
  let w := w.startElement b.item.typeName []
  let w := b.points.foldl (fun w v =>
    w.tagAttrs "point" [("time", PropertyValue.int v.time), ("pitch", PropertyValue.int v.pitch),
      ("vibrato", PropertyValue.bool v.vibrato)] PropertyValue.invalid) w
  let w := writeStyledProperties b.item w
  let w := writeProperty b.item w Pid.PLAY
  let w := writeItemProperties b.item w
  w.endElement

/-- The properties written for every frame (twrite.cpp lines 423-425). -/
def boxPids : List Pid :=
  [Pid.BOX_HEIGHT, Pid.BOX_WIDTH, Pid.TOP_GAP, Pid.BOTTOM_GAP, Pid.LEFT_MARGIN,
   Pid.RIGHT_MARGIN, Pid.TOP_MARGIN, Pid.BOTTOM_MARGIN, Pid.BOX_AUTOSIZE]

/-- The writer `TWrite::writeProperties(Box* b, xml, ctx)` (twrite.cpp lines 421-432). -/
def writeProperties_Box (b : Box) (w : WriteState) : WriteState :=
  let w := boxPids.foldl (fun w id => writeProperty b.item w id) w
  let w := writeItemProperties b.item w
  b.el.foldl (fun w e => w.emit (XmlEvent.write e)) w

/-- The writer `TWrite::writeProperties(HBox* b, xml, ctx)` (twrite.cpp lines 441-445). -/
def writeProperties_HBox (b : Box) (w : WriteState) : WriteState :=
  let w := writeProperty b.item w Pid.CREATE_SYSTEM_HEADER
  writeProperties_Box b w

/-- The writer `TWrite::writeBoxProperties(Box* b, xml, ctx)` (twrite.cpp lines 413-419). -/
def writeBoxProperties (b : Box) (w : WriteState) : WriteState :=
  if b.item.isHBox then writeProperties_HBox b w
  else writeProperties_Box b w

/-- The writer `TWrite::write(Box* b, xml, ctx)` (twrite.cpp lines 406-411). -/
def write_Box (b : Box) (w : WriteState) : WriteState :=
  let w := w.startElement b.item.typeName []
  let w := writeBoxProperties b w
  w.endElement

/-- The writer `TWrite::write(HBox* b, xml, ctx)` (twrite.cpp lines 434-439). -/
def write_HBox (b : Box) (w : WriteState) : WriteState :=
  let w := w.startElement b.item.typeName []
  let w := writeProperties_HBox b w
  w.endElement

/-- The writer `TWrite::write(VBox* b, xml, ctx)` (twrite.cpp lines 447-450). -/
def write_VBox (b : Box) (w : WriteState) : WriteState := write_Box b w

/-- The writer `TWrite::write(FBox* b, xml, ctx)` (twrite.cpp lines 452-455). -/
def write_FBox (b : Box) (w : WriteState) : WriteState := write_Box b w

/-- The writer `TWrite::write(TBox* b, xml, ctx)` (twrite.cpp lines 457-463). -/
def write_TBox (b : Box) (w : WriteState) : WriteState :=
  let w := w.startElement b.item.typeName []
  let w := writeProperties_Box b w
  let w := w.emit (XmlEvent.write b.text)
  w.endElement

/-- The switch of the bracket writer (twrite.cpp lines 467-483): the state and the flag
`isStartTag` after it. -/
def writeBracketStart (b : Bracket) (w : WriteState) : WriteState × Bool :=
  match b.bracketItem.bracketType with
  | BracketType.BRACE | BracketType.SQUARE | BracketType.LINE =>
    (w.startElement b.item.typeName
      [("type", PropertyValue.string (w.globals.names.bracketType b.bracketItem.bracketType))],
     true)
  | BracketType.NORMAL => (w.startElement b.item.typeName [], true)
  | BracketType.NO_BRACKET => (w, false)

/-- The writer `TWrite::write(Bracket* b, xml, ctx)` (twrite.cpp lines 465-494). -/
def write_Bracket (b : Bracket) (w : WriteState) : WriteState :=
  let r := writeBracketStart b w
  let w := r.1
  let isStartTag := r.2
  if isStartTag then
    let w := if b.bracketItem.column ≠ 0
      then w.tag "level" (PropertyValue.int (toInt32 b.bracketItem.column)) else w
    let w := writeItemProperties b.item w
    w.endElement
  else w

/-- The writer `TWrite::write(Breath* b, xml, ctx)` (twrite.cpp lines 496-506). -/
def write_Breath (b : EngravingItem) (w : WriteState) : WriteState :=
  if !w.ctx.canWrite b.eid then w
  else
    let w := w.startElement b.typeName []
    let w := writeProperty b w Pid.SYMBOL
    let w := writeProperty b w Pid.PAUSE
    let w := writeItemProperties b w
    w.endElement

/-- The writer `TWrite::write(const Clef* c, xml, ctx)` (twrite.cpp lines 666-679). -/
def write_Clef (c : Clef) (w : WriteState) : WriteState :=
  let w := w.startElement c.item.typeName []
  let w := writeProperty c.item w Pid.CLEF_TYPE_CONCERT
  let w := writeProperty c.item w Pid.CLEF_TYPE_TRANSPOSING
  let w := if !c.showCourtesy then w.tag "showCourtesyClef" (PropertyValue.bool c.showCourtesy)
           else w
  let w := if c.forInstrumentChange
    then w.tag "forInstrumentChange" (PropertyValue.bool c.forInstrumentChange) else w
  let w := writeItemProperties c.item w
  w.endElement

end TWrite

/-! ## Text elements, lines and chord symbols -/

/-- An element of a painter path (`PainterPath::Element`); its type by integer value. -/
structure PathElement where
  type : Int
  x : ℚ
  y : ℚ
deriving DecidableEq, Repr

/-- A chord line (`ChordLine`): `lengthX()`, `lengthY()`, `modified()` and the elements of
`path()`. -/
structure ChordLine where
  item : EngravingItem
  lengthX : ℚ
  lengthY : ℚ
  modified : Bool
  path : List PathElement

/-- A text element (`TextBase`): the property ids of its text style
(`textStyle(t->textStyleType())`), `xmlText()`, and the class constants
`UNDEFINED_FONT_SIZE` and `UNDEFINED_FONT_FAMILY`. -/
structure TextBase where
  item : EngravingItem
  textStyle : List Pid
  xmlText : String
  UNDEFINED_FONT_SIZE : ℚ
  UNDEFINED_FONT_FAMILY : String

/-- A dynamic (`Dynamic`): `isVelocityChangeAvailable()` and `dynamicType()`. -/
structure Dynamic where
  text : TextBase
  isVelocityChangeAvailable : Bool
  dynamicType : DynamicType

/-- A fermata (`Fermata`): `symId()`. -/
structure Fermata where
  item : EngravingItem
  symId : Int

/-- An item of a figured bass (`FiguredBassItem`): the five parentheses, the modifier before
the digit (`prefix()`), the digit, the modifier after it (`suffix()`) and the continuation
line, enumerations by integer value, with the values the writer compares against:
`Modifier::NONE`, `FBIDigitNone` and `ContLine::NONE`. -/
structure FiguredBassItem where
  parenth1 : Int
  parenth2 : Int
  parenth3 : Int
  parenth4 : Int
  parenth5 : Int
  modifierBefore : Int
  digit : Int
  modifierAfter : Int
  contLine : Int
  ModifierNONE : Int
  FBIDigitNone : Int
  ContLineNONE : Int
deriving DecidableEq, Repr

/-- A figured bass (`FiguredBass`): `onNote()`, `ticks()` and `items()`. -/
structure FiguredBass where
  text : TextBase
  onNote : Bool
  ticks : Fraction
  items : List FiguredBassItem

/-- A segment of a line (`SpannerSegment`, `LineSegment`) with the accessors the line writer
calls: `autoplace()`, `visible()`, `offset()`, `userOff2()`, `spannerSegmentType()` by
integer value and `pos2()`. -/
structure SpannerSegment where
  item : EngravingItem
  autoplace : Bool
  visible : Bool
  offset : ℚ × ℚ
  userOff2 : ℚ × ℚ
  spannerSegmentType : Int
  pos2 : ℚ × ℚ

/-- A line (`SLine`, a `Spanner`): `endElement()` on entry and after `computeEndElement()`
(by identity), `ticks()`, `diagonal()` and `spannerSegments()`. -/
structure SLine where
  item : EngravingItem
  endElement : Option Nat
  computedEndElement : Option Nat
  ticks : Fraction
  diagonal : Bool
  spannerSegments : List SpannerSegment

/-- A glissando (`Glissando`): `showText()` and `text()`. -/
structure Glissando where
  line : SLine
  showText : Bool
  text : String

/-- A hairpin (`Hairpin`): `hairpinType()` by integer value. -/
structure Hairpin where
  line : SLine
  hairpinType : Int

/-- A node of a beam-group table (`GroupNode`). -/
structure GroupNode where
  pos : Int
  action : Int
deriving DecidableEq, Repr

/-- A degree of a chord symbol (`HDegree`). -/
structure HDegree where
  type : HDegreeType
  value : Int
  alter : Int
deriving DecidableEq, Repr

/-- A chord symbol (`Harmony`) with the accessors the writer calls: `leftParen()`,
`rightParen()`, `rootTpc()`, `baseTpc()`, the transposition of the instrument of its part at
its tick (`part()->instrument(tick)->transpose()`, read only when the harmony has a staff),
`rootCase()`, `baseCase()`, `id()`, `hTextName()`, the name of `parsedForm()` if there is
one, `degreeList()` and `hFunction()`. -/
structure Harmony where
  text : TextBase
  leftParen : Bool
  rightParen : Bool
  rootTpc : Int
  baseTpc : Int
  transpose : Interval
  rootCase : NoteCaseType
  baseCase : NoteCaseType
  id : Int
  hTextName : String
  parsedForm : Option String
  degreeList : List HDegree
  hFunction : String

/-- A hook (`Hook`, a `BSymbol`): `sym()`, the name of `scoreFont()` if there is one, and
`leafs()` by identity. -/
structure Hook where
  item : EngravingItem
  sym : Int
  scoreFont : Option String
  leafs : List Nat

/-- The point `PointF::isNull`: both coordinates are zero. -/
def PointF.isNull (p : ℚ × ℚ) : Bool := p.1 == 0 && p.2 == 0

/-- The integer value of a note case (`static_cast<int>`); `CAPITAL` is the first
enumerator. -/
def NoteCaseType.toInt : NoteCaseType → Int
  | NoteCaseType.CAPITAL => 0
  | NoteCaseType.other n => n

namespace TWrite

/-- The writer `TWrite::write(const ChordLine* c, xml, ctx)` (twrite.cpp lines 644-664). -/
def write_ChordLine (c : ChordLine) (w : WriteState) : WriteState :=
  let w := w.startElement c.item.typeName []
  let w := writeProperty c.item w Pid.CHORD_LINE_TYPE
  let w := writeProperty c.item w Pid.CHORD_LINE_STRAIGHT
  let w := writeProperty c.item w Pid.CHORD_LINE_WAVY
  let w := w.tagDefault "lengthX" (PropertyValue.real c.lengthX) (PropertyValue.real 0)
  let w := w.tagDefault "lengthY" (PropertyValue.real c.lengthY) (PropertyValue.real 0)
  let w := writeItemProperties c.item w
  let w :=
    if c.modified then
      let w := w.startElement "Path" []
      let w := c.path.foldl (fun w e =>
        w.tagAttrs "Element" [("type", PropertyValue.int e.type), ("x", PropertyValue.real e.x),
          ("y", PropertyValue.real e.y)] PropertyValue.invalid) w
      w.endElement
    else w
  w.endElement

/-- The writer `TWrite::writeProperties(const TextBase* t, xml, ctx, writeText)` (twrite.cpp
lines 700-721). -/
def writeProperties_TextBase (t : TextBase) (writeText : Bool) (w : WriteState) : WriteState :=
  let w := writeItemProperties t.item w
  let w := writeProperty t.item w Pid.TEXT_STYLE
  let w := t.item.styledProperties.foldl (fun w pid =>
    if !t.item.isStyled pid then writeProperty t.item w pid else w) w
  let w := t.textStyle.foldl (fun w pid =>
    if t.item.isStyled pid
        ∨ (pid = Pid.FONT_SIZE
            ∧ (t.item.getProperty (w.styleOf t.item) pid).toReal = t.UNDEFINED_FONT_SIZE)
        ∨ (pid = Pid.FONT_FACE
            ∧ (t.item.getProperty (w.styleOf t.item) pid).toStr = t.UNDEFINED_FONT_FAMILY)
    then w
    else writeProperty t.item w pid) w
  if writeText then w.writeXml "text" t.xmlText else w

/-- The writer `TWrite::write(const Dynamic* d, xml, ctx)` (twrite.cpp lines 681-698). -/
def write_Dynamic (d : Dynamic) (w : WriteState) : WriteState :=
  if !w.ctx.canWrite d.text.item.eid then w
  else
    let w := w.startElement d.text.item.typeName []
    let w := writeProperty d.text.item w Pid.DYNAMIC_TYPE
    let w := writeProperty d.text.item w Pid.VELOCITY
    let w := writeProperty d.text.item w Pid.DYNAMIC_RANGE
    let w :=
      if d.isVelocityChangeAvailable then
        let w := writeProperty d.text.item w Pid.VELO_CHANGE
        writeProperty d.text.item w Pid.VELO_CHANGE_SPEED
      else w
    let w := writeProperties_TextBase d.text (d.dynamicType == DynamicType.OTHER) w
    w.endElement

/-- The writer `TWrite::write(const Fermata* f, xml, ctx)` (twrite.cpp lines 723-739). -/
def write_Fermata (f : Fermata) (w : WriteState) : WriteState :=
  if !w.ctx.canWrite f.item.eid then w
  else
    let w := w.startElement f.item.typeName []
    let w := w.tag "subtype" (PropertyValue.string (w.globals.names.symId f.symId))
    let w := writeProperty f.item w Pid.TIME_STRETCH
    let w := writeProperty f.item w Pid.PLAY
    let w := writeProperty f.item w Pid.MIN_DISTANCE
    let w := if !f.item.isStyled Pid.OFFSET then writeProperty f.item w Pid.OFFSET else w
    let w := writeItemProperties f.item w
    w.endElement

/-- The writer `TWrite::write(const FiguredBassItem* f, xml, ctx)` (twrite.cpp lines
772-796). -/
def write_FiguredBassItem (f : FiguredBassItem) (w : WriteState) : WriteState :=
  let w := w.startElement "FiguredBassItem" []
  let w := w.tagAttrs "brackets"
    [("b0", PropertyValue.int f.parenth1), ("b1", PropertyValue.int f.parenth2),
     ("b2", PropertyValue.int f.parenth3), ("b3", PropertyValue.int f.parenth4),
     ("b4", PropertyValue.int f.parenth5)] PropertyValue.invalid
  let w := if f.modifierBefore ≠ f.ModifierNONE
    then w.tag "prefix" (PropertyValue.int f.modifierBefore) else w
  let w := if f.digit ≠ f.FBIDigitNone then w.tag "digit" (PropertyValue.int f.digit) else w
  let w := if f.modifierAfter ≠ f.ModifierNONE
    then w.tag "suffix" (PropertyValue.int f.modifierAfter) else w
  let w := if f.contLine ≠ f.ContLineNONE
    then w.tag "continuationLine" (PropertyValue.int f.contLine) else w
  w.endElement

/-- The writer `TWrite::write(const FiguredBass* f, xml, ctx)` (twrite.cpp lines 741-770). -/
def write_FiguredBass (f : FiguredBass) (w : WriteState) : WriteState :=
  if !w.ctx.canWrite f.text.item.eid then w
  else
    let w := w.startElement f.text.item.typeName []
    let w := if !f.onNote then w.tag "onNote" (PropertyValue.bool f.onNote) else w
    let w := if f.ticks.isNotZero then w.tagFraction "ticks" f.ticks else w
    let w :=
      if f.items.length < 1 then writeProperties_TextBase f.text true w
      else
        let w := f.items.foldl (fun w item => write_FiguredBassItem item w) w
        let w := f.text.item.styledProperties.foldl
          (fun w pid => writeProperty f.text.item w pid) w
        writeItemProperties f.text.item w
    w.endElement

/-- The writer `TWrite::write(const Fingering* f, xml, ctx)` (twrite.cpp lines 798-806). -/
def write_Fingering (f : TextBase) (w : WriteState) : WriteState :=
  if !w.ctx.canWrite f.item.eid then w
  else
    let w := w.startElement f.item.typeName []
    let w := writeProperties_TextBase f true w
    w.endElement

/-- The writer `TWrite::writeProperties(const Spanner* s, xml, ctx)` (twrite.cpp lines
1071-1077). -/
def writeProperties_Spanner (s : SLine) (w : WriteState) : WriteState :=
  let w := if w.ctx.clipboardmode then w.tagFraction "ticks_f" s.ticks else w
  writeItemProperties s.item w

/-- The test of the line writer for one segment (twrite.cpp lines 1039-1042): whether the
user has modified the default layout of the segment. -/
def segmentModified (seg : SpannerSegment) (w : WriteState) : Bool :=
  !seg.autoplace || !seg.visible
    || (seg.item.propertyFlags Pid.MIN_DISTANCE == PropertyFlags.UNSTYLED
        || seg.item.getProperty (w.styleOf seg.item) Pid.MIN_DISTANCE
            != seg.item.propertyDefault (w.styleOf seg.item) Pid.MIN_DISTANCE)
    || (!seg.item.isStyled Pid.OFFSET
        && (!PointF.isNull seg.offset || !PointF.isNull seg.userOff2))

/-- One iteration of the segment loop of the line writer (twrite.cpp lines 1056-1067). -/
def writeSegment (_spatium : ℚ) (w : WriteState) (seg : SpannerSegment) : WriteState :=
  let w := w.startElement "Segment" []
  let w := w.tag "subtype" (PropertyValue.int seg.spannerSegmentType)
  let w := w.tagPoint "offset" (seg.offset.1 / _spatium, seg.offset.2 / _spatium)
  let w := w.tagPoint "off2" (seg.userOff2.1 / _spatium, seg.userOff2.2 / _spatium)
  let w := writeProperty seg.item w Pid.MIN_DISTANCE
  let w := writeItemProperties seg.item w
  w.endElement

/-- The part of the line writer before the palette test (twrite.cpp lines 1007-1022). The
call `computeEndElement()` changes the end element of the line, which only this test
reads. -/
def writeLineHead (l : SLine) (w : WriteState) : WriteState :=
  let w :=
    if l.endElement.isNone then
      if l.computedEndElement.isNone then w.tagFraction "ticks" l.ticks else w
    else w
  let w := writeProperties_Spanner l w
  let w := if l.diagonal then w.tag "diagonal" (PropertyValue.bool l.diagonal) else w
  let w := writeProperty l.item w Pid.LINE_WIDTH
  let w := writeProperty l.item w Pid.LINE_STYLE
  let w := writeProperty l.item w Pid.COLOR
  let w := writeProperty l.item w Pid.ANCHOR
  let w := writeProperty l.item w Pid.DASH_LINE_LEN
  writeProperty l.item w Pid.DASH_GAP_LEN

/-- The part of the line writer after the palette test (twrite.cpp lines 1034-1068): the
segments, written when one of them is modified. -/
def writeLineSegments (l : SLine) (w : WriteState) : WriteState :=
  let modified := l.spannerSegments.any (fun seg => segmentModified seg w)
  if !modified then w
  else
    let _spatium := (w.scoreOf l.item).spatium
    l.spannerSegments.foldl (writeSegment _spatium) w

/-- The writer `TWrite::writeProperties(const SLine* l, xml, ctx)` (twrite.cpp lines
1005-1069). -/
def writeProperties_SLine (l : SLine) (w : WriteState) : WriteState :=
  let w := writeLineHead l w
  if (w.scoreOf l.item).isPaletteScore then
    match l.spannerSegments.head? with
    | some s => w.tag "length" (PropertyValue.real s.pos2.1)
    | none => w.tag "length" (PropertyValue.real (l.item.spatium * 4))
  else writeLineSegments l w

/-- The writer `TWrite::writeProperties(const TextLineBase* l, xml, ctx)` (twrite.cpp lines
1090-1098). -/
def writeProperties_TextLineBase (l : SLine) (w : WriteState) : WriteState :=
  let w := w.globals.textLineBasePropertyIds.foldl (fun w pid =>
    if !l.item.isStyled pid then writeProperty l.item w pid else w) w
  writeProperties_SLine l w

/-- The writer `TWrite::write(const Glissando* g, xml, ctx)` (twrite.cpp lines 984-1003). -/
def write_Glissando (g : Glissando) (w : WriteState) : WriteState :=
  if !w.ctx.canWrite g.line.item.eid then w
  else
    let w := w.startElement g.line.item.typeName []
    let w := if g.showText ∧ !g.text.isEmpty then w.tag "text" (PropertyValue.string g.text)
             else w
    let w := [Pid.GLISS_TYPE, Pid.PLAY, Pid.GLISS_STYLE, Pid.GLISS_EASEIN,
      Pid.GLISS_EASEOUT].foldl (fun w id => writeProperty g.line.item w id) w
    let w := g.line.item.styledProperties.foldl (fun w pid => writeProperty g.line.item w pid) w
    let w := writeProperties_SLine g.line w
    w.endElement

/-- The writer `TWrite::write(const GradualTempoChange* g, xml, ctx)` (twrite.cpp lines
1079-1088). -/
def write_GradualTempoChange (g : SLine) (w : WriteState) : WriteState :=
  let w := w.startElement g.item.typeName []
  let w := writeProperty g.item w Pid.TEMPO_CHANGE_TYPE
  let w := writeProperty g.item w Pid.TEMPO_EASING_METHOD
  let w := writeProperty g.item w Pid.TEMPO_CHANGE_FACTOR
  let w := writeProperty g.item w Pid.PLACEMENT
  let w := writeProperties_TextLineBase g w
  w.endElement

/-- The writer `TWrite::write(const Groups* g, xml, ctx)` (twrite.cpp lines 1100-1107). -/
def write_Groups (nodes : List GroupNode) (w : WriteState) : WriteState :=
  let w := w.startElement "Groups" []
  let w := nodes.foldl (fun w n =>
    w.tagAttrs "Node" [("pos", PropertyValue.int n.pos), ("action", PropertyValue.int n.action)]
      PropertyValue.invalid) w
  w.endElement

/-- The writer `TWrite::write(const Hairpin* h, xml, ctx)` (twrite.cpp lines 1109-1133). -/
def write_Hairpin (h : Hairpin) (w : WriteState) : WriteState :=
  if !w.ctx.canWrite h.line.item.eid then w
  else
    let w := w.startElement h.line.item.typeName []
    let w := w.tag "subtype" (PropertyValue.int h.hairpinType)
    let w := writeProperty h.line.item w Pid.VELO_CHANGE
    let w := writeProperty h.line.item w Pid.HAIRPIN_CIRCLEDTIP
    let w := writeProperty h.line.item w Pid.DYNAMIC_RANGE
    let w := writeProperty h.line.item w Pid.END_TEXT
    let w := writeProperty h.line.item w Pid.LINE_VISIBLE
    let w := writeProperty h.line.item w Pid.SINGLE_NOTE_DYNAMICS
    let w := writeProperty h.line.item w Pid.VELO_CHANGE_METHOD
    let w := h.line.item.styledProperties.foldl (fun w pid =>
      if !h.line.item.isStyled pid then writeProperty h.line.item w pid else w) w
    let w := writeProperties_SLine h.line w
    w.endElement

/-- The writer `TWrite::writeProperties(const BSymbol* s, xml, ctx)` (twrite.cpp lines
1232-1238). -/
def writeProperties_BSymbol (item : EngravingItem) (leafs : List Nat) (w : WriteState) :
    WriteState :=
  let w := leafs.foldl (fun w e => w.emit (XmlEvent.write e)) w
  writeItemProperties item w

/-- The writer `TWrite::write(const Hook* h, xml, ctx)` (twrite.cpp lines 1221-1230). -/
def write_Hook (h : Hook) (w : WriteState) : WriteState :=
  let w := w.startElement h.item.typeName []
  let w := w.tag "name" (PropertyValue.string (w.globals.names.symId h.sym))
  let w := match h.scoreFont with
    | some name => w.tag "font" (PropertyValue.string name)
    | none => w
  let w := writeProperties_BSymbol h.item h.leafs w
  w.endElement

end TWrite

/-! ## Chord symbols and chords -/

/-- The test `s.startsWith(c)` for a character `c`. -/
def startsWithChar (s : String) (c : Char) : Bool := s.data.head? == some c

/-- The position of a chord in a two-chord tremolo (`TremoloChordType`). -/
inductive TremoloChordType where
  | TremoloSingle | TremoloFirstNote | TremoloSecondNote
deriving DecidableEq, Repr

/-- The stem of a chord as the chord writer reads it: identity, `isUserModified()` and
`userLength()`. -/
structure StemRef where
  eid : Nat
  isUserModified : Bool
  userLength : ℚ
deriving DecidableEq, Repr

/-- The hook or the stem slash of a chord as the chord writer reads it: identity and
`isUserModified()`. -/
structure PartRef where
  eid : Nat
  isUserModified : Bool
deriving DecidableEq, Repr

/-- An element attached to a chord (`el()`): identity, `isChordLine()` and, for a chord
line, whether it belongs to a note (`toChordLine(e)->note()`). -/
structure ChordChild where
  eid : Nat
  isChordLine : Bool
  hasNote : Bool
deriving DecidableEq, Repr

/-- What the chord writer reads from a chord apart from its grace notes: the chord-rest
part, `articulations()`, `noteType()`, `noStem()`, `stem()`, `hook()`, `stemSlash()`,
`notes()` by identity, `arpeggio()`, `tremolo()` by identity, `tremoloChordType()` and
`el()`. -/
structure ChordData where
  cr : ChordRest
  articulations : List Articulation
  noteType : NoteType
  noStem : Bool
  stem : Option StemRef
  hook : Option PartRef
  stemSlash : Option PartRef
  notes : List Nat
  arpeggio : Option Arpeggio
  tremolo : Option Nat
  tremoloChordType : TremoloChordType
  el : List ChordChild

/-- A chord (`Chord`) with its grace notes (`graceNotes()`), which are chords. -/
inductive Chord where
  | mk (data : ChordData) (graceNotes : List Chord)

namespace TWrite

/-- One iteration of the degree loop of the chord-symbol writer (twrite.cpp lines
1185-1204). -/
def writeHarmonyDegree (w : WriteState) (hd : HDegree) : WriteState :=
  let tp := hd.type
  if tp = HDegreeType.ADD ∨ tp = HDegreeType.ALTER ∨ tp = HDegreeType.SUBTRACT then
    let w := w.startElement "degree" []
    let w := w.tag "degree-value" (PropertyValue.int hd.value)
    let w := w.tag "degree-alter" (PropertyValue.int hd.alter)
    let w :=
      match tp with
      | HDegreeType.ADD => w.tag "degree-type" (PropertyValue.string "add")
      | HDegreeType.ALTER => w.tag "degree-type" (PropertyValue.string "alter")
      | HDegreeType.SUBTRACT => w.tag "degree-type" (PropertyValue.string "subtract")
      | _ => w
    w.endElement
  else w

/-- The root and base pitch classes the chord-symbol writer writes (twrite.cpp lines
1147-1158): `(rRootTpc, rBaseTpc)`. -/
def harmonyTpcs (h : Harmony) (w : WriteState) : Int × Int :=
  let rRootTpc := h.rootTpc
  let rBaseTpc := h.baseTpc
  if h.text.item.staff.isSome then
    let interval := h.transpose
    if w.ctx.clipboardmode ∧ !w.styleB h.text.item.score Sid.concertPitch
        ∧ interval.chromatic ≠ 0 then
      (w.globals.transposeTpc h.rootTpc interval true,
       w.globals.transposeTpc h.baseTpc interval true)
    else (rRootTpc, rBaseTpc)
  else (rRootTpc, rBaseTpc)

/-- The name the chord-symbol writer writes (twrite.cpp lines 1170-1173). -/
def harmonyWriteName (h : Harmony) : String :=
  let writeName := h.hTextName
  match h.parsedForm with
  | some name =>
    if startsWithChar name '=' ∧ !startsWithChar writeName '=' then "=" ++ writeName
    else writeName
  | none => writeName

/-- The root block of the chord-symbol writer (twrite.cpp lines 1146-1208). -/
def writeHarmonyRoot (h : Harmony) (w : WriteState) : WriteState :=
  if h.rootTpc ≠ w.globals.TPC_INVALID ∨ h.baseTpc ≠ w.globals.TPC_INVALID then
    let r := harmonyTpcs h w
    let rRootTpc := r.1
    let rBaseTpc := r.2
    let w :=
      if rRootTpc ≠ w.globals.TPC_INVALID then
        let w := w.tag "root" (PropertyValue.int rRootTpc)
        if h.rootCase ≠ NoteCaseType.CAPITAL
        then w.tag "rootCase" (PropertyValue.int h.rootCase.toInt) else w
      else w
    let w := if h.id > 0 then w.tag "extension" (PropertyValue.int h.id) else w
    let writeName := harmonyWriteName h
    let w := if !writeName.isEmpty then w.tag "name" (PropertyValue.string writeName) else w
    let w :=
      if rBaseTpc ≠ w.globals.TPC_INVALID then
        let w := w.tag "base" (PropertyValue.int rBaseTpc)
        if h.baseCase ≠ NoteCaseType.CAPITAL
        then w.tag "baseCase" (PropertyValue.int h.baseCase.toInt) else w
      else w
    h.degreeList.foldl writeHarmonyDegree w
  else w.tag "name" (PropertyValue.string h.hTextName)

/-- The writer `TWrite::write(const Harmony* h, xml, ctx)` (twrite.cpp lines 1135-1219). -/
def write_Harmony (h : Harmony) (w : WriteState) : WriteState :=
  if !w.ctx.canWrite h.text.item.eid then w
  else
    let w := w.startElement h.text.item.typeName []
    let w := writeProperty h.text.item w Pid.HARMONY_TYPE
    let w := writeProperty h.text.item w Pid.PLAY
    let w := if h.leftParen then w.tag "leftParen" PropertyValue.invalid else w
    let w := writeHarmonyRoot h w
    let w := if !h.hFunction.isEmpty then w.tag "function" (PropertyValue.string h.hFunction)
             else w
    let w := writeProperties_TextBase h.text false w
    let w := if h.rightParen then w.tag "rightParen" PropertyValue.invalid else w
    w.endElement

/-- The switch on the note type of the chord writer (twrite.cpp lines 519-548). -/
def writeNoteType (nt : NoteType) (w : WriteState) : WriteState :=
  match nt with
  | NoteType.NORMAL => w
  | NoteType.ACCIACCATURA => w.tag "acciaccatura" PropertyValue.invalid
  | NoteType.APPOGGIATURA => w.tag "appoggiatura" PropertyValue.invalid
  | NoteType.GRACE4 => w.tag "grace4" PropertyValue.invalid
  | NoteType.GRACE16 => w.tag "grace16" PropertyValue.invalid
  | NoteType.GRACE32 => w.tag "grace32" PropertyValue.invalid
  | NoteType.GRACE8_AFTER => w.tag "grace8after" PropertyValue.invalid
  | NoteType.GRACE16_AFTER => w.tag "grace16after" PropertyValue.invalid
  | NoteType.GRACE32_AFTER => w.tag "grace32after" PropertyValue.invalid
  | NoteType.other _ => w

/-- The stem, hook and stem-slash block of the chord writer (twrite.cpp lines 550-560). -/
def writeStemParts (c : ChordData) (w : WriteState) : WriteState :=
  let w :=
    if c.noStem then w.tag "noStem" (PropertyValue.bool c.noStem)
    else
      match c.stem with
      | some stem =>
        if stem.isUserModified ∨ stem.userLength ≠ 0 then w.emit (XmlEvent.write stem.eid)
        else w
      | none => w
  let w :=
    match c.hook with
    | some hook => if hook.isUserModified then w.emit (XmlEvent.write hook.eid) else w
    | none => w
  match c.stemSlash with
  | some slash => if slash.isUserModified then w.emit (XmlEvent.write slash.eid) else w
  | none => w

/-- The chord writer after the grace notes (twrite.cpp lines 513-577). -/
def writeChordBody (c : ChordData) (w : WriteState) : WriteState :=
  let w := writeChordRestBeam c.cr w
  let w := w.startElement c.cr.item.typeName []
  let w := writeProperties_ChordRest c.cr w
  let w := c.articulations.foldl (fun w a => write_Articulation a w) w
  let w := writeNoteType c.noteType w
  let w := writeStemParts c w
  let w := writeProperty c.cr.item w Pid.STEM_DIRECTION
  let w := c.notes.foldl (fun w n => w.emit (XmlEvent.write n)) w
  let w := match c.arpeggio with
    | some a => write_Arpeggio a w
    | none => w
  let w := match c.tremolo with
    | some t =>
      if c.tremoloChordType ≠ TremoloChordType.TremoloSecondNote then w.emit (XmlEvent.write t)
      else w
    | none => w
  let w := c.el.foldl (fun w e =>
    if e.isChordLine ∧ e.hasNote then w else w.emit (XmlEvent.write e.eid)) w
  w.endElement

mutual

/-- The writer `TWrite::write(const Chord* c, xml, ctx)` (twrite.cpp lines 508-578): the
grace notes first, each by the same writer, then the chord itself. -/
def write_Chord : Chord → WriteState → WriteState
  | Chord.mk data graceNotes, w => writeChordBody data (write_Chords graceNotes w)

/-- The loop over the grace notes of a chord (twrite.cpp lines 510-512). -/
def write_Chords : List Chord → WriteState → WriteState
  | [], w => w
  | ch :: rest, w => write_Chords rest (write_Chord ch w)

end

end TWrite

/-! ## A property write that may throw -/

/-- The result of running a block in which a call may throw: the block returned, or an
exception left it. Both carry the state reached at that point. -/
inductive Outcome where
  | returned (w : WriteState)
  | thrown (w : WriteState)

/-- The state reached. -/
def Outcome.state : Outcome → WriteState
  | Outcome.returned w => w
  | Outcome.thrown w => w

/-- Whether an exception left the block. -/
def Outcome.isThrown : Outcome → Bool
  | Outcome.returned _ => false
  | Outcome.thrown _ => true

namespace TWrite

/-- The autoplace block of `writeItemProperties` (twrite.cpp lines 158-165) over a property
writer `writeP` that may throw. The block has no handler and no scope guard: an exception
thrown by the call on line 161 leaves the block at once and the assignment on line 162 is
not run. -/
def writeAutoplaceOver (writeP : EngravingItem → WriteState → Pid → Outcome)
    (item : EngravingItem) (w : WriteState) : Outcome :=
  let autoplaceEnabled := w.styleB item.score Sid.autoplaceEnabled
  if !autoplaceEnabled then
    let w := w.setStyleValue item.score Sid.autoplaceEnabled (PropertyValue.bool true)
    match writeP item w Pid.AUTOPLACE with
    | Outcome.thrown w => Outcome.thrown w
    | Outcome.returned w =>
      Outcome.returned
        (w.setStyleValue item.score Sid.autoplaceEnabled (PropertyValue.bool autoplaceEnabled))
  else writeP item w Pid.AUTOPLACE

end TWrite

/-! ## Reference definitions used in the statements -/

/-- The four font-style flags with their tag names, in the order they are written. -/
def fontStyleFlags : List (String × Nat) :=
  [("bold", 0), ("italic", 1), ("underline", 2), ("strike", 3)]

/-- The flags whose bit in value `v` differs from the same bit in default `d`. -/
def differingFlags (v d : Int) : List (String × Nat) :=
  fontStyleFlags.filter (fun nf => Int.testBit v nf.2 != Int.testBit d nf.2)

/-- One boolean tag per differing flag, carrying the flag's bit in the value. -/
def fontStyleTags (v d : Int) : List XmlEvent :=
  (differingFlags v d).map (fun nf => XmlEvent.tag nf.1 [] (PropertyValue.bool (Int.testBit v nf.2)))

/-- A leaf call that the parts of `writeItemProperties` other than the link tag can make:
a property tag, a font-style flag tag, the track tag or the layer tag. -/
def XmlEvent.isItemTag : XmlEvent → Bool
  | XmlEvent.tagProperty _ _ => true
  | XmlEvent.tag name _ _ =>
    name == "bold" || name == "italic" || name == "underline" || name == "strike"
      || name == "track" || name == "tag"
  | _ => false

/-- A call that opens or closes an element. -/
def XmlEvent.isStructural : XmlEvent → Bool
  | XmlEvent.startElement _ _ => true
  | XmlEvent.endElement => true
  | _ => false

/-- A leaf tag with the given name. -/
def XmlEvent.isTagNamed (n : String) : XmlEvent → Bool
  | XmlEvent.tag name _ _ => name == n
  | _ => false

/-- The opening of an element with the given name. -/
def XmlEvent.isStartNamed (n : String) : XmlEvent → Bool
  | XmlEvent.startElement name _ => name == n
  | _ => false

/-- The location of a non-main member after the staff remap of the link block
(twrite.cpp lines 175-191). -/
def linkedLocation (item : EngravingItem) (ctx : WriteContext) (scores : Nat → Score) :
    Location :=
  let s : Option Staff :=
    match item.staff with
    | some s => some s
    | none => (scores item.score).staff (ctx.curTrack / VOICES)
  match s with
  | some st =>
    match st.links with
    | some mainIdx => item.position.setStaff (toInt32 mainIdx)
    | none => item.position
  | none => item.position

/-- The index the link block of a non-main member obtains from `assignLocalIndex` for the
location of the main element (`guessedLocalIndex`). -/
def guessedLocalIndex (links : LinkedObjects) (ctx : WriteContext) : Int :=
  (ctx.assignLocalIndex links.mainElement.position).1

/-- The calls of the "linked" block of a non-main member, as a function of the context and
the scores at the time of the call. -/
def linkedBlock (item : EngravingItem) (links : LinkedObjects) (ctx : WriteContext)
    (scores : Nat → Score) : List XmlEvent :=
  [XmlEvent.startElement "linked" []]
  ++ (if (scores links.mainElement.score).isMaster = false ∧ links.mainElement.score = item.score
      then [XmlEvent.tag "score" [] (PropertyValue.string "same")] else [])
  ++ (if linkedLocation item ctx scores ≠ links.mainElement.position
      then [XmlEvent.location
              (links.mainElement.position.toRelative (linkedLocation item ctx scores))]
      else [])
  ++ (if ctx.lidLocalIndex links.lid - guessedLocalIndex links ctx = 0 then []
      else [XmlEvent.tag "indexDiff" []
              (PropertyValue.int (ctx.lidLocalIndex links.lid - guessedLocalIndex links ctx))])
  ++ [XmlEvent.endElement]

/-- The calls of the link tag of `writeItemProperties`, as a function of the context, the
scores and the process-wide values at the time of the call. -/
def linkEvents (item : EngravingItem) (ctx : WriteContext) (scores : Nat → Score)
    (globals : Globals) : List XmlEvent :=
  match item.links with
  | some links =>
    if links.size > 1 ∧ ctx.clipboardmode = false then
      (if globals.debugMode then [XmlEvent.tag "lid" [] (PropertyValue.int links.lid)] else [])
      ++ (if links.mainElement.eid = item.eid
          then [XmlEvent.tag "linkedMain" [] PropertyValue.invalid]
          else linkedBlock item links ctx scores)
    else []
  | none => []

/-- The context after the link tag of `writeItemProperties`. -/
def linkContext (item : EngravingItem) (ctx : WriteContext) : WriteContext :=
  match item.links with
  | some links =>
    if links.size > 1 ∧ ctx.clipboardmode = false then
      if links.mainElement.eid = item.eid then
        (ctx.assignLocalIndex item.position).2.setLidLocalIndex links.lid
          (ctx.assignLocalIndex item.position).1
      else (ctx.assignLocalIndex links.mainElement.position).2
    else ctx
  | none => ctx

/-- State `w2` is state `w` with calls appended to the sink, each satisfying `P`; nothing else
differs. -/
def Appends (P : XmlEvent → Bool) (w w2 : WriteState) : Prop :=
  ∃ es, w2 = w.appendOut es ∧ ∀ e ∈ es, P e = true

/-- A call that the link tag of `writeItemProperties` can make. -/
def XmlEvent.isLinkEvent : XmlEvent → Bool
  | XmlEvent.startElement name _ => name == "linked"
  | XmlEvent.endElement => true
  | XmlEvent.tag name _ _ =>
    name == "lid" || name == "linkedMain" || name == "score" || name == "indexDiff"
  | XmlEvent.location _ => true
  | _ => false

/-- A call that `writeItemProperties` or `writeProperty` can make. -/
def XmlEvent.isItemEvent (e : XmlEvent) : Bool := e.isItemTag || e.isLinkEvent

/-- State `w2` is reached from `w` by appending calls that satisfy `P`; scores and
process-wide values are kept, the context and the style sheets may differ. -/
def Extends (P : XmlEvent → Bool) (w w2 : WriteState) : Prop :=
  ∃ es, w2.xml.out = w.xml.out ++ es ∧ (∀ e ∈ es, P e = true) ∧ w2.scores = w.scores
    ∧ w2.globals = w.globals

/-- Per-fragment Y data of a beam: a "Fragment" element, or a y1, y2, l1 or l2 tag. -/
def XmlEvent.isFragmentData (e : XmlEvent) : Bool :=
  e.isStartNamed "Fragment" || e.isTagNamed "y1" || e.isTagNamed "y2" || e.isTagNamed "l1"
    || e.isTagNamed "l2"

/-- One "Fragment" element with its y1 and y2 per beam fragment, in fragment order. -/
def fragmentBlocks (b : Beam) (idx : Nat) : List XmlEvent :=
  b.beamFragments.flatMap (fun f =>
    [XmlEvent.startElement "Fragment" [],
     XmlEvent.tag "y1" [] (PropertyValue.real (BeamFragment.at f.py1 idx / b.item.spatium)),
     XmlEvent.tag "y2" [] (PropertyValue.real (BeamFragment.at f.py2 idx / b.item.spatium)),
     XmlEvent.endElement])

/-- The l1 and l2 tags of the regression-test data, per beam fragment. -/
def beamTestTags (b : Beam) (idx : Nat) : List XmlEvent :=
  b.beamFragments.flatMap (fun f =>
    [XmlEvent.tag "l1" [] (PropertyValue.int
        (toInt32 (lrint (BeamFragment.at f.py1 idx / (b.item.spatium * (1 / 8)))))),
     XmlEvent.tag "l2" [] (PropertyValue.int
        (toInt32 (lrint (BeamFragment.at f.py2 idx / (b.item.spatium * (1 / 8))))))])

/-- The index into `py1`/`py2` chosen by the beam writer from the beam direction. -/
def beamIdx (b : Beam) : Nat :=
  if b.beamDirection = DirectionV.AUTO ∨ b.beamDirection = DirectionV.DOWN then 0 else 1

/-- The opening call of the element of string `i` in either encoding of a fret diagram. -/
def stringStart (i : Int) : XmlEvent :=
  XmlEvent.startElement "string" [("no", PropertyValue.int i)]

/-- The calls of string `i` in the new format, as a function of the diagram alone. -/
def newStringEvents (f : FretDiagram) (i : Int) : List XmlEvent :=
  if FretDiagram.dotExists (f.dot i) = false ∧ (f.marker i).exists_ = false then []
  else
    [stringStart i]
    ++ (if (f.marker i).exists_
        then [XmlEvent.tag "marker" [] (PropertyValue.string (f.markerTypeToName (f.marker i).mtype))]
        else [])
    ++ (f.dot i).flatMap (fun d =>
          if d.exists_ then
            [XmlEvent.tag "dot" [("fret", PropertyValue.int d.fret)]
              (PropertyValue.string (f.dotTypeToName d.dtype))]
          else [])
    ++ [XmlEvent.endElement]

/-- The call for fret `fi` in the barre loop of the new format. -/
def newBarreEvents (f : FretDiagram) (fi : Int) : List XmlEvent :=
  if (f.barre fi).exists_ then
    [XmlEvent.tag "barre" [("start", PropertyValue.int (f.barre fi).startString),
                           ("end", PropertyValue.int (f.barre fi).endString)] (PropertyValue.int fi)]
  else []

/-- The new encoding of a fret diagram (the content of the "fretDiagram" element), as a
function of the diagram alone. -/
def newEncoding (f : FretDiagram) : List XmlEvent :=
  (List.range f.strings.toNat).flatMap (fun i => newStringEvents f (i : Int))
  ++ (List.range' 1 f.frets.toNat).flatMap (fun fi => newBarreEvents f (fi : Int))

/-- The start string and fret of the barre chosen by the legacy format,
`(barreStartString, barreFret)`. -/
def legacyBarre (f : FretDiagram) : Int × Int :=
  TWrite.findLegacyBarre f (TWrite.scanLowestDot f).1 (TWrite.scanLowestDot f).2

/-- The calls of string `i` in the legacy format, as a function of the diagram alone. -/
def legacyStringEvents (f : FretDiagram) (i : Int) : List XmlEvent :=
  if FretDiagram.dotExists (f.dot i) = false ∧ (f.marker i).exists_ = false
      ∧ i ≠ (legacyBarre f).1 then []
  else
    [stringStart i]
    ++ (if (f.marker i).exists_
        then [XmlEvent.tag "marker" [] (PropertyValue.int (f.markerToChar (f.marker i).mtype))]
        else [])
    ++ (f.dot i).flatMap (fun d =>
          if d.exists_ ∧ ¬ (i = (legacyBarre f).1 ∧ d.fret = (legacyBarre f).2) then
            [XmlEvent.tag "dot" [] (PropertyValue.int d.fret)]
          else [])
    ++ (if (legacyBarre f).1 = i then [XmlEvent.tag "dot" [] (PropertyValue.int (legacyBarre f).2)]
        else [])
    ++ [XmlEvent.endElement]

/-- The legacy encoding of a fret diagram, as a function of the diagram alone. -/
def legacyEncoding (f : FretDiagram) : List XmlEvent :=
  (List.range f.strings.toNat).flatMap (fun i => legacyStringEvents f (i : Int))
  ++ (if (legacyBarre f).2 > 0 then [XmlEvent.tag "barre" [] (PropertyValue.int 1)] else [])

/-- A call made by the fret-diagram writer before the two encodings: a call of
`writeProperty` or `writeItemProperties`, or the virtual write of the harmony. -/
def XmlEvent.isFretPrologue : XmlEvent → Bool
  | XmlEvent.write _ => true
  | e => e.isItemEvent

/-- Modelled from the spec: the fretting that a reader takes from a fret diagram in a file,
the finger dots as (string, fret) pairs and the barres as (fret, first string, last string)
triples. The reference reader that the spec names ("must decode (by a reference reader) to
equivalent fretting") and the reading code of the format are not under src/. -/
structure Fretting where
  dots : List (Int × Int)
  barres : List (Int × Int × Int)
deriving DecidableEq, Repr

/-- Modelled from the spec: the calls up to the end of the element that is open, `depth`
elements being open inside it; no reading code is under src/. -/
def elementContent : Nat → List XmlEvent → List XmlEvent
  | _, [] => []
  | 0, XmlEvent.endElement :: _ => []
  | d + 1, XmlEvent.endElement :: es => XmlEvent.endElement :: elementContent d es
  | d, XmlEvent.startElement n a :: es => XmlEvent.startElement n a :: elementContent (d + 1) es
  | d, e :: es => e :: elementContent d es

/-- Modelled from the spec: the calls after the end of the element that is open; no reading
code is under src/. -/
def afterElement : Nat → List XmlEvent → List XmlEvent
  | _, [] => []
  | 0, XmlEvent.endElement :: es => es
  | d + 1, XmlEvent.endElement :: es => afterElement d es
  | d, XmlEvent.startElement _ _ :: es => afterElement (d + 1) es
  | d, _ :: es => afterElement d es

/-- Modelled from the spec: the new encoding in the output of the fret diagram writer, the
content of the first "fretDiagram" element; no reading code is under src/. -/
def newPart : List XmlEvent → List XmlEvent
  | [] => []
  | XmlEvent.startElement "fretDiagram" _ :: es => elementContent 0 es
  | _ :: es => newPart es

/-- Modelled from the spec: the legacy encoding in the output of the fret diagram writer,
the calls after the "fretDiagram" element; no reading code is under src/. -/
def legacyPart : List XmlEvent → List XmlEvent
  | [] => []
  | XmlEvent.startElement "fretDiagram" _ :: es => afterElement 0 es
  | _ :: es => legacyPart es

/-- Modelled from the spec: the (string, fret) pairs of the "dot" tags of an encoding, each
paired with the number of the "string" element it lies in; `fretOf` reads the fret from
the tag. No reading code is under src/. -/
def dotsOf (fretOf : List (String × PropertyValue) → PropertyValue → Option Int) :
    Option Int → List XmlEvent → List (Int × Int)
  | _, [] => []
  | _, XmlEvent.startElement "string" [("no", PropertyValue.int i)] :: es =>
    dotsOf fretOf (some i) es
  | _, XmlEvent.endElement :: es => dotsOf fretOf none es
  | some i, XmlEvent.tag "dot" attrs v :: es =>
    match fretOf attrs v with
    | some fr => (i, fr) :: dotsOf fretOf (some i) es
    | none => dotsOf fretOf (some i) es
  | cur, _ :: es => dotsOf fretOf cur es

/-- Modelled from the spec: the barres of the new encoding, one per "barre" tag, at the fret
that is the value of the tag, from the string of the attribute "start" to the string of the
attribute "end", which is the last string of the diagram when the attribute is -1. No
reading code is under src/. -/
def newBarres (strings : Int) : List XmlEvent → List (Int × Int × Int)
  | [] => []
  | XmlEvent.tag "barre" [("start", PropertyValue.int st), ("end", PropertyValue.int en)]
      (PropertyValue.int fr) :: es =>
    (fr, st, if en = -1 then strings - 1 else en) :: newBarres strings es
  | _ :: es => newBarres strings es

/-- Modelled from the spec: the fretting read from the new encoding of a diagram with
`strings` strings: the fret of a dot is the attribute "fret" of its tag. No reading code is
under src/. -/
def readNew (strings : Int) (out : List XmlEvent) : Fretting :=
  { dots := dotsOf (fun attrs _ =>
      match attrs with
      | [("fret", PropertyValue.int fr)] => some fr
      | _ => none) none (newPart out),
    barres := newBarres strings (newPart out) }

/-- Modelled from the spec: the least fret of a list of dots, for the reading of the legacy
barre; no reading code is under src/. -/
def lowestFret : List (Int × Int) → Option Int
  | [] => none
  | p :: ps => some (ps.foldl (fun m q => min m q.2) p.2)

/-- Modelled from the spec: the left-most string with a dot at fret `fr`, for the reading of
the legacy barre; no reading code is under src/. -/
def leftmostAt (fr : Int) (ds : List (Int × Int)) : Option Int :=
  match ds.filter (fun p => p.2 = fr) with
  | [] => none
  | p :: ps => some (ps.foldl (fun m q => min m q.1) p.1)

/-- Modelled from the spec: the fretting read from the legacy encoding ("single-dot /
boolean-barre") of a diagram with `strings` strings. The fret of a dot is the value of its
tag. The boolean "barre" tag says that there is a barre; it lies, as the writer says where
it decides on the tag (twrite.cpp lines 924-926 and 969), on the lowest fret with a dot,
from the left-most string with a dot at that fret all the way to the last string, and that
dot stands for the barre. No reading code is under src/. -/
def readLegacy (strings : Int) (out : List XmlEvent) : Fretting :=
  let ds := dotsOf (fun _ v =>
    match v with
    | PropertyValue.int fr => some fr
    | _ => none) none (legacyPart out)
  if (legacyPart out).any (fun e => e == XmlEvent.tag "barre" [] (PropertyValue.int 1)) then
    match lowestFret ds with
    | none => { dots := ds, barres := [] }
    | some fr =>
      match leftmostAt fr ds with
      | none => { dots := ds, barres := [] }
      | some st => { dots := ds.filter (fun p => p ≠ (st, fr)), barres := [(fr, st, strings - 1)] }
  else { dots := ds, barres := [] }

/-- The property tag of `pid`. -/
def XmlEvent.isPropertyOf (pid : Pid) : XmlEvent → Bool
  | XmlEvent.tagProperty p _ => p == pid
  | _ => false

/-- A call that `writeProperty` can make for property `pid`: the property tag of `pid` or a
font-style flag tag. -/
def XmlEvent.isPropertyWrite (pid : Pid) : XmlEvent → Bool
  | XmlEvent.tagProperty p _ => p == pid
  | XmlEvent.tag name _ _ =>
    name == "bold" || name == "italic" || name == "underline" || name == "strike"
  | _ => false

/-- A call that the parts of `writeItemProperties` after the track tag can make: the
position tag, the layer tag, or a write of one of the five properties of the closing loop. -/
def XmlEvent.isTailTag : XmlEvent → Bool
  | XmlEvent.tagProperty p _ =>
    p == Pid.POSITION || p == Pid.OFFSET || p == Pid.COLOR || p == Pid.VISIBLE || p == Pid.Z
      || p == Pid.PLACEMENT
  | XmlEvent.tag name _ _ =>
    name == "bold" || name == "italic" || name == "underline" || name == "strike"
      || name == "tag"
  | _ => false

/-- The track tag an item is due under a context: present when the context forces track
output or the item is on another track than the cursor, the item has a track and is not a
beam; its value is the item's track plus the track offset of the context. -/
def trackEvents (item : EngravingItem) (ctx : WriteContext) : List XmlEvent :=
  if (ctx.writeTrack = true ∨ item.track ≠ ctx.curTrack) ∧ item.track ≠ nidx
      ∧ item.isBeam = false then
    [XmlEvent.tag "track" [] (PropertyValue.int ((item.track : Int) + ctx.trackDiff))]
  else []

/-- A call that opens an element. -/
def XmlEvent.isStart : XmlEvent → Bool
  | XmlEvent.startElement _ _ => true
  | _ => false

/-- The call that closes an element. -/
def XmlEvent.isEnd : XmlEvent → Bool
  | XmlEvent.endElement => true
  | _ => false

/-- The calls `es` leave `k` more elements open than they found, and at no point close an
element they did not open: `es` has `k` more `startElement` than `endElement` calls, and no
prefix of `es` has more `endElement` than `startElement` calls. Calls made by code outside
the translated file (`location`, `write`, `writeXml`, `spannerStart`, `spannerEnd`) count as
leaves. -/
def OpenBy (k : Nat) (es : List XmlEvent) : Prop :=
  es.countP XmlEvent.isStart = es.countP XmlEvent.isEnd + k
    ∧ ∀ n, (es.take n).countP XmlEvent.isEnd ≤ (es.take n).countP XmlEvent.isStart

/-- The calls `es` keep the element stack balanced: as many `startElement` as `endElement`
calls, and the depth never drops below its value on entry. -/
def StackBalanced (es : List XmlEvent) : Prop := OpenBy 0 es

/-- A writer keeps the element stack of the sink balanced: from every state it only appends
calls to the sink, and the calls it appends are balanced. -/
def KeepsBalance (f : WriteState → WriteState) : Prop :=
  ∀ w, (f w).xml.out = w.xml.out ++ w.emitted (f w) ∧ StackBalanced (w.emitted (f w))

/-- State `w2` is reached from `w` by appending calls that satisfy `P` and leave `k` more
elements open; scores and process-wide values are kept, the context and the style sheets
may differ. -/
def Steps (P : XmlEvent → Bool) (k : Nat) (w w2 : WriteState) : Prop :=
  ∃ es, w2.xml.out = w.xml.out ++ es ∧ (∀ e ∈ es, P e = true) ∧ OpenBy k es
    ∧ w2.scores = w.scores ∧ w2.globals = w.globals

/-- The beam-mode tag a chord-rest is due: present when the mode is not the default of the
element's kind, `NONE` for a rest and `AUTO` for a chord. -/
def beamModeEvents (c : ChordRest) (g : Globals) : List XmlEvent :=
  if (c.item.isRest = true ∧ c.beamMode ≠ BeamMode.NONE)
      ∨ (c.item.isChord = true ∧ c.beamMode ≠ BeamMode.AUTO) then
    [XmlEvent.tag "BeamMode" [] (PropertyValue.string (g.names.beamMode c.beamMode))]
  else []

/-- The duration tag of a chord-rest, carrying its ticks. -/
def durationTag (c : ChordRest) : XmlEvent :=
  XmlEvent.tag "duration" [] (PropertyValue.fraction c.ticks.numerator c.ticks.denominator)

/-- The ticks of the chord-rest are the valid nominal duration of its duration type. -/
def ChordRest.hasNominalTicks (c : ChordRest) : Bool :=
  c.actualDurationType.fraction.isValid && !c.actualDurationType.fraction.ne c.ticks

/-- A spanner start or end tag. -/
def XmlEvent.isSpannerTag : XmlEvent → Bool
  | XmlEvent.spannerStart _ _ _ => true
  | XmlEvent.spannerEnd _ _ _ => true
  | _ => false

/-- The spanner tags of a chord-rest for the spanners `ss` returned by the overlap lookup:
for a spanner that is not generated, is a slur, is not broken and may be written, a start
tag when the chord-rest is its start element, otherwise an end tag when it is its end
element. -/
def slurEvents (c : ChordRest) (canWrite : Nat → Bool) (ss : List Spanner) : List XmlEvent :=
  ss.flatMap (fun s =>
    if s.generated = true ∨ s.isSlur = false ∨ s.broken = true ∨ canWrite s.sid = false then []
    else if s.startElement = some c.item.eid then
      [XmlEvent.spannerStart s.sid c.item.eid c.item.track]
    else if s.endElement = some c.item.eid then
      [XmlEvent.spannerEnd s.sid c.item.eid c.item.track]
    else [])

/-- The tick cursor after a chord-rest, from the cursor `cur` before it: unchanged for a
grace chord-rest, otherwise advanced by the global ticks of the element, divided by the
time-stretch of its staff at `cur` when it has a staff. -/
def advancedCursor (c : ChordRest) (cur : Fraction) : Fraction :=
  if c.isGrace then cur
  else cur.add (if c.item.staff.isSome then c.globalTicks.div (c.timeStretch cur)
                else c.globalTicks)

/-- The user has changed the layout of a line segment: the segment is not autoplaced, or
not visible, or its minimum distance carries the flag `UNSTYLED` or differs from its default,
or its offset is not styled and its offset or second offset is not the null point. -/
def segmentUserModified (seg : SpannerSegment) (st : MStyle) : Prop :=
  seg.autoplace = false ∨ seg.visible = false
    ∨ seg.item.propertyFlags Pid.MIN_DISTANCE = PropertyFlags.UNSTYLED
    ∨ seg.item.getProperty st Pid.MIN_DISTANCE ≠ seg.item.propertyDefault st Pid.MIN_DISTANCE
    ∨ (seg.item.propertyFlags Pid.OFFSET ≠ PropertyFlags.STYLED
        ∧ (seg.offset ≠ (0, 0) ∨ seg.userOff2 ≠ (0, 0)))

/-- The weaker reading of a changed layout of a line segment: the segment is not autoplaced,
or not visible, or its minimum distance differs from its default, or its offset or second
offset is not the null point. -/
def segmentDiffersFromDefault (seg : SpannerSegment) (st : MStyle) : Prop :=
  seg.autoplace = false ∨ seg.visible = false
    ∨ seg.item.getProperty st Pid.MIN_DISTANCE ≠ seg.item.propertyDefault st Pid.MIN_DISTANCE
    ∨ seg.offset ≠ (0, 0) ∨ seg.userOff2 ≠ (0, 0)

/-- State `v` is reached from `w` by appending the calls `es` to the sink; the scores, the
style sheets and the process-wide values are those of `w`, the context may differ. -/
def Reaches (w v : WriteState) (es : List XmlEvent) : Prop :=
  v.xml.out = w.xml.out ++ es ∧ v.styles = w.styles ∧ v.scores = w.scores
    ∧ v.globals = w.globals

/-- State `v` is reached from `w` by appending calls of which those that satisfy `p` are,
in order, the list `X`; scores, style sheets and process-wide values are kept. -/
def ReachesWith (p : XmlEvent → Bool) (w v : WriteState) (X : List XmlEvent) : Prop :=
  ∃ a, Reaches w v a ∧ a.filter p = X

/-- The existing dots of the strings of a fret diagram as (string, fret) pairs: the strings
in ascending order, the dots of a string in their order. -/
def existingDots (f : FretDiagram) : List (Int × Int) :=
  (List.range f.strings.toNat).flatMap (fun i =>
    (f.dot (i : Int)).filterMap (fun d => if d.exists_ then some ((i : Int), d.fret) else none))

/-- The frets of the existing dots of string `i`, in their order. -/
def existingFrets (f : FretDiagram) (i : Int) : List Int :=
  (f.dot i).filterMap (fun d => if d.exists_ then some d.fret else none)

/-- The update of the lowest-dot scan of the legacy format for one existing dot `p`, a
(string, fret) pair (twrite.cpp lines 914-919); the state is
`(lowestDotFret, furthestLeftLowestDot)`. -/
def lowestStep (st : Int × Int) (p : Int × Int) : Int × Int :=
  if p.2 < st.1 ∨ st.1 = -1 then (p.2, p.1)
  else if p.2 = st.1 ∧ (p.1 < st.2 ∨ st.2 = -1) then (st.1, p.1)
  else st

/-- An entry (fret, barre) of `barres()` qualifies for the legacy format: the barre exists,
its fret is at most the lowest dot fret, its `endString` is -1, and it does not start to the
right of the left-most lowest dot when its fret is the lowest dot fret. -/
def qualifiesForLegacy (f : FretDiagram) (e : Int × FretItem.Barre) : Prop :=
  e.2.exists_ = true ∧ e.1 ≤ (TWrite.scanLowestDot f).1 ∧ e.2.endString = -1
    ∧ ¬ (e.1 = (TWrite.scanLowestDot f).1 ∧ e.2.startString > (TWrite.scanLowestDot f).2)

instance (f : FretDiagram) (e : Int × FretItem.Barre) : Decidable (qualifiesForLegacy f e) := by
  unfold qualifiesForLegacy
  infer_instance

/-- The "dot" tag of the legacy format for a fret. -/
def legacyDotTag (fret : Int) : XmlEvent := XmlEvent.tag "dot" [] (PropertyValue.int fret)

/-- The lowest dot of a fret diagram, `(fret, string)`: of the existing dots on the strings
0 up to `strings` - 1, the least fret and the left-most string that holds a dot at that
fret; (-1, -1) without an existing dot. It is taken over the list of existing dots, later
dots replacing the choice when their fret is lower, or equal on a string further left. -/
def lowestDot (f : FretDiagram) : Int × Int :=
  (existingDots f).foldl lowestStep (-1, -1)

/-- The barre that the legacy format can hold, `(start string, fret)`: the first entry of
`barres()` that exists, ends at the last string (`endString` -1), lies at or below the fret
of the lowest dot and, when on that fret, does not start to the right of the left-most
lowest dot; (-1, -1) when there is none. -/
def encodedBarre (f : FretDiagram) : Int × Int :=
  match f.barres.find? (fun e =>
      e.2.exists_ ∧ (e.1 ≤ (lowestDot f).1 ∧ e.2.endString = -1
        ∧ ¬ (e.1 = (lowestDot f).1 ∧ e.2.startString > (lowestDot f).2))) with
  | some e => (e.2.startString, e.1)
  | none => (-1, -1)

/-- The calls of string `i` in the legacy format for the barre `br`, a pair
`(start string, fret)`: the string is written when it has an existing dot, an existing
marker or is the start string of the barre; its dots are its existing dots except the one
under the barre, and the start string of the barre ends with a dot at the fret of the
barre. -/
def legacyStringEventsFor (br : Int × Int) (f : FretDiagram) (i : Int) : List XmlEvent :=
  if FretDiagram.dotExists (f.dot i) = false ∧ (f.marker i).exists_ = false ∧ i ≠ br.1 then []
  else
    [stringStart i]
    ++ (if (f.marker i).exists_
        then [XmlEvent.tag "marker" [] (PropertyValue.int (f.markerToChar (f.marker i).mtype))]
        else [])
    ++ (f.dot i).flatMap (fun d =>
          if d.exists_ ∧ ¬ (i = br.1 ∧ d.fret = br.2) then
            [XmlEvent.tag "dot" [] (PropertyValue.int d.fret)]
          else [])
    ++ (if br.1 = i then [XmlEvent.tag "dot" [] (PropertyValue.int br.2)] else [])
    ++ [XmlEvent.endElement]

/-- The legacy encoding of a fret diagram for the barre `br`: the strings in ascending
order, then the boolean "barre" tag when the fret of the barre is positive. -/
def legacyEncodingFor (br : Int × Int) (f : FretDiagram) : List XmlEvent :=
  (List.range f.strings.toNat).flatMap (fun i => legacyStringEventsFor br f (i : Int))
  ++ (if br.2 > 0 then [XmlEvent.tag "barre" [] (PropertyValue.int 1)] else [])

/-- The tags the root block of the chord-symbol writer writes before the degree list, for
the pitch classes `r` that it writes and the invalid pitch class `inv`: "root" with
"rootCase", "extension", "name", and "base" with "baseCase". -/
def harmonyHeadEvents (h : Harmony) (r : Int × Int) (inv : Int) : List XmlEvent :=
  (if r.1 ≠ inv then
      XmlEvent.tag "root" [] (PropertyValue.int r.1)
        :: (if h.rootCase ≠ NoteCaseType.CAPITAL
            then [XmlEvent.tag "rootCase" [] (PropertyValue.int h.rootCase.toInt)] else [])
    else [])
  ++ (if h.id > 0 then [XmlEvent.tag "extension" [] (PropertyValue.int h.id)] else [])
  ++ (if (TWrite.harmonyWriteName h).isEmpty = false
      then [XmlEvent.tag "name" [] (PropertyValue.string (TWrite.harmonyWriteName h))] else [])
  ++ (if r.2 ≠ inv then
      XmlEvent.tag "base" [] (PropertyValue.int r.2)
        :: (if h.baseCase ≠ NoteCaseType.CAPITAL
            then [XmlEvent.tag "baseCase" [] (PropertyValue.int h.baseCase.toInt)] else [])
    else [])

/-- The calls the chord writer makes for the stem: the "noStem" tag for a chord without
stem; otherwise the write of the stem, when the chord has a stem that is user-modified or has
a user length. -/
def stemEvents (c : ChordData) : List XmlEvent :=
  if c.noStem = true then [XmlEvent.tag "noStem" [] (PropertyValue.bool true)]
  else
    match c.stem with
    | some s =>
      if s.isUserModified = true ∨ s.userLength ≠ 0 then [XmlEvent.write s.eid] else []
    | none => []

/-- The call the chord writer makes for the hook: its write, when the chord has a hook that
is user-modified. -/
def hookEvents (c : ChordData) : List XmlEvent :=
  match c.hook with
  | some h => if h.isUserModified = true then [XmlEvent.write h.eid] else []
  | none => []

/-- The call the chord writer makes for the stem slash: its write, when the chord has a stem
slash that is user-modified. -/
def slashEvents (c : ChordData) : List XmlEvent :=
  match c.stemSlash with
  | some s => if s.isUserModified = true then [XmlEvent.write s.eid] else []
  | none => []

/-! ## Fixtures -/

namespace Fixture

/-- A style sheet with every boolean style enabled. -/
def style0 : MStyle := fun _ => PropertyValue.bool true

/-- A fresh write context: not in clipboard mode, nothing registered, local indices numbered
per location in the order of assignment. -/
def ctx0 : WriteContext :=
  { clipboardmode := false, curTrack := 0, trackDiff := 0, writeTrack := false,
    writePosition := false, canWrite := fun _ => true, lidLocalIndices := [],
    assigned := [], localIndex := fun hist loc => (hist.count loc : Nat) }

/-- Process-wide values: offsets are points, minimum distances are lengths. -/
def globals0 : Globals :=
  { debugMode := false, testMode := false, DPMM := 1800 / 127,
    propertyType := fun pid =>
      match pid with
      | Pid.OFFSET => P_TYPE.POINT
      | Pid.MIN_DISTANCE => P_TYPE.MILLIMETRE
      | Pid.FONT_STYLE => P_TYPE.INT
      | _ => P_TYPE.OTHER }

/-- A master score with spatium 25. -/
def score0 : Score :=
  { isMaster := true, spatium := 25, staff := fun _ => none, layerTags := fun _ => "",
    isPaletteScore := false }

/-- The state at the start of a pass. -/
def state0 : WriteState :=
  { xml := { out := [], context := ctx0 }, scores := fun _ => score0,
    styles := fun _ => style0, globals := globals0 }

/-- An unlinked element whose properties all have flag `NOSTYLE` and equal their default. -/
def item0 : EngravingItem :=
  { eid := 1, type := ElementType.OTHER "Item", score := 0,
    propertyFlags := fun _ => PropertyFlags.NOSTYLE,
    getProperty := fun _ _ => PropertyValue.int 0,
    propertyDefault := fun _ _ => PropertyValue.int 0,
    offsetIsSpatiumDependent := true, spatium := 25, links := none, staff := none,
    position := { score := 0, staff := 0, voice := 0, tick := 0, rel := false },
    track := 0, rtick := (0, 1), tag := 1, styledProperties := [] }

/-- The start of a pass over a score whose autoplace style is disabled. -/
def disabledState : WriteState :=
  state0.setStyleValue 0 Sid.autoplaceEnabled (PropertyValue.bool false)

/-- An element whose autoplace property is off, against a default that follows the style. -/
def manualItem : EngravingItem :=
  { item0 with
    eid := 2,
    getProperty := fun _ pid =>
      if pid = Pid.AUTOPLACE then PropertyValue.bool false else PropertyValue.int 0,
    propertyDefault := fun st pid =>
      if pid = Pid.AUTOPLACE then st Sid.autoplaceEnabled else PropertyValue.int 0 }

/-- An element on track 5. -/
def trackItem : EngravingItem := { item0 with eid := 3, track := 5 }

/-- A pass whose cursor is on track 0 and whose track offset is -4. -/
def trackState : WriteState :=
  { state0 with xml := { out := [], context := { ctx0 with trackDiff := -4 } } }

/-- A slur that ends on the element with identity 40. -/
def slur7 : Spanner :=
  { sid := 7, generated := false, isSlur := true, broken := false,
    startElement := some 39, endElement := some 40 }

/-- A score whose spanner map holds `slur7`, from tick 0 to tick 480. -/
def slurScore : Score :=
  { score0 with
    findOverlapping := fun start stop => if start ≤ 480 ∧ 0 ≤ stop then [slur7] else [] }

/-- A quarter-note chord with identity 40, without staff. -/
def quarterChord : ChordRest :=
  { item := { item0 with eid := 40, type := ElementType.CHORD },
    beamMode := BeamMode.AUTO,
    actualDurationType :=
      { type := 4, dots := 0, isValid := true, fraction := { numerator := 1, denominator := 4 } },
    ticks := { numerator := 1, denominator := 4 },
    lyrics := [], isGrace := false,
    globalTicks := { numerator := 1, denominator := 4 },
    timeStretch := fun _ => { numerator := 1, denominator := 1 },
    beam := none }

/-- A pass over `slurScore` whose cursor stands at tick 480, one quarter note in. -/
def slurState : WriteState :=
  { state0 with
    xml := { out := [], context := { ctx0 with curTick := { numerator := 1, denominator := 4 } } },
    scores := fun _ => slurScore }

/-- A pass in which no element may be written. -/
def hiddenState : WriteState :=
  { state0 with
    xml := { out := [], context := { ctx0 with canWrite := fun _ => false } } }

/-- An arpeggio. -/
def arpeggio0 : Arpeggio :=
  { item := { item0 with eid := 50, type := ElementType.ARPEGGIO },
    userLen1 := 0, userLen2 := 0, span := 1 }

/-- An articulation. -/
def articulation0 : Articulation :=
  { item := { item0 with eid := 51, type := ElementType.ARTICULATION },
    channelName := "", textType := ArticulationTextType.NO_TEXT, symId := 7 }

/-- A breath mark. -/
def breath0 : EngravingItem := { item0 with eid := 52, type := ElementType.BREATH }

/-- The text part of a dynamic. -/
def text0 : TextBase :=
  { item := { item0 with eid := 53, type := ElementType.DYNAMIC },
    textStyle := [], xmlText := "mf", UNDEFINED_FONT_SIZE := -1,
    UNDEFINED_FONT_FAMILY := "Undefined" }

/-- A dynamic. -/
def dynamic0 : Dynamic :=
  { text := text0, isVelocityChangeAvailable := false, dynamicType := DynamicType.named 0 }

/-- A fermata. -/
def fermata0 : Fermata :=
  { item := { item0 with eid := 54, type := ElementType.FERMATA }, symId := 3 }

/-- A segment that is autoplaced and visible, with null offsets, whose minimum distance the
user has set (flag `UNSTYLED`) to the very value of its default. -/
def resetSegment : SpannerSegment :=
  { item :=
      { item0 with
        eid := 61, type := ElementType.SPANNER_SEGMENT,
        propertyFlags := fun pid =>
          if pid = Pid.MIN_DISTANCE then PropertyFlags.UNSTYLED else PropertyFlags.NOSTYLE },
    autoplace := true, visible := true, offset := (0, 0), userOff2 := (0, 0),
    spannerSegmentType := 0, pos2 := (10, 0) }

/-- A line with the one segment `resetSegment`. -/
def resetLine : SLine :=
  { item := { item0 with eid := 60, type := ElementType.HAIRPIN },
    endElement := some 41, computedEndElement := some 41,
    ticks := { numerator := 1, denominator := 1 }, diagonal := false,
    spannerSegments := [resetSegment] }

/-- A segment moved by the user: its second offset is (0, 2); nothing else differs from the
default layout. -/
def movedSegment : SpannerSegment :=
  { item := { item0 with eid := 62, type := ElementType.SPANNER_SEGMENT },
    autoplace := true, visible := true, offset := (0, 0), userOff2 := (0, 2),
    spannerSegmentType := 0, pos2 := (10, 0) }

/-- A line with the one segment `movedSegment`. -/
def movedLine : SLine := { resetLine with spannerSegments := [movedSegment] }

/-- A glissando. -/
def glissando0 : Glissando :=
  { line := { resetLine with item := { item0 with eid := 55, type := ElementType.GLISSANDO } },
    showText := false, text := "" }

/-- A hairpin. -/
def hairpin0 : Hairpin :=
  { line := { resetLine with item := { item0 with eid := 56, type := ElementType.HAIRPIN } },
    hairpinType := 0 }

/-- A chord symbol. -/
def harmony0 : Harmony :=
  { text := { text0 with item := { item0 with eid := 57, type := ElementType.HARMONY } },
    leftParen := false, rightParen := false, rootTpc := 14, baseTpc := -2,
    transpose := { diatonic := 0, chromatic := 0 },
    rootCase := NoteCaseType.CAPITAL, baseCase := NoteCaseType.CAPITAL, id := 0,
    hTextName := "m7", parsedForm := none, degreeList := [], hFunction := "" }

/-- A beam that starts on the chord with identity 40; it is neither generated nor
user-modified. -/
def firstBeam : Beam :=
  { item := { item0 with eid := 21, type := ElementType.BEAM }, elements := [40, 41],
    beamDirection := DirectionV.AUTO, userModified := false, beamFragments := [],
    generated := false }

/-- The quarter-note chord 40 as first element of `firstBeam`. -/
def beamedChord : ChordRest := { quarterChord with beam := some firstBeam }

/-- A chord whose stem has been lengthened by the user (user length 1) and is not
user-modified otherwise; its hook is not user-modified. -/
def lengthenedChord : ChordData :=
  { cr := quarterChord, articulations := [], noteType := NoteType.NORMAL, noStem := false,
    stem := some { eid := 70, isUserModified := false, userLength := 1 },
    hook := some { eid := 71, isUserModified := false },
    stemSlash := none, notes := [72], arpeggio := none, tremolo := none,
    tremoloChordType := TremoloChordType.TremoloSingle, el := [] }

/-- An element whose offset is styled although its value (3, 4) differs from the default. -/
def styledItem : EngravingItem :=
  { item0 with
    propertyFlags := fun _ => PropertyFlags.STYLED,
    getProperty := fun _ _ => PropertyValue.point 3 4,
    propertyDefault := fun _ _ => PropertyValue.point 0 0 }

/-- An element whose minimum distance 1/2 is 1/4 away from its default 1/4. -/
def mmItem : EngravingItem :=
  { item0 with
    getProperty := fun _ _ => PropertyValue.real (1 / 2),
    propertyDefault := fun _ _ => PropertyValue.real (1 / 4) }

/-- An element whose minimum distance is the double `0.0001` (`0x1.a36e2eb1c432dp-14`) and
whose default is the double `5e-21` (`0x1.79ca10c924223p-68`). -/
def thresholdItem : EngravingItem :=
  { item0 with
    getProperty := fun _ _ => PropertyValue.real (7378697629483821 / 2 ^ 66),
    propertyDefault := fun _ _ => PropertyValue.real (6646139978924579 / 2 ^ 120) }

/-- An element whose font style is bold and underlined (5) over a bold default (1). -/
def fontItem : EngravingItem :=
  { item0 with
    getProperty := fun _ _ => PropertyValue.int 5,
    propertyDefault := fun _ _ => PropertyValue.int 1 }

/-- A link group with id 7 and two members; its main element is element 10. -/
def group : LinkedObjects :=
  { lid := 7, size := 2,
    mainElement := { eid := 10, type := ElementType.OTHER "Item", score := 0,
                     position := { score := 0, staff := 0, voice := 0, tick := 0, rel := false } } }

/-- The main element of `group`. -/
def mainItem : EngravingItem := { item0 with eid := 10, links := some group }

/-- The other member of `group`, at the same position in the same score. -/
def secondItem : EngravingItem := { item0 with eid := 11, links := some group }

/-- The state at the start of a clipboard pass. -/
def clipboardState : WriteState :=
  { state0 with xml := { out := [], context := { ctx0 with clipboardmode := true } } }

/-- A beam element. -/
def beamItem : EngravingItem := { item0 with eid := 20, type := ElementType.BEAM }

/-- A user-modified beam with one fragment that owns no element. -/
def emptyBeam : Beam :=
  { item := beamItem, elements := [], beamDirection := DirectionV.AUTO, userModified := true,
    beamFragments := [{ py1 := (50, 75), py2 := (25, 100) }] }

/-- A beam over two chord-rests with two fragments, not user-modified. -/
def plainBeam : Beam :=
  { item := beamItem, elements := [1, 2], beamDirection := DirectionV.UP,
    userModified := false,
    beamFragments := [{ py1 := (50, 75), py2 := (25, 100) }, { py1 := (0, 25), py2 := (0, 50) }] }

/-- The same beam, user-modified. -/
def editedBeam : Beam := { plainBeam with userModified := true }

/-- A fret-diagram element. -/
def fretItem : EngravingItem := { item0 with eid := 30, type := ElementType.FRET_DIAGRAM }

/-- The open-ended barre at fret 1 from string 0 (`endString` -1: through the last string). -/
def barre1 : FretItem.Barre := { startString := 0, endString := -1, exists_ := true }

/-- The fret diagram of the dual-encoding fixture: six strings, four frets, a dot at fret 3 on
strings 0 and 2, and the barre at fret 1 from string 0 through the last string (string 5). -/
def barreDiagram : FretDiagram :=
  { item := fretItem, strings := 6, frets := 4,
    marker := fun _ => { mtype := FretMarkerType.NONE, exists_ := false },
    dot := fun i =>
      if i = 0 ∨ i = 2 then [{ fret := 3, dtype := FretDotType.NORMAL, exists_ := true }]
      else [{ fret := 0, dtype := FretDotType.NORMAL, exists_ := false }],
    barre := fun fi => if fi = 1 then barre1
                       else { startString := -1, endString := -1, exists_ := false },
    barres := [(1, barre1)],
    harmony := none,
    markerTypeToName := fun m =>
      match m with
      | FretMarkerType.CIRCLE => "circle"
      | FretMarkerType.CROSS => "cross"
      | FretMarkerType.NONE => "none",
    dotTypeToName := fun d =>
      match d with
      | FretDotType.NORMAL => "normal"
      | FretDotType.CROSS => "cross"
      | FretDotType.SQUARE => "square"
      | FretDotType.TRIANGLE => "triangle",
    markerToChar := fun m =>
      match m with
      | FretMarkerType.CIRCLE => 79
      | FretMarkerType.CROSS => 88
      | FretMarkerType.NONE => 0 }

/-- The barre at fret 1 from string 0 to string 5, with its end string stored. -/
def barre5 : FretItem.Barre := { startString := 0, endString := 5, exists_ := true }

/-- The fret diagram of the dual-encoding fixture with the end string of its barre stored:
six strings, a dot at fret 3 on strings 0 and 2, and the barre at fret 1 from string 0 to
string 5, the last string. -/
def spanDiagram : FretDiagram :=
  { barreDiagram with
    barre := fun fi => if fi = 1 then barre5
                       else { startString := -1, endString := -1, exists_ := false },
    barres := [(1, barre5)] }

/-- A fret diagram with one dot, at fret 1 on string 0, and two open-ended barres from
string 0, at fret 0 and at fret 1. -/
def zeroBarreDiagram : FretDiagram :=
  { barreDiagram with
    dot := fun i =>
      if i = 0 then [{ fret := 1, dtype := FretDotType.NORMAL, exists_ := true }] else [],
    barre := fun fi => if fi = 0 ∨ fi = 1 then barre1
                       else { startString := -1, endString := -1, exists_ := false },
    barres := [(0, barre1), (1, barre1)] }

/-- The fixture diagram without its dots: no string has a dot, the barre at fret 1 stays. -/
def barreOnlyDiagram : FretDiagram := { barreDiagram with dot := fun _ => [] }

/-- A fermata whose offset (3, 4) is not the default (0, 0) and carries the flag `NOSTYLE`,
as every property of `item0` does. -/
def movedFermata : Fermata :=
  { item :=
      { item0 with
        eid := 58, type := ElementType.FERMATA,
        getProperty := fun _ pid =>
          if pid = Pid.OFFSET then PropertyValue.point 3 4 else PropertyValue.int 0,
        propertyDefault := fun _ pid =>
          if pid = Pid.OFFSET then PropertyValue.point 0 0 else PropertyValue.int 0 },
    symId := 3 }

/-- A line without segments whose color 1 is not the default 0 and carries the flag
`NOSTYLE`. -/
def tintedLine : SLine :=
  { item :=
      { item0 with
        eid := 63, type := ElementType.HAIRPIN,
        getProperty := fun _ pid =>
          if pid = Pid.COLOR then PropertyValue.int 1 else PropertyValue.int 0 },
    endElement := some 41, computedEndElement := some 41,
    ticks := { numerator := 1, denominator := 1 }, diagonal := false,
    spannerSegments := [] }

/-- A gradual tempo change without segments whose placement 1 is not the default 0 and
carries the flag `NOSTYLE`. -/
def placedTempoChange : SLine :=
  { item :=
      { item0 with
        eid := 64, type := ElementType.OTHER "GradualTempoChange",
        getProperty := fun _ pid =>
          if pid = Pid.PLACEMENT then PropertyValue.int 1 else PropertyValue.int 0 },
    endElement := some 41, computedEndElement := some 41,
    ticks := { numerator := 1, denominator := 1 }, diagonal := false,
    spannerSegments := [] }

end Fixture

/-! ## Theorems -/

section Basics

theorem emit_eq_appendOut (w : WriteState) (e : XmlEvent) : w.emit e = w.appendOut [e] := rfl

theorem appendOut_nil (w : WriteState) : w.appendOut [] = w := by
  simp [WriteState.appendOut]

theorem appendOut_appendOut (w : WriteState) (a b : List XmlEvent) :
    (w.appendOut a).appendOut b = w.appendOut (a ++ b) := by
  simp [WriteState.appendOut, List.append_assoc]

theorem emitted_appendOut (w : WriteState) (es : List XmlEvent) :
    w.emitted (w.appendOut es) = es := by
  simp [WriteState.emitted, WriteState.appendOut]

theorem ite_appendOut (c : Prop) [Decidable c] (w : WriteState) (a b : List XmlEvent) :
    (if c then w.appendOut a else w.appendOut b) = w.appendOut (if c then a else b) := by
  split <;> rfl

theorem ite_appendOut_left (c : Prop) [Decidable c] (w : WriteState) (a : List XmlEvent) :
    (if c then w.appendOut a else w) = w.appendOut (if c then a else []) := by
  split
  · rfl
  · exact (appendOut_nil w).symm

theorem ite_appendOut_right (c : Prop) [Decidable c] (w : WriteState) (a : List XmlEvent) :
    (if c then w else w.appendOut a) = w.appendOut (if c then [] else a) := by
  split
  · exact (appendOut_nil w).symm
  · rfl

theorem tag_eq_appendOut (w : WriteState) (name : String) (v : PropertyValue) :
    w.tag name v = w.appendOut [XmlEvent.tag name [] v] := rfl

theorem tagAttrs_eq_appendOut (w : WriteState) (name : String)
    (attrs : List (String × PropertyValue)) (v : PropertyValue) :
    w.tagAttrs name attrs v = w.appendOut [XmlEvent.tag name attrs v] := rfl

theorem startElement_eq_appendOut (w : WriteState) (name : String)
    (attrs : List (String × PropertyValue)) :
    w.startElement name attrs = w.appendOut [XmlEvent.startElement name attrs] := rfl

theorem endElement_eq_appendOut (w : WriteState) :
    w.endElement = w.appendOut [XmlEvent.endElement] := rfl

theorem tagDefault_eq_appendOut (w : WriteState) (name : String) (v d : PropertyValue) :
    w.tagDefault name v d = w.appendOut (if v = d then [] else [XmlEvent.tag name [] v]) := by
  unfold WriteState.tagDefault
  split
  · exact (appendOut_nil w).symm
  · rfl

theorem ctx_appendOut (w : WriteState) (es : List XmlEvent) : (w.appendOut es).ctx = w.ctx := rfl

theorem context_appendOut (w : WriteState) (es : List XmlEvent) :
    (w.appendOut es).xml.context = w.xml.context := rfl

theorem scores_appendOut (w : WriteState) (es : List XmlEvent) :
    (w.appendOut es).scores = w.scores := rfl

theorem styles_appendOut (w : WriteState) (es : List XmlEvent) :
    (w.appendOut es).styles = w.styles := rfl

theorem globals_appendOut (w : WriteState) (es : List XmlEvent) :
    (w.appendOut es).globals = w.globals := rfl

theorem out_appendOut (w : WriteState) (es : List XmlEvent) :
    (w.appendOut es).xml.out = w.xml.out ++ es := rfl

theorem scoreOf_appendOut (w : WriteState) (es : List XmlEvent) (item : EngravingItem) :
    (w.appendOut es).scoreOf item = w.scoreOf item := rfl

theorem setCtx_appendOut (w : WriteState) (es : List XmlEvent) (c : WriteContext) :
    (w.appendOut es).setCtx c = (w.setCtx c).appendOut es := rfl

theorem setCtx_setCtx (w : WriteState) (c c2 : WriteContext) :
    (w.setCtx c).setCtx c2 = w.setCtx c2 := rfl

theorem ctx_setCtx (w : WriteState) (c : WriteContext) : (w.setCtx c).ctx = c := rfl

theorem context_setCtx (w : WriteState) (c : WriteContext) : (w.setCtx c).xml.context = c := rfl

theorem scores_setCtx (w : WriteState) (c : WriteContext) : (w.setCtx c).scores = w.scores := rfl

theorem globals_setCtx (w : WriteState) (c : WriteContext) :
    (w.setCtx c).globals = w.globals := rfl

theorem out_setCtx (w : WriteState) (c : WriteContext) : (w.setCtx c).xml.out = w.xml.out := rfl

theorem setCtx_self (w : WriteState) : w.setCtx w.xml.context = w := rfl

theorem testBit_eq_div_mod (n : Int) (i : Nat) :
    Int.testBit n i = decide ((n / 2 ^ i) % 2 = 1) := by
  cases n with
  | ofNat m =>
    simp only [Int.testBit, Int.ofNat_eq_coe]
    rw [Nat.testBit_to_div_mod]
    have hc : ((m : Int) / 2 ^ i) % 2 = ((m / 2 ^ i % 2 : Nat) : Int) := by push_cast; rfl
    congr 1
    rw [hc]
    apply propext
    constructor <;> intro h <;> omega
  | negSucc m =>
    simp only [Int.testBit]
    rw [Nat.testBit_to_div_mod]
    have h2 : (0 : Int) < 2 ^ i := by positivity
    rw [Int.negSucc_ediv m h2]
    have hc : (m : Int).ediv (2 ^ i) = ((m / 2 ^ i : Nat) : Int) := by push_cast; rfl
    rw [hc]
    generalize m / 2 ^ i = q
    by_cases hq : q % 2 = 1
    · simp [hq]; omega
    · simp [hq]; omega

theorem fontStyle_and_ofInt (n : Int) (i : Nat) (hi : i < 8) :
    FontStyle.and (FontStyle.ofInt n) i = Int.testBit n i := by
  rw [testBit_eq_div_mod]
  unfold FontStyle.and FontStyle.ofInt
  congr 1
  apply propext
  interval_cases i <;> simp <;> omega

end Basics

section DoubleRounding

theorem roundHalfEven_floor_le (x : ℚ) : ⌊x⌋ ≤ roundHalfEven x := by
  unfold roundHalfEven
  split_ifs <;> omega

theorem roundHalfEven_le_floor_succ (x : ℚ) : roundHalfEven x ≤ ⌊x⌋ + 1 := by
  unfold roundHalfEven
  split_ifs <;> omega

theorem roundHalfEven_intCast (n : Int) : roundHalfEven (n : ℚ) = n := by
  unfold roundHalfEven
  simp

theorem roundHalfEven_mono {x y : ℚ} (h : x ≤ y) : roundHalfEven x ≤ roundHalfEven y := by
  have hf : ⌊x⌋ ≤ ⌊y⌋ := Int.floor_mono h
  rcases lt_or_eq_of_le hf with hlt | heq
  · calc roundHalfEven x ≤ ⌊x⌋ + 1 := roundHalfEven_le_floor_succ x
      _ ≤ ⌊y⌋ := hlt
      _ ≤ roundHalfEven y := roundHalfEven_floor_le y
  · unfold roundHalfEven
    rw [← heq]
    have hxy : x - ⌊x⌋ ≤ y - ⌊x⌋ := by linarith
    split_ifs <;> first | omega | linarith

theorem roundHalfEven_eq (x : ℚ) (n : Int) (h1 : (n : ℚ) - 1 / 2 < x)
    (h2 : x < (n : ℚ) + 1 / 2) : roundHalfEven x = n := by
  have hfl : (⌊x⌋ : ℚ) ≤ x := Int.floor_le x
  have hfu : x < (⌊x⌋ : ℚ) + 1 := Int.lt_floor_add_one x
  have hcases : ⌊x⌋ = n ∨ ⌊x⌋ = n - 1 := by
    have a1 : ((⌊x⌋ : Int) : ℚ) < (n : ℚ) + 1 := by linarith
    have a2 : ((n : Int) : ℚ) - 2 < (⌊x⌋ : ℚ) := by linarith
    have b1 : ⌊x⌋ < n + 1 := by exact_mod_cast a1
    have b2 : n - 2 < ⌊x⌋ := by exact_mod_cast a2
    omega
  unfold roundHalfEven
  rcases hcases with hc | hc
  · have : x - (⌊x⌋ : ℚ) < 1 / 2 := by rw [hc]; linarith
    rw [if_pos this, hc]
  · have hcq : (⌊x⌋ : ℚ) = (n : ℚ) - 1 := by rw [hc]; push_cast; ring
    have hn : ¬ x - (⌊x⌋ : ℚ) < 1 / 2 := by rw [hcq]; linarith
    have hp : 1 / 2 < x - (⌊x⌋ : ℚ) := by rw [hcq]; linarith
    rw [if_neg hn, if_pos hp, hc]
    ring

theorem twoPow_eq (e : Int) : twoPow e = (2 : ℚ) ^ e := by
  unfold twoPow
  split
  · rename_i h
    conv_rhs => rw [← Int.toNat_of_nonneg h]
    rw [zpow_natCast]
    push_cast
    rfl
  · rename_i h
    push_neg at h
    have h2 : e = - (((-e).toNat : Int)) := by
      rw [Int.toNat_of_nonneg (by omega)]
      ring
    conv_rhs => rw [h2]
    rw [zpow_neg, zpow_natCast]
    push_cast
    rw [one_div]

theorem bitLength_spec (fuel n : Nat) (h : n ≤ fuel) (hn : 0 < n) :
    2 ^ (bitLength fuel n - 1) ≤ n ∧ n < 2 ^ bitLength fuel n := by
  induction fuel generalizing n with
  | zero => omega
  | succ k ih =>
    unfold bitLength
    rw [if_neg (by omega)]
    rcases Nat.lt_or_ge n 2 with h2 | h2
    · have h1 : n = 1 := by omega
      subst h1
      have h0 : (1 : Nat) / 2 = 0 := by norm_num
      rw [h0]
      cases k <;> simp [bitLength]
    · have hpos : 0 < n / 2 := Nat.div_pos h2 (by norm_num)
      have hle : n / 2 ≤ k := by omega
      obtain ⟨i1, i2⟩ := ih (n / 2) hle hpos
      have hb : 1 ≤ bitLength k (n / 2) := by
        rcases Nat.eq_zero_or_pos (bitLength k (n / 2)) with h0 | h0
        · rw [h0] at i2
          omega
        · exact h0
      constructor
      · have : bitLength k (n / 2) + 1 - 1 = (bitLength k (n / 2) - 1) + 1 := by omega
        rw [this, pow_succ]
        omega
      · rw [pow_succ]
        omega

theorem int_log_eq {x : ℚ} {e : Int} (hx : 0 < x) (h1 : (2 : ℚ) ^ e ≤ x)
    (h2 : x < 2 ^ (e + 1)) : Int.log 2 x = e := by
  apply le_antisymm
  · have : Int.log 2 x < e + 1 := by
      rw [← Int.lt_zpow_iff_log_lt (R := ℚ) (b := 2) (by norm_num) hx]
      simpa using h2
    omega
  · rw [← Int.zpow_le_iff_le_log (R := ℚ) (b := 2) (by norm_num) hx]
    simpa using h1

theorem binade_eq_log {x : ℚ} (hx : 0 < x) : binade x = Int.log 2 x := by
  have hnum : 0 < x.num := Rat.num_pos.mpr hx
  have hn : 0 < x.num.toNat := by omega
  have hd : 0 < x.den := x.den_pos
  obtain ⟨a1, a2⟩ := bitLength_spec x.num.toNat x.num.toNat le_rfl hn
  obtain ⟨b1, b2⟩ := bitLength_spec x.den x.den le_rfl hd
  have ha : 1 ≤ bitLength x.num.toNat x.num.toNat := by
    rcases Nat.eq_zero_or_pos (bitLength x.num.toNat x.num.toNat) with h0 | h0
    · rw [h0] at a2; omega
    · exact h0
  have hb : 1 ≤ bitLength x.den x.den := by
    rcases Nat.eq_zero_or_pos (bitLength x.den x.den) with h0 | h0
    · rw [h0] at b2; omega
    · exact h0
  have hxq : x = (x.num.toNat : ℚ) / (x.den : ℚ) := by
    have h1 : ((x.num.toNat : Int) : ℚ) = (x.num : ℚ) := by
      rw [Int.toNat_of_nonneg (le_of_lt hnum)]
    have h2 : ((x.num.toNat : Nat) : ℚ) = ((x.num.toNat : Int) : ℚ) := by push_cast; rfl
    rw [h2, h1]
    exact (Rat.num_div_den x).symm
  have hdq : (0 : ℚ) < (x.den : ℚ) := by exact_mod_cast hd
  have a1q : (2 : ℚ) ^ (bitLength x.num.toNat x.num.toNat - 1) ≤ (x.num.toNat : ℚ) := by
    exact_mod_cast a1
  have a2q : (x.num.toNat : ℚ) < (2 : ℚ) ^ (bitLength x.num.toNat x.num.toNat) := by
    exact_mod_cast a2
  have b1q : (2 : ℚ) ^ (bitLength x.den x.den - 1) ≤ (x.den : ℚ) := by
    exact_mod_cast b1
  have b2q : (x.den : ℚ) < (2 : ℚ) ^ (bitLength x.den x.den) := by
    exact_mod_cast b2
  have hlow : (2 : ℚ) ^ ((bitLength x.num.toNat x.num.toNat : Int)
      - (bitLength x.den x.den : Int) - 1) ≤ x := by
    have e1 : ((bitLength x.num.toNat x.num.toNat : Int) - (bitLength x.den x.den : Int) - 1)
        = ((bitLength x.num.toNat x.num.toNat - 1 : Nat) : Int)
          - ((bitLength x.den x.den : Nat) : Int) := by
      rw [Nat.cast_sub ha]
      push_cast
      ring
    rw [e1, zpow_sub₀ (by norm_num : (2 : ℚ) ≠ 0), zpow_natCast, zpow_natCast]
    conv_rhs => rw [hxq]
    rw [div_le_div_iff₀ (by positivity) hdq]
    calc (2 : ℚ) ^ (bitLength x.num.toNat x.num.toNat - 1) * (x.den : ℚ)
        ≤ (x.num.toNat : ℚ) * (x.den : ℚ) :=
          mul_le_mul_of_nonneg_right a1q (le_of_lt hdq)
      _ ≤ (x.num.toNat : ℚ) * 2 ^ (bitLength x.den x.den) :=
          mul_le_mul_of_nonneg_left (le_of_lt b2q) (by positivity)
  have hhigh : x < (2 : ℚ) ^ ((bitLength x.num.toNat x.num.toNat : Int)
      - (bitLength x.den x.den : Int) + 1) := by
    have e1 : ((bitLength x.num.toNat x.num.toNat : Int) - (bitLength x.den x.den : Int) + 1)
        = ((bitLength x.num.toNat x.num.toNat : Nat) : Int)
          - ((bitLength x.den x.den - 1 : Nat) : Int) := by
      rw [Nat.cast_sub hb]
      push_cast
      ring
    rw [e1, zpow_sub₀ (by norm_num : (2 : ℚ) ≠ 0), zpow_natCast, zpow_natCast]
    conv_lhs => rw [hxq]
    rw [div_lt_div_iff₀ hdq (by positivity)]
    calc (x.num.toNat : ℚ) * 2 ^ (bitLength x.den x.den - 1)
        ≤ (x.num.toNat : ℚ) * (x.den : ℚ) :=
          mul_le_mul_of_nonneg_left b1q (by positivity)
      _ < 2 ^ (bitLength x.num.toNat x.num.toNat) * (x.den : ℚ) :=
          mul_lt_mul_of_pos_right a2q hdq
  unfold binade
  simp only [twoPow_eq]
  split
  · rename_i h
    exact (int_log_eq hx h hhigh).symm
  · rename_i h
    push_neg at h
    refine (int_log_eq hx hlow ?_).symm
    have : (bitLength x.num.toNat x.num.toNat : Int) - (bitLength x.den x.den : Int) - 1 + 1
        = (bitLength x.num.toNat x.num.toNat : Int) - (bitLength x.den x.den : Int) := by ring
    rw [this]
    exact h

theorem doubleExponent_pos {x : ℚ} (hx : 0 < x) :
    doubleExponent x = max (Int.log 2 x) (-1022) := by
  unfold doubleExponent
  rw [binade_eq_log hx]

theorem roundMagnitude_def (x : ℚ) :
    roundMagnitude x
      = roundHalfEven (x / 2 ^ (doubleExponent x - 52)) * 2 ^ (doubleExponent x - 52) := by
  unfold roundMagnitude
  rw [twoPow_eq]

theorem roundHalfEven_nonneg {x : ℚ} (h : 0 ≤ x) : 0 ≤ roundHalfEven x :=
  le_trans (Int.floor_nonneg.mpr h) (roundHalfEven_floor_le x)

theorem two_zpow_pos (e : Int) : (0 : ℚ) < 2 ^ e := zpow_pos (by norm_num) e

theorem roundMagnitude_nonneg {x : ℚ} (h : 0 ≤ x) : 0 ≤ roundMagnitude x := by
  rw [roundMagnitude_def]
  apply mul_nonneg
  · exact_mod_cast roundHalfEven_nonneg (div_nonneg h (le_of_lt (two_zpow_pos _)))
  · exact le_of_lt (two_zpow_pos _)

theorem roundMagnitude_zero : roundMagnitude 0 = 0 := by
  rw [roundMagnitude_def]
  rw [zero_div, show ((0 : ℚ)) = ((0 : Int) : ℚ) by norm_num, roundHalfEven_intCast]
  simp

theorem lt_two_zpow_doubleExponent (x : ℚ) : x < 2 ^ (doubleExponent x + 1) := by
  rcases le_or_lt x 0 with hx | hx
  · exact lt_of_le_of_lt hx (two_zpow_pos _)
  have h1 : x < ((2 : ℕ) : ℚ) ^ (Int.log 2 x + 1) := Int.lt_zpow_succ_log_self (by norm_num) x
  have h2 : ((2 : ℕ) : ℚ) ^ (Int.log 2 x + 1) ≤ ((2 : ℕ) : ℚ) ^ (doubleExponent x + 1) := by
    apply zpow_le_zpow_right₀ (by norm_num)
    rw [doubleExponent_pos hx]
    omega
  have := lt_of_lt_of_le h1 h2
  simpa using this

theorem roundMagnitude_le_binade (x : ℚ) :
    roundMagnitude x ≤ 2 ^ (doubleExponent x + 1) := by
  rw [roundMagnitude_def]
  have hu := two_zpow_pos (doubleExponent x - 52)
  have hsplit : (2 : ℚ) ^ (doubleExponent x + 1)
      = ((2 ^ 53 : Int) : ℚ) * 2 ^ (doubleExponent x - 52) := by
    have : doubleExponent x + 1 = 53 + (doubleExponent x - 52) := by ring
    rw [this, zpow_add₀ (by norm_num : (2 : ℚ) ≠ 0)]
    norm_num
  rw [hsplit]
  apply mul_le_mul_of_nonneg_right _ (le_of_lt hu)
  have hx : x / 2 ^ (doubleExponent x - 52) ≤ ((2 ^ 53 : Int) : ℚ) := by
    rw [div_le_iff₀ hu, ← hsplit]
    exact le_of_lt (lt_two_zpow_doubleExponent x)
  have := roundHalfEven_mono hx
  rw [roundHalfEven_intCast] at this
  exact_mod_cast this

theorem binade_le_roundMagnitude {x : ℚ} (hx : 0 < x) (he : -1022 ≤ Int.log 2 x) :
    2 ^ (doubleExponent x) ≤ roundMagnitude x := by
  have hde : doubleExponent x = Int.log 2 x := by
    rw [doubleExponent_pos hx]
    omega
  rw [roundMagnitude_def, hde]
  have hu := two_zpow_pos (Int.log 2 x - 52)
  have hsplit : (2 : ℚ) ^ (Int.log 2 x)
      = ((2 ^ 52 : Int) : ℚ) * 2 ^ (Int.log 2 x - 52) := by
    have : Int.log 2 x = 52 + (Int.log 2 x - 52) := by ring
    conv_lhs => rw [this]
    rw [zpow_add₀ (by norm_num : (2 : ℚ) ≠ 0)]
    norm_num
  rw [hsplit]
  apply mul_le_mul_of_nonneg_right _ (le_of_lt hu)
  have hlog : (2 : ℚ) ^ (Int.log 2 x) ≤ x := by
    have := Int.zpow_log_le_self (R := ℚ) (b := 2) (by norm_num) hx
    simpa using this
  have hx2 : ((2 ^ 52 : Int) : ℚ) ≤ x / 2 ^ (Int.log 2 x - 52) := by
    rw [le_div_iff₀ hu, ← hsplit]
    exact hlog
  have := roundHalfEven_mono hx2
  rw [roundHalfEven_intCast] at this
  exact_mod_cast this

theorem doubleExponent_mono {x y : ℚ} (hx : 0 < x) (h : x ≤ y) :
    doubleExponent x ≤ doubleExponent y := by
  rw [doubleExponent_pos hx, doubleExponent_pos (lt_of_lt_of_le hx h)]
  have := Int.log_mono_right (b := 2) hx h
  omega

theorem roundMagnitude_mono {x y : ℚ} (hx : 0 ≤ x) (h : x ≤ y) :
    roundMagnitude x ≤ roundMagnitude y := by
  rcases eq_or_lt_of_le hx with h0 | hpos
  · rw [← h0, roundMagnitude_zero]
    exact roundMagnitude_nonneg (le_trans hx h)
  have hy : 0 < y := lt_of_lt_of_le hpos h
  have he := doubleExponent_mono hpos h
  rcases eq_or_lt_of_le he with heq | hlt
  · rw [roundMagnitude_def, roundMagnitude_def, heq]
    have hu := two_zpow_pos (doubleExponent y - 52)
    apply mul_le_mul_of_nonneg_right _ (le_of_lt hu)
    have : x / 2 ^ (doubleExponent y - 52) ≤ y / 2 ^ (doubleExponent y - 52) :=
      div_le_div_of_nonneg_right h (le_of_lt hu)
    exact_mod_cast roundHalfEven_mono this
  · have hlogy : -1022 ≤ Int.log 2 y := by
      rw [doubleExponent_pos hpos, doubleExponent_pos hy] at hlt
      omega
    calc roundMagnitude x ≤ 2 ^ (doubleExponent x + 1) := roundMagnitude_le_binade x
      _ ≤ 2 ^ (doubleExponent y) := zpow_le_zpow_right₀ (by norm_num) (by omega)
      _ ≤ roundMagnitude y := binade_le_roundMagnitude hy hlogy

theorem abs_roundDouble (x : ℚ) : |roundDouble x| = roundMagnitude |x| := by
  unfold roundDouble
  split
  · rename_i h
    rw [abs_neg, abs_of_nonneg (roundMagnitude_nonneg (by linarith)), abs_of_neg h]
  · rename_i h
    push_neg at h
    rw [abs_of_nonneg (roundMagnitude_nonneg h), abs_of_nonneg h]

theorem roundMagnitude_eq (x : ℚ) (e n : Int) (hx : 0 < x) (he : -1022 ≤ e)
    (h1 : (2 : ℚ) ^ e ≤ x) (h2 : x < 2 ^ (e + 1))
    (h3 : (n : ℚ) - 1 / 2 < x / 2 ^ (e - 52)) (h4 : x / 2 ^ (e - 52) < (n : ℚ) + 1 / 2) :
    roundMagnitude x = n * 2 ^ (e - 52) := by
  have hlog : Int.log 2 x = e := int_log_eq hx h1 h2
  have hde : doubleExponent x = e := by
    rw [doubleExponent_pos hx]
    omega
  rw [roundMagnitude_def, hde, roundHalfEven_eq _ n h3 h4]

/-- The double `0.0001`. -/
theorem roundDouble_threshold :
    roundDouble (1 / 10000) = 7378697629483821 / 2 ^ 66 := by
  unfold roundDouble
  rw [if_neg (by norm_num)]
  rw [roundMagnitude_eq (1 / 10000) (-14) 7378697629483821 (by norm_num) (by norm_num)
    (by norm_num) (by norm_num) (by norm_num) (by norm_num)]
  norm_num

theorem roundDouble_zero : roundDouble 0 = 0 := by
  unfold roundDouble
  rw [if_neg (by norm_num), roundMagnitude_zero]

/-- A difference of magnitude 1e-4 or more is not below the double `0.0001` after
rounding. -/
theorem fuzzy_far {a : ℚ} (h : 1 / 10000 ≤ |a|) :
    ¬ |roundDouble a| < roundDouble (1 / 10000) := by
  rw [abs_roundDouble]
  have h1 : roundMagnitude (1 / 10000) ≤ roundMagnitude |a| :=
    roundMagnitude_mono (by norm_num) h
  have h2 : roundDouble (1 / 10000) = roundMagnitude (1 / 10000) := by
    unfold roundDouble
    rw [if_neg (by norm_num)]
  rw [h2]
  exact not_lt.mpr h1

/-- A difference of magnitude at most 1e-4 - 1e-20 is below the double `0.0001` after
rounding. -/
theorem fuzzy_near {a : ℚ} (h : |a| ≤ 1 / 10000 - 1 / 10 ^ 20) :
    |roundDouble a| < roundDouble (1 / 10000) := by
  rw [abs_roundDouble, roundDouble_threshold]
  have h1 : roundMagnitude |a| ≤ roundMagnitude (1 / 10000 - 1 / 10 ^ 20) :=
    roundMagnitude_mono (abs_nonneg a) h
  have h2 : roundMagnitude (1 / 10000 - 1 / 10 ^ 20) = 7378697629483820 / 2 ^ 66 := by
    rw [roundMagnitude_eq (1 / 10000 - 1 / 10 ^ 20) (-14) 7378697629483820 (by norm_num)
      (by norm_num) (by norm_num) (by norm_num) (by norm_num) (by norm_num)]
    norm_num
  rw [h2] at h1
  refine lt_of_le_of_lt h1 ?_
  norm_num

/-- The doubles `0.0001` and `5e-21` and their difference as a double. -/
theorem roundDouble_threshold_values :
    roundDouble (7378697629483821 / 2 ^ 66) = 7378697629483821 / 2 ^ 66
      ∧ roundDouble (6646139978924579 / 2 ^ 120) = 6646139978924579 / 2 ^ 120
      ∧ roundDouble (7378697629483821 / 2 ^ 66 - 6646139978924579 / 2 ^ 120)
          = 7378697629483821 / 2 ^ 66 := by
  refine ⟨?_, ?_, ?_⟩
  · unfold roundDouble
    rw [if_neg (by norm_num)]
    rw [roundMagnitude_eq (7378697629483821 / 2 ^ 66) (-14) 7378697629483821 (by norm_num)
      (by norm_num) (by norm_num) (by norm_num) (by norm_num) (by norm_num)]
    norm_num
  · unfold roundDouble
    rw [if_neg (by norm_num)]
    rw [roundMagnitude_eq (6646139978924579 / 2 ^ 120) (-68) 6646139978924579 (by norm_num)
      (by norm_num) (by norm_num) (by norm_num) (by norm_num) (by norm_num)]
    norm_num
  · unfold roundDouble
    rw [if_neg (by norm_num)]
    rw [roundMagnitude_eq (7378697629483821 / 2 ^ 66 - 6646139978924579 / 2 ^ 120) (-14)
      7378697629483821 (by norm_num)
      (by norm_num) (by norm_num) (by norm_num) (by norm_num) (by norm_num)]
    norm_num

end DoubleRounding

section WriteProperty

open TWrite

theorem writeProperty_millimetre (item : EngravingItem) (w : WriteState) (pid : Pid)
    (hs : item.propertyFlags pid ≠ PropertyFlags.STYLED)
    (hp : (item.getProperty (w.styleOf item) pid).isValid = true)
    (hf : pid ≠ Pid.FONT_STYLE)
    (ht : w.globals.propertyType pid = P_TYPE.MILLIMETRE) :
    writeProperty item w pid
      = if (item.propertyDefault (w.styleOf item) pid).isValid = true
            ∧ |roundDouble ((item.getProperty (w.styleOf item) pid).toReal
                - (item.propertyDefault (w.styleOf item) pid).toReal)|
              < roundDouble (1 / 10000)
        then w
        else w.emit (XmlEvent.tagProperty pid (PropertyValue.spatium
          ((item.getProperty (w.styleOf item) pid).toReal / (w.scoreOf item).spatium))) := by
  have hs' : item.isStyled pid = false := by
    simp [EngravingItem.isStyled, hs]
  simp only [writeProperty, hs', hp, hf, ne_eq, hs, not_false_eq_true, if_true,
    Bool.false_eq_true, if_false, Bool.not_true, convertProperty, ht, Spatium.fromMM]
  split_ifs <;> simp [WriteState.tagProperty]

theorem writeProperty_point (item : EngravingItem) (w : WriteState) (pid : Pid)
    (hs : item.propertyFlags pid ≠ PropertyFlags.STYLED)
    (hp : (item.getProperty (w.styleOf item) pid).isValid = true)
    (hf : pid ≠ Pid.FONT_STYLE)
    (ht : w.globals.propertyType pid = P_TYPE.POINT) :
    writeProperty item w pid
      = if (item.propertyDefault (w.styleOf item) pid).isValid = true
            ∧ |roundDouble ((item.getProperty (w.styleOf item) pid).toPointF.1
                - (item.propertyDefault (w.styleOf item) pid).toPointF.1)|
              < roundDouble (1 / 10000)
            ∧ |roundDouble ((item.getProperty (w.styleOf item) pid).toPointF.2
                - (item.propertyDefault (w.styleOf item) pid).toPointF.2)|
              < roundDouble (1 / 10000)
        then w
        else w.emit (XmlEvent.tagProperty pid (PropertyValue.point
          ((item.getProperty (w.styleOf item) pid).toPointF.1
            / (if item.offsetIsSpatiumDependent = true then (w.scoreOf item).spatium
               else w.globals.DPMM))
          ((item.getProperty (w.styleOf item) pid).toPointF.2
            / (if item.offsetIsSpatiumDependent = true then (w.scoreOf item).spatium
               else w.globals.DPMM)))) := by
  have hs' : item.isStyled pid = false := by
    simp [EngravingItem.isStyled, hs]
  have hne : P_TYPE.POINT ≠ P_TYPE.MILLIMETRE := by decide
  simp only [writeProperty, hs', hp, hf, ne_eq, hs, not_false_eq_true, if_true,
    Bool.false_eq_true, if_false, Bool.not_true, convertProperty, ht, hne]
  split_ifs <;> simp [WriteState.tagProperty]

theorem emit_ne_self (w : WriteState) (e : XmlEvent) : w.emit e ≠ w := by
  intro h
  have := congrArg (fun v => v.xml.out.length) h
  simp [WriteState.emit] at this

/-- C1: a property whose style flag on the item is STYLED makes `writeProperty` return the
state it was given, so nothing reaches the sink, for every value and default. -/
theorem writeProperty_styled_emits_nothing (item : EngravingItem) (w : WriteState) (pid : Pid)
    (h : item.propertyFlags pid = PropertyFlags.STYLED) :
    writeProperty item w pid = w := by
  simp [writeProperty, EngravingItem.isStyled, h]

theorem writeProperty_styled_emits_nothing_witness :
    Fixture.styledItem.getProperty (Fixture.state0.styleOf Fixture.styledItem) Pid.OFFSET
        ≠ Fixture.styledItem.propertyDefault (Fixture.state0.styleOf Fixture.styledItem) Pid.OFFSET
      ∧ writeProperty Fixture.styledItem Fixture.state0 Pid.OFFSET = Fixture.state0 :=
  ⟨by simp [Fixture.styledItem],
   writeProperty_styled_emits_nothing Fixture.styledItem Fixture.state0 Pid.OFFSET rfl⟩

/-- C2, as stated, fails: the element `Fixture.thresholdItem` has a MILLIMETRE property that is
not styled, whose value, the double `0.0001`, and default, the double `5e-21`, are valid and
are less than 1e-4 apart, and yet `writeProperty` writes the property tag: the difference
of the two doubles rounds to the double `0.0001`, which is not below the bound. -/
theorem fuzzy_compare_below_threshold_written :
    Fixture.thresholdItem.propertyFlags Pid.MIN_DISTANCE ≠ PropertyFlags.STYLED
      ∧ Fixture.state0.globals.propertyType Pid.MIN_DISTANCE = P_TYPE.MILLIMETRE
      ∧ Fixture.thresholdItem.getProperty (Fixture.state0.styleOf Fixture.thresholdItem)
          Pid.MIN_DISTANCE = PropertyValue.real (7378697629483821 / 2 ^ 66)
      ∧ Fixture.thresholdItem.propertyDefault (Fixture.state0.styleOf Fixture.thresholdItem)
          Pid.MIN_DISTANCE = PropertyValue.real (6646139978924579 / 2 ^ 120)
      ∧ roundDouble (1 / 10000) = 7378697629483821 / 2 ^ 66
      ∧ roundDouble (7378697629483821 / 2 ^ 66) = 7378697629483821 / 2 ^ 66
      ∧ roundDouble (6646139978924579 / 2 ^ 120) = 6646139978924579 / 2 ^ 120
      ∧ |(7378697629483821 / 2 ^ 66 - 6646139978924579 / 2 ^ 120 : ℚ)| < 1 / 10000
      ∧ writeProperty Fixture.thresholdItem Fixture.state0 Pid.MIN_DISTANCE
          = Fixture.state0.emit (XmlEvent.tagProperty Pid.MIN_DISTANCE
              (PropertyValue.spatium (7378697629483821 / 2 ^ 66 / 25)))
      ∧ writeProperty Fixture.thresholdItem Fixture.state0 Pid.MIN_DISTANCE
          ≠ Fixture.state0 := by
  have hw : writeProperty Fixture.thresholdItem Fixture.state0 Pid.MIN_DISTANCE
      = Fixture.state0.emit (XmlEvent.tagProperty Pid.MIN_DISTANCE
          (PropertyValue.spatium (7378697629483821 / 2 ^ 66 / 25))) := by
    rw [writeProperty_millimetre Fixture.thresholdItem Fixture.state0 Pid.MIN_DISTANCE
      (by simp [Fixture.thresholdItem, Fixture.item0]) rfl (by decide) rfl]
    have hv : (Fixture.thresholdItem.getProperty (Fixture.state0.styleOf Fixture.thresholdItem)
        Pid.MIN_DISTANCE).toReal = 7378697629483821 / 2 ^ 66 := rfl
    have hd : (Fixture.thresholdItem.propertyDefault
        (Fixture.state0.styleOf Fixture.thresholdItem) Pid.MIN_DISTANCE).toReal
          = 6646139978924579 / 2 ^ 120 := rfl
    have hsp : (Fixture.state0.scoreOf Fixture.thresholdItem).spatium = 25 := rfl
    rw [hv, hd, hsp, roundDouble_threshold_values.2.2, roundDouble_threshold, if_neg]
    rintro ⟨-, h⟩
    exact lt_irrefl _ (lt_of_le_of_lt (le_abs_self _) h)
  refine ⟨by simp [Fixture.thresholdItem, Fixture.item0], rfl, rfl, rfl, roundDouble_threshold,
    roundDouble_threshold_values.1, roundDouble_threshold_values.2.1, ?_, hw, ?_⟩
  · rw [abs_of_pos (by norm_num)]
    norm_num
  · rw [hw]
    exact emit_ne_self _ _

/-- C2 (amended): for a property that is not styled, is valid, has a valid default and is
not the font style, the fuzzy compare is the one of double arithmetic: when its type is
MILLIMETRE, nothing is written when the difference of value and default, rounded to a
double, is below the double `0.0001` in magnitude, which is so whenever the two are at most
1e-4 - 1e-20 apart, and a value 1e-4 + ε from the default (ε > 0) writes the property tag,
in spatium units; when its type is POINT, nothing is written when both component
differences, rounded to doubles, are below the double `0.0001` in magnitude, which is so
whenever both components are at most 1e-4 - 1e-20 from the default's, and a value with a
component 1e-4 + ε away writes the property tag. -/
theorem writeProperty_fuzzy_compare_rounded (item : EngravingItem) (w : WriteState)
    (pid : Pid)
    (hs : item.propertyFlags pid ≠ PropertyFlags.STYLED)
    (hp : (item.getProperty (w.styleOf item) pid).isValid = true)
    (hd : (item.propertyDefault (w.styleOf item) pid).isValid = true)
    (hf : pid ≠ Pid.FONT_STYLE) :
    (w.globals.propertyType pid = P_TYPE.MILLIMETRE →
      (|roundDouble ((item.getProperty (w.styleOf item) pid).toReal
          - (item.propertyDefault (w.styleOf item) pid).toReal)| < roundDouble (1 / 10000) →
        writeProperty item w pid = w)
      ∧ (|(item.getProperty (w.styleOf item) pid).toReal
          - (item.propertyDefault (w.styleOf item) pid).toReal| ≤ 1 / 10000 - 1 / 10 ^ 20 →
        writeProperty item w pid = w)
      ∧ (∀ ε : ℚ, 0 < ε →
          |(item.getProperty (w.styleOf item) pid).toReal
            - (item.propertyDefault (w.styleOf item) pid).toReal| = 1 / 10000 + ε →
          writeProperty item w pid
            = w.emit (XmlEvent.tagProperty pid (PropertyValue.spatium
                ((item.getProperty (w.styleOf item) pid).toReal / (w.scoreOf item).spatium)))))
    ∧ (w.globals.propertyType pid = P_TYPE.POINT →
      (|roundDouble ((item.getProperty (w.styleOf item) pid).toPointF.1
            - (item.propertyDefault (w.styleOf item) pid).toPointF.1)| < roundDouble (1 / 10000)
          ∧ |roundDouble ((item.getProperty (w.styleOf item) pid).toPointF.2
            - (item.propertyDefault (w.styleOf item) pid).toPointF.2)| < roundDouble (1 / 10000) →
        writeProperty item w pid = w)
      ∧ (|(item.getProperty (w.styleOf item) pid).toPointF.1
            - (item.propertyDefault (w.styleOf item) pid).toPointF.1| ≤ 1 / 10000 - 1 / 10 ^ 20
          ∧ |(item.getProperty (w.styleOf item) pid).toPointF.2
            - (item.propertyDefault (w.styleOf item) pid).toPointF.2| ≤ 1 / 10000 - 1 / 10 ^ 20 →
        writeProperty item w pid = w)
      ∧ (∀ ε : ℚ, 0 < ε →
          (|(item.getProperty (w.styleOf item) pid).toPointF.1
              - (item.propertyDefault (w.styleOf item) pid).toPointF.1| = 1 / 10000 + ε
            ∨ |(item.getProperty (w.styleOf item) pid).toPointF.2
              - (item.propertyDefault (w.styleOf item) pid).toPointF.2| = 1 / 10000 + ε) →
          ∃ q : ℚ, q = (if item.offsetIsSpatiumDependent then (w.scoreOf item).spatium
                        else w.globals.DPMM)
            ∧ writeProperty item w pid
              = w.emit (XmlEvent.tagProperty pid (PropertyValue.point
                  ((item.getProperty (w.styleOf item) pid).toPointF.1 / q)
                  ((item.getProperty (w.styleOf item) pid).toPointF.2 / q))))) := by
  refine ⟨fun ht => ?_, fun ht => ?_⟩
  · rw [writeProperty_millimetre item w pid hs hp hf ht]
    refine ⟨fun hnear => if_pos ⟨hd, hnear⟩, fun hnear => if_pos ⟨hd, fuzzy_near hnear⟩,
      fun ε hε hfar => if_neg ?_⟩
    rintro ⟨-, h⟩
    exact fuzzy_far (by rw [hfar]; linarith) h
  · rw [writeProperty_point item w pid hs hp hf ht]
    refine ⟨fun hnear => if_pos ⟨hd, hnear⟩,
      fun hnear => if_pos ⟨hd, fuzzy_near hnear.1, fuzzy_near hnear.2⟩,
      fun ε hε hfar => ⟨_, rfl, if_neg ?_⟩⟩
    rintro ⟨-, h1, h2⟩
    rcases hfar with h | h
    · exact fuzzy_far (by rw [h]; linarith) h1
    · exact fuzzy_far (by rw [h]; linarith) h2

theorem writeProperty_fuzzy_compare_rounded_witness :
    writeProperty Fixture.mmItem Fixture.state0 Pid.MIN_DISTANCE
      = Fixture.state0.emit
          (XmlEvent.tagProperty Pid.MIN_DISTANCE (PropertyValue.spatium (1 / 2 / 25))) :=
  ((writeProperty_fuzzy_compare_rounded Fixture.mmItem Fixture.state0 Pid.MIN_DISTANCE
      (by simp [Fixture.mmItem, Fixture.item0]) rfl rfl (by simp)).1 rfl).2.2 (2499 / 10000)
    (by norm_num)
    (by simp [Fixture.mmItem, PropertyValue.toReal]; norm_num [abs_of_pos])

/-- C3: for a FONT_STYLE property that is not styled and is valid, `writeProperty` appends
exactly one boolean tag per flag among bold, italic, underline and strike whose bit in the
value differs from the same bit in the default (0 when the default is invalid), in that
order: a flag's tag is present iff its bit differs, every emitted call is one of these four
boolean tags (no property tag carrying the bitmask), and the number of tags is the number of
differing bits. -/
theorem writeProperty_fontStyle_flags (item : EngravingItem) (w : WriteState)
    (hs : item.propertyFlags Pid.FONT_STYLE ≠ PropertyFlags.STYLED)
    (hp : (item.getProperty (w.styleOf item) Pid.FONT_STYLE).isValid = true)
    (v d0 : Int)
    (hv : v = (item.getProperty (w.styleOf item) Pid.FONT_STYLE).toInt)
    (hd0 : d0 = if (item.propertyDefault (w.styleOf item) Pid.FONT_STYLE).isValid
                then (item.propertyDefault (w.styleOf item) Pid.FONT_STYLE).toInt else 0) :
    writeProperty item w Pid.FONT_STYLE = w.appendOut (fontStyleTags v d0)
    ∧ (∀ nf ∈ fontStyleFlags,
        (∃ val, XmlEvent.tag nf.1 [] val ∈ fontStyleTags v d0)
          ↔ Int.testBit v nf.2 ≠ Int.testBit d0 nf.2)
    ∧ (∀ e ∈ fontStyleTags v d0,
        ∃ nf ∈ fontStyleFlags, e = XmlEvent.tag nf.1 [] (PropertyValue.bool (Int.testBit v nf.2)))
    ∧ (fontStyleTags v d0).length
        = ((List.range 4).filter (fun i => Int.testBit v i != Int.testBit d0 i)).length := by
  have hs' : item.isStyled Pid.FONT_STYLE = false := by
    simp [EngravingItem.isStyled, hs]
  refine ⟨?_, ?_, ?_, ?_⟩
  · have hw : writeProperty item w Pid.FONT_STYLE
        = writeFontStyle w (item.getProperty (w.styleOf item) Pid.FONT_STYLE)
            (item.propertyDefault (w.styleOf item) Pid.FONT_STYLE) := by
      simp [writeProperty, hs', hp, hs]
    rw [hw]
    simp only [writeFontStyle, FontStyle.Bold, FontStyle.Italic,
      FontStyle.Underline, FontStyle.Strike, fontStyle_and_ofInt _ _ (by decide : 0 < 8),
      fontStyle_and_ofInt _ _ (by decide : 1 < 8), fontStyle_and_ofInt _ _ (by decide : 2 < 8),
      fontStyle_and_ofInt _ _ (by decide : 3 < 8), ← hv, ← hd0]
    simp only [fontStyleTags, differingFlags, fontStyleFlags, WriteState.tag,
      emit_eq_appendOut, List.filter_cons, List.filter_nil]
    generalize ha0 : Int.testBit v 0 = a0
    generalize ha1 : Int.testBit v 1 = a1
    generalize ha2 : Int.testBit v 2 = a2
    generalize ha3 : Int.testBit v 3 = a3
    generalize Int.testBit d0 0 = b0
    generalize Int.testBit d0 1 = b1
    generalize Int.testBit d0 2 = b2
    generalize Int.testBit d0 3 = b3
    cases a0 <;> cases b0 <;> cases a1 <;> cases b1 <;> cases a2 <;> cases b2
      <;> cases a3 <;> cases b3 <;> simp [appendOut_appendOut, appendOut_nil, ha0, ha1, ha2, ha3]
  · intro nf hnf
    simp only [fontStyleTags, differingFlags, List.mem_map, List.mem_filter]
    constructor
    · rintro ⟨val, nf2, ⟨hmem, hdiff⟩, heq⟩
      have hname : nf2.1 = nf.1 := by
        simp only [XmlEvent.tag.injEq] at heq
        exact heq.1
      have : nf2 = nf := by
        simp only [fontStyleFlags, List.mem_cons, List.mem_singleton, List.not_mem_nil,
          or_false] at hnf hmem
        rcases hnf with rfl | rfl | rfl | rfl <;> rcases hmem with rfl | rfl | rfl | rfl
          <;> simp_all
      subst this
      simpa using hdiff
    · intro hdiff
      exact ⟨_, nf, ⟨hnf, by simpa using hdiff⟩, rfl⟩
  · intro e he
    simp only [fontStyleTags, differingFlags, List.mem_map, List.mem_filter] at he
    obtain ⟨nf, ⟨hmem, _⟩, rfl⟩ := he
    exact ⟨nf, hmem, rfl⟩
  · have hr : List.range 4 = [0, 1, 2, 3] := by decide
    rw [hr]
    simp only [fontStyleTags, differingFlags, fontStyleFlags, List.length_map,
      List.filter_cons, List.filter_nil]
    generalize Int.testBit v 0 = a0
    generalize Int.testBit v 1 = a1
    generalize Int.testBit v 2 = a2
    generalize Int.testBit v 3 = a3
    generalize Int.testBit d0 0 = b0
    generalize Int.testBit d0 1 = b1
    generalize Int.testBit d0 2 = b2
    generalize Int.testBit d0 3 = b3
    cases a0 <;> cases b0 <;> cases a1 <;> cases b1 <;> cases a2 <;> cases b2
      <;> cases a3 <;> cases b3 <;> simp

theorem writeProperty_fontStyle_flags_witness :
    writeProperty Fixture.fontItem Fixture.state0 Pid.FONT_STYLE
      = Fixture.state0.appendOut (fontStyleTags 5 1) :=
  (writeProperty_fontStyle_flags Fixture.fontItem Fixture.state0
    (by simp [Fixture.fontItem, Fixture.item0]) rfl 5 1 rfl rfl).1

end WriteProperty

section Appending

theorem appends_refl (P : XmlEvent → Bool) (w : WriteState) : Appends P w w :=
  ⟨[], (appendOut_nil w).symm, by simp⟩

theorem appends_emit (P : XmlEvent → Bool) (w : WriteState) (e : XmlEvent) (h : P e = true) :
    Appends P w (w.emit e) :=
  ⟨[e], rfl, by simpa using h⟩

theorem appends_trans {P : XmlEvent → Bool} {w w1 w2 : WriteState}
    (h1 : Appends P w w1) (h2 : Appends P w1 w2) : Appends P w w2 := by
  obtain ⟨a, rfl, ha⟩ := h1
  obtain ⟨b, rfl, hb⟩ := h2
  refine ⟨a ++ b, appendOut_appendOut w a b, ?_⟩
  intro e he
  rcases List.mem_append.mp he with h | h
  · exact ha e h
  · exact hb e h

theorem appends_mono {P Q : XmlEvent → Bool} {w w2 : WriteState}
    (hPQ : ∀ e, P e = true → Q e = true) (h : Appends P w w2) : Appends Q w w2 := by
  obtain ⟨a, rfl, ha⟩ := h
  exact ⟨a, rfl, fun e he => hPQ e (ha e he)⟩

theorem appends_foldl {α : Type} {P : XmlEvent → Bool} (f : WriteState → α → WriteState)
    (hf : ∀ w x, Appends P w (f w x)) (xs : List α) (w : WriteState) :
    Appends P w (xs.foldl f w) := by
  induction xs generalizing w with
  | nil => exact appends_refl P w
  | cons x xs ih => exact appends_trans (hf w x) (ih (f w x))

theorem appends_condTag {P : XmlEvent → Bool} {w0 w : WriteState} (c : Prop) [Decidable c]
    (name : String) (v : PropertyValue) (hP : P (XmlEvent.tag name [] v) = true)
    (h : Appends P w0 w) : Appends P w0 (if c then w.tag name v else w) := by
  split
  · exact appends_trans h (appends_emit P w _ hP)
  · exact h

end Appending

section ItemProperties

open TWrite

theorem writeFontStyle_appends (w : WriteState) (p d : PropertyValue) :
    Appends XmlEvent.isItemTag w (writeFontStyle w p d) := by
  dsimp only [writeFontStyle]
  apply appends_condTag _ _ _ (by simp [XmlEvent.isItemTag])
  apply appends_condTag _ _ _ (by simp [XmlEvent.isItemTag])
  apply appends_condTag _ _ _ (by simp [XmlEvent.isItemTag])
  apply appends_condTag _ _ _ (by simp [XmlEvent.isItemTag])
  exact appends_refl _ _

theorem tagProperty_appends (w : WriteState) (pid : Pid) (p d : PropertyValue) :
    Appends XmlEvent.isItemTag w (w.tagProperty pid p d) := by
  unfold WriteState.tagProperty
  split
  · exact appends_refl _ _
  · exact appends_emit _ _ _ (by simp [XmlEvent.isItemTag])

theorem writeProperty_appends (item : EngravingItem) (w : WriteState) (pid : Pid) :
    Appends XmlEvent.isItemTag w (writeProperty item w pid) := by
  dsimp only [writeProperty]
  split_ifs
  all_goals first
    | exact appends_refl _ _
    | exact writeFontStyle_appends _ _ _
    | (split
       · exact appends_refl _ _
       · exact tagProperty_appends _ _ _ _)

theorem writeAutoplace_shape (item : EngravingItem) (w : WriteState) :
    ∃ es st, writeAutoplace item w = { w.appendOut es with styles := st }
      ∧ ∀ e ∈ es, XmlEvent.isItemTag e = true := by
  dsimp only [writeAutoplace]
  split
  · obtain ⟨es, hes, hP⟩ := writeProperty_appends item
      (w.setStyleValue item.score Sid.autoplaceEnabled (PropertyValue.bool true)) Pid.AUTOPLACE
    refine ⟨es, (((w.setStyleValue item.score Sid.autoplaceEnabled
      (PropertyValue.bool true)).appendOut es).setStyleValue item.score Sid.autoplaceEnabled
      (PropertyValue.bool (w.styleB item.score Sid.autoplaceEnabled))).styles, ?_, hP⟩
    rw [hes]
    rfl
  · obtain ⟨es, hes, hP⟩ := writeProperty_appends item w Pid.AUTOPLACE
    exact ⟨es, w.styles, by rw [hes]; rfl, hP⟩

theorem writeLinkTag_eq (item : EngravingItem) (w : WriteState) :
    writeLinkTag item w
      = (w.setCtx (linkContext item w.xml.context)).appendOut
          (linkEvents item w.xml.context w.scores w.globals) := by
  unfold writeLinkTag linkEvents linkContext
  cases hl : item.links with
  | none => simp [WriteState.setCtx, WriteState.appendOut]
  | some links =>
    simp only []
    by_cases hg : links.size > 1 ∧ w.xml.context.clipboardmode = false
    · have hg' : links.size > 1 ∧ (!w.ctx.clipboardmode) = true := by
        simpa [WriteState.ctx] using hg
      rw [if_pos hg, if_pos hg', if_pos hg]
      unfold writeLinks
      by_cases hm : links.mainElement.eid = item.eid
      · by_cases hdbg : w.globals.debugMode = true
        · simp [hm, hdbg, WriteState.tag, WriteState.emit, WriteState.setCtx, WriteState.ctx,
            WriteState.appendOut]
        · simp [hm, hdbg, WriteState.tag, WriteState.emit, WriteState.setCtx, WriteState.ctx,
            WriteState.appendOut]
      · simp only [if_neg hm, tag_eq_appendOut, startElement_eq_appendOut,
          endElement_eq_appendOut, tagDefault_eq_appendOut, emit_eq_appendOut,
          ite_appendOut_left, ctx_appendOut, context_appendOut, scores_appendOut,
          globals_appendOut, setCtx_appendOut, setCtx_setCtx, ctx_setCtx, context_setCtx,
          scores_setCtx, globals_setCtx, appendOut_appendOut, scoreOf_appendOut,
          WriteState.ctx, ite_appendOut]
        congr 1
        have hloc : (match (match item.staff with
                    | some s => some s
                    | none => (w.scoreOf item).staff (w.xml.context.curTrack / VOICES)) with
              | some st =>
                match st.links with
                | some mainIdx => item.position.setStaff (toInt32 mainIdx)
                | none => item.position
              | none => item.position) = linkedLocation item w.xml.context w.scores := rfl
        have hidx : (w.xml.context.assignLocalIndex links.mainElement.position).2.lidLocalIndex
            links.lid = w.xml.context.lidLocalIndex links.lid := rfl
        rw [hloc, hidx]
        unfold linkedBlock guessedLocalIndex
        generalize (w.scores links.mainElement.score).isMaster = m
        by_cases hdbg : w.globals.debugMode = true
          <;> by_cases hms : m = true
          <;> by_cases hsc : links.mainElement.score = item.score
          <;> by_cases hne : linkedLocation item w.xml.context w.scores
                = links.mainElement.position
          <;> by_cases hz : w.xml.context.lidLocalIndex links.lid
                - (w.xml.context.assignLocalIndex links.mainElement.position).1 = 0
          <;> simp [hdbg, hms, hsc, hne, hz]
    · have hg' : ¬ (links.size > 1 ∧ (!w.ctx.clipboardmode) = true) := by
        simpa [WriteState.ctx] using hg
      rw [if_neg hg, if_neg hg', if_neg hg]
      simp [WriteState.setCtx, WriteState.appendOut]

theorem writeTrackTag_appends (item : EngravingItem) (w : WriteState) :
    Appends XmlEvent.isItemTag w (writeTrackTag item w) := by
  unfold writeTrackTag
  split
  · exact appends_emit _ _ _ (by simp [XmlEvent.isItemTag])
  · exact appends_refl _ _

theorem writePositionTag_appends (item : EngravingItem) (w : WriteState) :
    Appends XmlEvent.isItemTag w (writePositionTag item w) := by
  unfold writePositionTag
  split
  · exact tagProperty_appends _ _ _ _
  · exact appends_refl _ _

theorem writeLayerTag_appends (item : EngravingItem) (w : WriteState) :
    Appends XmlEvent.isItemTag w (writeLayerTag item w) := by
  unfold writeLayerTag
  split
  · split
    · exact appends_emit _ _ _ (by simp [XmlEvent.isItemTag])
    · exact appends_refl _ _
  · exact appends_refl _ _

theorem writeNoStyleProperties_appends (item : EngravingItem) (w : WriteState) :
    Appends XmlEvent.isItemTag w (writeNoStyleProperties item w) := by
  unfold writeNoStyleProperties
  apply appends_foldl
  intro w pid
  split
  · exact writeProperty_appends _ _ _
  · exact appends_refl _ _

theorem writeItemProperties_decomp (item : EngravingItem) (w : WriteState) :
    ∃ A T st, (∀ e ∈ A, XmlEvent.isItemTag e = true) ∧ (∀ e ∈ T, XmlEvent.isItemTag e = true)
      ∧ writeItemProperties item w
        = { xml := { out := w.xml.out
                       ++ (A ++ linkEvents item w.xml.context w.scores w.globals ++ T),
                     context := linkContext item w.xml.context },
            scores := w.scores, styles := st, globals := w.globals } := by
  obtain ⟨A, st, hA, hAP⟩ := writeAutoplace_shape item w
  have hT : Appends XmlEvent.isItemTag (writeLinkTag item (writeAutoplace item w))
      (writeItemProperties item w) :=
    appends_trans (appends_trans (appends_trans (writeTrackTag_appends item _)
      (writePositionTag_appends item _)) (writeLayerTag_appends item _))
      (writeNoStyleProperties_appends item _)
  obtain ⟨T, hT, hTP⟩ := hT
  refine ⟨A, T, st, hAP, hTP, ?_⟩
  rw [hT, writeLinkTag_eq, hA]
  simp [WriteState.appendOut, WriteState.setCtx, List.append_assoc]

theorem mem_linkEvents_isLinkEvent (item : EngravingItem) (ctx : WriteContext)
    (scores : Nat → Score) (globals : Globals) :
    ∀ e ∈ linkEvents item ctx scores globals, XmlEvent.isLinkEvent e = true := by
  intro e he
  unfold linkEvents at he
  split at he
  · split at he
    · rcases List.mem_append.mp he with h | h
      · split at h
        · simp at h; subst h; rfl
        · simp at h
      · split at h
        · simp at h; subst h; rfl
        · unfold linkedBlock at h
          simp only [List.mem_append, List.mem_singleton, List.mem_cons] at h
          rcases h with (((h | h) | h) | h) | h
          · simp at h; subst h; rfl
          · split at h
            · simp at h; subst h; rfl
            · simp at h
          · split at h
            · simp at h; subst h; rfl
            · simp at h
          · split at h
            · simp at h
            · simp at h; subst h; rfl
          · simp at h; subst h; rfl
    · simp at he
  · simp at he

theorem emitted_writeItemProperties (item : EngravingItem) (w : WriteState) :
    ∃ A T, (∀ e ∈ A, XmlEvent.isItemTag e = true) ∧ (∀ e ∈ T, XmlEvent.isItemTag e = true)
      ∧ w.emitted (writeItemProperties item w)
        = A ++ linkEvents item w.xml.context w.scores w.globals ++ T
      ∧ (writeItemProperties item w).xml.context = linkContext item w.xml.context := by
  obtain ⟨A, T, st, hA, hT, h⟩ := writeItemProperties_decomp item w
  refine ⟨A, T, hA, hT, ?_, ?_⟩
  · rw [h]; simp [WriteState.emitted]
  · rw [h]

theorem filter_eq_nil_of_itemTags (p : XmlEvent → Bool)
    (hp : ∀ e, XmlEvent.isItemTag e = true → p e = false) (A : List XmlEvent)
    (hA : ∀ e ∈ A, XmlEvent.isItemTag e = true) : A.filter p = [] := by
  rw [List.filter_eq_nil_iff]
  intro e he
  simp [hp e (hA e he)]

theorem emitted_writeItemProperties_filter (item : EngravingItem) (w : WriteState)
    (p : XmlEvent → Bool) (hp : ∀ e, XmlEvent.isItemTag e = true → p e = false) :
    (w.emitted (writeItemProperties item w)).filter p
      = (linkEvents item w.xml.context w.scores w.globals).filter p := by
  obtain ⟨A, T, hA, hT, h, _⟩ := emitted_writeItemProperties item w
  rw [h, List.filter_append, List.filter_append, filter_eq_nil_of_itemTags p hp A hA,
    filter_eq_nil_of_itemTags p hp T hT]
  simp

theorem any_eq_any_filter (p : XmlEvent → Bool) (l : List XmlEvent) :
    l.any p = !(l.filter p).isEmpty := by
  induction l with
  | nil => rfl
  | cons x xs ih =>
    by_cases hx : p x = true
    · simp [List.filter_cons, hx]
    · simp [List.filter_cons, hx, ih]

theorem emitted_writeItemProperties_any (item : EngravingItem) (w : WriteState)
    (p : XmlEvent → Bool) (hp : ∀ e, XmlEvent.isItemTag e = true → p e = false) :
    (w.emitted (writeItemProperties item w)).any p
      = (linkEvents item w.xml.context w.scores w.globals).any p := by
  rw [any_eq_any_filter, any_eq_any_filter, emitted_writeItemProperties_filter item w p hp]

theorem itemTag_not_tagNamed (n : String)
    (hn : n ≠ "bold" ∧ n ≠ "italic" ∧ n ≠ "underline" ∧ n ≠ "strike" ∧ n ≠ "track" ∧ n ≠ "tag") :
    ∀ e, XmlEvent.isItemTag e = true → XmlEvent.isTagNamed n e = false := by
  intro e he
  cases e with
  | tag name attrs v =>
    simp only [XmlEvent.isItemTag, Bool.or_eq_true, beq_iff_eq] at he
    simp only [XmlEvent.isTagNamed, beq_eq_false_iff_ne, ne_eq]
    rintro rfl
    obtain ⟨h1, h2, h3, h4, h5, h6⟩ := hn
    rcases he with ((((h | h) | h) | h) | h) | h <;> contradiction
  | _ => simp [XmlEvent.isTagNamed]

theorem itemTag_not_structural : ∀ e, XmlEvent.isItemTag e = true → XmlEvent.isStructural e = false := by
  intro e he
  cases e <;> simp_all [XmlEvent.isItemTag, XmlEvent.isStructural]

theorem itemTag_not_startNamed (n : String) :
    ∀ e, XmlEvent.isItemTag e = true → XmlEvent.isStartNamed n e = false := by
  intro e he
  cases e <;> simp_all [XmlEvent.isItemTag, XmlEvent.isStartNamed]

theorem linkEvents_main (item : EngravingItem) (links : LinkedObjects) (ctx : WriteContext)
    (scores : Nat → Score) (globals : Globals) (hl : item.links = some links)
    (hsz : links.size > 1) (hc : ctx.clipboardmode = false)
    (hm : links.mainElement.eid = item.eid) :
    linkEvents item ctx scores globals
      = (if globals.debugMode then [XmlEvent.tag "lid" [] (PropertyValue.int links.lid)] else [])
        ++ [XmlEvent.tag "linkedMain" [] PropertyValue.invalid] := by
  simp [linkEvents, hl, hsz, hc, hm]

theorem linkEvents_secondary (item : EngravingItem) (links : LinkedObjects) (ctx : WriteContext)
    (scores : Nat → Score) (globals : Globals) (hl : item.links = some links)
    (hsz : links.size > 1) (hc : ctx.clipboardmode = false)
    (hm : links.mainElement.eid ≠ item.eid) :
    linkEvents item ctx scores globals
      = (if globals.debugMode then [XmlEvent.tag "lid" [] (PropertyValue.int links.lid)] else [])
        ++ linkedBlock item links ctx scores := by
  simp [linkEvents, hl, hsz, hc, hm]

theorem linkEvents_inactive (item : EngravingItem) (ctx : WriteContext)
    (scores : Nat → Score) (globals : Globals)
    (h : ctx.clipboardmode = true ∨ item.links = none
          ∨ ∃ links, item.links = some links ∧ links.size ≤ 1) :
    linkEvents item ctx scores globals = [] ∧ linkContext item ctx = ctx := by
  unfold linkEvents linkContext
  rcases h with h | h | ⟨links, h, hs⟩
  · cases item.links <;> simp [h]
  · simp [h]
  · have : ¬ links.size > 1 := by omega
    simp [h, this]

theorem linkedBlock_structural (item : EngravingItem) (links : LinkedObjects)
    (ctx : WriteContext) (scores : Nat → Score) :
    (linkedBlock item links ctx scores).filter XmlEvent.isStructural
      = [XmlEvent.startElement "linked" [], XmlEvent.endElement] := by
  unfold linkedBlock
  simp only [List.filter_append]
  split_ifs <;> simp [List.filter, XmlEvent.isStructural]

theorem linkedBlock_no_linkedMain (item : EngravingItem) (links : LinkedObjects)
    (ctx : WriteContext) (scores : Nat → Score) :
    (linkedBlock item links ctx scores).any (XmlEvent.isTagNamed "linkedMain") = false := by
  unfold linkedBlock
  simp only [List.any_append]
  split_ifs <;> simp [XmlEvent.isTagNamed]

theorem linkedBlock_indexDiff (item : EngravingItem) (links : LinkedObjects)
    (ctx : WriteContext) (scores : Nat → Score) :
    (linkedBlock item links ctx scores).filter (XmlEvent.isTagNamed "indexDiff")
      = if ctx.lidLocalIndex links.lid - guessedLocalIndex links ctx = 0 then []
        else [XmlEvent.tag "indexDiff" []
                (PropertyValue.int (ctx.lidLocalIndex links.lid - guessedLocalIndex links ctx))] := by
  unfold linkedBlock
  simp only [List.filter_append]
  split_ifs <;> simp [List.filter, XmlEvent.isTagNamed]

theorem lid_filter (p : XmlEvent → Bool) (b : Bool) (lid : Int)
    (hp : p (XmlEvent.tag "lid" [] (PropertyValue.int lid)) = false) :
    (if b = true then [XmlEvent.tag "lid" [] (PropertyValue.int lid)] else []).filter p = [] := by
  cases b <;> simp [List.filter, hp]

end ItemProperties

section LinkTag

open TWrite

/-- C4: take a link group `g` with more than one member, its members (distinct elements that
all point to `g`, among them the main element), each written by `writeItemProperties` in some
state outside clipboard mode. A member emits a "linkedMain" tag iff it is the main element;
every other member emits, as its only element structure, one "linked" element that is opened
and closed, and no "linkedMain"; exactly one member emits "linkedMain". -/
theorem linkedMain_exactly_for_main (g : LinkedObjects) (members : List EngravingItem)
    (ws : EngravingItem → WriteState)
    (hsize : g.size = members.length) (hsz : members.length > 1)
    (hmem : ∀ it ∈ members, it.links = some g)
    (hnd : (members.map (fun it => it.eid)).Nodup)
    (hmain : g.mainElement.eid ∈ members.map (fun it => it.eid))
    (hclip : ∀ it ∈ members, (ws it).xml.context.clipboardmode = false) :
    (∀ it ∈ members,
      (((ws it).emitted (writeItemProperties it (ws it))).any (XmlEvent.isTagNamed "linkedMain")
          = true ↔ it.eid = g.mainElement.eid)
      ∧ (it.eid ≠ g.mainElement.eid →
          ((ws it).emitted (writeItemProperties it (ws it))).filter XmlEvent.isStructural
              = [XmlEvent.startElement "linked" [], XmlEvent.endElement]
          ∧ ((ws it).emitted (writeItemProperties it (ws it))).countP
              (XmlEvent.isStartNamed "linked") = 1))
    ∧ (members.filter (fun it =>
          ((ws it).emitted (writeItemProperties it (ws it))).any
            (XmlEvent.isTagNamed "linkedMain"))).length = 1 := by
  have hg : g.size > 1 := by omega
  have key : ∀ it ∈ members,
      (((ws it).emitted (writeItemProperties it (ws it))).any (XmlEvent.isTagNamed "linkedMain")
          = true ↔ it.eid = g.mainElement.eid) := by
    intro it hit
    rw [emitted_writeItemProperties_any it (ws it) _
      (itemTag_not_tagNamed "linkedMain" (by decide))]
    by_cases hm : g.mainElement.eid = it.eid
    · rw [linkEvents_main it g _ _ _ (hmem it hit) hg (hclip it hit) hm]
      simp [XmlEvent.isTagNamed, hm]
    · rw [linkEvents_secondary it g _ _ _ (hmem it hit) hg (hclip it hit) hm]
      have hne : ¬ it.eid = g.mainElement.eid := fun h => hm h.symm
      simp only [List.any_append, linkedBlock_no_linkedMain, Bool.or_false, hne, iff_false]
      cases (ws it).globals.debugMode <;> simp [XmlEvent.isTagNamed]
  refine ⟨fun it hit => ⟨key it hit, fun hne => ?_⟩, ?_⟩
  · have hm : g.mainElement.eid ≠ it.eid := fun h => hne h.symm
    have hstruct : ((ws it).emitted (writeItemProperties it (ws it))).filter XmlEvent.isStructural
        = [XmlEvent.startElement "linked" [], XmlEvent.endElement] := by
      rw [emitted_writeItemProperties_filter it (ws it) _ itemTag_not_structural,
        linkEvents_secondary it g _ _ _ (hmem it hit) hg (hclip it hit) hm,
        List.filter_append, linkedBlock_structural, lid_filter _ _ _ rfl]
      rfl
    refine ⟨hstruct, ?_⟩
    rw [List.countP_eq_length_filter,
      emitted_writeItemProperties_filter it (ws it) _ (itemTag_not_startNamed "linked"),
      linkEvents_secondary it g _ _ _ (hmem it hit) hg (hclip it hit) hm,
      List.filter_append, lid_filter _ _ _ rfl]
    unfold linkedBlock
    simp only [List.filter_append]
    split_ifs <;> simp [List.filter, XmlEvent.isStartNamed]
  · have hfilter : members.filter (fun it =>
          ((ws it).emitted (writeItemProperties it (ws it))).any
            (XmlEvent.isTagNamed "linkedMain"))
        = members.filter (fun it => decide (it.eid = g.mainElement.eid)) := by
      apply List.filter_congr
      intro it hit
      have := key it hit
      by_cases h : it.eid = g.mainElement.eid
      · simp [h, this.mpr h]
      · have hf : ((ws it).emitted (writeItemProperties it (ws it))).any
            (XmlEvent.isTagNamed "linkedMain") = false := by
          cases hb : ((ws it).emitted (writeItemProperties it (ws it))).any
            (XmlEvent.isTagNamed "linkedMain")
          · rfl
          · exact absurd (this.mp hb) h
        simp [h, hf]
    rw [hfilter]
    have hcount : ∀ (l : List EngravingItem), (l.map (fun it => it.eid)).Nodup →
        g.mainElement.eid ∈ l.map (fun it => it.eid) →
        (l.filter (fun it => decide (it.eid = g.mainElement.eid))).length = 1 := by
      intro l
      induction l with
      | nil => intro _ h; simp at h
      | cons x xs ih =>
        intro hnd hin
        simp only [List.map_cons, List.nodup_cons] at hnd
        by_cases hx : x.eid = g.mainElement.eid
        · have hnone : xs.filter (fun it => decide (it.eid = g.mainElement.eid)) = [] := by
            rw [List.filter_eq_nil_iff]
            intro y hy hyeq
            simp only [decide_eq_true_eq] at hyeq
            apply hnd.1
            rw [hx, ← hyeq]
            exact List.mem_map_of_mem _ hy
          simp [List.filter_cons, hx, hnone]
        · have hin' : g.mainElement.eid ∈ xs.map (fun it => it.eid) := by
            simp only [List.map_cons, List.mem_cons] at hin
            rcases hin with h | h
            · exact absurd h.symm hx
            · exact h
          simp [List.filter_cons, hx, ih hnd.2 hin']
    exact hcount members hnd hmain

theorem linkedMain_exactly_for_main_witness :
    ([Fixture.mainItem, Fixture.secondItem].filter (fun it =>
        (Fixture.state0.emitted (writeItemProperties it Fixture.state0)).any
          (XmlEvent.isTagNamed "linkedMain"))).length = 1 :=
  (linkedMain_exactly_for_main Fixture.group [Fixture.mainItem, Fixture.secondItem]
    (fun _ => Fixture.state0) rfl (by decide)
    (by intro it hit; simp at hit; rcases hit with rfl | rfl <;> rfl)
    (by decide) (by decide)
    (by intro it _; rfl)).2

/-- C5 fails as stated: in a pass that writes the main element and then the other member of
a two-member group, the main element registers index 0, the write of the other member is
assigned index 1, and the "indexDiff" written is -1, not 1 - 0. -/
theorem indexDiff_not_secondary_minus_main :
    (writeItemProperties Fixture.mainItem Fixture.state0).xml.context.lidLocalIndex
        Fixture.group.lid = 0
    ∧ guessedLocalIndex Fixture.group
        (writeItemProperties Fixture.mainItem Fixture.state0).xml.context = 1
    ∧ ((writeItemProperties Fixture.mainItem Fixture.state0).emitted
          (writeItemProperties Fixture.secondItem
            (writeItemProperties Fixture.mainItem Fixture.state0))).filter
        (XmlEvent.isTagNamed "indexDiff")
        = [XmlEvent.tag "indexDiff" [] (PropertyValue.int (-1))]
    ∧ ((writeItemProperties Fixture.mainItem Fixture.state0).emitted
          (writeItemProperties Fixture.secondItem
            (writeItemProperties Fixture.mainItem Fixture.state0))).filter
        (XmlEvent.isTagNamed "indexDiff")
        ≠ [XmlEvent.tag "indexDiff" [] (PropertyValue.int
            (guessedLocalIndex Fixture.group
                (writeItemProperties Fixture.mainItem Fixture.state0).xml.context
              - (writeItemProperties Fixture.mainItem Fixture.state0).xml.context.lidLocalIndex
                  Fixture.group.lid))] := by
  have hctx : (writeItemProperties Fixture.mainItem Fixture.state0).xml.context
      = linkContext Fixture.mainItem Fixture.state0.xml.context :=
    (emitted_writeItemProperties Fixture.mainItem Fixture.state0).choose_spec.choose_spec.2.2.2
  have hscores : (writeItemProperties Fixture.mainItem Fixture.state0).scores
      = Fixture.state0.scores := by
    obtain ⟨A, T, st, _, _, h⟩ := writeItemProperties_decomp Fixture.mainItem Fixture.state0
    rw [h]
  have hglobals : (writeItemProperties Fixture.mainItem Fixture.state0).globals
      = Fixture.state0.globals := by
    obtain ⟨A, T, st, _, _, h⟩ := writeItemProperties_decomp Fixture.mainItem Fixture.state0
    rw [h]
  rw [emitted_writeItemProperties_filter _ _ _ (itemTag_not_tagNamed "indexDiff" (by decide)),
    hctx, hscores, hglobals]
  refine ⟨by decide, by decide, by decide, by decide⟩

/-- C5 (amended): outside clipboard mode, take a link group `links` with more than one member
whose main element `m` was written in state `w0`, and a member `item` that is not the main
element, written in a later state `w` whose context still holds the index registered by that
write. The "indexDiff" written for `item` is the local index assigned to (and registered by)
the main element minus the local index assigned during the write of `item` for the main
element's location (`guessedLocalIndex`); the tag is omitted exactly when that difference is
0; the index assigned during the write of `item` plus indexDiff gives back the main element's
index. -/
theorem indexDiff_registered_minus_guessed (links : LinkedObjects)
    (m item : EngravingItem) (w0 w : WriteState)
    (hsz : links.size > 1)
    (hm : m.links = some links) (hmain : links.mainElement.eid = m.eid)
    (hc0 : w0.xml.context.clipboardmode = false)
    (hkeep : w.xml.context.lidLocalIndex links.lid
      = (writeItemProperties m w0).xml.context.lidLocalIndex links.lid)
    (hi : item.links = some links) (hne : links.mainElement.eid ≠ item.eid)
    (hc : w.xml.context.clipboardmode = false) :
    (w.emitted (writeItemProperties item w)).filter (XmlEvent.isTagNamed "indexDiff")
        = (if (w0.xml.context.assignLocalIndex m.position).1
                - guessedLocalIndex links w.xml.context = 0
           then []
           else [XmlEvent.tag "indexDiff" [] (PropertyValue.int
                  ((w0.xml.context.assignLocalIndex m.position).1
                    - guessedLocalIndex links w.xml.context))])
    ∧ guessedLocalIndex links w.xml.context
        + ((w0.xml.context.assignLocalIndex m.position).1
            - guessedLocalIndex links w.xml.context)
        = (w0.xml.context.assignLocalIndex m.position).1 := by
  have hreg : w.xml.context.lidLocalIndex links.lid
      = (w0.xml.context.assignLocalIndex m.position).1 := by
    rw [hkeep]
    obtain ⟨_, _, _, _, _, h⟩ := emitted_writeItemProperties m w0
    rw [h]
    simp [linkContext, hm, hsz, hc0, hmain, WriteContext.setLidLocalIndex,
      WriteContext.lidLocalIndex, WriteContext.assignLocalIndex]
  refine ⟨?_, by ring⟩
  rw [emitted_writeItemProperties_filter _ _ _ (itemTag_not_tagNamed "indexDiff" (by decide)),
    linkEvents_secondary item links _ _ _ hi hsz hc hne, List.filter_append,
    lid_filter _ _ _ rfl, linkedBlock_indexDiff, hreg]
  rfl

theorem indexDiff_registered_minus_guessed_witness :
    ((writeItemProperties Fixture.mainItem Fixture.state0).emitted
        (writeItemProperties Fixture.secondItem
          (writeItemProperties Fixture.mainItem Fixture.state0))).filter
      (XmlEvent.isTagNamed "indexDiff")
      = (if (Fixture.state0.xml.context.assignLocalIndex Fixture.mainItem.position).1
            - guessedLocalIndex Fixture.group
                (writeItemProperties Fixture.mainItem Fixture.state0).xml.context = 0
         then []
         else [XmlEvent.tag "indexDiff" [] (PropertyValue.int
                ((Fixture.state0.xml.context.assignLocalIndex Fixture.mainItem.position).1
                  - guessedLocalIndex Fixture.group
                      (writeItemProperties Fixture.mainItem Fixture.state0).xml.context))]) :=
  (indexDiff_registered_minus_guessed Fixture.group Fixture.mainItem Fixture.secondItem
    Fixture.state0 (writeItemProperties Fixture.mainItem Fixture.state0)
    (by decide) rfl rfl rfl rfl rfl (by decide)
    (by
      rw [(emitted_writeItemProperties Fixture.mainItem
        Fixture.state0).choose_spec.choose_spec.2.2.2]
      rfl)).1

/-- C6: when the context is in clipboard mode, or the item has no link group, or its link
group has at most one member, `writeItemProperties` emits no "linkedMain", "lid" or
"indexDiff" tag, opens no "linked" element (it opens and closes no element at all), and
leaves the write context as it was, so no local index is assigned or registered. -/
theorem no_link_output_in_clipboard_mode (item : EngravingItem) (w : WriteState)
    (h : w.xml.context.clipboardmode = true ∨ item.links = none
          ∨ ∃ links, item.links = some links ∧ links.size ≤ 1) :
    (∀ e ∈ w.emitted (writeItemProperties item w),
        XmlEvent.isTagNamed "linkedMain" e = false ∧ XmlEvent.isStartNamed "linked" e = false
        ∧ XmlEvent.isTagNamed "lid" e = false ∧ XmlEvent.isTagNamed "indexDiff" e = false
        ∧ XmlEvent.isStructural e = false)
    ∧ (writeItemProperties item w).xml.context = w.xml.context := by
  obtain ⟨A, T, hA, hT, hem, hctx⟩ := emitted_writeItemProperties item w
  obtain ⟨hnil, hsame⟩ := linkEvents_inactive item w.xml.context w.scores w.globals h
  refine ⟨?_, by rw [hctx, hsame]⟩
  intro e he
  rw [hem, hnil] at he
  have hitem : XmlEvent.isItemTag e = true := by
    simp only [List.append_nil, List.mem_append] at he
    rcases he with he | he
    · exact hA e he
    · exact hT e he
  exact ⟨itemTag_not_tagNamed "linkedMain" (by decide) e hitem,
    itemTag_not_startNamed "linked" e hitem,
    itemTag_not_tagNamed "lid" (by decide) e hitem,
    itemTag_not_tagNamed "indexDiff" (by decide) e hitem,
    itemTag_not_structural e hitem⟩

theorem no_link_output_in_clipboard_mode_witness :
    (writeItemProperties Fixture.mainItem Fixture.clipboardState).xml.context
      = Fixture.clipboardState.xml.context :=
  (no_link_output_in_clipboard_mode Fixture.mainItem Fixture.clipboardState (Or.inl rfl)).2

end LinkTag

section Extending

open TWrite

theorem extends_refl (P : XmlEvent → Bool) (w : WriteState) : Extends P w w :=
  ⟨[], by simp, by simp, rfl, rfl⟩

theorem extends_trans {P : XmlEvent → Bool} {w w1 w2 : WriteState}
    (h1 : Extends P w w1) (h2 : Extends P w1 w2) : Extends P w w2 := by
  obtain ⟨a, ha, hPa, hsa, hga⟩ := h1
  obtain ⟨b, hb, hPb, hsb, hgb⟩ := h2
  refine ⟨a ++ b, by rw [hb, ha, List.append_assoc], ?_, hsb.trans hsa, hgb.trans hga⟩
  intro e he
  rcases List.mem_append.mp he with h | h
  · exact hPa e h
  · exact hPb e h

theorem appends_toExtends {P Q : XmlEvent → Bool} {w w2 : WriteState}
    (hPQ : ∀ e, P e = true → Q e = true) (h : Appends P w w2) : Extends Q w w2 := by
  obtain ⟨a, rfl, ha⟩ := h
  exact ⟨a, rfl, fun e he => hPQ e (ha e he), rfl, rfl⟩

theorem extends_foldl {α : Type} {P : XmlEvent → Bool} (f : WriteState → α → WriteState)
    (hf : ∀ w x, Extends P w (f w x)) (xs : List α) (w : WriteState) :
    Extends P w (xs.foldl f w) := by
  induction xs generalizing w with
  | nil => exact extends_refl P w
  | cons x xs ih => exact extends_trans (hf w x) (ih (f w x))

theorem itemTag_isItemEvent : ∀ e, XmlEvent.isItemTag e = true → XmlEvent.isItemEvent e = true := by
  intro e he
  simp [XmlEvent.isItemEvent, he]

theorem writeProperty_extends (item : EngravingItem) (w : WriteState) (pid : Pid) :
    Extends XmlEvent.isItemEvent w (writeProperty item w pid) :=
  appends_toExtends itemTag_isItemEvent (writeProperty_appends item w pid)

theorem writeItemProperties_extends (item : EngravingItem) (w : WriteState) :
    Extends XmlEvent.isItemEvent w (writeItemProperties item w) := by
  obtain ⟨A, T, st, hA, hT, h⟩ := writeItemProperties_decomp item w
  refine ⟨A ++ linkEvents item w.xml.context w.scores w.globals ++ T, by rw [h], ?_,
    by rw [h], by rw [h]⟩
  intro e he
  simp only [List.mem_append] at he
  rcases he with (he | he) | he
  · exact itemTag_isItemEvent e (hA e he)
  · simp [XmlEvent.isItemEvent, mem_linkEvents_isLinkEvent item _ _ _ e he]
  · exact itemTag_isItemEvent e (hT e he)

theorem foldl_appendOut {α : Type} (g : α → List XmlEvent) (f : WriteState → α → WriteState)
    (hf : ∀ w x, f w x = w.appendOut (g x)) (xs : List α) (w : WriteState) :
    xs.foldl f w = w.appendOut (xs.flatMap g) := by
  induction xs generalizing w with
  | nil => simp [appendOut_nil]
  | cons x xs ih =>
    simp only [List.foldl_cons, List.flatMap_cons]
    rw [hf, ih, appendOut_appendOut]

end Extending

section BeamWriter

open TWrite

theorem writeBeamFragments_eq (b : Beam) (idx : Nat) (w : WriteState) :
    writeBeamFragments b idx w = w.appendOut (fragmentBlocks b idx) := by
  unfold writeBeamFragments fragmentBlocks
  apply foldl_appendOut
  intro w f
  simp only [startElement_eq_appendOut, tag_eq_appendOut, endElement_eq_appendOut,
    appendOut_appendOut]
  rfl

theorem writeBeamTestData_eq (b : Beam) (idx : Nat) (w : WriteState) :
    writeBeamTestData b idx w = w.appendOut (beamTestTags b idx) := by
  unfold writeBeamTestData beamTestTags
  apply foldl_appendOut
  intro w f
  simp only [tag_eq_appendOut, appendOut_appendOut]
  rfl

theorem write_Beam_emitted (b : Beam) (w : WriteState) (hne : b.elements ≠ []) :
    ∃ P, (∀ e ∈ P, XmlEvent.isItemEvent e = true)
      ∧ w.emitted (write_Beam b w)
        = [XmlEvent.startElement b.item.typeName []] ++ P
          ++ (if b.userModified then fragmentBlocks b (beamIdx b) else [])
          ++ (if w.globals.testMode then beamTestTags b (beamIdx b) else [])
          ++ [XmlEvent.endElement] := by
  have hemp : b.elements.isEmpty = false := by
    cases hb : b.elements with
    | nil => exact absurd hb hne
    | cons _ _ => rfl
  have hext : Extends XmlEvent.isItemEvent (w.startElement b.item.typeName [])
      (writeProperty b.item (writeProperty b.item (writeProperty b.item (writeProperty b.item
        (writeItemProperties b.item (w.startElement b.item.typeName []))
        Pid.STEM_DIRECTION) Pid.BEAM_NO_SLOPE) Pid.GROW_LEFT) Pid.GROW_RIGHT) :=
    extends_trans (extends_trans (extends_trans (extends_trans
      (writeItemProperties_extends _ _) (writeProperty_extends _ _ _))
      (writeProperty_extends _ _ _)) (writeProperty_extends _ _ _)) (writeProperty_extends _ _ _)
  generalize hw6 : writeProperty b.item (writeProperty b.item (writeProperty b.item
      (writeProperty b.item (writeItemProperties b.item (w.startElement b.item.typeName []))
        Pid.STEM_DIRECTION) Pid.BEAM_NO_SLOPE) Pid.GROW_LEFT) Pid.GROW_RIGHT = w6 at hext
  obtain ⟨P, hout, hP, _, hg⟩ := hext
  refine ⟨P, hP, ?_⟩
  have hg' : w6.globals.testMode = w.globals.testMode := by rw [hg]; rfl
  simp only [write_Beam, hemp, Bool.false_eq_true, if_false]
  rw [hw6]
  simp only [writeBeamFragments_eq, writeBeamTestData_eq, endElement_eq_appendOut,
    ite_appendOut_left, globals_appendOut, appendOut_appendOut, WriteState.emitted,
    out_appendOut, hout, hg']
  by_cases ht : w.globals.testMode = true <;>
    simp [ht, out_appendOut, hout, WriteState.startElement, WriteState.emit, beamIdx,
      List.append_assoc]

theorem itemEvent_not_fragmentData :
    ∀ e, XmlEvent.isItemEvent e = true → XmlEvent.isFragmentData e = false := by
  intro e he
  cases e with
  | tag name attrs v =>
    simp only [XmlEvent.isItemEvent, XmlEvent.isItemTag, XmlEvent.isLinkEvent,
      Bool.or_eq_true, beq_iff_eq] at he
    rcases he with (((((h | h) | h) | h) | h) | h) | (((h | h) | h) | h) <;> subst h <;> rfl
  | startElement name attrs =>
    simp only [XmlEvent.isItemEvent, XmlEvent.isItemTag, XmlEvent.isLinkEvent,
      Bool.false_or, beq_iff_eq] at he
    subst he
    rfl
  | _ => rfl

theorem beamTestTags_no_fragment (b : Beam) (idx : Nat) :
    ∀ e ∈ beamTestTags b idx, XmlEvent.isStartNamed "Fragment" e = false
      ∧ XmlEvent.isTagNamed "y1" e = false ∧ XmlEvent.isTagNamed "y2" e = false := by
  intro e he
  simp only [beamTestTags, List.mem_flatMap, List.mem_cons, List.mem_singleton,
    List.not_mem_nil, or_false] at he
  obtain ⟨f, _, h | h⟩ := he <;> subst h <;> exact ⟨rfl, rfl, rfl⟩

theorem countP_fragmentBlocks (b : Beam) (idx : Nat) :
    (fragmentBlocks b idx).countP (XmlEvent.isStartNamed "Fragment") = b.beamFragments.length := by
  unfold fragmentBlocks
  induction b.beamFragments with
  | nil => rfl
  | cons f fs ih =>
    simp only [List.flatMap_cons, List.countP_append, ih, List.length_cons]
    simp [List.countP_cons, XmlEvent.isStartNamed, XmlEvent.isTagNamed]
    omega

theorem countP_eq_zero_of_forall (p : XmlEvent → Bool) (l : List XmlEvent)
    (h : ∀ e ∈ l, p e = false) : l.countP p = 0 := by
  rw [List.countP_eq_zero]
  intro e he
  simp [h e he]

/-- C7: a beam that owns no element makes `write_Beam` return the state it was given: no
element is opened and sink and context are unchanged. -/
theorem write_Beam_empty_emits_nothing (b : Beam) (w : WriteState) (h : b.elements = []) :
    write_Beam b w = w := by
  simp [write_Beam, h]

theorem write_Beam_empty_emits_nothing_witness :
    write_Beam Fixture.emptyBeam Fixture.state0 = Fixture.state0 :=
  write_Beam_empty_emits_nothing Fixture.emptyBeam Fixture.state0 rfl

/-- C8: for a beam that owns at least one element: if it is not user-modified and test mode
is off, no emitted call is per-fragment Y data (no "Fragment" element, no y1, y2, l1 or l2
tag); if it is user-modified, the emitted calls are some calls without per-fragment Y data,
then one "Fragment" element holding y1 and y2 for each beam fragment in fragment order, then
calls with no "Fragment", y1 or y2, and the number of "Fragment" elements opened is the number
of beam fragments. -/
theorem write_Beam_fragment_data (b : Beam) (w : WriteState)
    (hb : b.item.type = ElementType.BEAM) (hne : b.elements ≠ []) :
    (b.userModified = false → w.globals.testMode = false →
      ∀ e ∈ w.emitted (write_Beam b w), XmlEvent.isFragmentData e = false)
    ∧ (b.userModified = true →
      (∃ P Q, (∀ e ∈ P, XmlEvent.isFragmentData e = false)
        ∧ (∀ e ∈ Q, XmlEvent.isStartNamed "Fragment" e = false
            ∧ XmlEvent.isTagNamed "y1" e = false ∧ XmlEvent.isTagNamed "y2" e = false)
        ∧ w.emitted (write_Beam b w) = P ++ fragmentBlocks b (beamIdx b) ++ Q)
      ∧ (w.emitted (write_Beam b w)).countP (XmlEvent.isStartNamed "Fragment")
          = b.beamFragments.length) := by
  obtain ⟨P, hP, hem⟩ := write_Beam_emitted b w hne
  have hname : b.item.typeName = "Beam" := by
    simp [EngravingItem.typeName, hb, ElementType.typeName]
  rw [hname] at hem
  have hP' : ∀ e ∈ [XmlEvent.startElement "Beam" []] ++ P, XmlEvent.isFragmentData e = false := by
    intro e he
    simp only [List.singleton_append, List.mem_cons] at he
    rcases he with rfl | he
    · rfl
    · exact itemEvent_not_fragmentData e (hP e he)
  have hQ : ∀ e ∈ (if w.globals.testMode then beamTestTags b (beamIdx b) else [])
      ++ [XmlEvent.endElement], XmlEvent.isStartNamed "Fragment" e = false
        ∧ XmlEvent.isTagNamed "y1" e = false ∧ XmlEvent.isTagNamed "y2" e = false := by
    intro e he
    simp only [List.mem_append, List.mem_singleton] at he
    rcases he with he | rfl
    · split at he
      · exact beamTestTags_no_fragment b _ e he
      · simp at he
    · exact ⟨rfl, rfl, rfl⟩
  refine ⟨fun hum ht e he => ?_, fun hum => ⟨⟨_, _, hP', hQ, ?_⟩, ?_⟩⟩
  · rw [hem] at he
    simp only [hum, ht, Bool.false_eq_true, if_false, List.append_nil, List.mem_append,
      List.mem_singleton] at he
    rcases he with he | rfl
    · exact hP' e (by simpa using he)
    · rfl
  · rw [hem]
    simp [hum, List.append_assoc]
  · rw [hem]
    simp only [hum, if_true, List.countP_append, countP_fragmentBlocks]
    have h1 : ([XmlEvent.startElement "Beam" []] ++ P).countP (XmlEvent.isStartNamed "Fragment")
        = 0 := by
      apply countP_eq_zero_of_forall
      intro e he
      have := hP' e he
      simp only [XmlEvent.isFragmentData, Bool.or_eq_false_iff] at this
      exact this.1.1.1.1
    have h2 : ((if w.globals.testMode then beamTestTags b (beamIdx b) else [])
        ++ [XmlEvent.endElement]).countP (XmlEvent.isStartNamed "Fragment") = 0 :=
      countP_eq_zero_of_forall _ _ (fun e he => (hQ e he).1)
    simp only [List.countP_append] at h1 h2
    omega

theorem write_Beam_fragment_data_witness :
    (Fixture.state0.emitted (write_Beam Fixture.editedBeam Fixture.state0)).countP
        (XmlEvent.isStartNamed "Fragment") = 2
    ∧ ∀ e ∈ Fixture.state0.emitted (write_Beam Fixture.plainBeam Fixture.state0),
        XmlEvent.isFragmentData e = false :=
  ⟨(write_Beam_fragment_data Fixture.editedBeam Fixture.state0 rfl (by decide)).2 rfl |>.2,
   (write_Beam_fragment_data Fixture.plainBeam Fixture.state0 rfl (by decide)).1 rfl rfl⟩

end BeamWriter

section FretDiagramWriter

open TWrite

theorem writeNewString_eq (f : FretDiagram) (w : WriteState) (i : Int) :
    writeNewString f w i = w.appendOut (newStringEvents f i) := by
  unfold writeNewString newStringEvents
  dsimp only []
  by_cases h : FretDiagram.dotExists (f.dot i) = false ∧ (f.marker i).exists_ = false
  · have h' : (!FretDiagram.dotExists (f.dot i)) = true ∧ (!(f.marker i).exists_) = true := by
      simpa using h
    rw [if_pos h', if_pos h, appendOut_nil]
  · have h' : ¬ ((!FretDiagram.dotExists (f.dot i)) = true ∧ (!(f.marker i).exists_) = true) := by
      simpa using h
    rw [if_neg h', if_neg h]
    rw [foldl_appendOut (fun d => if d.exists_ then
            [XmlEvent.tag "dot" [("fret", PropertyValue.int d.fret)]
              (PropertyValue.string (f.dotTypeToName d.dtype))]
          else [])]
    · simp only [startElement_eq_appendOut, tag_eq_appendOut, endElement_eq_appendOut,
        appendOut_appendOut, stringStart]
      by_cases hm : (f.marker i).exists_ = true <;> simp [hm, appendOut_appendOut]
    · intro w d
      simp only [tagAttrs_eq_appendOut, ite_appendOut_left]

theorem writeNewBarre_eq (f : FretDiagram) (w : WriteState) (fi : Int) :
    writeNewBarre f w fi = w.appendOut (newBarreEvents f fi) := by
  unfold writeNewBarre newBarreEvents
  by_cases h : (f.barre fi).exists_ = true
  · simp [h, tagAttrs_eq_appendOut]
  · simp [h, appendOut_nil]

theorem writeNew_eq (f : FretDiagram) (w : WriteState) :
    writeNew f w = w.appendOut (newEncoding f) := by
  unfold writeNew newEncoding
  rw [foldl_appendOut (fun i : Nat => newStringEvents f (i : Int)) _
      (fun w i => writeNewString_eq f w i),
    foldl_appendOut (fun fi : Nat => newBarreEvents f (fi : Int)) _
      (fun w fi => writeNewBarre_eq f w fi), appendOut_appendOut]

theorem writeOldString_eq (f : FretDiagram) (w : WriteState) (i : Int) :
    writeOldString f (legacyBarre f).1 (legacyBarre f).2 w i
      = w.appendOut (legacyStringEvents f i) := by
  unfold writeOldString legacyStringEvents
  dsimp only []
  by_cases h : FretDiagram.dotExists (f.dot i) = false ∧ (f.marker i).exists_ = false
      ∧ i ≠ (legacyBarre f).1
  · have h' : (!FretDiagram.dotExists (f.dot i)) = true ∧ (!(f.marker i).exists_) = true
        ∧ i ≠ (legacyBarre f).1 := by
      simpa using h
    rw [if_pos h', if_pos h, appendOut_nil]
  · have h' : ¬ ((!FretDiagram.dotExists (f.dot i)) = true ∧ (!(f.marker i).exists_) = true
        ∧ i ≠ (legacyBarre f).1) := by
      simpa using h
    rw [if_neg h', if_neg h]
    rw [foldl_appendOut (fun d =>
          if d.exists_ ∧ ¬ (i = (legacyBarre f).1 ∧ d.fret = (legacyBarre f).2) then
            [XmlEvent.tag "dot" [] (PropertyValue.int d.fret)]
          else [])]
    · simp only [startElement_eq_appendOut, tag_eq_appendOut, endElement_eq_appendOut,
        appendOut_appendOut, stringStart]
      by_cases hm : (f.marker i).exists_ = true <;> by_cases hb : (legacyBarre f).1 = i
        <;> simp [hm, hb, appendOut_appendOut]
    · intro w d
      simp only [tag_eq_appendOut, ite_appendOut_left]

theorem writeOld_eq (f : FretDiagram) (w : WriteState) :
    writeOld f w = w.appendOut (legacyEncoding f) := by
  have hfold : ∀ w : WriteState,
      (List.range f.strings.toNat).foldl
        (fun (w : WriteState) (i : Nat) =>
          writeOldString f (findLegacyBarre f (scanLowestDot f).1 (scanLowestDot f).2).1
            (findLegacyBarre f (scanLowestDot f).1 (scanLowestDot f).2).2 w (i : Int)) w
      = w.appendOut ((List.range f.strings.toNat).flatMap
          (fun i : Nat => legacyStringEvents f (i : Int))) :=
    fun w => foldl_appendOut (fun i : Nat => legacyStringEvents f (i : Int)) _
      (fun w i => writeOldString_eq f w i) _ w
  unfold writeOld legacyEncoding
  simp only [hfold, tag_eq_appendOut, appendOut_appendOut, legacyBarre]
  split <;> simp

theorem extends_mono {P Q : XmlEvent → Bool} {w w2 : WriteState}
    (hPQ : ∀ e, P e = true → Q e = true) (h : Extends P w w2) : Extends Q w w2 := by
  obtain ⟨a, ha, hPa, hs, hg⟩ := h
  exact ⟨a, ha, fun e he => hPQ e (hPa e he), hs, hg⟩

theorem itemEvent_isFretPrologue :
    ∀ e, XmlEvent.isItemEvent e = true → XmlEvent.isFretPrologue e = true := by
  intro e he
  cases e <;> simp_all [XmlEvent.isFretPrologue]

theorem write_FretDiagram_emitted (f : FretDiagram) (w : WriteState)
    (hcw : w.xml.context.canWrite f.item.eid = true) :
    ∃ P, (∀ e ∈ P, XmlEvent.isFretPrologue e = true)
      ∧ w.emitted (write_FretDiagram f w)
        = [XmlEvent.startElement f.item.typeName []] ++ P
          ++ [XmlEvent.startElement "fretDiagram" []] ++ newEncoding f ++ [XmlEvent.endElement]
          ++ legacyEncoding f ++ [XmlEvent.endElement] := by
  have h1 : Extends XmlEvent.isFretPrologue (w.startElement f.item.typeName [])
      (writeItemProperties f.item
        (fretDiagramPids.foldl (fun w p => writeProperty f.item w p)
          (w.startElement f.item.typeName []))) :=
    extends_mono itemEvent_isFretPrologue
      (extends_trans (extends_foldl _ (fun w p => writeProperty_extends f.item w p) _ _)
        (writeItemProperties_extends _ _))
  have h2 : Extends XmlEvent.isFretPrologue (w.startElement f.item.typeName [])
      (match f.harmony with
        | some h => (writeItemProperties f.item
            (fretDiagramPids.foldl (fun w p => writeProperty f.item w p)
              (w.startElement f.item.typeName []))).emit (XmlEvent.write h)
        | none => writeItemProperties f.item
            (fretDiagramPids.foldl (fun w p => writeProperty f.item w p)
              (w.startElement f.item.typeName []))) := by
    cases f.harmony with
    | none => exact h1
    | some h =>
      refine extends_trans h1 ⟨[XmlEvent.write h], rfl, ?_, rfl, rfl⟩
      intro e he
      simp only [List.mem_singleton] at he
      subst he
      rfl
  generalize hw4 : (match f.harmony with
        | some h => (writeItemProperties f.item
            (fretDiagramPids.foldl (fun w p => writeProperty f.item w p)
              (w.startElement f.item.typeName []))).emit (XmlEvent.write h)
        | none => writeItemProperties f.item
            (fretDiagramPids.foldl (fun w p => writeProperty f.item w p)
              (w.startElement f.item.typeName []))) = w4 at h2
  obtain ⟨P, hout, hP, _, _⟩ := h2
  refine ⟨P, hP, ?_⟩
  have hcw' : (!w.ctx.canWrite f.item.eid) = false := by
    simp [WriteState.ctx, hcw]
  simp only [write_FretDiagram, hcw', Bool.false_eq_true, if_false]
  rw [hw4]
  simp only [writeNew_eq, writeOld_eq, startElement_eq_appendOut, endElement_eq_appendOut,
    appendOut_appendOut, WriteState.emitted, out_appendOut, hout]
  simp [List.append_assoc]

theorem stringStart_not_mem_flatMap {α : Type} (i : Int) (l : List α) (g : α → List XmlEvent)
    (hg : ∀ a, ∀ e ∈ g a, XmlEvent.isStructural e = false) :
    stringStart i ∉ l.flatMap g := by
  intro h
  obtain ⟨a, _, ha⟩ := List.mem_flatMap.mp h
  have := hg a _ ha
  simp [stringStart, XmlEvent.isStructural] at this

theorem mem_newStringEvents (f : FretDiagram) (i j : Int) :
    stringStart i ∈ newStringEvents f j
      ↔ (i = j ∧ (FretDiagram.dotExists (f.dot j) = true ∨ (f.marker j).exists_ = true)) := by
  unfold newStringEvents
  by_cases h : FretDiagram.dotExists (f.dot j) = false ∧ (f.marker j).exists_ = false
  · rw [if_pos h]
    simp [h.1, h.2]
  · rw [if_neg h]
    have hcond : FretDiagram.dotExists (f.dot j) = true ∨ (f.marker j).exists_ = true := by
      by_contra hc
      apply h
      simpa using hc
    have hdots : stringStart i ∉ (f.dot j).flatMap (fun d =>
          if d.exists_ then
            [XmlEvent.tag "dot" [("fret", PropertyValue.int d.fret)]
              (PropertyValue.string (f.dotTypeToName d.dtype))]
          else []) := by
      apply stringStart_not_mem_flatMap
      intro d e he
      split at he
      · simp at he; subst he; rfl
      · simp at he
    simp only [List.mem_append, List.mem_singleton, hdots, or_false, hcond, and_true]
    constructor
    · rintro ((h1 | h1) | h1)
      · simpa [stringStart] using h1
      · split at h1
        · simp [stringStart] at h1
        · simp at h1
      · simp [stringStart] at h1
    · rintro rfl
      exact Or.inl (Or.inl rfl)

theorem mem_legacyStringEvents (f : FretDiagram) (i : Int)
    (h : FretDiagram.dotExists (f.dot i) = true ∨ (f.marker i).exists_ = true) :
    stringStart i ∈ legacyStringEvents f i := by
  unfold legacyStringEvents
  have hn : ¬ (FretDiagram.dotExists (f.dot i) = false ∧ (f.marker i).exists_ = false
      ∧ i ≠ (legacyBarre f).1) := by
    rintro ⟨h1, h2, _⟩
    rcases h with h | h
    · rw [h1] at h; exact Bool.false_ne_true h
    · rw [h2] at h; exact Bool.false_ne_true h
  rw [if_neg hn]
  simp

theorem writeProperty_int_zero (item : EngravingItem) (w : WriteState) (pid : Pid)
    (hflag : item.propertyFlags pid = PropertyFlags.NOSTYLE)
    (hval : item.getProperty (w.styleOf item) pid = PropertyValue.int 0)
    (hdef : item.propertyDefault (w.styleOf item) pid = PropertyValue.int 0) :
    writeProperty item w pid = w := by
  have hs : item.propertyFlags pid ≠ PropertyFlags.STYLED := by simp [hflag]
  have hs2 : item.isStyled pid = false := by simp [EngravingItem.isStyled, hflag]
  have hz : |roundDouble (0 - 0)| < roundDouble (1 / 10000) := fuzzy_near (by norm_num)
  by_cases hf : pid = Pid.FONT_STYLE
  · unfold writeProperty
    simp only [hs2, hval, hdef, hflag]
    simp [hf, PropertyValue.isValid, writeFontStyle]
  · by_cases hm : w.globals.propertyType pid = P_TYPE.MILLIMETRE
    · rw [writeProperty_millimetre item w pid hs (by rw [hval]; rfl) hf hm, hval, hdef, if_pos]
      exact ⟨rfl, by simpa [PropertyValue.toReal] using hz⟩
    · by_cases hpt : w.globals.propertyType pid = P_TYPE.POINT
      · rw [writeProperty_point item w pid hs (by rw [hval]; rfl) hf hpt, hval, hdef, if_pos]
        exact ⟨rfl, by simpa [PropertyValue.toPointF] using hz,
          by simpa [PropertyValue.toPointF] using hz⟩
      · unfold writeProperty
        simp only [hs2, hval, hdef, hflag]
        simp [hf, PropertyValue.isValid, convertProperty, hm, hpt, WriteState.tagProperty]

theorem writeItemProperties_fretItem (w : WriteState)
    (hctx : w.xml.context = Fixture.ctx0) (hst : w.styles = fun _ => Fixture.style0) :
    writeItemProperties Fixture.fretItem w = w := by
  have hP : ∀ (w : WriteState) (pid : Pid), writeProperty Fixture.fretItem w pid = w :=
    fun w pid => writeProperty_int_zero Fixture.fretItem w pid rfl rfl rfl
  have hauto : w.styleB Fixture.fretItem.score Sid.autoplaceEnabled = true := by
    simp [WriteState.styleB, hst, Fixture.style0, MStyle.styleB]
  simp only [writeItemProperties, writeAutoplace, hauto, hP, writeLinkTag, writeTrackTag,
    writePositionTag, writeLayerTag, writeNoStyleProperties, WriteState.ctx, hctx,
    List.foldl_cons, List.foldl_nil]
  simp [Fixture.fretItem, Fixture.item0, Fixture.ctx0, hctx]

theorem write_FretDiagram_fretItem (f : FretDiagram) (hitem : f.item = Fixture.fretItem)
    (hharm : f.harmony = none) :
    Fixture.state0.emitted (write_FretDiagram f Fixture.state0)
      = [XmlEvent.startElement "FretDiagram" [], XmlEvent.startElement "fretDiagram" []]
          ++ newEncoding f ++ [XmlEvent.endElement] ++ legacyEncoding f
          ++ [XmlEvent.endElement] := by
  have hP : ∀ (w : WriteState) (pid : Pid), writeProperty Fixture.fretItem w pid = w :=
    fun w pid => writeProperty_int_zero Fixture.fretItem w pid rfl rfl rfl
  have hw : write_FretDiagram f Fixture.state0
      = (Fixture.state0.appendOut [XmlEvent.startElement "FretDiagram" []]).appendOut
          ([XmlEvent.startElement "fretDiagram" []] ++ newEncoding f
            ++ [XmlEvent.endElement] ++ legacyEncoding f
            ++ [XmlEvent.endElement]) := by
    have hcw : (!Fixture.state0.ctx.canWrite f.item.eid) = false := by
      rw [hitem]
      rfl
    simp only [write_FretDiagram, hcw, Bool.false_eq_true, if_false, fretDiagramPids,
      List.foldl_cons, List.foldl_nil]
    simp only [hitem, hharm, hP]
    rw [writeItemProperties_fretItem _ rfl rfl]
    simp only [writeNew_eq, writeOld_eq, startElement_eq_appendOut, endElement_eq_appendOut,
      appendOut_appendOut, List.append_assoc]
    rfl
  rw [hw, appendOut_appendOut, emitted_appendOut]
  simp only [List.append_assoc, List.singleton_append, List.cons_append, List.nil_append]

set_option maxRecDepth 100000

/-- C10, as stated, fails: the diagram `Fixture.spanDiagram` has six strings, dots at fret 3
on strings 0 and 2, and a barre at fret 1 that spans the strings 0 to 5, stored with its
end string 5. The writer emits the new encoding with the barre tag for fret 1 from string
0 to string 5, but the legacy encoding has neither the dot at fret 1 on string 0 nor the
boolean "barre" tag: the search of the legacy format takes only a barre whose `endString`
is -1. Read back, the new encoding gives the barre and the legacy encoding gives none. -/
theorem explicit_end_barre_lost_in_legacy :
    Fixture.state0.emitted (write_FretDiagram Fixture.spanDiagram Fixture.state0)
      = [XmlEvent.startElement "FretDiagram" [],
          XmlEvent.startElement "fretDiagram" [],
            XmlEvent.startElement "string" [("no", PropertyValue.int 0)],
              XmlEvent.tag "dot" [("fret", PropertyValue.int 3)] (PropertyValue.string "normal"),
            XmlEvent.endElement,
            XmlEvent.startElement "string" [("no", PropertyValue.int 2)],
              XmlEvent.tag "dot" [("fret", PropertyValue.int 3)] (PropertyValue.string "normal"),
            XmlEvent.endElement,
            XmlEvent.tag "barre" [("start", PropertyValue.int 0), ("end", PropertyValue.int 5)]
              (PropertyValue.int 1),
          XmlEvent.endElement,
          XmlEvent.startElement "string" [("no", PropertyValue.int 0)],
            XmlEvent.tag "dot" [] (PropertyValue.int 3),
          XmlEvent.endElement,
          XmlEvent.startElement "string" [("no", PropertyValue.int 2)],
            XmlEvent.tag "dot" [] (PropertyValue.int 3),
          XmlEvent.endElement,
        XmlEvent.endElement]
    ∧ XmlEvent.tag "dot" [] (PropertyValue.int 1)
        ∉ Fixture.state0.emitted (write_FretDiagram Fixture.spanDiagram Fixture.state0)
    ∧ XmlEvent.tag "barre" [] (PropertyValue.int 1)
        ∉ Fixture.state0.emitted (write_FretDiagram Fixture.spanDiagram Fixture.state0)
    ∧ readNew 6 (Fixture.state0.emitted (write_FretDiagram Fixture.spanDiagram Fixture.state0))
        = { dots := [(0, 3), (2, 3)], barres := [(1, 0, 5)] }
    ∧ readLegacy 6
          (Fixture.state0.emitted (write_FretDiagram Fixture.spanDiagram Fixture.state0))
        = { dots := [(0, 3), (2, 3)], barres := [] }
    ∧ readNew 6 (Fixture.state0.emitted (write_FretDiagram Fixture.spanDiagram Fixture.state0))
        ≠ readLegacy 6
            (Fixture.state0.emitted (write_FretDiagram Fixture.spanDiagram Fixture.state0)) := by
  rw [write_FretDiagram_fretItem Fixture.spanDiagram rfl rfl]
  decide

/-- C10 (amended): for the fixture diagram with its barre stored open-ended (six strings,
dots at fret 3 on strings 0 and 2, a barre at fret 1 from string 0 with `endString` -1,
through the last string) the writer emits exactly: the "FretDiagram" element; inside it
the "fretDiagram" element with the new encoding (string 0 and string 2, each with a dot at
fret 3, and the barre tag for fret 1 starting at string 0); then the legacy encoding
(string 0 with dot 3 and the dot 1 that stands for the barre, string 2 with dot 3, and the
boolean "barre" tag). Read back, both encodings give the same fretting: the dots (0, 3) and
(2, 3) and a barre at fret 1 from string 0 to string 5. -/
theorem open_ended_fixture_dual_encoding :
    Fixture.state0.emitted (write_FretDiagram Fixture.barreDiagram Fixture.state0)
      = [XmlEvent.startElement "FretDiagram" [],
          XmlEvent.startElement "fretDiagram" [],
            XmlEvent.startElement "string" [("no", PropertyValue.int 0)],
              XmlEvent.tag "dot" [("fret", PropertyValue.int 3)] (PropertyValue.string "normal"),
            XmlEvent.endElement,
            XmlEvent.startElement "string" [("no", PropertyValue.int 2)],
              XmlEvent.tag "dot" [("fret", PropertyValue.int 3)] (PropertyValue.string "normal"),
            XmlEvent.endElement,
            XmlEvent.tag "barre" [("start", PropertyValue.int 0), ("end", PropertyValue.int (-1))]
              (PropertyValue.int 1),
          XmlEvent.endElement,
          XmlEvent.startElement "string" [("no", PropertyValue.int 0)],
            XmlEvent.tag "dot" [] (PropertyValue.int 3),
            XmlEvent.tag "dot" [] (PropertyValue.int 1),
          XmlEvent.endElement,
          XmlEvent.startElement "string" [("no", PropertyValue.int 2)],
            XmlEvent.tag "dot" [] (PropertyValue.int 3),
          XmlEvent.endElement,
          XmlEvent.tag "barre" [] (PropertyValue.int 1),
        XmlEvent.endElement]
    ∧ readNew 6 (Fixture.state0.emitted (write_FretDiagram Fixture.barreDiagram Fixture.state0))
        = { dots := [(0, 3), (2, 3)], barres := [(1, 0, 5)] }
    ∧ readLegacy 6
          (Fixture.state0.emitted (write_FretDiagram Fixture.barreDiagram Fixture.state0))
        = { dots := [(0, 3), (2, 3)], barres := [(1, 0, 5)] }
    ∧ readNew 6 (Fixture.state0.emitted (write_FretDiagram Fixture.barreDiagram Fixture.state0))
        = readLegacy 6
            (Fixture.state0.emitted (write_FretDiagram Fixture.barreDiagram Fixture.state0)) := by
  rw [write_FretDiagram_fretItem Fixture.barreDiagram rfl rfl]
  decide

end FretDiagramWriter

section AutoplaceStyle

open TWrite

theorem setStyleValue_enabled (w : WriteState) (score : Nat) (sid : Sid)
    (h : w.styleB score sid = true) :
    w.setStyleValue score sid (PropertyValue.bool true) = w := by
  have hv : w.styles score sid = PropertyValue.bool true := by
    unfold WriteState.styleB MStyle.styleB at h
    split at h
    · rename_i b hb; rw [hb, h]
    · simp at h
  unfold WriteState.setStyleValue
  have : (fun s => if s = score then (w.styles s).set sid (PropertyValue.bool true)
      else w.styles s) = w.styles := by
    funext s
    split
    · rename_i hs
      subst hs
      funext x
      unfold MStyle.set
      split
      · rename_i hx; rw [hx, hv]
      · rfl
    · rfl
  rw [this]

theorem setStyleValue_setStyleValue (w : WriteState) (score : Nat) (sid : Sid)
    (u v : PropertyValue) :
    (w.setStyleValue score sid u).setStyleValue score sid v = w.setStyleValue score sid v := by
  unfold WriteState.setStyleValue
  congr 1
  funext s
  by_cases hs : s = score
  · simp only [hs, if_true]
    funext x
    unfold MStyle.set
    split <;> rfl
  · simp only [hs, if_false]

theorem styles_of_appends {P : XmlEvent → Bool} {w w2 : WriteState} (h : Appends P w w2) :
    w2.styles = w.styles := by
  obtain ⟨es, rfl, _⟩ := h
  rfl

theorem setStyleValue_restore (w : WriteState) (score : Nat) (sid : Sid) (v : PropertyValue)
    (h : w.styles score sid = v) : (w.setStyleValue score sid v).styles = w.styles := by
  unfold WriteState.setStyleValue
  funext s
  by_cases hs : s = score
  · subst hs
    simp only [if_true]
    funext x
    unfold MStyle.set
    split
    · rename_i hx; rw [hx, h]
    · rfl
  · simp only [hs, if_false]

theorem styles_writeAutoplace (item : EngravingItem) (w : WriteState) (b : Bool)
    (h : w.styles item.score Sid.autoplaceEnabled = PropertyValue.bool b) :
    (writeAutoplace item w).styles = w.styles := by
  have hb : w.styleB item.score Sid.autoplaceEnabled = b := by
    simp [WriteState.styleB, MStyle.styleB, h]
  dsimp only [writeAutoplace]
  split
  · rename_i hd
    obtain ⟨es, hes, _⟩ := writeProperty_appends item
      (w.setStyleValue item.score Sid.autoplaceEnabled (PropertyValue.bool true)) Pid.AUTOPLACE
    rw [hes]
    have : ((w.setStyleValue item.score Sid.autoplaceEnabled (PropertyValue.bool true)).appendOut
        es).setStyleValue item.score Sid.autoplaceEnabled
          (PropertyValue.bool (w.styleB item.score Sid.autoplaceEnabled))
        = ((w.setStyleValue item.score Sid.autoplaceEnabled (PropertyValue.bool true)).setStyleValue
            item.score Sid.autoplaceEnabled
              (PropertyValue.bool (w.styleB item.score Sid.autoplaceEnabled))).appendOut es := rfl
    rw [this, setStyleValue_setStyleValue, styles_appendOut, hb]
    exact setStyleValue_restore w _ _ _ h
  · exact styles_of_appends (writeProperty_appends item w Pid.AUTOPLACE)

theorem styles_writeItemProperties (item : EngravingItem) (w : WriteState) :
    (writeItemProperties item w).styles = (writeAutoplace item w).styles := by
  have hT : Appends XmlEvent.isItemTag (writeLinkTag item (writeAutoplace item w))
      (writeItemProperties item w) :=
    appends_trans (appends_trans (appends_trans (writeTrackTag_appends item _)
      (writePositionTag_appends item _)) (writeLayerTag_appends item _))
      (writeNoStyleProperties_appends item _)
  rw [styles_of_appends hT, writeLinkTag_eq]
  rfl

/-- C11: `writeItemProperties` leaves every style value of every score as it found it, the
autoplace style of the item's score included, whether that style was enabled or disabled on
entry. -/
theorem writeItemProperties_restores_styles (item : EngravingItem) (w : WriteState) (b : Bool)
    (h : w.styles item.score Sid.autoplaceEnabled = PropertyValue.bool b) :
    (writeItemProperties item w).styles = w.styles
      ∧ (writeItemProperties item w).styles item.score Sid.autoplaceEnabled
          = PropertyValue.bool b := by
  have hs := (styles_writeItemProperties item w).trans (styles_writeAutoplace item w b h)
  exact ⟨hs, by rw [hs, h]⟩

theorem writeItemProperties_restores_styles_witness :
    Fixture.disabledState.styles Fixture.manualItem.score Sid.autoplaceEnabled
        = PropertyValue.bool false
      ∧ (writeItemProperties Fixture.manualItem Fixture.disabledState).styles
          = Fixture.disabledState.styles :=
  ⟨rfl, (writeItemProperties_restores_styles Fixture.manualItem Fixture.disabledState false
    rfl).1⟩

end AutoplaceStyle

section AutoplaceOutput

open TWrite

theorem writeProperty_appends_write (item : EngravingItem) (w : WriteState) (pid : Pid) :
    Appends (XmlEvent.isPropertyWrite pid) w (writeProperty item w pid) := by
  dsimp only [writeProperty]
  split_ifs
  all_goals first
    | exact appends_refl _ _
    | (dsimp only [writeFontStyle]
       apply appends_condTag _ _ _ (by simp [XmlEvent.isPropertyWrite])
       apply appends_condTag _ _ _ (by simp [XmlEvent.isPropertyWrite])
       apply appends_condTag _ _ _ (by simp [XmlEvent.isPropertyWrite])
       apply appends_condTag _ _ _ (by simp [XmlEvent.isPropertyWrite])
       exact appends_refl _ _)
    | (split
       · exact appends_refl _ _
       · unfold WriteState.tagProperty
         split
         · exact appends_refl _ _
         · exact appends_emit _ _ _ (by simp [XmlEvent.isPropertyWrite]))

theorem writeProperty_appends_property (item : EngravingItem) (w : WriteState) (pid : Pid)
    (hpid : pid ≠ Pid.FONT_STYLE) :
    Appends (XmlEvent.isPropertyOf pid) w (writeProperty item w pid) := by
  dsimp only [writeProperty]
  rw [if_neg hpid]
  split_ifs
  all_goals first
    | exact appends_refl _ _
    | (split
       · exact appends_refl _ _
       · unfold WriteState.tagProperty
         split
         · exact appends_refl _ _
         · exact appends_emit _ _ _ (by simp [XmlEvent.isPropertyOf]))

/-- The autoplace block writes what `writeProperty` writes for the autoplace property under
the style sheet with autoplace enabled, whatever the style was on entry. -/
theorem writeAutoplace_eq (item : EngravingItem) (w : WriteState) :
    ∃ A, (∀ e ∈ A, XmlEvent.isPropertyOf Pid.AUTOPLACE e = true)
      ∧ writeProperty item
          (w.setStyleValue item.score Sid.autoplaceEnabled (PropertyValue.bool true))
          Pid.AUTOPLACE
        = (w.setStyleValue item.score Sid.autoplaceEnabled
            (PropertyValue.bool true)).appendOut A
      ∧ writeAutoplace item w
        = { w.appendOut A with styles := (writeAutoplace item w).styles } := by
  obtain ⟨A, hA, hP⟩ := writeProperty_appends_property item
    (w.setStyleValue item.score Sid.autoplaceEnabled (PropertyValue.bool true)) Pid.AUTOPLACE
    (by decide)
  refine ⟨A, hP, hA, ?_⟩
  by_cases hd : w.styleB item.score Sid.autoplaceEnabled = true
  · have hw := setStyleValue_enabled w item.score Sid.autoplaceEnabled hd
    rw [hw] at hA
    have : writeAutoplace item w = writeProperty item w Pid.AUTOPLACE := by
      simp [writeAutoplace, hd]
    rw [this, hA]
  · have : writeAutoplace item w
        = (writeProperty item
            (w.setStyleValue item.score Sid.autoplaceEnabled (PropertyValue.bool true))
            Pid.AUTOPLACE).setStyleValue item.score Sid.autoplaceEnabled
              (PropertyValue.bool (w.styleB item.score Sid.autoplaceEnabled)) := by
      simp [writeAutoplace, hd]
    rw [this, hA]
    rfl

theorem writeTrackTag_eq (item : EngravingItem) (w : WriteState) :
    writeTrackTag item w
      = w.appendOut
          (if (w.xml.context.writeTrack = true ∨ item.track ≠ w.xml.context.curTrack)
              ∧ item.track ≠ nidx ∧ item.isBeam = false then
            [XmlEvent.tag "track" []
              (PropertyValue.int (toInt32 (toInt32 item.track + w.xml.context.trackDiff)))]
          else []) := by
  unfold writeTrackTag
  by_cases h : (w.xml.context.writeTrack = true ∨ item.track ≠ w.xml.context.curTrack)
      ∧ item.track ≠ nidx ∧ item.isBeam = false
  · have h' : (w.ctx.writeTrack = true ∨ item.track ≠ w.ctx.curTrack) ∧ item.track ≠ nidx
        ∧ (!item.isBeam) = true := by simpa [WriteState.ctx] using h
    rw [if_pos h, if_pos h']
    rfl
  · have h' : ¬ ((w.ctx.writeTrack = true ∨ item.track ≠ w.ctx.curTrack) ∧ item.track ≠ nidx
        ∧ (!item.isBeam) = true) := by simpa [WriteState.ctx] using h
    rw [if_neg h, if_neg h', appendOut_nil]

theorem linkContext_track (item : EngravingItem) (ctx : WriteContext) :
    (linkContext item ctx).writeTrack = ctx.writeTrack
      ∧ (linkContext item ctx).curTrack = ctx.curTrack
      ∧ (linkContext item ctx).trackDiff = ctx.trackDiff := by
  unfold linkContext
  split
  · split
    · split <;> exact ⟨rfl, rfl, rfl⟩
    · exact ⟨rfl, rfl, rfl⟩
  · exact ⟨rfl, rfl, rfl⟩

theorem propertyWrite_isTailTag (pid : Pid)
    (hpid : pid = Pid.OFFSET ∨ pid = Pid.COLOR ∨ pid = Pid.VISIBLE ∨ pid = Pid.Z
      ∨ pid = Pid.PLACEMENT) :
    ∀ e, XmlEvent.isPropertyWrite pid e = true → XmlEvent.isTailTag e = true := by
  intro e he
  cases e with
  | tagProperty p v =>
    simp only [XmlEvent.isPropertyWrite, beq_iff_eq] at he
    subst he
    rcases hpid with h | h | h | h | h <;> subst h <;> rfl
  | tag name attrs v =>
    simp only [XmlEvent.isPropertyWrite, Bool.or_eq_true, beq_iff_eq] at he
    simp only [XmlEvent.isTailTag, Bool.or_eq_true, beq_iff_eq]
    exact Or.inl he
  | _ => simp [XmlEvent.isPropertyWrite] at he

theorem writeItemProperties_tail (item : EngravingItem) (w : WriteState) :
    Appends XmlEvent.isTailTag w
      (writeNoStyleProperties item (writeLayerTag item (writePositionTag item w))) := by
  have hpos : Appends XmlEvent.isTailTag w (writePositionTag item w) := by
    unfold writePositionTag WriteState.tagProperty
    split_ifs
    · exact appends_refl _ _
    · exact appends_emit _ _ _ (by simp [XmlEvent.isTailTag])
    · exact appends_refl _ _
  have hlay : ∀ w, Appends XmlEvent.isTailTag w (writeLayerTag item w) := by
    intro w
    unfold writeLayerTag
    split
    · split
      · exact appends_emit _ _ _ (by simp [XmlEvent.isTailTag])
      · exact appends_refl _ _
    · exact appends_refl _ _
  have hstep : ∀ (w : WriteState) (pid : Pid),
      (pid = Pid.OFFSET ∨ pid = Pid.COLOR ∨ pid = Pid.VISIBLE ∨ pid = Pid.Z
        ∨ pid = Pid.PLACEMENT) →
      Appends XmlEvent.isTailTag w
        (if item.propertyFlags pid = PropertyFlags.NOSTYLE then writeProperty item w pid
         else w) := by
    intro w pid hpid
    split
    · exact appends_mono (propertyWrite_isTailTag pid hpid) (writeProperty_appends_write _ _ _)
    · exact appends_refl _ _
  have hno : ∀ w, Appends XmlEvent.isTailTag w (writeNoStyleProperties item w) := by
    intro w
    simp only [writeNoStyleProperties, List.foldl_cons, List.foldl_nil]
    exact appends_trans (appends_trans (appends_trans (appends_trans
      (hstep _ _ (by simp)) (hstep _ _ (by simp))) (hstep _ _ (by simp)))
      (hstep _ _ (by simp))) (hstep _ _ (by simp))
  exact appends_trans (appends_trans hpos (hlay _)) (hno _)

/-- The output of `writeItemProperties` part by part: the autoplace property, the link tag,
the track tag, then position, layer and the closing loop. -/
theorem writeItemProperties_parts (item : EngravingItem) (w : WriteState) :
    ∃ A T, (∀ e ∈ A, XmlEvent.isPropertyOf Pid.AUTOPLACE e = true)
      ∧ writeProperty item
          (w.setStyleValue item.score Sid.autoplaceEnabled (PropertyValue.bool true))
          Pid.AUTOPLACE
        = (w.setStyleValue item.score Sid.autoplaceEnabled
            (PropertyValue.bool true)).appendOut A
      ∧ (∀ e ∈ T, XmlEvent.isTailTag e = true)
      ∧ w.emitted (writeItemProperties item w)
        = A ++ linkEvents item w.xml.context w.scores w.globals
            ++ (if (w.xml.context.writeTrack = true ∨ item.track ≠ w.xml.context.curTrack)
                  ∧ item.track ≠ nidx ∧ item.isBeam = false then
                [XmlEvent.tag "track" []
                  (PropertyValue.int
                    (toInt32 (toInt32 item.track + w.xml.context.trackDiff)))]
              else [])
            ++ T := by
  obtain ⟨A, hAP, hA, hw1⟩ := writeAutoplace_eq item w
  obtain ⟨T, hT, hTP⟩ := writeItemProperties_tail item
    (writeTrackTag item (writeLinkTag item (writeAutoplace item w)))
  refine ⟨A, T, hAP, hA, hTP, ?_⟩
  have hdef : writeItemProperties item w
      = writeNoStyleProperties item (writeLayerTag item (writePositionTag item
          (writeTrackTag item (writeLinkTag item (writeAutoplace item w))))) := rfl
  obtain ⟨h1, h2, h3⟩ := linkContext_track item w.xml.context
  rw [hdef, hT, writeTrackTag_eq, writeLinkTag_eq, hw1]
  simp only [WriteState.appendOut, WriteState.setCtx, WriteState.emitted, h1, h2, h3,
    List.append_assoc, List.drop_left]


theorem filter_eq_self_of_forall (p : XmlEvent → Bool) (A : List XmlEvent)
    (hA : ∀ e ∈ A, p e = true) : A.filter p = A :=
  List.filter_eq_self.mpr hA

theorem filter_eq_nil_of_forall (p q : XmlEvent → Bool) (hpq : ∀ e, q e = true → p e = false)
    (A : List XmlEvent) (hA : ∀ e ∈ A, q e = true) : A.filter p = [] := by
  rw [List.filter_eq_nil_iff]
  intro e he
  simp [hpq e (hA e he)]

theorem linkEvent_not_property (pid : Pid) :
    ∀ e, XmlEvent.isLinkEvent e = true → XmlEvent.isPropertyOf pid e = false := by
  intro e he
  cases e <;> simp_all [XmlEvent.isLinkEvent, XmlEvent.isPropertyOf]

theorem tailTag_not_autoplace :
    ∀ e, XmlEvent.isTailTag e = true → XmlEvent.isPropertyOf Pid.AUTOPLACE e = false := by
  intro e he
  cases e with
  | tagProperty p v =>
    simp only [XmlEvent.isTailTag, Bool.or_eq_true, beq_iff_eq] at he
    simp only [XmlEvent.isPropertyOf, beq_eq_false_iff_ne, ne_eq]
    rcases he with ((((h | h) | h) | h) | h) | h <;> subst h <;> decide
  | _ => simp [XmlEvent.isPropertyOf]

theorem emitted_autoplace_filter (item : EngravingItem) (w : WriteState) :
    (w.emitted (writeItemProperties item w)).filter (XmlEvent.isPropertyOf Pid.AUTOPLACE)
      = (w.setStyleValue item.score Sid.autoplaceEnabled (PropertyValue.bool true)).emitted
          (writeProperty item
            (w.setStyleValue item.score Sid.autoplaceEnabled (PropertyValue.bool true))
            Pid.AUTOPLACE) := by
  obtain ⟨A, T, hAP, hA, hTP, h⟩ := writeItemProperties_parts item w
  rw [h, hA, emitted_appendOut, List.filter_append, List.filter_append, List.filter_append,
    filter_eq_self_of_forall _ A hAP,
    filter_eq_nil_of_forall _ _ (linkEvent_not_property Pid.AUTOPLACE) _
      (mem_linkEvents_isLinkEvent item _ _ _),
    filter_eq_nil_of_forall _ _ tailTag_not_autoplace T hTP]
  split <;> simp [XmlEvent.isPropertyOf]

/-- C12: the autoplace property tag written by `writeItemProperties` does not depend on the
value of the autoplace style of the score: two states that differ only in that value give
the same tag or both none, namely what `writeProperty` writes for the autoplace property
with the style enabled. -/
theorem autoplace_output_independent_of_toggle (item : EngravingItem) (w : WriteState)
    (v1 v2 : PropertyValue) :
    ((w.setStyleValue item.score Sid.autoplaceEnabled v1).emitted
        (writeItemProperties item (w.setStyleValue item.score Sid.autoplaceEnabled v1))).filter
        (XmlEvent.isPropertyOf Pid.AUTOPLACE)
      = ((w.setStyleValue item.score Sid.autoplaceEnabled v2).emitted
          (writeItemProperties item (w.setStyleValue item.score Sid.autoplaceEnabled v2))).filter
          (XmlEvent.isPropertyOf Pid.AUTOPLACE)
    ∧ ((w.setStyleValue item.score Sid.autoplaceEnabled v1).emitted
        (writeItemProperties item (w.setStyleValue item.score Sid.autoplaceEnabled v1))).filter
        (XmlEvent.isPropertyOf Pid.AUTOPLACE)
      = (w.setStyleValue item.score Sid.autoplaceEnabled (PropertyValue.bool true)).emitted
          (writeProperty item
            (w.setStyleValue item.score Sid.autoplaceEnabled (PropertyValue.bool true))
            Pid.AUTOPLACE) := by
  have h1 := emitted_autoplace_filter item (w.setStyleValue item.score Sid.autoplaceEnabled v1)
  have h2 := emitted_autoplace_filter item (w.setStyleValue item.score Sid.autoplaceEnabled v2)
  rw [setStyleValue_setStyleValue] at h1 h2
  exact ⟨h1.trans h2.symm, h1⟩

theorem toInt32_of_range (n : Int) (h1 : -2 ^ 31 ≤ n) (h2 : n < 2 ^ 31) : toInt32 n = n := by
  unfold toInt32
  rw [Int.emod_eq_of_lt (by omega) (by omega)]
  omega

theorem tailTag_not_track :
    ∀ e, XmlEvent.isTailTag e = true → XmlEvent.isTagNamed "track" e = false := by
  intro e he
  cases e with
  | tag name attrs v =>
    simp only [XmlEvent.isTailTag, Bool.or_eq_true, beq_iff_eq] at he
    simp only [XmlEvent.isTagNamed, beq_eq_false_iff_ne, ne_eq]
    rintro rfl
    rcases he with (((h | h) | h) | h) | h <;> exact absurd h (by decide)
  | _ => simp [XmlEvent.isTagNamed]

theorem property_not_tagNamed (pid : Pid) (n : String) :
    ∀ e, XmlEvent.isPropertyOf pid e = true → XmlEvent.isTagNamed n e = false := by
  intro e he
  cases e <;> simp_all [XmlEvent.isPropertyOf, XmlEvent.isTagNamed]

theorem linkEvent_not_track :
    ∀ e, XmlEvent.isLinkEvent e = true → XmlEvent.isTagNamed "track" e = false := by
  intro e he
  cases e with
  | tag name attrs v =>
    simp only [XmlEvent.isLinkEvent, Bool.or_eq_true, beq_iff_eq] at he
    simp only [XmlEvent.isTagNamed, beq_eq_false_iff_ne, ne_eq]
    rintro rfl
    rcases he with ((h | h) | h) | h <;> exact absurd h (by decide)
  | _ => simp [XmlEvent.isTagNamed]

/-- C14: `writeItemProperties` writes a "track" tag exactly when the context forces track
output or the item's track differs from the current track, the track is not `nidx` and the
item is not a beam; there is then one such tag and its value is the item's track plus the
track offset of the context (the sum being taken within the range of `int`). -/
theorem track_tag_iff (item : EngravingItem) (w : WriteState)
    (hr : item.track ≠ nidx → (item.track : Int) < 2 ^ 31
      ∧ -2 ^ 31 ≤ (item.track : Int) + w.xml.context.trackDiff
      ∧ (item.track : Int) + w.xml.context.trackDiff < 2 ^ 31) :
    (w.emitted (writeItemProperties item w)).filter (XmlEvent.isTagNamed "track")
        = trackEvents item w.xml.context
      ∧ ((w.emitted (writeItemProperties item w)).any (XmlEvent.isTagNamed "track") = true
          ↔ (w.xml.context.writeTrack = true ∨ item.track ≠ w.xml.context.curTrack)
            ∧ item.track ≠ nidx ∧ item.isBeam = false) := by
  have hf : (w.emitted (writeItemProperties item w)).filter (XmlEvent.isTagNamed "track")
      = trackEvents item w.xml.context := by
    obtain ⟨A, T, hAP, hA, hTP, h⟩ := writeItemProperties_parts item w
    rw [h, List.filter_append, List.filter_append, List.filter_append,
      filter_eq_nil_of_forall _ _ (property_not_tagNamed Pid.AUTOPLACE "track") A hAP,
      filter_eq_nil_of_forall _ _ linkEvent_not_track _
        (mem_linkEvents_isLinkEvent item _ _ _),
      filter_eq_nil_of_forall _ _ tailTag_not_track T hTP]
    unfold trackEvents
    split
    · rename_i hc
      obtain ⟨h1, h2, h3⟩ := hr hc.2.1
      rw [toInt32_of_range (item.track : Int) (by omega) h1, toInt32_of_range _ h2 h3]
      simp [XmlEvent.isTagNamed]
    · simp
  refine ⟨hf, ?_⟩
  rw [any_eq_any_filter, hf]
  unfold trackEvents
  split <;> simp_all

theorem track_tag_iff_witness :
    (Fixture.trackState.emitted
        (writeItemProperties Fixture.trackItem Fixture.trackState)).filter
        (XmlEvent.isTagNamed "track")
      = [XmlEvent.tag "track" [] (PropertyValue.int 1)] :=
  (track_tag_iff Fixture.trackItem Fixture.trackState
    (fun _ => ⟨by decide, by decide, by decide⟩)).1.trans (by decide)

end AutoplaceOutput

section AutoplaceFailure

open TWrite

theorem styleB_setStyleValue (w : WriteState) (score : Nat) (sid : Sid) (b : Bool) :
    (w.setStyleValue score sid (PropertyValue.bool b)).styleB score sid = b := by
  simp [WriteState.styleB, WriteState.setStyleValue, MStyle.set, MStyle.styleB]

theorem writeAutoplace_disabled (item : EngravingItem) (w : WriteState)
    (hd : w.styleB item.score Sid.autoplaceEnabled = false) :
    writeAutoplace item w
      = (writeProperty item
          (w.setStyleValue item.score Sid.autoplaceEnabled (PropertyValue.bool true))
          Pid.AUTOPLACE).setStyleValue item.score Sid.autoplaceEnabled
            (PropertyValue.bool false) := by
  simp [writeAutoplace, hd]

/-- C13, as stated, fails: on a score whose autoplace style is disabled, a property write
that throws leaves the autoplace block with the style still enabled. -/
theorem autoplace_toggle_not_restored_on_throw :
    Fixture.disabledState.styleB Fixture.manualItem.score Sid.autoplaceEnabled = false
      ∧ (writeAutoplaceOver (fun _ w _ => Outcome.thrown w) Fixture.manualItem
          Fixture.disabledState).isThrown = true
      ∧ (writeAutoplaceOver (fun _ w _ => Outcome.thrown w) Fixture.manualItem
          Fixture.disabledState).state.styleB Fixture.manualItem.score Sid.autoplaceEnabled
          = true := by
  decide

theorem writeAutoplaceOver_returned (item : EngravingItem) (w : WriteState) :
    writeAutoplaceOver (fun i v p => Outcome.returned (writeProperty i v p)) item w
      = Outcome.returned (writeAutoplace item w) := by
  unfold writeAutoplaceOver writeAutoplace
  cases w.styleB item.score Sid.autoplaceEnabled <;> simp

theorem styleB_of_styles (v w : WriteState) (score : Nat) (sid : Sid)
    (h : v.styles = w.styles) : v.styleB score sid = w.styleB score sid := by
  simp [WriteState.styleB, h]

/-- C13, amended: the temporary toggle is restored exactly on the exit path on which the
property write returns. With the style disabled on entry, for every property write, which
is run with the style enabled: when it returns, the autoplace block returns and the style
is disabled again; when it fails, the exception leaves the block with the state the write
reached, the assignment of line 162 is not run, and the style is left as the failing write
left it, enabled unless that write changed the style sheets. For a write that leaves the
style sheets alone, the style is disabled at the exit iff the block was left by a return. -/
theorem autoplace_toggle_restored_only_on_return
    (writeP : EngravingItem → WriteState → Pid → Outcome) (item : EngravingItem)
    (w : WriteState) (hd : w.styleB item.score Sid.autoplaceEnabled = false) :
    (∀ w1 : WriteState,
        writeP item (w.setStyleValue item.score Sid.autoplaceEnabled (PropertyValue.bool true))
          Pid.AUTOPLACE = Outcome.returned w1 →
        writeAutoplaceOver writeP item w
            = Outcome.returned
                (w1.setStyleValue item.score Sid.autoplaceEnabled (PropertyValue.bool false))
          ∧ (writeAutoplaceOver writeP item w).state.styleB item.score Sid.autoplaceEnabled
              = false)
      ∧ (∀ w1 : WriteState,
          writeP item (w.setStyleValue item.score Sid.autoplaceEnabled (PropertyValue.bool true))
            Pid.AUTOPLACE = Outcome.thrown w1 →
          writeAutoplaceOver writeP item w = Outcome.thrown w1
            ∧ (w1.styles
                = (w.setStyleValue item.score Sid.autoplaceEnabled
                    (PropertyValue.bool true)).styles →
              (writeAutoplaceOver writeP item w).state.styleB item.score Sid.autoplaceEnabled
                = true))
      ∧ ((writeP item (w.setStyleValue item.score Sid.autoplaceEnabled (PropertyValue.bool true))
            Pid.AUTOPLACE).state.styles
          = (w.setStyleValue item.score Sid.autoplaceEnabled (PropertyValue.bool true)).styles →
        ((writeAutoplaceOver writeP item w).state.styleB item.score Sid.autoplaceEnabled = false
          ↔ (writeAutoplaceOver writeP item w).isThrown = false)) := by
  have hret : ∀ w1 : WriteState,
      writeP item (w.setStyleValue item.score Sid.autoplaceEnabled (PropertyValue.bool true))
        Pid.AUTOPLACE = Outcome.returned w1 →
      writeAutoplaceOver writeP item w
        = Outcome.returned
            (w1.setStyleValue item.score Sid.autoplaceEnabled (PropertyValue.bool false)) := by
    intro w1 h
    simp [writeAutoplaceOver, hd, h]
  have hthr : ∀ w1 : WriteState,
      writeP item (w.setStyleValue item.score Sid.autoplaceEnabled (PropertyValue.bool true))
        Pid.AUTOPLACE = Outcome.thrown w1 →
      writeAutoplaceOver writeP item w = Outcome.thrown w1 := by
    intro w1 h
    simp [writeAutoplaceOver, hd, h]
  have hon : ∀ w1 : WriteState,
      w1.styles
        = (w.setStyleValue item.score Sid.autoplaceEnabled (PropertyValue.bool true)).styles →
      w1.styleB item.score Sid.autoplaceEnabled = true := by
    intro w1 h
    rw [styleB_of_styles w1 _ item.score Sid.autoplaceEnabled h, styleB_setStyleValue]
  refine ⟨fun w1 h => ⟨hret w1 h, ?_⟩, fun w1 h => ⟨hthr w1 h, fun hs => ?_⟩, fun hs => ?_⟩
  · rw [hret w1 h]
    exact styleB_setStyleValue _ _ _ _
  · rw [hthr w1 h]
    exact hon w1 hs
  · cases h : writeP item
        (w.setStyleValue item.score Sid.autoplaceEnabled (PropertyValue.bool true))
        Pid.AUTOPLACE with
    | returned w1 =>
      rw [hret w1 h]
      simp [Outcome.state, Outcome.isThrown, styleB_setStyleValue]
    | thrown w1 =>
      rw [h] at hs
      rw [hthr w1 h]
      simp [Outcome.state, Outcome.isThrown, hon w1 hs]

theorem autoplace_toggle_restored_only_on_return_witness :
    Fixture.disabledState.styleB Fixture.manualItem.score Sid.autoplaceEnabled = false
      ∧ writeAutoplaceOver (fun _ w _ => Outcome.thrown (w.emit (XmlEvent.write 2)))
          Fixture.manualItem Fixture.disabledState
        = Outcome.thrown
            ((Fixture.disabledState.setStyleValue Fixture.manualItem.score
              Sid.autoplaceEnabled (PropertyValue.bool true)).emit (XmlEvent.write 2))
      ∧ (writeAutoplaceOver (fun _ w _ => Outcome.thrown (w.emit (XmlEvent.write 2)))
          Fixture.manualItem Fixture.disabledState).state.styleB Fixture.manualItem.score
            Sid.autoplaceEnabled = true :=
  ⟨rfl,
   ((autoplace_toggle_restored_only_on_return
      (fun _ w _ => Outcome.thrown (w.emit (XmlEvent.write 2)))
      Fixture.manualItem Fixture.disabledState rfl).2.1 _ rfl).1,
   ((autoplace_toggle_restored_only_on_return
      (fun _ w _ => Outcome.thrown (w.emit (XmlEvent.write 2)))
      Fixture.manualItem Fixture.disabledState rfl).2.1 _ rfl).2 rfl⟩

end AutoplaceFailure

section Stepping

open TWrite

theorem openBy_nil : OpenBy 0 [] := by
  refine ⟨rfl, fun n => ?_⟩
  simp

theorem openBy_append {k j : Nat} {a b : List XmlEvent} (ha : OpenBy k a) (hb : OpenBy j b) :
    OpenBy (k + j) (a ++ b) := by
  obtain ⟨ha1, ha2⟩ := ha
  obtain ⟨hb1, hb2⟩ := hb
  refine ⟨by simp only [List.countP_append]; omega, fun n => ?_⟩
  rw [List.take_append_eq_append_take]
  simp only [List.countP_append]
  by_cases hn : n ≤ a.length
  · have h0 : n - a.length = 0 := by omega
    have := ha2 n
    simp only [h0, List.take_zero, List.countP_nil]
    omega
  · have ht : a.take n = a := List.take_of_length_le (by omega)
    have := hb2 (n - a.length)
    rw [ht]
    omega

theorem openBy_leaf (e : XmlEvent) (h : e.isStructural = false) : OpenBy 0 [e] := by
  have hs : e.isStart = false := by cases e <;> simp_all [XmlEvent.isStart, XmlEvent.isStructural]
  have he : e.isEnd = false := by cases e <;> simp_all [XmlEvent.isEnd, XmlEvent.isStructural]
  refine ⟨by simp [List.countP_cons, hs, he], fun n => ?_⟩
  cases n with
  | zero => simp
  | succ m => simp [List.countP_cons, hs, he]

theorem openBy_start (name : String) (attrs : List (String × PropertyValue)) :
    OpenBy 1 [XmlEvent.startElement name attrs] := by
  refine ⟨by simp [List.countP_cons, XmlEvent.isStart, XmlEvent.isEnd], fun n => ?_⟩
  cases n with
  | zero => simp
  | succ m => simp [List.countP_cons, XmlEvent.isStart, XmlEvent.isEnd]

theorem openBy_close {k : Nat} {a : List XmlEvent} (ha : OpenBy (k + 1) a) :
    OpenBy k (a ++ [XmlEvent.endElement]) := by
  obtain ⟨ha1, ha2⟩ := ha
  refine ⟨by simp [List.countP_append, List.countP_cons, XmlEvent.isStart, XmlEvent.isEnd]; omega,
    fun n => ?_⟩
  rw [List.take_append_eq_append_take]
  by_cases hn : n ≤ a.length
  · have h0 : n - a.length = 0 := by omega
    have := ha2 n
    simp only [h0, List.take_zero, List.append_nil]
    exact this
  · have ht : a.take n = a := List.take_of_length_le (by omega)
    rw [ht]
    have h1 : ([XmlEvent.endElement].take (n - a.length)).countP XmlEvent.isEnd ≤ 1 := by
      calc _ ≤ ([XmlEvent.endElement].take (n - a.length)).length := List.countP_le_length _
        _ ≤ 1 := by simp [List.length_take]
    have h2 : ([XmlEvent.endElement].take (n - a.length)).countP XmlEvent.isStart = 0 := by
      rw [List.countP_eq_zero]
      intro e he
      have := List.mem_of_mem_take he
      simp at this
      subst this
      simp [XmlEvent.isStart]
    simp only [List.countP_append]
    omega

theorem openBy_leaves (es : List XmlEvent) (h : ∀ e ∈ es, XmlEvent.isStructural e = false) :
    OpenBy 0 es := by
  induction es with
  | nil => exact openBy_nil
  | cons e es ih =>
    have := openBy_append (openBy_leaf e (h e (by simp))) (ih (fun x hx => h x (by simp [hx])))
    simpa using this

theorem steps_refl (P : XmlEvent → Bool) (w : WriteState) : Steps P 0 w w :=
  ⟨[], by simp, by simp, openBy_nil, rfl, rfl⟩

theorem steps_trans {P : XmlEvent → Bool} {k j : Nat} {w w1 w2 : WriteState}
    (h1 : Steps P k w w1) (h2 : Steps P j w1 w2) : Steps P (k + j) w w2 := by
  obtain ⟨a, ha, haP, hak, hs1, hg1⟩ := h1
  obtain ⟨b, hb, hbP, hbk, hs2, hg2⟩ := h2
  refine ⟨a ++ b, by rw [hb, ha, List.append_assoc], ?_, openBy_append hak hbk,
    hs2.trans hs1, hg2.trans hg1⟩
  intro e he
  rcases List.mem_append.mp he with h | h
  · exact haP e h
  · exact hbP e h

theorem steps_sub {P : XmlEvent → Bool} {k : Nat} {w w1 w2 : WriteState}
    (h2 : Steps P 0 w1 w2) (h1 : Steps P k w w1) : Steps P k w w2 :=
  steps_trans h1 h2

theorem steps_leaf {P : XmlEvent → Bool} {k : Nat} {w w1 : WriteState} (e : XmlEvent)
    (hP : P e = true) (hl : e.isStructural = false) (h : Steps P k w w1) :
    Steps P k w (w1.emit e) :=
  steps_sub ⟨[e], rfl, by simpa using hP, openBy_leaf e hl, rfl, rfl⟩ h

theorem steps_start {P : XmlEvent → Bool} {k : Nat} {w w1 : WriteState} (name : String)
    (attrs : List (String × PropertyValue)) (hP : P (XmlEvent.startElement name attrs) = true)
    (h : Steps P k w w1) : Steps P (k + 1) w (w1.startElement name attrs) :=
  steps_trans h ⟨[XmlEvent.startElement name attrs], rfl, by simpa using hP,
    openBy_start name attrs, rfl, rfl⟩

theorem steps_end {P : XmlEvent → Bool} {k : Nat} {w w1 : WriteState}
    (hP : P XmlEvent.endElement = true) (h : Steps P (k + 1) w w1) :
    Steps P k w w1.endElement := by
  obtain ⟨a, ha, haP, hak, hs1, hg1⟩ := h
  refine ⟨a ++ [XmlEvent.endElement], ?_, ?_, openBy_close hak, hs1, hg1⟩
  · show w1.xml.out ++ [XmlEvent.endElement] = _
    rw [ha, List.append_assoc]
  · intro e he
    rcases List.mem_append.mp he with h | h
    · exact haP e h
    · simp at h; subst h; exact hP

theorem steps_setCtx {P : XmlEvent → Bool} {k : Nat} {w w1 : WriteState} (c : WriteContext)
    (h : Steps P k w w1) : Steps P k w (w1.setCtx c) := by
  obtain ⟨a, ha, haP, hak, hs1, hg1⟩ := h
  exact ⟨a, ha, haP, hak, hs1, hg1⟩

theorem steps_ite {P : XmlEvent → Bool} {k : Nat} {w a b : WriteState} (c : Prop)
    [Decidable c] (ha : c → Steps P k w a) (hb : ¬ c → Steps P k w b) :
    Steps P k w (if c then a else b) := by
  split
  · exact ha ‹_›
  · exact hb ‹_›

theorem steps_foldl {α : Type} {P : XmlEvent → Bool} (f : WriteState → α → WriteState)
    (hf : ∀ w x, Steps P 0 w (f w x)) (xs : List α) {k : Nat} {w w1 : WriteState}
    (h : Steps P k w w1) : Steps P k w (xs.foldl f w1) := by
  induction xs generalizing w1 with
  | nil => exact h
  | cons x xs ih => exact ih (steps_sub (hf w1 x) h)

theorem steps_mono {P Q : XmlEvent → Bool} {k : Nat} {w w2 : WriteState}
    (hPQ : ∀ e, P e = true → Q e = true) (h : Steps P k w w2) : Steps Q k w w2 := by
  obtain ⟨a, ha, haP, hak, hs1, hg1⟩ := h
  exact ⟨a, ha, fun e he => hPQ e (haP e he), hak, hs1, hg1⟩

theorem steps_of_appends {P : XmlEvent → Bool} {w w2 : WriteState}
    (hl : ∀ e, P e = true → XmlEvent.isStructural e = false) (h : Appends P w w2) :
    Steps P 0 w w2 := by
  obtain ⟨es, rfl, hes⟩ := h
  exact ⟨es, rfl, hes, openBy_leaves es (fun e he => hl e (hes e he)), rfl, rfl⟩

theorem steps_toExtends {P : XmlEvent → Bool} {k : Nat} {w w2 : WriteState}
    (h : Steps P k w w2) : Extends P w w2 := by
  obtain ⟨a, ha, haP, _, hs1, hg1⟩ := h
  exact ⟨a, ha, haP, hs1, hg1⟩

theorem steps_emitted {P : XmlEvent → Bool} {k : Nat} {w w2 : WriteState}
    (h : Steps P k w w2) :
    w2.xml.out = w.xml.out ++ w.emitted w2 ∧ (∀ e ∈ w.emitted w2, P e = true)
      ∧ OpenBy k (w.emitted w2) := by
  obtain ⟨a, ha, haP, hak, _, _⟩ := h
  have : w.emitted w2 = a := by simp [WriteState.emitted, ha]
  rw [this]
  exact ⟨ha, haP, hak⟩

end Stepping

section ChordRestBlock

open TWrite

theorem itemEvent_of_linkEvent : ∀ e, XmlEvent.isLinkEvent e = true → XmlEvent.isItemEvent e = true := by
  intro e he
  simp [XmlEvent.isItemEvent, he]

theorem openBy_append_zero {k : Nat} {a b : List XmlEvent} (ha : OpenBy k a)
    (hb : OpenBy 0 b) : OpenBy k (a ++ b) :=
  openBy_append ha hb

theorem openBy_wrap {a : List XmlEvent} (name : String)
    (attrs : List (String × PropertyValue)) (ha : OpenBy 0 a) :
    OpenBy 0 ([XmlEvent.startElement name attrs] ++ a ++ [XmlEvent.endElement]) := by
  have h : OpenBy (0 + 1) ([XmlEvent.startElement name attrs] ++ a) :=
    openBy_append_zero (openBy_start name attrs) ha
  exact openBy_close h

theorem openBy_linkEvents (item : EngravingItem) (ctx : WriteContext) (scores : Nat → Score)
    (globals : Globals) : OpenBy 0 (linkEvents item ctx scores globals) := by
  unfold linkEvents
  split
  · split
    · have h1 : OpenBy 0 (if globals.debugMode = true then
          [XmlEvent.tag "lid" [] (PropertyValue.int ‹LinkedObjects›.lid)] else []) := by
        split
        · exact openBy_leaf _ rfl
        · exact openBy_nil
      refine openBy_append_zero h1 ?_
      split
      · exact openBy_leaf _ rfl
      · unfold linkedBlock
        have hin : OpenBy 0
            ((if (scores ‹LinkedObjects›.mainElement.score).isMaster = false
                  ∧ ‹LinkedObjects›.mainElement.score = item.score
              then [XmlEvent.tag "score" [] (PropertyValue.string "same")] else [])
            ++ (if linkedLocation item ctx scores ≠ ‹LinkedObjects›.mainElement.position
              then [XmlEvent.location
                      (‹LinkedObjects›.mainElement.position.toRelative
                        (linkedLocation item ctx scores))]
              else [])
            ++ (if ctx.lidLocalIndex ‹LinkedObjects›.lid
                  - guessedLocalIndex ‹LinkedObjects› ctx = 0 then []
              else [XmlEvent.tag "indexDiff" []
                      (PropertyValue.int (ctx.lidLocalIndex ‹LinkedObjects›.lid
                        - guessedLocalIndex ‹LinkedObjects› ctx))])) := by
          apply openBy_leaves
          intro e he
          simp only [List.mem_append] at he
          rcases he with (he | he) | he
          · split at he
            · simp at he; subst he; rfl
            · simp at he
          · split at he
            · simp at he; subst he; rfl
            · simp at he
          · split at he
            · simp at he
            · simp at he; subst he; rfl
        have := openBy_wrap "linked" [] hin
        simpa [List.append_assoc] using this
    · exact openBy_nil
  · exact openBy_nil

theorem writeItemProperties_steps (item : EngravingItem) (w : WriteState) :
    Steps XmlEvent.isItemEvent 0 w (writeItemProperties item w) := by
  obtain ⟨A, T, st, hA, hT, h⟩ := writeItemProperties_decomp item w
  refine ⟨A ++ linkEvents item w.xml.context w.scores w.globals ++ T, by rw [h], ?_, ?_,
    by rw [h], by rw [h]⟩
  · intro e he
    simp only [List.mem_append] at he
    rcases he with (he | he) | he
    · exact itemTag_isItemEvent e (hA e he)
    · exact itemEvent_of_linkEvent e (mem_linkEvents_isLinkEvent item _ _ _ e he)
    · exact itemTag_isItemEvent e (hT e he)
  · have h1 := openBy_leaves A (fun e he => itemTag_not_structural e (hA e he))
    have h2 := openBy_leaves T (fun e he => itemTag_not_structural e (hT e he))
    exact openBy_append (openBy_append h1 (openBy_linkEvents item _ _ _)) h2

theorem steps_writeItemProperties {P : XmlEvent → Bool} {k : Nat} {w w1 : WriteState}
    (item : EngravingItem) (hP : ∀ e, XmlEvent.isItemEvent e = true → P e = true)
    (h : Steps P k w w1) : Steps P k w (writeItemProperties item w1) :=
  steps_sub (steps_mono hP (writeItemProperties_steps item w1)) h

theorem steps_writeProperty {P : XmlEvent → Bool} {k : Nat} {w w1 : WriteState}
    (item : EngravingItem) (pid : Pid) (hP : ∀ e, XmlEvent.isItemEvent e = true → P e = true)
    (h : Steps P k w w1) : Steps P k w (writeProperty item w1 pid) :=
  steps_sub (steps_mono (fun e he => hP e (itemTag_isItemEvent e he))
    (steps_of_appends itemTag_not_structural (writeProperty_appends item w1 pid))) h

theorem steps_tag {P : XmlEvent → Bool} {k : Nat} {w w1 : WriteState} (name : String)
    (v : PropertyValue) (hP : P (XmlEvent.tag name [] v) = true) (h : Steps P k w w1) :
    Steps P k w (w1.tag name v) :=
  steps_leaf _ hP rfl h


theorem filter_sandwich (p : XmlEvent → Bool) {k j : Nat} {w w1 w3 : WriteState}
    (E : List XmlEvent) (h1 : Steps (fun e => !p e) k w w1)
    (h3 : Steps (fun e => !p e) j (w1.appendOut E) w3) :
    (w.emitted w3).filter p = E.filter p := by
  obtain ⟨a, ha, haP, _, _, _⟩ := h1
  obtain ⟨b, hb, hbP, _, _, _⟩ := h3
  have hout : w3.xml.out = w.xml.out ++ (a ++ E ++ b) := by
    rw [hb]
    show (w1.xml.out ++ E) ++ b = _
    rw [ha]
    simp [List.append_assoc]
  have hna : a.filter p = [] := by
    rw [List.filter_eq_nil_iff]
    intro e he
    simpa using haP e he
  have hnb : b.filter p = [] := by
    rw [List.filter_eq_nil_iff]
    intro e he
    simpa using hbP e he
  simp [WriteState.emitted, hout, List.filter_append, hna, hnb]

theorem itemEvent_not_tagNamed (n : String)
    (hn : n ≠ "bold" ∧ n ≠ "italic" ∧ n ≠ "underline" ∧ n ≠ "strike" ∧ n ≠ "track" ∧ n ≠ "tag"
      ∧ n ≠ "lid" ∧ n ≠ "linkedMain" ∧ n ≠ "score" ∧ n ≠ "indexDiff") :
    ∀ e, XmlEvent.isItemEvent e = true → (!XmlEvent.isTagNamed n e) = true := by
  intro e he
  cases e with
  | tag name attrs v =>
    simp only [XmlEvent.isItemEvent, XmlEvent.isItemTag, XmlEvent.isLinkEvent, Bool.or_eq_true,
      beq_iff_eq] at he
    simp only [XmlEvent.isTagNamed, Bool.not_eq_true', beq_eq_false_iff_ne, ne_eq]
    rintro rfl
    obtain ⟨h1, h2, h3, h4, h5, h6, h7, h8, h9, h10⟩ := hn
    rcases he with (((((h | h) | h) | h) | h) | h) | (((h | h) | h) | h) <;> contradiction
  | _ => simp [XmlEvent.isTagNamed]

theorem writeBeamMode_eq (c : ChordRest) (w : WriteState) :
    writeBeamMode c w = w.appendOut (beamModeEvents c w.globals) := by
  unfold writeBeamMode beamModeEvents
  simp only [tag_eq_appendOut, ite_appendOut_left]

theorem writeDuration_eq (c : ChordRest) (w : WriteState) :
    writeDuration c w
      = w.appendOut (if c.ticks.isZero = false ∧ c.hasNominalTicks = false
          then [durationTag c] else []) := by
  unfold writeDuration durationTag ChordRest.hasNominalTicks WriteState.tagFraction
  rw [emit_eq_appendOut, ite_appendOut_left]
  congr 1
  cases c.ticks.isZero <;> cases c.actualDurationType.fraction.isValid
    <;> cases c.actualDurationType.fraction.ne c.ticks <;> simp

theorem steps_writeBeamMode {n : String} {k : Nat} {w w1 : WriteState} (c : ChordRest)
    (hn : n ≠ "BeamMode") (h : Steps (fun e => !XmlEvent.isTagNamed n e) k w w1) :
    Steps (fun e => !XmlEvent.isTagNamed n e) k w (writeBeamMode c w1) := by
  unfold writeBeamMode
  exact steps_ite _ (fun _ => steps_tag _ _
    (by simpa [XmlEvent.isTagNamed] using Ne.symm hn) h) (fun _ => h)

theorem steps_writeDots {n : String} {k : Nat} {w w1 : WriteState} (c : ChordRest)
    (hn : n ≠ "dots") (h : Steps (fun e => !XmlEvent.isTagNamed n e) k w w1) :
    Steps (fun e => !XmlEvent.isTagNamed n e) k w (writeDots c w1) := by
  unfold writeDots
  exact steps_ite _ (fun _ => steps_tag _ _
    (by simpa [XmlEvent.isTagNamed] using Ne.symm hn) h) (fun _ => h)

theorem steps_writeDurationType {n : String} {k : Nat} {w w1 : WriteState} (c : ChordRest)
    (hn : n ≠ "durationType") (h : Steps (fun e => !XmlEvent.isTagNamed n e) k w w1) :
    Steps (fun e => !XmlEvent.isTagNamed n e) k w (writeDurationType c w1) := by
  unfold writeDurationType
  exact steps_ite _ (fun _ => steps_tag _ _
    (by simpa [XmlEvent.isTagNamed] using Ne.symm hn) h) (fun _ => h)

theorem steps_writeDuration {n : String} {k : Nat} {w w1 : WriteState} (c : ChordRest)
    (hn : n ≠ "duration") (h : Steps (fun e => !XmlEvent.isTagNamed n e) k w w1) :
    Steps (fun e => !XmlEvent.isTagNamed n e) k w (writeDuration c w1) := by
  unfold writeDuration
  exact steps_ite _ (fun _ => steps_leaf _
    (by simpa [XmlEvent.isTagNamed] using Ne.symm hn) rfl h) (fun _ => h)

theorem steps_writeLyrics {P : XmlEvent → Bool} {k : Nat} {w w1 : WriteState} (c : ChordRest)
    (hP : ∀ eid, P (XmlEvent.write eid) = true) (h : Steps P k w w1) :
    Steps P k w (writeLyrics c w1) := by
  unfold writeLyrics
  exact steps_foldl _ (fun w x => steps_leaf _ (hP x) rfl (steps_refl _ w)) _ h

theorem steps_advanceCurTick {P : XmlEvent → Bool} {k : Nat} {w w1 : WriteState}
    (c : ChordRest) (h : Steps P k w w1) : Steps P k w (advanceCurTick c w1) := by
  unfold advanceCurTick
  exact steps_ite _ (fun _ => steps_setCtx _ h) (fun _ => h)

theorem steps_writeSlurTags {P : XmlEvent → Bool} {k : Nat} {w w1 : WriteState}
    (c : ChordRest) (ss : List Spanner)
    (hP : ∀ e, XmlEvent.isSpannerTag e = true → P e = true) (h : Steps P k w w1) :
    Steps P k w (ss.foldl (writeSlurTag c) w1) := by
  refine steps_foldl _ (fun w s => ?_) _ h
  unfold writeSlurTag
  split_ifs
  · exact steps_refl _ _
  · exact steps_leaf _ (hP _ rfl) rfl (steps_refl _ _)
  · exact steps_leaf _ (hP _ rfl) rfl (steps_refl _ _)
  · exact steps_refl _ _

/-- C15: the chord-rest block writes a "BeamMode" tag exactly when the beam mode differs
from the default of the element's kind: for a rest when the mode is not `NONE`, for a chord
when it is not `AUTO`; the tag is then written once, with the name of the mode. -/
theorem beamMode_tag_iff (c : ChordRest) (w : WriteState) :
    (w.emitted (writeProperties_ChordRest c w)).filter (XmlEvent.isTagNamed "BeamMode")
        = beamModeEvents c w.globals
      ∧ ((w.emitted (writeProperties_ChordRest c w)).any (XmlEvent.isTagNamed "BeamMode") = true
          ↔ (c.item.isRest = true ∧ c.beamMode ≠ BeamMode.NONE)
            ∨ (c.item.isChord = true ∧ c.beamMode ≠ BeamMode.AUTO)) := by
  have hI := itemEvent_not_tagNamed "BeamMode" (by decide)
  have h1 : Steps (fun e => !XmlEvent.isTagNamed "BeamMode" e) 0 w
      (writeItemProperties c.item w) := steps_writeItemProperties c.item hI (steps_refl _ w)
  have hg : (writeItemProperties c.item w).globals = w.globals := by
    obtain ⟨_, _, _, _, _, hg⟩ := h1
    exact hg
  have h3 : Steps (fun e => !XmlEvent.isTagNamed "BeamMode" e) 0
      ((writeItemProperties c.item w).appendOut (beamModeEvents c w.globals))
      (writeProperties_ChordRest c w) := by
    rw [← hg, ← writeBeamMode_eq]
    dsimp only [writeProperties_ChordRest, writeChordRestHead]
    apply steps_writeSlurTags c _ (fun e he => by cases e <;> simp_all [XmlEvent.isSpannerTag, XmlEvent.isTagNamed])
    apply steps_advanceCurTick
    apply steps_writeLyrics c (fun _ => rfl)
    apply steps_writeDuration c (by decide)
    apply steps_writeDurationType c (by decide)
    apply steps_writeProperty _ _ hI
    apply steps_writeDots c (by decide)
    apply steps_writeProperty _ _ hI
    exact steps_refl _ _
  have hf := filter_sandwich (XmlEvent.isTagNamed "BeamMode") _ h1 h3
  have hE : (beamModeEvents c w.globals).filter (XmlEvent.isTagNamed "BeamMode")
      = beamModeEvents c w.globals := by
    unfold beamModeEvents
    split <;> simp [XmlEvent.isTagNamed]
  rw [hE] at hf
  refine ⟨hf, ?_⟩
  rw [any_eq_any_filter, hf]
  unfold beamModeEvents
  split <;> simp_all

/-- C16: the chord-rest block writes the "duration" tag exactly when the ticks of the
element are not zero and are not the valid nominal duration of its duration type; the tag
then carries the ticks. A chord-rest whose ticks are zero, or equal the valid fraction of
its actual duration type, gets no "duration" tag. -/
theorem duration_tag_iff (c : ChordRest) (w : WriteState) :
    (w.emitted (writeProperties_ChordRest c w)).filter (XmlEvent.isTagNamed "duration")
        = (if c.ticks.isZero = false ∧ c.hasNominalTicks = false then [durationTag c] else [])
      ∧ ((w.emitted (writeProperties_ChordRest c w)).any (XmlEvent.isTagNamed "duration") = true
          ↔ c.ticks.isZero = false
            ∧ ¬ (c.actualDurationType.fraction.isValid = true
                  ∧ c.actualDurationType.fraction.ne c.ticks = false)) := by
  have hI := itemEvent_not_tagNamed "duration" (by decide)
  have h1 : Steps (fun e => !XmlEvent.isTagNamed "duration" e) 0 w
      (writeDurationType c (writeProperty c.item (writeDots c (writeProperty c.item
        (writeBeamMode c (writeItemProperties c.item w)) Pid.SMALL)) Pid.STAFF_MOVE)) := by
    apply steps_writeDurationType c (by decide)
    apply steps_writeProperty _ _ hI
    apply steps_writeDots c (by decide)
    apply steps_writeProperty _ _ hI
    apply steps_writeBeamMode c (by decide)
    exact steps_writeItemProperties c.item hI (steps_refl _ w)
  have h3 : Steps (fun e => !XmlEvent.isTagNamed "duration" e) 0
      ((writeDurationType c (writeProperty c.item (writeDots c (writeProperty c.item
        (writeBeamMode c (writeItemProperties c.item w)) Pid.SMALL)) Pid.STAFF_MOVE)).appendOut
        (if c.ticks.isZero = false ∧ c.hasNominalTicks = false then [durationTag c] else []))
      (writeProperties_ChordRest c w) := by
    rw [← writeDuration_eq]
    dsimp only [writeProperties_ChordRest, writeChordRestHead]
    apply steps_writeSlurTags c _ (fun e he => by cases e <;> simp_all [XmlEvent.isSpannerTag, XmlEvent.isTagNamed])
    apply steps_advanceCurTick
    apply steps_writeLyrics c (fun _ => rfl)
    exact steps_refl _ _
  have hf := filter_sandwich (XmlEvent.isTagNamed "duration") _ h1 h3
  have hE : (if c.ticks.isZero = false ∧ c.hasNominalTicks = false then [durationTag c]
        else []).filter (XmlEvent.isTagNamed "duration")
      = (if c.ticks.isZero = false ∧ c.hasNominalTicks = false then [durationTag c]
          else []) := by
    split <;> simp [XmlEvent.isTagNamed, durationTag]
  rw [hE] at hf
  refine ⟨hf, ?_⟩
  rw [any_eq_any_filter, hf]
  unfold ChordRest.hasNominalTicks
  split <;> simp_all

end ChordRestBlock

section ChordRestCursor

open TWrite

theorem foldl_writeSlurTag (c : ChordRest) (ss : List Spanner) (w : WriteState) :
    ss.foldl (writeSlurTag c) w = w.appendOut (slurEvents c w.xml.context.canWrite ss) := by
  induction ss generalizing w with
  | nil => simp [slurEvents, appendOut_nil]
  | cons s ss ih =>
    have hs : writeSlurTag c w s = w.appendOut (slurEvents c w.xml.context.canWrite [s]) := by
      unfold writeSlurTag slurEvents
      simp only [List.flatMap_cons, List.flatMap_nil, List.append_nil, WriteState.ctx]
      by_cases h1 : s.generated = true <;> by_cases h2 : s.isSlur = true
        <;> by_cases h3 : s.broken = true <;> by_cases h4 : w.xml.context.canWrite s.sid = true
        <;> by_cases h5 : s.startElement = some c.item.eid
        <;> by_cases h6 : s.endElement = some c.item.eid
        <;> simp [h1, h2, h3, h4, h5, h6, emit_eq_appendOut, appendOut_nil]
    rw [List.foldl_cons, ih, hs, appendOut_appendOut]
    simp [slurEvents, WriteState.appendOut]

theorem linkContext_cursor (item : EngravingItem) (ctx : WriteContext) :
    (linkContext item ctx).curTick = ctx.curTick
      ∧ (linkContext item ctx).canWrite = ctx.canWrite := by
  unfold linkContext
  split
  · split
    · split <;> exact ⟨rfl, rfl⟩
    · exact ⟨rfl, rfl⟩
  · exact ⟨rfl, rfl⟩

theorem context_of_appends {P : XmlEvent → Bool} {w w2 : WriteState} (h : Appends P w w2) :
    w2.xml.context = w.xml.context := by
  obtain ⟨es, rfl, _⟩ := h
  rfl

theorem writeProperty_context (item : EngravingItem) (w : WriteState) (pid : Pid) :
    (writeProperty item w pid).xml.context = w.xml.context :=
  context_of_appends (writeProperty_appends item w pid)

theorem writeBeamMode_context (c : ChordRest) (w : WriteState) :
    (writeBeamMode c w).xml.context = w.xml.context := by
  rw [writeBeamMode_eq]; rfl

theorem writeDots_context (c : ChordRest) (w : WriteState) :
    (writeDots c w).xml.context = w.xml.context := by
  unfold writeDots; split <;> rfl

theorem writeDurationType_context (c : ChordRest) (w : WriteState) :
    (writeDurationType c w).xml.context = w.xml.context := by
  unfold writeDurationType; split <;> rfl

theorem writeDuration_context (c : ChordRest) (w : WriteState) :
    (writeDuration c w).xml.context = w.xml.context := by
  rw [writeDuration_eq]; rfl

theorem writeLyrics_context (c : ChordRest) (w : WriteState) :
    (writeLyrics c w).xml.context = w.xml.context := by
  unfold writeLyrics
  exact context_of_appends
    (appends_foldl (P := fun _ => true) _ (fun w x => appends_emit _ _ _ rfl) _ _)

theorem writeChordRestHead_context (c : ChordRest) (w : WriteState) :
    (writeChordRestHead c w).xml.context = linkContext c.item w.xml.context := by
  dsimp only [writeChordRestHead]
  rw [writeLyrics_context, writeDuration_context, writeDurationType_context,
    writeProperty_context, writeDots_context, writeProperty_context, writeBeamMode_context,
    (emitted_writeItemProperties c.item w).choose_spec.choose_spec.2.2.2]

theorem writeChordRestHead_steps (c : ChordRest) (w : WriteState) :
    Steps (fun e => !XmlEvent.isSpannerTag e) 0 w (writeChordRestHead c w) := by
  have hI : ∀ e, XmlEvent.isItemEvent e = true → (!XmlEvent.isSpannerTag e) = true := by
    intro e he
    cases e <;> simp_all [XmlEvent.isItemEvent, XmlEvent.isItemTag, XmlEvent.isLinkEvent,
      XmlEvent.isSpannerTag]
  dsimp only [writeChordRestHead]
  apply steps_writeLyrics c (fun _ => rfl)
  refine steps_ite _ (fun _ => steps_leaf _ rfl rfl ?_) (fun _ => ?_)
  all_goals
    refine steps_ite _ (fun _ => steps_tag _ _ rfl ?_) (fun _ => ?_)
    all_goals
      apply steps_writeProperty _ _ hI
      refine steps_ite _ (fun _ => steps_tag _ _ rfl ?_) (fun _ => ?_)
      all_goals
        apply steps_writeProperty _ _ hI
        refine steps_ite _ (fun _ => steps_tag _ _ rfl ?_) (fun _ => ?_)
        all_goals exact steps_writeItemProperties c.item hI (steps_refl _ w)

theorem advanceCurTick_eq (c : ChordRest) (w : WriteState) :
    advanceCurTick c w
      = w.setCtx { w.xml.context with curTick := advancedCursor c w.xml.context.curTick } := by
  unfold advanceCurTick advancedCursor
  by_cases hg : c.isGrace = true
  · simp [hg, WriteState.setCtx]
  · simp [hg, WriteState.setCtx, WriteState.ctx, WriteContext.incCurTick]

theorem writeProperties_ChordRest_eq (c : ChordRest) (w : WriteState) :
    writeProperties_ChordRest c w
      = (advanceCurTick c (writeChordRestHead c w)).appendOut
          (slurEvents c w.xml.context.canWrite
            ((w.scores c.item.score).findOverlapping
              (w.globals.ticks w.xml.context.curTick - 1)
              (w.globals.ticks w.xml.context.curTick + 1))) := by
  have hc := writeChordRestHead_context c w
  obtain ⟨hcur, hcan⟩ := linkContext_cursor c.item w.xml.context
  obtain ⟨_, _, _, _, hsc, hgl⟩ := writeChordRestHead_steps c w
  dsimp only [writeProperties_ChordRest]
  rw [foldl_writeSlurTag, advanceCurTick_eq]
  simp only [WriteState.scoreOf, WriteState.setCtx, WriteState.ctx, hsc, hgl, hc, hcur, hcan]

theorem advanceCurTick_cursor (c : ChordRest) (w : WriteState) :
    (advanceCurTick c (writeChordRestHead c w)).xml.context.curTick
      = advancedCursor c w.xml.context.curTick := by
  rw [advanceCurTick_eq]
  show advancedCursor c (writeChordRestHead c w).xml.context.curTick = _
  rw [writeChordRestHead_context, (linkContext_cursor c.item w.xml.context).1]

theorem advanceCurTick_emitted (c : ChordRest) (w : WriteState) :
    (advanceCurTick c (writeChordRestHead c w)).xml.out
        = w.xml.out ++ w.emitted (advanceCurTick c (writeChordRestHead c w))
      ∧ ∀ e ∈ w.emitted (advanceCurTick c (writeChordRestHead c w)),
          XmlEvent.isSpannerTag e = false := by
  obtain ⟨hout, hP, _⟩ := steps_emitted (writeChordRestHead_steps c w)
  rw [advanceCurTick_eq]
  exact ⟨hout, fun e he => by simpa using hP e he⟩

/-- C17, as stated, fails: a quarter-note chord written with the cursor at tick 480 moves
the cursor to tick 960; the spanner map has nothing in the window around tick 960, yet the
block writes the end tag of the slur that ends on the chord, found in the window around the
entry tick 480. -/
theorem spanner_lookup_not_post_advance :
    Fixture.slurState.globals.ticks Fixture.slurState.xml.context.curTick = 480
      ∧ Fixture.slurState.globals.ticks
          (writeProperties_ChordRest Fixture.quarterChord
            Fixture.slurState).xml.context.curTick = 960
      ∧ (Fixture.slurState.scores Fixture.quarterChord.item.score).findOverlapping
          (960 - 1) (960 + 1) = []
      ∧ (Fixture.slurState.emitted
          (writeProperties_ChordRest Fixture.quarterChord Fixture.slurState)).filter
          XmlEvent.isSpannerTag = [XmlEvent.spannerEnd 7 40 0] := by
  have heq := writeProperties_ChordRest_eq Fixture.quarterChord Fixture.slurState
  have hcur := advanceCurTick_cursor Fixture.quarterChord Fixture.slurState
  obtain ⟨hout, hP⟩ := advanceCurTick_emitted Fixture.quarterChord Fixture.slurState
  refine ⟨by decide, ?_, by decide, ?_⟩
  · rw [heq]
    show Fixture.slurState.globals.ticks
      (advanceCurTick Fixture.quarterChord
        (writeChordRestHead Fixture.quarterChord Fixture.slurState)).xml.context.curTick = 960
    rw [hcur]
    decide
  · rw [heq]
    have hem : Fixture.slurState.emitted
        ((advanceCurTick Fixture.quarterChord
          (writeChordRestHead Fixture.quarterChord Fixture.slurState)).appendOut
          (slurEvents Fixture.quarterChord Fixture.slurState.xml.context.canWrite
            ((Fixture.slurState.scores Fixture.quarterChord.item.score).findOverlapping
              (Fixture.slurState.globals.ticks Fixture.slurState.xml.context.curTick - 1)
              (Fixture.slurState.globals.ticks Fixture.slurState.xml.context.curTick + 1))))
        = Fixture.slurState.emitted (advanceCurTick Fixture.quarterChord
            (writeChordRestHead Fixture.quarterChord Fixture.slurState))
          ++ slurEvents Fixture.quarterChord Fixture.slurState.xml.context.canWrite
            ((Fixture.slurState.scores Fixture.quarterChord.item.score).findOverlapping
              (Fixture.slurState.globals.ticks Fixture.slurState.xml.context.curTick - 1)
              (Fixture.slurState.globals.ticks Fixture.slurState.xml.context.curTick + 1)) := by
      simp only [WriteState.emitted, WriteState.appendOut]
      rw [hout]
      simp [WriteState.emitted]
    rw [hem, List.filter_append,
      filter_eq_nil_of_forall _ (fun e => !XmlEvent.isSpannerTag e) (fun e he => by simpa using he)
        _ (fun e he => by simpa using hP e he)]
    decide

/-- C17, amended: in the chord-rest block the tick cursor is advanced by the duration of the
element (divided by the time-stretch of its staff) before any spanner tag is written, and the
spanner lookup uses the tick read before the advance: the spanner tags are appended to a
state whose cursor is already advanced and whose output holds no spanner tag, and they are
the tags due for the spanners found in the window from one tick before to one tick after
the cursor value on entry. -/
theorem spanner_lookup_uses_entry_tick (c : ChordRest) (w : WriteState) :
    ∃ wAdv : WriteState,
      wAdv.xml.context.curTick = advancedCursor c w.xml.context.curTick
      ∧ wAdv.xml.out = w.xml.out ++ w.emitted wAdv
      ∧ (∀ e ∈ w.emitted wAdv, XmlEvent.isSpannerTag e = false)
      ∧ writeProperties_ChordRest c w
          = wAdv.appendOut (slurEvents c w.xml.context.canWrite
              ((w.scores c.item.score).findOverlapping
                (w.globals.ticks w.xml.context.curTick - 1)
                (w.globals.ticks w.xml.context.curTick + 1))) :=
  ⟨advanceCurTick c (writeChordRestHead c w), advanceCurTick_cursor c w,
    (advanceCurTick_emitted c w).1, (advanceCurTick_emitted c w).2,
    writeProperties_ChordRest_eq c w⟩

end ChordRestCursor

section StackBalance

open TWrite

theorem steps_tagDefault {P : XmlEvent → Bool} {k : Nat} {w w1 : WriteState} (name : String)
    (v d : PropertyValue) (hP : P (XmlEvent.tag name [] v) = true) (h : Steps P k w w1) :
    Steps P k w (w1.tagDefault name v d) := by
  unfold WriteState.tagDefault
  exact steps_ite _ (fun _ => h) (fun _ => steps_tag _ _ hP h)

theorem steps_tagProperty {P : XmlEvent → Bool} {k : Nat} {w w1 : WriteState} (pid : Pid)
    (v d : PropertyValue) (hP : P (XmlEvent.tagProperty pid v) = true) (h : Steps P k w w1) :
    Steps P k w (w1.tagProperty pid v d) := by
  unfold WriteState.tagProperty
  exact steps_ite _ (fun _ => h) (fun _ => steps_leaf _ hP rfl h)

theorem steps_condTag {P : XmlEvent → Bool} {k : Nat} {w w1 : WriteState} (c : Prop)
    [Decidable c] (name : String) (v : PropertyValue) (hP : P (XmlEvent.tag name [] v) = true)
    (h : Steps P k w w1) : Steps P k w (if c then w1.tag name v else w1) :=
  steps_ite _ (fun _ => steps_tag _ _ hP h) (fun _ => h)

theorem steps_condLeaf {P : XmlEvent → Bool} {k : Nat} {w w1 : WriteState} (c : Prop)
    [Decidable c] (e : XmlEvent) (hP : P e = true) (hl : e.isStructural = false)
    (h : Steps P k w w1) : Steps P k w (if c then w1.emit e else w1) :=
  steps_ite _ (fun _ => steps_leaf _ hP hl h) (fun _ => h)

theorem steps_condProperty {P : XmlEvent → Bool} {k : Nat} {w w1 : WriteState} (c : Prop)
    [Decidable c] (item : EngravingItem) (pid : Pid)
    (hP : ∀ e, XmlEvent.isItemEvent e = true → P e = true) (h : Steps P k w w1) :
    Steps P k w (if c then writeProperty item w1 pid else w1) :=
  steps_ite _ (fun _ => steps_writeProperty _ _ hP h) (fun _ => h)

theorem steps_properties {P : XmlEvent → Bool} {k : Nat} {w w1 : WriteState}
    (item : EngravingItem) (pids : List Pid)
    (hP : ∀ e, XmlEvent.isItemEvent e = true → P e = true) (h : Steps P k w w1) :
    Steps P k w (pids.foldl (fun w pid => writeProperty item w pid) w1) :=
  steps_foldl _ (fun w pid => steps_writeProperty item pid hP (steps_refl _ w)) _ h

theorem steps_unstyledProperties {P : XmlEvent → Bool} {k : Nat} {w w1 : WriteState}
    (item : EngravingItem) (pids : List Pid)
    (hP : ∀ e, XmlEvent.isItemEvent e = true → P e = true) (h : Steps P k w w1) :
    Steps P k w (pids.foldl (fun w pid =>
      if !item.isStyled pid then writeProperty item w pid else w) w1) :=
  steps_foldl _ (fun w pid => steps_condProperty _ item pid hP (steps_refl _ w)) _ h

theorem steps_tagAttrs {P : XmlEvent → Bool} {k : Nat} {w w1 : WriteState} (name : String)
    (attrs : List (String × PropertyValue)) (v : PropertyValue)
    (hP : P (XmlEvent.tag name attrs v) = true) (h : Steps P k w w1) :
    Steps P k w (w1.tagAttrs name attrs v) :=
  steps_leaf _ hP rfl h

theorem steps_tagFraction {P : XmlEvent → Bool} {k : Nat} {w w1 : WriteState} (name : String)
    (f : Fraction)
    (hP : P (XmlEvent.tag name [] (PropertyValue.fraction f.numerator f.denominator)) = true)
    (h : Steps P k w w1) : Steps P k w (w1.tagFraction name f) :=
  steps_leaf _ hP rfl h

theorem steps_tagPoint {P : XmlEvent → Bool} {k : Nat} {w w1 : WriteState} (name : String)
    (p : ℚ × ℚ) (hP : P (XmlEvent.tag name [] (PropertyValue.point p.1 p.2)) = true)
    (h : Steps P k w w1) : Steps P k w (w1.tagPoint name p) :=
  steps_leaf _ hP rfl h

theorem steps_writeXml {P : XmlEvent → Bool} {k : Nat} {w w1 : WriteState} (name : String)
    (text : String) (hP : P (XmlEvent.writeXml name text) = true) (h : Steps P k w w1) :
    Steps P k w (w1.writeXml name text) :=
  steps_leaf _ hP rfl h

theorem steps_emitWrite {P : XmlEvent → Bool} {k : Nat} {w w1 : WriteState} (eid : Nat)
    (hP : P (XmlEvent.write eid) = true) (h : Steps P k w w1) :
    Steps P k w (w1.emit (XmlEvent.write eid)) :=
  steps_leaf _ hP rfl h

theorem steps_condWrite {P : XmlEvent → Bool} {k : Nat} {w w1 : WriteState} (c : Prop)
    [Decidable c] (eid : Nat) (hP : P (XmlEvent.write eid) = true) (h : Steps P k w w1) :
    Steps P k w (if c then w1.emit (XmlEvent.write eid) else w1) :=
  steps_condLeaf _ _ hP rfl h

theorem steps_writes {P : XmlEvent → Bool} {k : Nat} {w w1 : WriteState} (es : List Nat)
    (hP : ∀ eid, P (XmlEvent.write eid) = true) (h : Steps P k w w1) :
    Steps P k w (es.foldl (fun w e => w.emit (XmlEvent.write e)) w1) :=
  steps_foldl _ (fun w e => steps_leaf _ (hP e) rfl (steps_refl _ w)) _ h

theorem writeStyledProperties_steps (item : EngravingItem) (w : WriteState) :
    Steps (fun _ => true) 0 w (writeStyledProperties item w) := by
  dsimp only [writeStyledProperties]
  repeat' first
    | with_reducible exact steps_refl _ _
    | with_reducible apply steps_properties _ _ (fun _ _ => rfl)

theorem writeBeamFragments_steps (b : Beam) (idx : Nat) (w : WriteState) :
    Steps (fun _ => true) 0 w (writeBeamFragments b idx w) := by
  dsimp only [writeBeamFragments]
  repeat' first
    | with_reducible exact steps_refl _ _
    | with_reducible apply steps_end rfl
    | with_reducible apply steps_tag _ _ rfl
    | with_reducible apply steps_start _ _ rfl
    | with_reducible refine steps_foldl _ (fun _ _ => ?_) _ ?_

theorem writeBeamTestData_steps (b : Beam) (idx : Nat) (w : WriteState) :
    Steps (fun _ => true) 0 w (writeBeamTestData b idx w) := by
  dsimp only [writeBeamTestData]
  repeat' first
    | with_reducible exact steps_refl _ _
    | with_reducible apply steps_tag _ _ rfl
    | with_reducible refine steps_foldl _ (fun _ _ => ?_) _ ?_

theorem write_Beam_steps (b : Beam) (w : WriteState) :
    Steps (fun _ => true) 0 w (write_Beam b w) := by
  dsimp only [write_Beam]
  repeat' first
    | with_reducible apply steps_sub (writeBeamFragments_steps _ _ _)
    | with_reducible apply steps_sub (writeBeamTestData_steps _ _ _)
    | with_reducible exact steps_refl _ _
    | with_reducible apply steps_end rfl
    | with_reducible apply steps_writeItemProperties _ (fun _ _ => rfl)
    | with_reducible apply steps_writeProperty _ _ (fun _ _ => rfl)
    | with_reducible apply steps_start _ _ rfl
    | with_reducible refine steps_ite _ (fun _ => ?_) (fun _ => ?_)

theorem writeNewString_steps (f : FretDiagram) (i : Int) (w : WriteState) :
    Steps (fun _ => true) 0 w (writeNewString f w i) := by
  dsimp only [writeNewString]
  repeat' first
    | with_reducible exact steps_refl _ _
    | with_reducible apply steps_end rfl
    | with_reducible apply steps_tag _ _ rfl
    | with_reducible apply steps_tagAttrs _ _ _ rfl
    | with_reducible apply steps_start _ _ rfl
    | with_reducible refine steps_ite _ (fun _ => ?_) (fun _ => ?_)
    | with_reducible refine steps_foldl _ (fun _ _ => ?_) _ ?_

theorem writeNewBarre_steps (f : FretDiagram) (i : Int) (w : WriteState) :
    Steps (fun _ => true) 0 w (writeNewBarre f w i) := by
  dsimp only [writeNewBarre]
  repeat' first
    | with_reducible exact steps_refl _ _
    | with_reducible apply steps_tagAttrs _ _ _ rfl
    | with_reducible refine steps_ite _ (fun _ => ?_) (fun _ => ?_)

theorem writeNew_steps (f : FretDiagram) (w : WriteState) :
    Steps (fun _ => true) 0 w (writeNew f w) := by
  dsimp only [writeNew]
  repeat' first
    | with_reducible apply steps_sub (writeNewString_steps _ _ _)
    | with_reducible apply steps_sub (writeNewBarre_steps _ _ _)
    | with_reducible exact steps_refl _ _
    | with_reducible refine steps_foldl _ (fun _ _ => ?_) _ ?_

theorem writeOldString_steps (f : FretDiagram) (s b : Int) (i : Int) (w : WriteState) :
    Steps (fun _ => true) 0 w (writeOldString f s b w i) := by
  dsimp only [writeOldString]
  repeat' first
    | with_reducible exact steps_refl _ _
    | with_reducible apply steps_end rfl
    | with_reducible apply steps_tag _ _ rfl
    | with_reducible apply steps_start _ _ rfl
    | with_reducible refine steps_ite _ (fun _ => ?_) (fun _ => ?_)
    | with_reducible refine steps_foldl _ (fun _ _ => ?_) _ ?_

theorem writeOld_steps (f : FretDiagram) (w : WriteState) :
    Steps (fun _ => true) 0 w (writeOld f w) := by
  dsimp only [writeOld]
  repeat' first
    | with_reducible apply steps_sub (writeOldString_steps _ _ _ _ _)
    | with_reducible exact steps_refl _ _
    | with_reducible apply steps_tag _ _ rfl
    | with_reducible refine steps_ite _ (fun _ => ?_) (fun _ => ?_)
    | with_reducible refine steps_foldl _ (fun _ _ => ?_) _ ?_

theorem write_FretDiagram_steps (f : FretDiagram) (w : WriteState) :
    Steps (fun _ => true) 0 w (write_FretDiagram f w) := by
  dsimp only [write_FretDiagram, fretDiagramPids]
  repeat' first
    | with_reducible apply steps_sub (writeNew_steps _ _)
    | with_reducible apply steps_sub (writeOld_steps _ _)
    | with_reducible exact steps_refl _ _
    | with_reducible apply steps_end rfl
    | with_reducible apply steps_writeItemProperties _ (fun _ _ => rfl)
    | with_reducible apply steps_properties _ _ (fun _ _ => rfl)
    | with_reducible apply steps_emitWrite _ rfl
    | with_reducible apply steps_start _ _ rfl
    | with_reducible split

theorem writeProperties_ChordRest_steps (c : ChordRest) (w : WriteState) :
    Steps (fun _ => true) 0 w (writeProperties_ChordRest c w) := by
  dsimp only [writeProperties_ChordRest, writeChordRestHead, writeBeamMode, writeDots, writeDurationType, writeDuration, writeLyrics]
  repeat' first
    | with_reducible apply steps_writeSlurTags _ _ (fun _ _ => rfl)
    | with_reducible apply steps_advanceCurTick
    | with_reducible exact steps_refl _ _
    | with_reducible apply steps_writeItemProperties _ (fun _ _ => rfl)
    | with_reducible apply steps_writeProperty _ _ (fun _ _ => rfl)
    | with_reducible apply steps_writes _ (fun _ => rfl)
    | with_reducible apply steps_tag _ _ rfl
    | with_reducible apply steps_tagFraction _ _ rfl
    | with_reducible refine steps_ite _ (fun _ => ?_) (fun _ => ?_)

theorem writeChordRestBeam_steps (c : ChordRest) (w : WriteState) :
    Steps (fun _ => true) 0 w (writeChordRestBeam c w) := by
  dsimp only [writeChordRestBeam]
  repeat' first
    | with_reducible apply steps_sub (write_Beam_steps _ _)
    | with_reducible exact steps_refl _ _
    | with_reducible split

theorem write_Accidental_steps (a : EngravingItem) (w : WriteState) :
    Steps (fun _ => true) 0 w (write_Accidental a w) := by
  dsimp only [write_Accidental]
  repeat' first
    | with_reducible exact steps_refl _ _
    | with_reducible apply steps_end rfl
    | with_reducible apply steps_writeItemProperties _ (fun _ _ => rfl)
    | with_reducible apply steps_writeProperty _ _ (fun _ _ => rfl)
    | with_reducible apply steps_start _ _ rfl

theorem write_ActionIcon_steps (a : ActionIcon) (w : WriteState) :
    Steps (fun _ => true) 0 w (write_ActionIcon a w) := by
  dsimp only [write_ActionIcon]
  repeat' first
    | with_reducible exact steps_refl _ _
    | with_reducible apply steps_end rfl
    | with_reducible apply steps_condTag _ _ _ rfl
    | with_reducible apply steps_tag _ _ rfl
    | with_reducible apply steps_start _ _ rfl

theorem write_Ambitus_steps (a : Ambitus) (w : WriteState) :
    Steps (fun _ => true) 0 w (write_Ambitus a w) := by
  dsimp only [write_Ambitus]
  repeat' first
    | with_reducible exact steps_refl _ _
    | with_reducible apply steps_end rfl
    | with_reducible apply steps_writeItemProperties _ (fun _ _ => rfl)
    | with_reducible apply steps_tagDefault _ _ _ rfl
    | with_reducible apply steps_tagProperty _ _ _ rfl
    | with_reducible apply steps_tag _ _ rfl
    | with_reducible apply steps_emitWrite _ rfl
    | with_reducible apply steps_start _ _ rfl
    | with_reducible refine steps_ite _ (fun _ => ?_) (fun _ => ?_)

theorem write_Arpeggio_steps (a : Arpeggio) (w : WriteState) :
    Steps (fun _ => true) 0 w (write_Arpeggio a w) := by
  dsimp only [write_Arpeggio]
  repeat' first
    | with_reducible exact steps_refl _ _
    | with_reducible apply steps_end rfl
    | with_reducible apply steps_writeItemProperties _ (fun _ _ => rfl)
    | with_reducible apply steps_writeProperty _ _ (fun _ _ => rfl)
    | with_reducible apply steps_tag _ _ rfl
    | with_reducible apply steps_start _ _ rfl
    | with_reducible refine steps_ite _ (fun _ => ?_) (fun _ => ?_)

theorem write_Articulation_steps (a : Articulation) (w : WriteState) :
    Steps (fun _ => true) 0 w (write_Articulation a w) := by
  dsimp only [write_Articulation]
  repeat' first
    | with_reducible exact steps_refl _ _
    | with_reducible apply steps_end rfl
    | with_reducible apply steps_writeItemProperties _ (fun _ _ => rfl)
    | with_reducible apply steps_writeProperty _ _ (fun _ _ => rfl)
    | with_reducible apply steps_properties _ _ (fun _ _ => rfl)
    | with_reducible apply steps_tag _ _ rfl
    | with_reducible apply steps_tagAttrs _ _ _ rfl
    | with_reducible apply steps_start _ _ rfl
    | with_reducible refine steps_ite _ (fun _ => ?_) (fun _ => ?_)

theorem write_BagpipeEmbellishment_steps (b : BagpipeEmbellishment) (w : WriteState) :
    Steps (fun _ => true) 0 w (write_BagpipeEmbellishment b w) := by
  dsimp only [write_BagpipeEmbellishment]
  repeat' first
    | with_reducible exact steps_refl _ _
    | with_reducible apply steps_end rfl
    | with_reducible apply steps_tag _ _ rfl
    | with_reducible apply steps_start _ _ rfl

theorem write_BarLine_steps (b : BarLine) (w : WriteState) :
    Steps (fun _ => true) 0 w (write_BarLine b w) := by
  dsimp only [write_BarLine]
  repeat' first
    | with_reducible exact steps_refl _ _
    | with_reducible apply steps_end rfl
    | with_reducible apply steps_writeItemProperties _ (fun _ _ => rfl)
    | with_reducible apply steps_writeProperty _ _ (fun _ _ => rfl)
    | with_reducible apply steps_writes _ (fun _ => rfl)
    | with_reducible apply steps_start _ _ rfl

theorem write_Bend_steps (b : Bend) (w : WriteState) :
    Steps (fun _ => true) 0 w (write_Bend b w) := by
  dsimp only [write_Bend, writeStyledProperties]
  repeat' first
    | with_reducible exact steps_refl _ _
    | with_reducible apply steps_end rfl
    | with_reducible apply steps_writeItemProperties _ (fun _ _ => rfl)
    | with_reducible apply steps_writeProperty _ _ (fun _ _ => rfl)
    | with_reducible apply steps_tagAttrs _ _ _ rfl
    | with_reducible apply steps_start _ _ rfl
    | with_reducible refine steps_foldl _ (fun _ _ => ?_) _ ?_

theorem writeProperties_Box_steps (b : Box) (w : WriteState) :
    Steps (fun _ => true) 0 w (writeProperties_Box b w) := by
  dsimp only [writeProperties_Box, boxPids]
  repeat' first
    | with_reducible exact steps_refl _ _
    | with_reducible apply steps_writeItemProperties _ (fun _ _ => rfl)
    | with_reducible apply steps_properties _ _ (fun _ _ => rfl)
    | with_reducible apply steps_writes _ (fun _ => rfl)

theorem writeProperties_HBox_steps (b : Box) (w : WriteState) :
    Steps (fun _ => true) 0 w (writeProperties_HBox b w) := by
  dsimp only [writeProperties_HBox]
  repeat' first
    | with_reducible apply steps_sub (writeProperties_Box_steps _ _)
    | with_reducible exact steps_refl _ _
    | with_reducible apply steps_writeProperty _ _ (fun _ _ => rfl)

theorem writeBoxProperties_steps (b : Box) (w : WriteState) :
    Steps (fun _ => true) 0 w (writeBoxProperties b w) := by
  dsimp only [writeBoxProperties]
  repeat' first
    | with_reducible apply steps_sub (writeProperties_Box_steps _ _)
    | with_reducible apply steps_sub (writeProperties_HBox_steps _ _)
    | with_reducible exact steps_refl _ _
    | with_reducible refine steps_ite _ (fun _ => ?_) (fun _ => ?_)

theorem write_Box_steps (b : Box) (w : WriteState) :
    Steps (fun _ => true) 0 w (write_Box b w) := by
  dsimp only [write_Box]
  repeat' first
    | with_reducible apply steps_sub (writeBoxProperties_steps _ _)
    | with_reducible exact steps_refl _ _
    | with_reducible apply steps_end rfl
    | with_reducible apply steps_start _ _ rfl

theorem write_HBox_steps (b : Box) (w : WriteState) :
    Steps (fun _ => true) 0 w (write_HBox b w) := by
  dsimp only [write_HBox]
  repeat' first
    | with_reducible apply steps_sub (writeProperties_HBox_steps _ _)
    | with_reducible exact steps_refl _ _
    | with_reducible apply steps_end rfl
    | with_reducible apply steps_start _ _ rfl

theorem write_VBox_steps (b : Box) (w : WriteState) :
    Steps (fun _ => true) 0 w (write_VBox b w) := by
  dsimp only [write_VBox]
  repeat' first
    | with_reducible exact write_Box_steps _ _

theorem write_FBox_steps (b : Box) (w : WriteState) :
    Steps (fun _ => true) 0 w (write_FBox b w) := by
  dsimp only [write_FBox]
  repeat' first
    | with_reducible exact write_Box_steps _ _

theorem write_TBox_steps (b : Box) (w : WriteState) :
    Steps (fun _ => true) 0 w (write_TBox b w) := by
  dsimp only [write_TBox]
  repeat' first
    | with_reducible apply steps_sub (writeProperties_Box_steps _ _)
    | with_reducible exact steps_refl _ _
    | with_reducible apply steps_end rfl
    | with_reducible apply steps_emitWrite _ rfl
    | with_reducible apply steps_start _ _ rfl

theorem write_Breath_steps (b : EngravingItem) (w : WriteState) :
    Steps (fun _ => true) 0 w (write_Breath b w) := by
  dsimp only [write_Breath]
  repeat' first
    | with_reducible exact steps_refl _ _
    | with_reducible apply steps_end rfl
    | with_reducible apply steps_writeItemProperties _ (fun _ _ => rfl)
    | with_reducible apply steps_writeProperty _ _ (fun _ _ => rfl)
    | with_reducible apply steps_start _ _ rfl
    | with_reducible refine steps_ite _ (fun _ => ?_) (fun _ => ?_)

theorem write_ChordLine_steps (c : ChordLine) (w : WriteState) :
    Steps (fun _ => true) 0 w (write_ChordLine c w) := by
  dsimp only [write_ChordLine]
  repeat' first
    | with_reducible exact steps_refl _ _
    | with_reducible apply steps_end rfl
    | with_reducible apply steps_writeItemProperties _ (fun _ _ => rfl)
    | with_reducible apply steps_writeProperty _ _ (fun _ _ => rfl)
    | with_reducible apply steps_tagDefault _ _ _ rfl
    | with_reducible apply steps_tagAttrs _ _ _ rfl
    | with_reducible apply steps_start _ _ rfl
    | with_reducible refine steps_ite _ (fun _ => ?_) (fun _ => ?_)
    | with_reducible refine steps_foldl _ (fun _ _ => ?_) _ ?_

theorem write_Clef_steps (c : Clef) (w : WriteState) :
    Steps (fun _ => true) 0 w (write_Clef c w) := by
  dsimp only [write_Clef]
  repeat' first
    | with_reducible exact steps_refl _ _
    | with_reducible apply steps_end rfl
    | with_reducible apply steps_writeItemProperties _ (fun _ _ => rfl)
    | with_reducible apply steps_writeProperty _ _ (fun _ _ => rfl)
    | with_reducible apply steps_condTag _ _ _ rfl
    | with_reducible apply steps_start _ _ rfl

theorem writeProperties_TextBase_steps (t : TextBase) (writeText : Bool) (w : WriteState) :
    Steps (fun _ => true) 0 w (writeProperties_TextBase t writeText w) := by
  dsimp only [writeProperties_TextBase]
  repeat' first
    | with_reducible exact steps_refl _ _
    | with_reducible apply steps_writeItemProperties _ (fun _ _ => rfl)
    | with_reducible apply steps_writeProperty _ _ (fun _ _ => rfl)
    | with_reducible apply steps_writeXml _ _ rfl
    | with_reducible refine steps_ite _ (fun _ => ?_) (fun _ => ?_)
    | with_reducible refine steps_foldl _ (fun _ _ => ?_) _ ?_

theorem write_Dynamic_steps (d : Dynamic) (w : WriteState) :
    Steps (fun _ => true) 0 w (write_Dynamic d w) := by
  dsimp only [write_Dynamic]
  repeat' first
    | with_reducible apply steps_sub (writeProperties_TextBase_steps _ _ _)
    | with_reducible exact steps_refl _ _
    | with_reducible apply steps_end rfl
    | with_reducible apply steps_writeProperty _ _ (fun _ _ => rfl)
    | with_reducible apply steps_start _ _ rfl
    | with_reducible refine steps_ite _ (fun _ => ?_) (fun _ => ?_)

theorem write_Fermata_steps (f : Fermata) (w : WriteState) :
    Steps (fun _ => true) 0 w (write_Fermata f w) := by
  dsimp only [write_Fermata]
  repeat' first
    | with_reducible exact steps_refl _ _
    | with_reducible apply steps_end rfl
    | with_reducible apply steps_writeItemProperties _ (fun _ _ => rfl)
    | with_reducible apply steps_writeProperty _ _ (fun _ _ => rfl)
    | with_reducible apply steps_tag _ _ rfl
    | with_reducible apply steps_start _ _ rfl
    | with_reducible refine steps_ite _ (fun _ => ?_) (fun _ => ?_)

theorem write_FiguredBassItem_steps (f : FiguredBassItem) (w : WriteState) :
    Steps (fun _ => true) 0 w (write_FiguredBassItem f w) := by
  dsimp only [write_FiguredBassItem]
  repeat' first
    | with_reducible exact steps_refl _ _
    | with_reducible apply steps_end rfl
    | with_reducible apply steps_condTag _ _ _ rfl
    | with_reducible apply steps_tagAttrs _ _ _ rfl
    | with_reducible apply steps_start _ _ rfl

theorem write_FiguredBass_steps (f : FiguredBass) (w : WriteState) :
    Steps (fun _ => true) 0 w (write_FiguredBass f w) := by
  dsimp only [write_FiguredBass]
  repeat' first
    | with_reducible apply steps_sub (writeProperties_TextBase_steps _ _ _)
    | with_reducible apply steps_sub (write_FiguredBassItem_steps _ _)
    | with_reducible exact steps_refl _ _
    | with_reducible apply steps_end rfl
    | with_reducible apply steps_writeItemProperties _ (fun _ _ => rfl)
    | with_reducible apply steps_properties _ _ (fun _ _ => rfl)
    | with_reducible apply steps_tag _ _ rfl
    | with_reducible apply steps_tagFraction _ _ rfl
    | with_reducible apply steps_start _ _ rfl
    | with_reducible refine steps_ite _ (fun _ => ?_) (fun _ => ?_)
    | with_reducible refine steps_foldl _ (fun _ _ => ?_) _ ?_

theorem write_Fingering_steps (f : TextBase) (w : WriteState) :
    Steps (fun _ => true) 0 w (write_Fingering f w) := by
  dsimp only [write_Fingering]
  repeat' first
    | with_reducible apply steps_sub (writeProperties_TextBase_steps _ _ _)
    | with_reducible exact steps_refl _ _
    | with_reducible apply steps_end rfl
    | with_reducible apply steps_start _ _ rfl
    | with_reducible refine steps_ite _ (fun _ => ?_) (fun _ => ?_)

theorem writeProperties_Spanner_steps (s : SLine) (w : WriteState) :
    Steps (fun _ => true) 0 w (writeProperties_Spanner s w) := by
  dsimp only [writeProperties_Spanner]
  repeat' first
    | with_reducible exact steps_refl _ _
    | with_reducible apply steps_writeItemProperties _ (fun _ _ => rfl)
    | with_reducible apply steps_tagFraction _ _ rfl
    | with_reducible refine steps_ite _ (fun _ => ?_) (fun _ => ?_)

theorem writeSegment_steps (sp : ℚ) (seg : SpannerSegment) (w : WriteState) :
    Steps (fun _ => true) 0 w (writeSegment sp w seg) := by
  dsimp only [writeSegment]
  repeat' first
    | with_reducible exact steps_refl _ _
    | with_reducible apply steps_end rfl
    | with_reducible apply steps_writeItemProperties _ (fun _ _ => rfl)
    | with_reducible apply steps_writeProperty _ _ (fun _ _ => rfl)
    | with_reducible apply steps_tag _ _ rfl
    | with_reducible apply steps_tagPoint _ _ rfl
    | with_reducible apply steps_start _ _ rfl

theorem writeLineHead_steps (l : SLine) (w : WriteState) :
    Steps (fun _ => true) 0 w (writeLineHead l w) := by
  dsimp only [writeLineHead]
  repeat' first
    | with_reducible apply steps_sub (writeProperties_Spanner_steps _ _)
    | with_reducible exact steps_refl _ _
    | with_reducible apply steps_writeProperty _ _ (fun _ _ => rfl)
    | with_reducible apply steps_tag _ _ rfl
    | with_reducible apply steps_tagFraction _ _ rfl
    | with_reducible refine steps_ite _ (fun _ => ?_) (fun _ => ?_)

theorem writeLineSegments_steps (l : SLine) (w : WriteState) :
    Steps (fun _ => true) 0 w (writeLineSegments l w) := by
  dsimp only [writeLineSegments]
  repeat' first
    | with_reducible apply steps_sub (writeSegment_steps _ _ _)
    | with_reducible exact steps_refl _ _
    | with_reducible refine steps_ite _ (fun _ => ?_) (fun _ => ?_)
    | with_reducible refine steps_foldl _ (fun _ _ => ?_) _ ?_

theorem writeProperties_SLine_steps (l : SLine) (w : WriteState) :
    Steps (fun _ => true) 0 w (writeProperties_SLine l w) := by
  dsimp only [writeProperties_SLine]
  repeat' first
    | with_reducible apply steps_sub (writeLineSegments_steps _ _)
    | with_reducible apply steps_sub (writeLineHead_steps _ _)
    | with_reducible exact steps_refl _ _
    | with_reducible apply steps_tag _ _ rfl
    | with_reducible split

theorem writeProperties_TextLineBase_steps (l : SLine) (w : WriteState) :
    Steps (fun _ => true) 0 w (writeProperties_TextLineBase l w) := by
  dsimp only [writeProperties_TextLineBase]
  repeat' first
    | with_reducible apply steps_sub (writeProperties_SLine_steps _ _)
    | with_reducible exact steps_refl _ _
    | with_reducible apply steps_unstyledProperties _ _ (fun _ _ => rfl)

theorem write_Glissando_steps (g : Glissando) (w : WriteState) :
    Steps (fun _ => true) 0 w (write_Glissando g w) := by
  dsimp only [write_Glissando]
  repeat' first
    | with_reducible apply steps_sub (writeProperties_SLine_steps _ _)
    | with_reducible exact steps_refl _ _
    | with_reducible apply steps_end rfl
    | with_reducible apply steps_properties _ _ (fun _ _ => rfl)
    | with_reducible apply steps_tag _ _ rfl
    | with_reducible apply steps_start _ _ rfl
    | with_reducible refine steps_ite _ (fun _ => ?_) (fun _ => ?_)

theorem write_GradualTempoChange_steps (g : SLine) (w : WriteState) :
    Steps (fun _ => true) 0 w (write_GradualTempoChange g w) := by
  dsimp only [write_GradualTempoChange]
  repeat' first
    | with_reducible apply steps_sub (writeProperties_TextLineBase_steps _ _)
    | with_reducible exact steps_refl _ _
    | with_reducible apply steps_end rfl
    | with_reducible apply steps_writeProperty _ _ (fun _ _ => rfl)
    | with_reducible apply steps_start _ _ rfl

theorem write_Groups_steps (nodes : List GroupNode) (w : WriteState) :
    Steps (fun _ => true) 0 w (write_Groups nodes w) := by
  dsimp only [write_Groups]
  repeat' first
    | with_reducible exact steps_refl _ _
    | with_reducible apply steps_end rfl
    | with_reducible apply steps_tagAttrs _ _ _ rfl
    | with_reducible apply steps_start _ _ rfl
    | with_reducible refine steps_foldl _ (fun _ _ => ?_) _ ?_

theorem write_Hairpin_steps (h : Hairpin) (w : WriteState) :
    Steps (fun _ => true) 0 w (write_Hairpin h w) := by
  dsimp only [write_Hairpin]
  repeat' first
    | with_reducible apply steps_sub (writeProperties_SLine_steps _ _)
    | with_reducible exact steps_refl _ _
    | with_reducible apply steps_end rfl
    | with_reducible apply steps_writeProperty _ _ (fun _ _ => rfl)
    | with_reducible apply steps_unstyledProperties _ _ (fun _ _ => rfl)
    | with_reducible apply steps_tag _ _ rfl
    | with_reducible apply steps_start _ _ rfl
    | with_reducible refine steps_ite _ (fun _ => ?_) (fun _ => ?_)

theorem writeHarmonyDegree_steps (hd : HDegree) (w : WriteState) :
    Steps (fun _ => true) 0 w (writeHarmonyDegree w hd) := by
  dsimp only [writeHarmonyDegree]
  repeat' first
    | with_reducible exact steps_refl _ _
    | with_reducible apply steps_end rfl
    | with_reducible apply steps_tag _ _ rfl
    | with_reducible apply steps_start _ _ rfl
    | with_reducible split

theorem writeHarmonyRoot_steps (h : Harmony) (w : WriteState) :
    Steps (fun _ => true) 0 w (writeHarmonyRoot h w) := by
  dsimp only [writeHarmonyRoot]
  repeat' first
    | with_reducible apply steps_sub (writeHarmonyDegree_steps _ _)
    | with_reducible exact steps_refl _ _
    | with_reducible apply steps_tag _ _ rfl
    | with_reducible refine steps_ite _ (fun _ => ?_) (fun _ => ?_)
    | with_reducible refine steps_foldl _ (fun _ _ => ?_) _ ?_

theorem write_Harmony_steps (h : Harmony) (w : WriteState) :
    Steps (fun _ => true) 0 w (write_Harmony h w) := by
  dsimp only [write_Harmony]
  repeat' first
    | with_reducible apply steps_sub (writeProperties_TextBase_steps _ _ _)
    | with_reducible apply steps_sub (writeHarmonyRoot_steps _ _)
    | with_reducible exact steps_refl _ _
    | with_reducible apply steps_end rfl
    | with_reducible apply steps_writeProperty _ _ (fun _ _ => rfl)
    | with_reducible apply steps_tag _ _ rfl
    | with_reducible apply steps_start _ _ rfl
    | with_reducible refine steps_ite _ (fun _ => ?_) (fun _ => ?_)

theorem writeProperties_BSymbol_steps (item : EngravingItem) (leafs : List Nat) (w : WriteState) :
    Steps (fun _ => true) 0 w (writeProperties_BSymbol item leafs w) := by
  dsimp only [writeProperties_BSymbol]
  repeat' first
    | with_reducible exact steps_refl _ _
    | with_reducible apply steps_writeItemProperties _ (fun _ _ => rfl)
    | with_reducible apply steps_writes _ (fun _ => rfl)

theorem write_Hook_steps (h : Hook) (w : WriteState) :
    Steps (fun _ => true) 0 w (write_Hook h w) := by
  dsimp only [write_Hook]
  repeat' first
    | with_reducible apply steps_sub (writeProperties_BSymbol_steps _ _ _)
    | with_reducible exact steps_refl _ _
    | with_reducible apply steps_end rfl
    | with_reducible apply steps_tag _ _ rfl
    | with_reducible apply steps_start _ _ rfl
    | with_reducible split

theorem writeNoteType_steps (nt : NoteType) (w : WriteState) :
    Steps (fun _ => true) 0 w (writeNoteType nt w) := by
  dsimp only [writeNoteType]
  repeat' first
    | with_reducible exact steps_refl _ _
    | with_reducible apply steps_tag _ _ rfl
    | with_reducible split

theorem writeStemParts_steps (c : ChordData) (w : WriteState) :
    Steps (fun _ => true) 0 w (writeStemParts c w) := by
  dsimp only [writeStemParts]
  repeat' first
    | with_reducible exact steps_refl _ _
    | with_reducible apply steps_tag _ _ rfl
    | with_reducible apply steps_condWrite _ _ rfl
    | with_reducible split

theorem writeChordBody_steps (c : ChordData) (w : WriteState) :
    Steps (fun _ => true) 0 w (writeChordBody c w) := by
  dsimp only [writeChordBody]
  repeat' first
    | with_reducible apply steps_sub (writeChordRestBeam_steps _ _)
    | with_reducible apply steps_sub (writeProperties_ChordRest_steps _ _)
    | with_reducible apply steps_sub (write_Articulation_steps _ _)
    | with_reducible apply steps_sub (writeNoteType_steps _ _)
    | with_reducible apply steps_sub (writeStemParts_steps _ _)
    | with_reducible apply steps_sub (write_Arpeggio_steps _ _)
    | with_reducible exact steps_refl _ _
    | with_reducible apply steps_end rfl
    | with_reducible apply steps_writeProperty _ _ (fun _ _ => rfl)
    | with_reducible apply steps_emitWrite _ rfl
    | with_reducible apply steps_start _ _ rfl
    | with_reducible refine steps_foldl _ (fun _ _ => ?_) _ ?_
    | with_reducible split



theorem write_Bracket_steps (b : Bracket) (w : WriteState) :
    Steps (fun _ => true) 0 w (write_Bracket b w) := by
  unfold write_Bracket writeBracketStart
  generalize b.bracketItem.bracketType = t
  cases t <;> simp only [if_true, Bool.false_eq_true, if_false]
  all_goals
    repeat' first
      | with_reducible exact steps_refl _ _
      | with_reducible apply steps_end rfl
      | with_reducible apply steps_writeItemProperties _ (fun _ _ => rfl)
      | with_reducible apply steps_condTag _ _ _ rfl
      | with_reducible apply steps_start _ _ rfl

mutual

theorem write_Chord_steps : ∀ (c : Chord) (w : WriteState),
    Steps (fun _ => true) 0 w (write_Chord c w)
  | Chord.mk data graceNotes, w => by
    rw [write_Chord]
    exact steps_sub (writeChordBody_steps data _) (write_Chords_steps graceNotes w)

theorem write_Chords_steps : ∀ (cs : List Chord) (w : WriteState),
    Steps (fun _ => true) 0 w (write_Chords cs w)
  | [], w => by
    rw [write_Chords]
    exact steps_refl _ w
  | ch :: rest, w => by
    rw [write_Chords]
    exact steps_sub (write_Chords_steps rest _) (write_Chord_steps ch w)

end

theorem writeProperty_steps (item : EngravingItem) (pid : Pid) (w : WriteState) :
    Steps (fun _ => true) 0 w (writeProperty item w pid) :=
  steps_writeProperty item pid (fun _ _ => rfl) (steps_refl _ w)

theorem writeItemProperties_steps_any (item : EngravingItem) (w : WriteState) :
    Steps (fun _ => true) 0 w (writeItemProperties item w) :=
  steps_writeItemProperties item (fun _ _ => rfl) (steps_refl _ w)

theorem keepsBalance_of_steps {P : XmlEvent → Bool} (f : WriteState → WriteState)
    (h : ∀ w, Steps P 0 w (f w)) : KeepsBalance f := by
  intro w
  obtain ⟨h1, _, h3⟩ := steps_emitted (h w)
  exact ⟨h1, h3⟩

/-- C18: every writer of `TWrite` keeps the element stack of the sink balanced. From every
state and for every element, the writer only appends calls to the sink; among the calls it
appends there are as many `startElement` as `endElement` calls, so the depth on exit is the
depth on entry, and no prefix of them has more `endElement` than `startElement` calls, so
the depth never drops below its value on entry. This covers the early returns (unwritable
element, beam without elements, bracket of type `NO_BRACKET`) and the nested "linked",
"Path", "Fragment", "Segment", "string", "fretDiagram", "degree" and accidental blocks. -/
theorem writers_keep_stack_balanced :
    (∀ item pid, KeepsBalance (fun w => writeProperty item w pid))
    ∧ (∀ item, KeepsBalance (writeStyledProperties item))
    ∧ (∀ item, KeepsBalance (writeItemProperties item))
    ∧ (∀ a, KeepsBalance (write_Accidental a))
    ∧ (∀ a, KeepsBalance (write_ActionIcon a))
    ∧ (∀ a, KeepsBalance (write_Ambitus a))
    ∧ (∀ a, KeepsBalance (write_Arpeggio a))
    ∧ (∀ a, KeepsBalance (write_Articulation a))
    ∧ (∀ b, KeepsBalance (write_BagpipeEmbellishment b))
    ∧ (∀ b, KeepsBalance (write_BarLine b))
    ∧ (∀ b, KeepsBalance (write_Beam b))
    ∧ (∀ b, KeepsBalance (write_Bend b))
    ∧ (∀ b, KeepsBalance (write_Box b))
    ∧ (∀ b, KeepsBalance (writeBoxProperties b))
    ∧ (∀ b, KeepsBalance (writeProperties_Box b))
    ∧ (∀ b, KeepsBalance (write_HBox b))
    ∧ (∀ b, KeepsBalance (writeProperties_HBox b))
    ∧ (∀ b, KeepsBalance (write_VBox b))
    ∧ (∀ b, KeepsBalance (write_FBox b))
    ∧ (∀ b, KeepsBalance (write_TBox b))
    ∧ (∀ b, KeepsBalance (write_Bracket b))
    ∧ (∀ b, KeepsBalance (write_Breath b))
    ∧ (∀ c, KeepsBalance (write_Chord c))
    ∧ (∀ c, KeepsBalance (writeChordRestBeam c))
    ∧ (∀ c, KeepsBalance (writeProperties_ChordRest c))
    ∧ (∀ c, KeepsBalance (write_ChordLine c))
    ∧ (∀ c, KeepsBalance (write_Clef c))
    ∧ (∀ d, KeepsBalance (write_Dynamic d))
    ∧ (∀ t writeText, KeepsBalance (writeProperties_TextBase t writeText))
    ∧ (∀ f, KeepsBalance (write_Fermata f))
    ∧ (∀ f, KeepsBalance (write_FiguredBass f))
    ∧ (∀ f, KeepsBalance (write_FiguredBassItem f))
    ∧ (∀ f, KeepsBalance (write_Fingering f))
    ∧ (∀ f, KeepsBalance (write_FretDiagram f))
    ∧ (∀ g, KeepsBalance (write_Glissando g))
    ∧ (∀ l, KeepsBalance (writeProperties_SLine l))
    ∧ (∀ s, KeepsBalance (writeProperties_Spanner s))
    ∧ (∀ g, KeepsBalance (write_GradualTempoChange g))
    ∧ (∀ l, KeepsBalance (writeProperties_TextLineBase l))
    ∧ (∀ nodes, KeepsBalance (write_Groups nodes))
    ∧ (∀ h, KeepsBalance (write_Hairpin h))
    ∧ (∀ h, KeepsBalance (write_Harmony h))
    ∧ (∀ h, KeepsBalance (write_Hook h))
    ∧ (∀ item leafs, KeepsBalance (writeProperties_BSymbol item leafs)) :=
  ⟨fun item pid => keepsBalance_of_steps _ (writeProperty_steps item pid),
   fun item => keepsBalance_of_steps _ (writeStyledProperties_steps item),
   fun item => keepsBalance_of_steps _ (writeItemProperties_steps_any item),
   fun a => keepsBalance_of_steps _ (write_Accidental_steps a),
   fun a => keepsBalance_of_steps _ (write_ActionIcon_steps a),
   fun a => keepsBalance_of_steps _ (write_Ambitus_steps a),
   fun a => keepsBalance_of_steps _ (write_Arpeggio_steps a),
   fun a => keepsBalance_of_steps _ (write_Articulation_steps a),
   fun b => keepsBalance_of_steps _ (write_BagpipeEmbellishment_steps b),
   fun b => keepsBalance_of_steps _ (write_BarLine_steps b),
   fun b => keepsBalance_of_steps _ (write_Beam_steps b),
   fun b => keepsBalance_of_steps _ (write_Bend_steps b),
   fun b => keepsBalance_of_steps _ (write_Box_steps b),
   fun b => keepsBalance_of_steps _ (writeBoxProperties_steps b),
   fun b => keepsBalance_of_steps _ (writeProperties_Box_steps b),
   fun b => keepsBalance_of_steps _ (write_HBox_steps b),
   fun b => keepsBalance_of_steps _ (writeProperties_HBox_steps b),
   fun b => keepsBalance_of_steps _ (write_VBox_steps b),
   fun b => keepsBalance_of_steps _ (write_FBox_steps b),
   fun b => keepsBalance_of_steps _ (write_TBox_steps b),
   fun b => keepsBalance_of_steps _ (write_Bracket_steps b),
   fun b => keepsBalance_of_steps _ (write_Breath_steps b),
   fun c => keepsBalance_of_steps _ (write_Chord_steps c),
   fun c => keepsBalance_of_steps _ (writeChordRestBeam_steps c),
   fun c => keepsBalance_of_steps _ (writeProperties_ChordRest_steps c),
   fun c => keepsBalance_of_steps _ (write_ChordLine_steps c),
   fun c => keepsBalance_of_steps _ (write_Clef_steps c),
   fun d => keepsBalance_of_steps _ (write_Dynamic_steps d),
   fun t writeText => keepsBalance_of_steps _ (writeProperties_TextBase_steps t writeText),
   fun f => keepsBalance_of_steps _ (write_Fermata_steps f),
   fun f => keepsBalance_of_steps _ (write_FiguredBass_steps f),
   fun f => keepsBalance_of_steps _ (write_FiguredBassItem_steps f),
   fun f => keepsBalance_of_steps _ (write_Fingering_steps f),
   fun f => keepsBalance_of_steps _ (write_FretDiagram_steps f),
   fun g => keepsBalance_of_steps _ (write_Glissando_steps g),
   fun l => keepsBalance_of_steps _ (writeProperties_SLine_steps l),
   fun s => keepsBalance_of_steps _ (writeProperties_Spanner_steps s),
   fun g => keepsBalance_of_steps _ (write_GradualTempoChange_steps g),
   fun l => keepsBalance_of_steps _ (writeProperties_TextLineBase_steps l),
   fun nodes => keepsBalance_of_steps _ (write_Groups_steps nodes),
   fun h => keepsBalance_of_steps _ (write_Hairpin_steps h),
   fun h => keepsBalance_of_steps _ (write_Harmony_steps h),
   fun h => keepsBalance_of_steps _ (write_Hook_steps h),
   fun item leafs => keepsBalance_of_steps _ (writeProperties_BSymbol_steps item leafs)⟩

end StackBalance

section CanWrite

open TWrite

/-- C19: the writers of Arpeggio, Articulation, Breath, Dynamic, Fermata, FretDiagram,
Glissando, Hairpin and Harmony return the state they were given, sink and write context
included, when the context's `canWrite` is false for the element. -/
theorem unwritable_element_emits_nothing (w : WriteState) (a : Arpeggio) (ar : Articulation)
    (b : EngravingItem) (d : Dynamic) (f : Fermata) (fd : FretDiagram) (g : Glissando)
    (h : Hairpin) (ha : Harmony) :
    (w.xml.context.canWrite a.item.eid = false → write_Arpeggio a w = w)
      ∧ (w.xml.context.canWrite ar.item.eid = false → write_Articulation ar w = w)
      ∧ (w.xml.context.canWrite b.eid = false → write_Breath b w = w)
      ∧ (w.xml.context.canWrite d.text.item.eid = false → write_Dynamic d w = w)
      ∧ (w.xml.context.canWrite f.item.eid = false → write_Fermata f w = w)
      ∧ (w.xml.context.canWrite fd.item.eid = false → write_FretDiagram fd w = w)
      ∧ (w.xml.context.canWrite g.line.item.eid = false → write_Glissando g w = w)
      ∧ (w.xml.context.canWrite h.line.item.eid = false → write_Hairpin h w = w)
      ∧ (w.xml.context.canWrite ha.text.item.eid = false → write_Harmony ha w = w) := by
  refine ⟨fun hc => ?_, fun hc => ?_, fun hc => ?_, fun hc => ?_, fun hc => ?_, fun hc => ?_,
    fun hc => ?_, fun hc => ?_, fun hc => ?_⟩
  · simp [write_Arpeggio, WriteState.ctx, hc]
  · simp [write_Articulation, WriteState.ctx, hc]
  · simp [write_Breath, WriteState.ctx, hc]
  · simp [write_Dynamic, WriteState.ctx, hc]
  · simp [write_Fermata, WriteState.ctx, hc]
  · simp [write_FretDiagram, WriteState.ctx, hc]
  · simp [write_Glissando, WriteState.ctx, hc]
  · simp [write_Hairpin, WriteState.ctx, hc]
  · simp [write_Harmony, WriteState.ctx, hc]

theorem unwritable_element_emits_nothing_witness :
    write_Arpeggio Fixture.arpeggio0 Fixture.hiddenState = Fixture.hiddenState
      ∧ write_Articulation Fixture.articulation0 Fixture.hiddenState = Fixture.hiddenState
      ∧ write_Breath Fixture.breath0 Fixture.hiddenState = Fixture.hiddenState
      ∧ write_Dynamic Fixture.dynamic0 Fixture.hiddenState = Fixture.hiddenState
      ∧ write_Fermata Fixture.fermata0 Fixture.hiddenState = Fixture.hiddenState
      ∧ write_FretDiagram Fixture.barreDiagram Fixture.hiddenState = Fixture.hiddenState
      ∧ write_Glissando Fixture.glissando0 Fixture.hiddenState = Fixture.hiddenState
      ∧ write_Hairpin Fixture.hairpin0 Fixture.hiddenState = Fixture.hiddenState
      ∧ write_Harmony Fixture.harmony0 Fixture.hiddenState = Fixture.hiddenState :=
  ⟨(unwritable_element_emits_nothing Fixture.hiddenState Fixture.arpeggio0
      Fixture.articulation0 Fixture.breath0 Fixture.dynamic0 Fixture.fermata0
      Fixture.barreDiagram Fixture.glissando0 Fixture.hairpin0 Fixture.harmony0).1 rfl,
   (unwritable_element_emits_nothing Fixture.hiddenState Fixture.arpeggio0
      Fixture.articulation0 Fixture.breath0 Fixture.dynamic0 Fixture.fermata0
      Fixture.barreDiagram Fixture.glissando0 Fixture.hairpin0 Fixture.harmony0).2.1 rfl,
   (unwritable_element_emits_nothing Fixture.hiddenState Fixture.arpeggio0
      Fixture.articulation0 Fixture.breath0 Fixture.dynamic0 Fixture.fermata0
      Fixture.barreDiagram Fixture.glissando0 Fixture.hairpin0 Fixture.harmony0).2.2.1 rfl,
   (unwritable_element_emits_nothing Fixture.hiddenState Fixture.arpeggio0
      Fixture.articulation0 Fixture.breath0 Fixture.dynamic0 Fixture.fermata0
      Fixture.barreDiagram Fixture.glissando0 Fixture.hairpin0 Fixture.harmony0).2.2.2.1 rfl,
   (unwritable_element_emits_nothing Fixture.hiddenState Fixture.arpeggio0
      Fixture.articulation0 Fixture.breath0 Fixture.dynamic0 Fixture.fermata0
      Fixture.barreDiagram Fixture.glissando0 Fixture.hairpin0 Fixture.harmony0).2.2.2.2.1 rfl,
   (unwritable_element_emits_nothing Fixture.hiddenState Fixture.arpeggio0
      Fixture.articulation0 Fixture.breath0 Fixture.dynamic0 Fixture.fermata0
      Fixture.barreDiagram Fixture.glissando0 Fixture.hairpin0
      Fixture.harmony0).2.2.2.2.2.1 rfl,
   (unwritable_element_emits_nothing Fixture.hiddenState Fixture.arpeggio0
      Fixture.articulation0 Fixture.breath0 Fixture.dynamic0 Fixture.fermata0
      Fixture.barreDiagram Fixture.glissando0 Fixture.hairpin0
      Fixture.harmony0).2.2.2.2.2.2.1 rfl,
   (unwritable_element_emits_nothing Fixture.hiddenState Fixture.arpeggio0
      Fixture.articulation0 Fixture.breath0 Fixture.dynamic0 Fixture.fermata0
      Fixture.barreDiagram Fixture.glissando0 Fixture.hairpin0
      Fixture.harmony0).2.2.2.2.2.2.2.1 rfl,
   (unwritable_element_emits_nothing Fixture.hiddenState Fixture.arpeggio0
      Fixture.articulation0 Fixture.breath0 Fixture.dynamic0 Fixture.fermata0
      Fixture.barreDiagram Fixture.glissando0 Fixture.hairpin0
      Fixture.harmony0).2.2.2.2.2.2.2.2 rfl⟩

end CanWrite

section LineSegments

open TWrite

theorem styles_writeProperty (item : EngravingItem) (w : WriteState) (pid : Pid) :
    (writeProperty item w pid).styles = w.styles :=
  styles_of_appends (writeProperty_appends item w pid)

theorem styles_writeItemProperties_of_bool (item : EngravingItem) (w : WriteState) (b : Bool)
    (h : w.styles item.score Sid.autoplaceEnabled = PropertyValue.bool b) :
    (writeItemProperties item w).styles = w.styles :=
  (styles_writeItemProperties item w).trans (styles_writeAutoplace item w b h)

theorem writeLineHead_styles (l : SLine) (w : WriteState) (b : Bool)
    (h : w.styles l.item.score Sid.autoplaceEnabled = PropertyValue.bool b) :
    (writeLineHead l w).styles = w.styles := by
  dsimp only [writeLineHead, writeProperties_Spanner]
  simp only [styles_writeProperty]
  have h0 : ∀ (c : Prop) [Decidable c] (x : WriteState) (n : String) (v : PropertyValue),
      (if c then x.tag n v else x).styles = x.styles := by
    intro c _ x n v; split <;> rfl
  have h1 : ∀ (c : Prop) [Decidable c] (x : WriteState) (n : String) (f : Fraction),
      (if c then x.tagFraction n f else x).styles = x.styles := by
    intro c _ x n f; split <;> rfl
  have h2 : (if l.endElement.isNone = true then
        if l.computedEndElement.isNone = true then w.tagFraction "ticks" l.ticks else w
      else w).styles = w.styles := by
    split
    · exact h1 _ _ _ _
    · rfl
  rw [h0, styles_writeItemProperties_of_bool _ _ b (by rw [h1, h2]; exact h), h1, h2]

theorem segmentModified_congr (seg : SpannerSegment) (w1 w2 : WriteState)
    (h : w1.styles = w2.styles) : segmentModified seg w1 = segmentModified seg w2 := by
  unfold segmentModified WriteState.styleOf
  rw [h]

theorem writeLineHead_steps_of (P : XmlEvent → Bool)
    (hI : ∀ e, XmlEvent.isItemEvent e = true → P e = true)
    (hT : ∀ n a v, P (XmlEvent.tag n a v) = true) (l : SLine) (w : WriteState) :
    Steps P 0 w (writeLineHead l w) := by
  dsimp only [writeLineHead, writeProperties_Spanner]
  repeat' first
    | with_reducible exact steps_refl _ _
    | with_reducible apply steps_writeItemProperties _ hI
    | with_reducible apply steps_writeProperty _ _ hI
    | with_reducible apply steps_condTag _ _ _ (hT _ _ _)
    | with_reducible apply steps_tagFraction _ _ (hT _ _ _)
    | with_reducible refine steps_ite _ (fun _ => ?_) (fun _ => ?_)

theorem itemEvent_not_startNamed (n : String) (hn : n ≠ "linked") :
    ∀ e, XmlEvent.isItemEvent e = true → (!XmlEvent.isStartNamed n e) = true := by
  intro e he
  cases e with
  | startElement name attrs =>
    simp only [XmlEvent.isItemEvent, XmlEvent.isItemTag, XmlEvent.isLinkEvent, Bool.false_or,
      beq_iff_eq] at he
    simp only [XmlEvent.isStartNamed, Bool.not_eq_true', beq_eq_false_iff_ne, ne_eq]
    rintro rfl
    exact hn he
  | _ => simp [XmlEvent.isStartNamed]

theorem writeSegment_out (sp : ℚ) (w : WriteState) (seg : SpannerSegment) :
    ∃ es, (writeSegment sp w seg).xml.out
      = w.xml.out ++ ([XmlEvent.startElement "Segment" []] ++ es) := by
  have h : Steps (fun _ => true) 0 (w.startElement "Segment" [])
      (writeItemProperties seg.item (writeProperty seg.item
        ((((w.startElement "Segment" []).tag "subtype"
          (PropertyValue.int seg.spannerSegmentType)).tagPoint "offset"
            (seg.offset.1 / sp, seg.offset.2 / sp)).tagPoint "off2"
            (seg.userOff2.1 / sp, seg.userOff2.2 / sp)) Pid.MIN_DISTANCE)) := by
    repeat' first
      | with_reducible exact steps_refl _ _
      | with_reducible apply steps_writeItemProperties _ (fun _ _ => rfl)
      | with_reducible apply steps_writeProperty _ _ (fun _ _ => rfl)
      | with_reducible apply steps_tag _ _ rfl
      | with_reducible apply steps_tagPoint _ _ rfl
  obtain ⟨es, hes, _⟩ := h
  refine ⟨es ++ [XmlEvent.endElement], ?_⟩
  show (writeItemProperties seg.item _).xml.out ++ [XmlEvent.endElement] = _
  rw [hes]
  simp [WriteState.startElement, WriteState.emit, List.append_assoc]

theorem writeSegments_any (sp : ℚ) (segs : List SpannerSegment) (w : WriteState)
    (hne : segs ≠ []) :
    (w.emitted (segs.foldl (writeSegment sp) w)).any (XmlEvent.isStartNamed "Segment")
      = true := by
  cases segs with
  | nil => exact absurd rfl hne
  | cons s rest =>
    obtain ⟨es, hes⟩ := writeSegment_out sp w s
    have hrest : Steps (fun _ => true) 0 (writeSegment sp w s)
        (rest.foldl (writeSegment sp) (writeSegment sp w s)) :=
      steps_foldl _ (fun w x => writeSegment_steps sp x w) _ (steps_refl _ _)
    obtain ⟨es2, hes2, _⟩ := hrest
    have hout : ((s :: rest).foldl (writeSegment sp) w).xml.out
        = w.xml.out ++ ([XmlEvent.startElement "Segment" []] ++ es ++ es2) := by
      rw [List.foldl_cons, hes2, hes]
      simp [List.append_assoc]
    have hem : w.emitted ((s :: rest).foldl (writeSegment sp) w)
        = [XmlEvent.startElement "Segment" []] ++ es ++ es2 := by
      unfold WriteState.emitted
      rw [hout]
      simp
    rw [hem]
    simp [XmlEvent.isStartNamed]

/-- The "Segment" elements written by the line writer in a score that is not a palette
score: present exactly when the test of the writer holds for some segment. -/
theorem segment_output_any (l : SLine) (w : WriteState) (b : Bool)
    (hp : (w.scores l.item.score).isPaletteScore = false)
    (hs : w.styles l.item.score Sid.autoplaceEnabled = PropertyValue.bool b) :
    (w.emitted (writeProperties_SLine l w)).any (XmlEvent.isStartNamed "Segment")
      = l.spannerSegments.any (fun seg => segmentModified seg w) := by
  have hhead := writeLineHead_steps_of (fun e => !XmlEvent.isStartNamed "Segment" e)
    (itemEvent_not_startNamed "Segment" (by decide)) (fun _ _ _ => rfl) l w
  have hst := writeLineHead_styles l w b hs
  obtain ⟨hout, hP, _⟩ := steps_emitted hhead
  obtain ⟨_, _, _, _, hsc, _⟩ := hhead
  have hpal : ((writeLineHead l w).scoreOf l.item).isPaletteScore = false := by
    unfold WriteState.scoreOf
    rw [hsc]
    exact hp
  have hmod : (l.spannerSegments.any (fun seg => segmentModified seg (writeLineHead l w)))
      = l.spannerSegments.any (fun seg => segmentModified seg w) := by
    congr 1
    funext seg
    exact segmentModified_congr seg _ _ hst
  have hnone : (w.emitted (writeLineHead l w)).any (XmlEvent.isStartNamed "Segment") = false := by
    rw [List.any_eq_false]
    intro e he
    simpa using hP e he
  dsimp only [writeProperties_SLine]
  rw [if_neg (by simp [hpal])]
  dsimp only [writeLineSegments]
  rw [hmod]
  by_cases hm : l.spannerSegments.any (fun seg => segmentModified seg w) = true
  · rw [hm]
    simp only [Bool.not_true, Bool.false_eq_true, if_false]
    have hne : l.spannerSegments ≠ [] := by
      intro h
      rw [h] at hm
      simp at hm
    have hseg := writeSegments_any ((writeLineHead l w).scoreOf l.item).spatium
      l.spannerSegments (writeLineHead l w) hne
    have hgrow : Steps (fun _ => true) 0 (writeLineHead l w)
        (l.spannerSegments.foldl (writeSegment ((writeLineHead l w).scoreOf l.item).spatium)
          (writeLineHead l w)) :=
      steps_foldl _ (fun w x => writeSegment_steps _ x w) _ (steps_refl _ _)
    obtain ⟨hout2, _, _⟩ := steps_emitted hgrow
    have hem : w.emitted (l.spannerSegments.foldl
          (writeSegment ((writeLineHead l w).scoreOf l.item).spatium) (writeLineHead l w))
        = w.emitted (writeLineHead l w)
          ++ (writeLineHead l w).emitted (l.spannerSegments.foldl
              (writeSegment ((writeLineHead l w).scoreOf l.item).spatium)
              (writeLineHead l w)) := by
      conv_lhs => rw [WriteState.emitted, hout2, hout]
      simp [List.append_assoc]
    rw [hem, List.any_append, hseg]
    simp
  · have hm' : l.spannerSegments.any (fun seg => segmentModified seg w) = false := by
      simpa using hm
    rw [hm']
    simp only [Bool.not_false, if_true]
    exact hnone


theorem segmentModified_iff (seg : SpannerSegment) (w : WriteState) :
    segmentModified seg w = true ↔ segmentUserModified seg (w.styles seg.item.score) := by
  unfold segmentModified segmentUserModified PointF.isNull EngravingItem.isStyled
    WriteState.styleOf
  have ho : ∀ p : ℚ × ℚ, (p.1 == 0 && p.2 == 0) = true ↔ p = (0, 0) := by
    intro p
    rw [Bool.and_eq_true, beq_iff_eq, beq_iff_eq]
    exact ⟨fun h => Prod.ext h.1 h.2, fun h => by rw [h]; exact ⟨rfl, rfl⟩⟩
  have hn : ∀ p : ℚ × ℚ, (!(p.1 == 0 && p.2 == 0)) = true ↔ p ≠ (0, 0) := by
    intro p
    rw [Bool.not_eq_true', ← Bool.not_eq_true, ho]
  simp only [Bool.or_eq_true, Bool.and_eq_true, Bool.not_eq_true', beq_iff_eq, bne_iff_ne,
    ne_eq, beq_eq_false_iff_ne, hn]
  tauto

/-- C20, as stated, fails: a line in a score that is not a palette score whose one segment is
autoplaced and visible, has null offsets and a minimum distance equal to its default, but set
by the user (flag `UNSTYLED`): no segment meets any condition of the claim, yet a "Segment"
element is written. -/
theorem segment_written_without_difference :
    (∀ seg ∈ Fixture.resetLine.spannerSegments,
        ¬ segmentDiffersFromDefault seg (Fixture.state0.styles seg.item.score))
      ∧ (Fixture.state0.scores Fixture.resetLine.item.score).isPaletteScore = false
      ∧ (Fixture.state0.emitted
          (writeProperties_SLine Fixture.resetLine Fixture.state0)).any
          (XmlEvent.isStartNamed "Segment") = true := by
  refine ⟨?_, rfl, ?_⟩
  · intro seg hseg
    have : seg = Fixture.resetSegment := by
      simpa [Fixture.resetLine] using hseg
    subst this
    simp [segmentDiffersFromDefault, Fixture.resetSegment, Fixture.item0]
  · rw [segment_output_any Fixture.resetLine Fixture.state0 true rfl rfl]
    have h : segmentModified Fixture.resetSegment Fixture.state0 = true :=
      (segmentModified_iff _ _).mpr (Or.inr (Or.inr (Or.inl rfl)))
    simp [Fixture.resetLine, h]

/-- C20, amended: for a line in a score that is not a palette score, per-segment output is
written if and only if the line is user-modified, that is, some segment is not autoplaced,
or not visible, or has a minimum distance that carries the flag `UNSTYLED` or differs from
its default, or has an offset that is not styled together with an offset or second offset
that is not null; if no segment is so, no "Segment" element is written. -/
theorem segment_output_iff (l : SLine) (w : WriteState) (b : Bool)
    (hp : (w.scores l.item.score).isPaletteScore = false)
    (hs : w.styles l.item.score Sid.autoplaceEnabled = PropertyValue.bool b) :
    ((w.emitted (writeProperties_SLine l w)).any (XmlEvent.isStartNamed "Segment") = true
        ↔ ∃ seg ∈ l.spannerSegments, segmentUserModified seg (w.styles seg.item.score))
      ∧ ((∀ seg ∈ l.spannerSegments, ¬ segmentUserModified seg (w.styles seg.item.score)) →
          ∀ e ∈ w.emitted (writeProperties_SLine l w),
            XmlEvent.isStartNamed "Segment" e = false) := by
  have h := segment_output_any l w b hp hs
  have hiff : ((w.emitted (writeProperties_SLine l w)).any (XmlEvent.isStartNamed "Segment")
      = true ↔ ∃ seg ∈ l.spannerSegments, segmentUserModified seg (w.styles seg.item.score)) := by
    rw [h, List.any_eq_true]
    constructor
    · rintro ⟨seg, hseg, hm⟩
      exact ⟨seg, hseg, (segmentModified_iff seg w).mp hm⟩
    · rintro ⟨seg, hseg, hm⟩
      exact ⟨seg, hseg, (segmentModified_iff seg w).mpr hm⟩
  refine ⟨hiff, fun hno e he => ?_⟩
  by_contra hc
  have hany : (w.emitted (writeProperties_SLine l w)).any (XmlEvent.isStartNamed "Segment")
      = true := List.any_eq_true.mpr ⟨e, he, by simpa using hc⟩
  obtain ⟨seg, hseg, hm⟩ := hiff.mp hany
  exact hno seg hseg hm

theorem segment_output_iff_witness :
    (Fixture.state0.scores Fixture.movedLine.item.score).isPaletteScore = false
      ∧ (Fixture.state0.emitted
          (writeProperties_SLine Fixture.movedLine Fixture.state0)).any
          (XmlEvent.isStartNamed "Segment") = true :=
  ⟨rfl, (segment_output_iff Fixture.movedLine Fixture.state0 true rfl rfl).1.mpr
    ⟨Fixture.movedSegment, by simp [Fixture.movedLine],
      Or.inr (Or.inr (Or.inr (Or.inr ⟨by decide, Or.inr (by
        simp [Fixture.movedSegment])⟩)))⟩⟩

end LineSegments

section ChordRestSpanners

open TWrite

theorem mem_slurEvents_isSpannerTag (c : ChordRest) (cw : Nat → Bool) (ss : List Spanner) :
    ∀ e ∈ slurEvents c cw ss, XmlEvent.isSpannerTag e = true := by
  intro e he
  simp only [slurEvents, List.mem_flatMap] at he
  obtain ⟨s, _, hs⟩ := he
  split_ifs at hs <;> simp at hs <;> subst hs <;> rfl

theorem emitted_chordRest_spannerTags (c : ChordRest) (w : WriteState) :
    (w.emitted (writeProperties_ChordRest c w)).filter XmlEvent.isSpannerTag
      = slurEvents c w.xml.context.canWrite
          ((w.scores c.item.score).findOverlapping
            (w.globals.ticks w.xml.context.curTick - 1)
            (w.globals.ticks w.xml.context.curTick + 1)) := by
  obtain ⟨hout, hP⟩ := advanceCurTick_emitted c w
  rw [writeProperties_ChordRest_eq]
  have hem : ∀ es, w.emitted ((advanceCurTick c (writeChordRestHead c w)).appendOut es)
      = w.emitted (advanceCurTick c (writeChordRestHead c w)) ++ es := by
    intro es
    simp only [WriteState.emitted, WriteState.appendOut]
    rw [hout]
    simp [WriteState.emitted]
  rw [hem, List.filter_append,
    filter_eq_nil_of_forall _ (fun e => !XmlEvent.isSpannerTag e) (fun e he => by simpa using he)
      _ (fun e he => by simpa using hP e he),
    filter_eq_self_of_forall _ _ (mem_slurEvents_isSpannerTag c _ _)]
  rfl

/-- C28: the spanner tags written by the chord-rest block are, for the spanners returned by
the overlap lookup and in their order, one tag for each spanner that is not generated, is a
slur, is not broken, may be written in this pass and has the chord-rest as start or end
element: the start tag when the chord-rest is the start element, otherwise the end tag; a
slur that starts and ends on the chord-rest gets the start tag only, and a generated, broken,
non-slur or unwritable spanner gets no tag. -/
theorem spanner_tag_iff (c : ChordRest) (w : WriteState) :
    (w.emitted (writeProperties_ChordRest c w)).filter XmlEvent.isSpannerTag
        = ((w.scores c.item.score).findOverlapping
            (w.globals.ticks w.xml.context.curTick - 1)
            (w.globals.ticks w.xml.context.curTick + 1)).flatMap
          (fun s => slurEvents c w.xml.context.canWrite [s])
      ∧ ∀ s : Spanner,
          slurEvents c w.xml.context.canWrite [s]
            = if s.generated = false ∧ s.isSlur = true ∧ s.broken = false
                  ∧ w.xml.context.canWrite s.sid = true
                  ∧ (s.startElement = some c.item.eid ∨ s.endElement = some c.item.eid) then
                (if s.startElement = some c.item.eid then
                  [XmlEvent.spannerStart s.sid c.item.eid c.item.track]
                 else [XmlEvent.spannerEnd s.sid c.item.eid c.item.track])
              else [] := by
  refine ⟨?_, fun s => ?_⟩
  · rw [emitted_chordRest_spannerTags]
    simp [slurEvents]
  · simp only [slurEvents, List.flatMap_cons, List.flatMap_nil, List.append_nil]
    by_cases h1 : s.generated = true <;> by_cases h2 : s.isSlur = true
      <;> by_cases h3 : s.broken = true
      <;> by_cases h4 : w.xml.context.canWrite s.sid = true
      <;> by_cases h5 : s.startElement = some c.item.eid
      <;> by_cases h6 : s.endElement = some c.item.eid
      <;> simp [h1, h2, h3, h4, h5, h6]

theorem toRat_add (a b : Fraction) (ha : a.denominator ≠ 0) (hb : b.denominator ≠ 0) :
    (a.add b).toRat = a.toRat + b.toRat := by
  unfold Fraction.add Fraction.toRat
  have ha' : (a.denominator : ℚ) ≠ 0 := by exact_mod_cast ha
  have hb' : (b.denominator : ℚ) ≠ 0 := by exact_mod_cast hb
  push_cast
  field_simp

theorem toRat_nonneg (a : Fraction) (hn : 0 ≤ a.numerator) (hd : 0 < a.denominator) :
    0 ≤ a.toRat := by
  unfold Fraction.toRat
  have h1 : (0 : ℚ) ≤ a.numerator := by exact_mod_cast hn
  have h2 : (0 : ℚ) < a.denominator := by exact_mod_cast hd
  exact div_nonneg h1 h2.le

theorem advancedCursor_mono (c : ChordRest) (cur : Fraction) (hcur : 0 < cur.denominator)
    (hg : 0 ≤ c.globalTicks.numerator ∧ 0 < c.globalTicks.denominator)
    (hts : ∀ t, 0 < (c.timeStretch t).numerator ∧ 0 < (c.timeStretch t).denominator) :
    0 < (advancedCursor c cur).denominator ∧ cur.toRat ≤ (advancedCursor c cur).toRat := by
  unfold advancedCursor
  split
  · exact ⟨hcur, le_refl _⟩
  · have key : ∀ t : Fraction, 0 ≤ t.numerator → 0 < t.denominator →
        0 < (cur.add t).denominator ∧ cur.toRat ≤ (cur.add t).toRat := by
      intro t hn hd
      refine ⟨Int.mul_pos hcur hd, ?_⟩
      rw [toRat_add cur t (ne_of_gt hcur) (ne_of_gt hd)]
      linarith [toRat_nonneg t hn hd]
    split
    · exact key _ (Int.mul_nonneg hg.1 (hts cur).2.le) (Int.mul_pos hg.2 (hts cur).1)
    · exact key _ hg.1 hg.2

theorem chordRest_cursor (c : ChordRest) (w : WriteState) :
    (writeProperties_ChordRest c w).xml.context.curTick
      = advancedCursor c w.xml.context.curTick := by
  rw [writeProperties_ChordRest_eq]
  exact advanceCurTick_cursor c w

theorem cursor_mono_over_blocks (cs : List ChordRest) (w : WriteState)
    (hcur : 0 < w.xml.context.curTick.denominator)
    (hcs : ∀ c ∈ cs, (0 ≤ c.globalTicks.numerator ∧ 0 < c.globalTicks.denominator)
      ∧ ∀ t, 0 < (c.timeStretch t).numerator ∧ 0 < (c.timeStretch t).denominator) :
    0 < (cs.foldl (fun w c => writeProperties_ChordRest c w) w).xml.context.curTick.denominator
      ∧ w.xml.context.curTick.toRat
        ≤ (cs.foldl (fun w c => writeProperties_ChordRest c w) w).xml.context.curTick.toRat := by
  induction cs generalizing w with
  | nil => exact ⟨hcur, le_refl _⟩
  | cons c cs ih =>
    have hc := hcs c (by simp)
    have h1 := advancedCursor_mono c w.xml.context.curTick hcur hc.1 hc.2
    rw [← chordRest_cursor] at h1
    have h2 := ih (writeProperties_ChordRest c w) h1.1 (fun x hx => hcs x (by simp [hx]))
    exact ⟨h2.1, le_trans h1.2 h2.2⟩

/-- C29: the chord-rest block leaves the tick cursor unchanged for a grace chord-rest; for
any other chord-rest the new cursor is the old cursor plus the global ticks of the element,
divided by the time-stretch of its staff at the old cursor when the element has a staff.
Hence over any sequence of chord-rest blocks whose durations are not negative and whose
time-stretches are positive, the value of the cursor never decreases. -/
theorem cursor_update_of_chordRest (c : ChordRest) (w : WriteState) :
    (writeProperties_ChordRest c w).xml.context.curTick
        = (if c.isGrace = true then w.xml.context.curTick
           else if c.item.staff.isSome = true then
             w.xml.context.curTick.add
               (c.globalTicks.div (c.timeStretch w.xml.context.curTick))
           else w.xml.context.curTick.add c.globalTicks)
      ∧ ∀ cs : List ChordRest, 0 < w.xml.context.curTick.denominator →
          (∀ x ∈ cs, (0 ≤ x.globalTicks.numerator ∧ 0 < x.globalTicks.denominator)
            ∧ ∀ t, 0 < (x.timeStretch t).numerator ∧ 0 < (x.timeStretch t).denominator) →
          w.xml.context.curTick.toRat
            ≤ (cs.foldl (fun w x => writeProperties_ChordRest x w)
                w).xml.context.curTick.toRat := by
  refine ⟨?_, fun cs hcur hcs => (cursor_mono_over_blocks cs w hcur hcs).2⟩
  rw [chordRest_cursor]
  unfold advancedCursor
  split
  · rfl
  · split <;> rfl

theorem cursor_update_of_chordRest_witness :
    Fixture.slurState.xml.context.curTick.toRat
      ≤ ([Fixture.quarterChord, Fixture.quarterChord].foldl
          (fun w x => writeProperties_ChordRest x w)
          Fixture.slurState).xml.context.curTick.toRat :=
  (cursor_update_of_chordRest Fixture.quarterChord Fixture.slurState).2
    [Fixture.quarterChord, Fixture.quarterChord] (by decide)
    (by
      intro x hx
      have hx' : x = Fixture.quarterChord := by simpa using hx
      subst hx'
      exact ⟨⟨by decide, by decide⟩, fun _ => ⟨Int.one_pos, Int.one_pos⟩⟩)

end ChordRestSpanners

section PropertyConversion

open TWrite

/-- C23: for a property that is not styled, has a valid value and is not the font style:
a MILLIMETRE property that the fuzzy compare does not suppress is written whatever its
default, with its value divided by the spatium of the score; a POINT property that the
fuzzy compare does not suppress is written whatever its default, with both components
divided by the spatium of the score when the offset of the item is spatium-dependent and by
`DPMM` otherwise; a property of any other type is handed to the sink unconverted with its
default, so that its tag is written exactly when the value differs from the default. -/
theorem writeProperty_conversion (item : EngravingItem) (w : WriteState) (pid : Pid)
    (hs : item.isStyled pid = false)
    (hv : (item.getProperty (w.styleOf item) pid).isValid = true)
    (hpid : pid ≠ Pid.FONT_STYLE) :
    (w.globals.propertyType pid = P_TYPE.MILLIMETRE →
      ¬ ((item.propertyDefault (w.styleOf item) pid).isValid = true
          ∧ |(item.getProperty (w.styleOf item) pid).toReal
              - (item.propertyDefault (w.styleOf item) pid).toReal| < 1 / 10000) →
      writeProperty item w pid
        = w.emit (XmlEvent.tagProperty pid (PropertyValue.spatium
            ((item.getProperty (w.styleOf item) pid).toReal / (w.scoreOf item).spatium))))
    ∧ (w.globals.propertyType pid = P_TYPE.POINT →
        ¬ ((item.propertyDefault (w.styleOf item) pid).isValid = true
            ∧ |(item.getProperty (w.styleOf item) pid).toPointF.1
                - (item.propertyDefault (w.styleOf item) pid).toPointF.1| < 1 / 10000
            ∧ |(item.getProperty (w.styleOf item) pid).toPointF.2
                - (item.propertyDefault (w.styleOf item) pid).toPointF.2| < 1 / 10000) →
        writeProperty item w pid
          = w.emit (XmlEvent.tagProperty pid (PropertyValue.point
              ((item.getProperty (w.styleOf item) pid).toPointF.1
                / (if item.offsetIsSpatiumDependent = true then (w.scoreOf item).spatium
                   else w.globals.DPMM))
              ((item.getProperty (w.styleOf item) pid).toPointF.2
                / (if item.offsetIsSpatiumDependent = true then (w.scoreOf item).spatium
                   else w.globals.DPMM)))))
    ∧ (w.globals.propertyType pid ≠ P_TYPE.MILLIMETRE →
        w.globals.propertyType pid ≠ P_TYPE.POINT →
        writeProperty item w pid
          = if item.getProperty (w.styleOf item) pid
                = item.propertyDefault (w.styleOf item) pid then w
            else w.emit (XmlEvent.tagProperty pid (item.getProperty (w.styleOf item) pid))) := by
  have hf : item.propertyFlags pid ≠ PropertyFlags.STYLED := by
    simpa [EngravingItem.isStyled] using hs
  have hw : writeProperty item w pid
      = match convertProperty item w pid (item.getProperty (w.styleOf item) pid)
          (item.propertyDefault (w.styleOf item) pid) with
        | none => w
        | some (p, d) => w.tagProperty pid p d := by
    simp only [writeProperty, hs, hv, hpid, ne_eq, hf, not_false_eq_true, if_true,
      Bool.false_eq_true, if_false, Bool.not_true]
  refine ⟨fun ht hn => ?_, fun ht hn => ?_, fun h1 h2 => ?_⟩
  · rw [writeProperty_millimetre item w pid hf hv hpid ht, if_neg]
    rintro ⟨hd, hlt⟩
    exact hn ⟨hd, lt_of_not_le (fun hle => fuzzy_far hle hlt)⟩
  · rw [writeProperty_point item w pid hf hv hpid ht, if_neg]
    rintro ⟨hd, hx, hy⟩
    exact hn ⟨hd, lt_of_not_le (fun hle => fuzzy_far hle hx),
      lt_of_not_le (fun hle => fuzzy_far hle hy)⟩
  · rw [hw]
    simp only [convertProperty, h1, h2, if_false, WriteState.tagProperty]

theorem writeProperty_conversion_witness :
    writeProperty Fixture.mmItem Fixture.state0 Pid.MIN_DISTANCE
      = Fixture.state0.emit (XmlEvent.tagProperty Pid.MIN_DISTANCE
          (PropertyValue.spatium
            ((Fixture.mmItem.getProperty (Fixture.state0.styleOf Fixture.mmItem)
                Pid.MIN_DISTANCE).toReal
              / (Fixture.state0.scoreOf Fixture.mmItem).spatium))) :=
  (writeProperty_conversion Fixture.mmItem Fixture.state0 Pid.MIN_DISTANCE rfl rfl
    (by decide)).1 rfl (by
      intro h
      have h2 := h.2
      simp only [Fixture.mmItem, PropertyValue.toReal] at h2
      rw [abs_of_pos (by norm_num)] at h2
      norm_num at h2)

end PropertyConversion

section StemAndBeam

open TWrite

theorem writeStemParts_eq (c : ChordData) (w : WriteState) :
    writeStemParts c w = w.appendOut (stemEvents c ++ hookEvents c ++ slashEvents c) := by
  unfold writeStemParts stemEvents hookEvents slashEvents
  rcases c with ⟨cr, arts, nt, noStem, stem, hook, slash, notes, arp, trem, tct, el⟩
  cases noStem <;> cases stem <;> cases hook <;> cases slash <;> dsimp only <;>
    split_ifs <;>
    first
      | contradiction
      | simp [emit_eq_appendOut, tag_eq_appendOut, appendOut_appendOut, appendOut_nil]

theorem emitted_of_tail {P : XmlEvent → Bool} {w w6 x : WriteState} {A M : List XmlEvent}
    (h6 : w6.xml.out = w.xml.out ++ (A ++ M)) (hx : Steps P 0 w6 x) :
    ∃ A B, w.emitted x.endElement = A ++ M ++ B := by
  obtain ⟨B, hB, -⟩ := hx
  refine ⟨A, B ++ [XmlEvent.endElement], ?_⟩
  unfold WriteState.emitted
  rw [endElement_eq_appendOut, out_appendOut, hB, h6]
  simp

theorem writeChordBody_stemParts (c : ChordData) (w : WriteState) :
    ∃ A B, w.emitted (writeChordBody c w)
      = A ++ (stemEvents c ++ hookEvents c ++ slashEvents c) ++ B := by
  unfold writeChordBody
  dsimp only
  generalize hw5 : (writeNoteType c.noteType
        (c.articulations.foldl (fun w a => write_Articulation a w)
          (writeProperties_ChordRest c.cr
            ((writeChordRestBeam c.cr w).startElement c.cr.item.typeName [])))) = w5
  have hpre : Steps (fun _ => true) 1 w w5 := by
    rw [← hw5]
    repeat' first
      | with_reducible apply steps_sub (writeChordRestBeam_steps _ _)
      | with_reducible apply steps_sub (writeProperties_ChordRest_steps _ _)
      | with_reducible apply steps_sub (write_Articulation_steps _ _)
      | with_reducible apply steps_sub (writeNoteType_steps _ _)
      | with_reducible exact steps_refl _ _
      | with_reducible apply steps_start _ _ rfl
      | with_reducible refine steps_foldl _ (fun _ _ => ?_) _ ?_
  obtain ⟨A, hA, -⟩ := hpre
  have h6 : (writeStemParts c w5).xml.out
      = w.xml.out ++ (A ++ (stemEvents c ++ hookEvents c ++ slashEvents c)) := by
    rw [writeStemParts_eq, out_appendOut, hA, List.append_assoc]
  generalize writeStemParts c w5 = w6 at h6 ⊢
  refine emitted_of_tail (P := fun _ => true) h6 ?_
  repeat' first
    | with_reducible apply steps_sub (write_Arpeggio_steps _ _)
    | with_reducible exact steps_refl _ _
    | with_reducible apply steps_writeProperty _ _ (fun _ _ => rfl)
    | with_reducible apply steps_emitWrite _ rfl
    | with_reducible refine steps_foldl _ (fun _ _ => ?_) _ ?_
    | with_reducible split

theorem write_Chord_stemParts (c : ChordData) (gs : List Chord) (w : WriteState) :
    ∃ A B, w.emitted (write_Chord (Chord.mk c gs) w)
      = A ++ (stemEvents c ++ hookEvents c ++ slashEvents c) ++ B := by
  rw [write_Chord]
  obtain ⟨G, hG, -⟩ := write_Chords_steps gs w
  obtain ⟨A, B, hAB⟩ := writeChordBody_stemParts c (write_Chords gs w)
  obtain ⟨hout, -⟩ := steps_emitted (writeChordBody_steps c (write_Chords gs w))
  refine ⟨G ++ A, B, ?_⟩
  unfold WriteState.emitted
  rw [hout, hAB, hG]
  simp

/-- C22, as stated, fails: the stem of the chord `Fixture.lengthenedChord` exists and is not
user-modified, and the chord writer writes it all the same, because its user length is not
zero. -/
theorem unmodified_stem_written :
    Fixture.lengthenedChord.stem
        = some { eid := 70, isUserModified := false, userLength := 1 }
      ∧ writeStemParts Fixture.lengthenedChord Fixture.state0
        = Fixture.state0.emit (XmlEvent.write 70)
      ∧ XmlEvent.write 70
        ∈ Fixture.state0.emitted
            (write_Chord (Chord.mk Fixture.lengthenedChord []) Fixture.state0) := by
  have hev : stemEvents Fixture.lengthenedChord ++ hookEvents Fixture.lengthenedChord
      ++ slashEvents Fixture.lengthenedChord = [XmlEvent.write 70] := by
    simp [stemEvents, hookEvents, slashEvents, Fixture.lengthenedChord]
  refine ⟨rfl, ?_, ?_⟩
  · rw [writeStemParts_eq, hev]
    rfl
  · obtain ⟨A, B, hAB⟩ := write_Chord_stemParts Fixture.lengthenedChord [] Fixture.state0
    rw [hAB, hev]
    simp

/-- C22 (amended): the stem, hook and stem-slash block of the chord writer appends exactly
the stem, hook and stem-slash calls, and these calls are part of what the chord writer
emits. The stem is written only if it is user-modified or has a non-zero user length: a stem
that exists, is not user-modified and has user length zero is never written, and a stem that
is user-modified or has a user length, on a chord that is not stemless, is written. The
hook (resp. the stem slash) is written only if it is user-modified: one that exists but is not
user-modified is never written. -/
theorem stem_parts_written_only_if_modified (c : ChordData) (gs : List Chord)
    (w : WriteState) :
    writeStemParts c w = w.appendOut (stemEvents c ++ hookEvents c ++ slashEvents c)
      ∧ (∃ A B, w.emitted (write_Chord (Chord.mk c gs) w)
          = A ++ (stemEvents c ++ hookEvents c ++ slashEvents c) ++ B)
      ∧ (∀ s, c.stem = some s → s.isUserModified = false → s.userLength = 0 →
          XmlEvent.write s.eid ∉ stemEvents c)
      ∧ (∀ s, c.stem = some s → (s.isUserModified = true ∨ s.userLength ≠ 0) →
          c.noStem = false → stemEvents c = [XmlEvent.write s.eid])
      ∧ (∀ h, c.hook = some h →
          (hookEvents c = [XmlEvent.write h.eid] ↔ h.isUserModified = true)
            ∧ (h.isUserModified = false → hookEvents c = []))
      ∧ (∀ s, c.stemSlash = some s →
          (slashEvents c = [XmlEvent.write s.eid] ↔ s.isUserModified = true)
            ∧ (s.isUserModified = false → slashEvents c = [])) := by
  refine ⟨writeStemParts_eq c w, write_Chord_stemParts c gs w, ?_, ?_, ?_, ?_⟩
  · intro s hs hm hl
    unfold stemEvents
    rw [hs]
    by_cases hn : c.noStem = true
    · simp [hn]
    · simp [hn, hm, hl]
  · intro s hs hm hn
    unfold stemEvents
    rw [hs]
    simp only [hn, Bool.false_eq_true, if_false]
    rw [if_pos hm]
  · intro h hh
    unfold hookEvents
    rw [hh]
    cases hm : h.isUserModified <;> simp [hm]
  · intro s hs
    unfold slashEvents
    rw [hs]
    cases hm : s.isUserModified <;> simp [hm]

theorem stem_parts_written_only_if_modified_witness :
    (hookEvents Fixture.lengthenedChord = []) :=
  ((stem_parts_written_only_if_modified Fixture.lengthenedChord [] Fixture.state0).2.2.2.2.1
    { eid := 71, isUserModified := false } rfl).2 rfl

theorem writeChordRestBeam_cases (c : ChordRest) (w : WriteState) :
    (∀ b, c.beam = some b → b.elements.head? = some c.item.eid →
        (w.globals.testMode = true ∨ b.generated = false) →
        writeChordRestBeam c w = write_Beam b w ∧ w.emitted (write_Beam b w) ≠ [])
      ∧ (¬ (∃ b, c.beam = some b ∧ b.elements.head? = some c.item.eid
            ∧ (w.globals.testMode = true ∨ b.generated = false)) →
          writeChordRestBeam c w = w) := by
  constructor
  · intro b hb hf hg
    constructor
    · unfold writeChordRestBeam
      rw [hb]
      dsimp only
      rw [if_pos]
      refine ⟨hf, ?_⟩
      rcases hg with h | h
      · exact Or.inl h
      · exact Or.inr (by simp [h])
    · have hne : b.elements ≠ [] := by
        intro h
        rw [h] at hf
        cases hf
      obtain ⟨P, -, hem⟩ := write_Beam_emitted b w hne
      rw [hem]
      simp
  · intro hno
    unfold writeChordRestBeam
    cases hb : c.beam with
    | none => rfl
    | some b =>
      dsimp only
      rw [if_neg]
      rintro ⟨hf, hg⟩
      refine hno ⟨b, hb, hf, ?_⟩
      rcases hg with h | h
      · exact Or.inl h
      · exact Or.inr (by simpa using h)

/-- C21, as stated, fails: the beam of `Fixture.beamedChord` starts on that chord and is not
user-modified, the pass does not run in test mode, and the beam is written all the same,
because it is not a generated beam. -/
theorem unmodified_beam_written :
    Fixture.beamedChord.beam = some Fixture.firstBeam
      ∧ Fixture.firstBeam.elements.head? = some Fixture.beamedChord.item.eid
      ∧ Fixture.firstBeam.userModified = false
      ∧ Fixture.state0.globals.testMode = false
      ∧ writeChordRestBeam Fixture.beamedChord Fixture.state0
        = write_Beam Fixture.firstBeam Fixture.state0
      ∧ Fixture.state0.emitted (writeChordRestBeam Fixture.beamedChord Fixture.state0)
        ≠ [] := by
  have h := (writeChordRestBeam_cases Fixture.beamedChord Fixture.state0).1
    Fixture.firstBeam rfl rfl (Or.inr rfl)
  refine ⟨rfl, rfl, rfl, rfl, h.1, ?_⟩
  rw [h.1]
  exact h.2

/-- C21 (amended): the beam hook of the chord-rest writers writes the beam of the chord-rest
`c` if and only if `c` has a beam, `c` is the first element of that beam, and the beam is not
a generated one or the pass runs in test mode. In that case it is the beam writer that runs,
and it emits something; in every other case nothing is written, so a chord-rest that is not
the first element of its beam never writes it, and a generated beam outside test mode is
never written. -/
theorem beam_written_iff (c : ChordRest) (w : WriteState) :
    (w.emitted (writeChordRestBeam c w) ≠ []
        ↔ ∃ b, c.beam = some b ∧ b.elements.head? = some c.item.eid
            ∧ (w.globals.testMode = true ∨ b.generated = false))
      ∧ (∀ b, c.beam = some b → b.elements.head? = some c.item.eid →
          (w.globals.testMode = true ∨ b.generated = false) →
          writeChordRestBeam c w = write_Beam b w)
      ∧ (∀ b, c.beam = some b → b.elements.head? ≠ some c.item.eid →
          writeChordRestBeam c w = w)
      ∧ (∀ b, c.beam = some b → b.generated = true → w.globals.testMode = false →
          writeChordRestBeam c w = w) := by
  obtain ⟨h1, h2⟩ := writeChordRestBeam_cases c w
  refine ⟨⟨fun hne => ?_, fun ⟨b, hb, hf, hg⟩ => ?_⟩, fun b hb hf hg => (h1 b hb hf hg).1,
    fun b hb hf => ?_, fun b hb hg ht => ?_⟩
  · by_contra hno
    apply hne
    rw [h2 hno]
    simp [WriteState.emitted]
  · rw [(h1 b hb hf hg).1]
    exact (h1 b hb hf hg).2
  · apply h2
    rintro ⟨b2, hb2, hf2, -⟩
    rw [hb] at hb2
    cases hb2
    exact hf hf2
  · apply h2
    rintro ⟨b2, hb2, -, hg2⟩
    rw [hb] at hb2
    cases hb2
    rcases hg2 with h | h
    · rw [ht] at h
      cases h
    · rw [hg] at h
      cases h

theorem beam_written_iff_witness :
    writeChordRestBeam Fixture.beamedChord Fixture.state0
      = write_Beam Fixture.firstBeam Fixture.state0 :=
  (beam_written_iff Fixture.beamedChord Fixture.state0).2.1 Fixture.firstBeam rfl rfl
    (Or.inr rfl)

end StemAndBeam

section ChordSymbolWriter

open TWrite

theorem filter_sandwich_end (p : XmlEvent → Bool) (hp : p XmlEvent.endElement = false)
    {k j : Nat} {w w1 w3 : WriteState}
    (E : List XmlEvent) (h1 : Steps (fun e => !p e) k w w1)
    (h3 : Steps (fun e => !p e) j (w1.appendOut E) w3) :
    (w.emitted w3.endElement).filter p = E.filter p := by
  obtain ⟨a, ha, haP, _, _, _⟩ := h1
  obtain ⟨b, hb, hbP, _, _, _⟩ := h3
  have hout : w3.endElement.xml.out = w.xml.out ++ (a ++ E ++ b ++ [XmlEvent.endElement]) := by
    rw [endElement_eq_appendOut, out_appendOut, hb, out_appendOut, ha]
    simp only [List.append_assoc]
  have hfa : a.filter p = [] :=
    List.filter_eq_nil_iff.mpr (fun e he => by simpa using haP e he)
  have hfb : b.filter p = [] :=
    List.filter_eq_nil_iff.mpr (fun e he => by simpa using hbP e he)
  unfold WriteState.emitted
  rw [hout]
  simp [List.filter_append, hfa, hfb, hp]

theorem writeHarmonyRoot_eq (h : Harmony) (w : WriteState)
    (hv : h.rootTpc ≠ w.globals.TPC_INVALID ∨ h.baseTpc ≠ w.globals.TPC_INVALID) :
    writeHarmonyRoot h w
      = h.degreeList.foldl writeHarmonyDegree
          (w.appendOut (harmonyHeadEvents h (harmonyTpcs h w) w.globals.TPC_INVALID)) := by
  unfold writeHarmonyRoot harmonyHeadEvents
  rw [if_pos hv]
  dsimp only
  congr 1
  simp only [tag_eq_appendOut]
  split_ifs <;> simp_all [appendOut_appendOut, appendOut_nil, globals_appendOut]

theorem writeHarmonyRoot_invalid (h : Harmony) (w : WriteState)
    (hv : ¬ (h.rootTpc ≠ w.globals.TPC_INVALID ∨ h.baseTpc ≠ w.globals.TPC_INVALID)) :
    writeHarmonyRoot h w
      = w.appendOut [XmlEvent.tag "name" [] (PropertyValue.string h.hTextName)] := by
  unfold writeHarmonyRoot
  rw [if_neg hv]
  rfl

theorem steps_writeHarmonyDegree {n : String} (hd : HDegree) (w : WriteState)
    (hn : n ≠ "degree-value" ∧ n ≠ "degree-alter" ∧ n ≠ "degree-type") :
    Steps (fun e => !XmlEvent.isTagNamed n e) 0 w (writeHarmonyDegree w hd) := by
  obtain ⟨h1, h2, h3⟩ := hn
  have t3 : ∀ v, (fun e => !XmlEvent.isTagNamed n e) (XmlEvent.tag "degree-type" [] v) = true :=
    fun v => by simpa [XmlEvent.isTagNamed] using Ne.symm h3
  unfold writeHarmonyDegree
  dsimp only
  refine steps_ite _ (fun _ => ?_) (fun _ => steps_refl _ _)
  apply steps_end rfl
  have hbase : Steps (fun e => !XmlEvent.isTagNamed n e) (0 + 1) w
      (((w.startElement "degree" []).tag "degree-value" (PropertyValue.int hd.value)).tag
        "degree-alter" (PropertyValue.int hd.alter)) := by
    apply steps_tag _ _ (by simpa [XmlEvent.isTagNamed] using Ne.symm h2)
    apply steps_tag _ _ (by simpa [XmlEvent.isTagNamed] using Ne.symm h1)
    exact steps_start _ _ rfl (steps_refl _ _)
  split
  · exact steps_tag _ _ (t3 _) hbase
  · exact steps_tag _ _ (t3 _) hbase
  · exact steps_tag _ _ (t3 _) hbase
  · exact hbase

theorem steps_writeProperties_TextBase {P : XmlEvent → Bool} {k : Nat} {w w1 : WriteState}
    (t : TextBase) (hP : ∀ e, XmlEvent.isItemEvent e = true → P e = true)
    (h : Steps P k w w1) : Steps P k w (writeProperties_TextBase t false w1) := by
  unfold writeProperties_TextBase
  dsimp only
  rw [if_neg (by simp)]
  refine steps_foldl _ (fun v pid => ?_) _ ?_
  · exact steps_ite _ (fun _ => steps_refl _ _)
      (fun _ => steps_writeProperty _ _ hP (steps_refl _ _))
  refine steps_foldl _ (fun v pid => ?_) _ ?_
  · exact steps_ite _ (fun _ => steps_writeProperty _ _ hP (steps_refl _ _))
      (fun _ => steps_refl _ _)
  exact steps_writeProperty _ _ hP (steps_writeItemProperties _ hP h)

theorem write_Harmony_filter (h : Harmony) (w : WriteState) (n : String)
    (hc : w.ctx.canWrite h.text.item.eid = true)
    (hI : n ≠ "bold" ∧ n ≠ "italic" ∧ n ≠ "underline" ∧ n ≠ "strike" ∧ n ≠ "track"
      ∧ n ≠ "tag" ∧ n ≠ "lid" ∧ n ≠ "linkedMain" ∧ n ≠ "score" ∧ n ≠ "indexDiff")
    (hD : n ≠ "degree-value" ∧ n ≠ "degree-alter" ∧ n ≠ "degree-type")
    (hO : n ≠ "leftParen" ∧ n ≠ "function" ∧ n ≠ "rightParen") :
    (w.emitted (write_Harmony h w)).filter (XmlEvent.isTagNamed n)
      = (if h.rootTpc ≠ w.globals.TPC_INVALID ∨ h.baseTpc ≠ w.globals.TPC_INVALID then
          harmonyHeadEvents h (harmonyTpcs h w) w.globals.TPC_INVALID
         else [XmlEvent.tag "name" [] (PropertyValue.string h.hTextName)]).filter
          (XmlEvent.isTagNamed n) := by
  have hIt := itemEvent_not_tagNamed n hI
  obtain ⟨hO1, hO2, hO3⟩ := hO
  unfold write_Harmony
  rw [if_neg (by simp [hc])]
  dsimp only
  obtain ⟨e1, he1, -⟩ := writeProperty_appends h.text.item
    (w.startElement h.text.item.typeName []) Pid.HARMONY_TYPE
  obtain ⟨e2, he2, -⟩ := writeProperty_appends h.text.item
    (writeProperty h.text.item (w.startElement h.text.item.typeName []) Pid.HARMONY_TYPE)
    Pid.PLAY
  have h1 : Steps (fun e => !XmlEvent.isTagNamed n e) (0 + 1) w
      (if h.leftParen = true then
        (writeProperty h.text.item (writeProperty h.text.item
          (w.startElement h.text.item.typeName []) Pid.HARMONY_TYPE) Pid.PLAY).tag
            "leftParen" PropertyValue.invalid
       else writeProperty h.text.item (writeProperty h.text.item
          (w.startElement h.text.item.typeName []) Pid.HARMONY_TYPE) Pid.PLAY) := by
    apply steps_condTag _ _ _ (by simpa [XmlEvent.isTagNamed] using Ne.symm hO1)
    apply steps_writeProperty _ _ hIt
    apply steps_writeProperty _ _ hIt
    exact steps_start _ _ rfl (steps_refl _ _)
  have hw1 : ∃ es, (if h.leftParen = true then
        (writeProperty h.text.item (writeProperty h.text.item
          (w.startElement h.text.item.typeName []) Pid.HARMONY_TYPE) Pid.PLAY).tag
            "leftParen" PropertyValue.invalid
       else writeProperty h.text.item (writeProperty h.text.item
          (w.startElement h.text.item.typeName []) Pid.HARMONY_TYPE) Pid.PLAY)
      = w.appendOut es := by
    rw [he2, he1, startElement_eq_appendOut, tag_eq_appendOut]
    split
    · exact ⟨_, by simp only [appendOut_appendOut]; rfl⟩
    · exact ⟨_, by simp only [appendOut_appendOut]; rfl⟩
  obtain ⟨pre, hpre⟩ := hw1
  generalize (if h.leftParen = true then
        (writeProperty h.text.item (writeProperty h.text.item
          (w.startElement h.text.item.typeName []) Pid.HARMONY_TYPE) Pid.PLAY).tag
            "leftParen" PropertyValue.invalid
       else writeProperty h.text.item (writeProperty h.text.item
          (w.startElement h.text.item.typeName []) Pid.HARMONY_TYPE) Pid.PLAY) = w1 at h1 hpre ⊢
  have hg : w1.globals = w.globals := by rw [hpre]; rfl
  have ht : harmonyTpcs h w1 = harmonyTpcs h w := by rw [hpre]; rfl
  refine filter_sandwich_end (j := 0) _ rfl _ h1 ?_
  apply steps_condTag _ _ _ (by simpa [XmlEvent.isTagNamed] using Ne.symm hO3)
  apply steps_writeProperties_TextBase _ hIt
  apply steps_condTag _ _ _ (by simpa [XmlEvent.isTagNamed] using Ne.symm hO2)
  by_cases hv : h.rootTpc ≠ w.globals.TPC_INVALID ∨ h.baseTpc ≠ w.globals.TPC_INVALID
  · rw [if_pos hv, writeHarmonyRoot_eq h w1 (by rw [hg]; exact hv), ht, hg]
    exact steps_foldl _ (fun v hd => steps_writeHarmonyDegree hd v hD) _ (steps_refl _ _)
  · rw [if_neg hv, writeHarmonyRoot_invalid h w1 (by rw [hg]; exact hv)]
    exact steps_refl _ _

theorem harmonyHeadEvents_root (h : Harmony) (r : Int × Int) (inv : Int) :
    (harmonyHeadEvents h r inv).filter (XmlEvent.isTagNamed "root")
      = if r.1 ≠ inv then [XmlEvent.tag "root" [] (PropertyValue.int r.1)] else [] := by
  unfold harmonyHeadEvents
  simp only [List.filter_append]
  split_ifs <;> simp [XmlEvent.isTagNamed, List.filter_cons]

theorem harmonyHeadEvents_base (h : Harmony) (r : Int × Int) (inv : Int) :
    (harmonyHeadEvents h r inv).filter (XmlEvent.isTagNamed "base")
      = if r.2 ≠ inv then [XmlEvent.tag "base" [] (PropertyValue.int r.2)] else [] := by
  unfold harmonyHeadEvents
  simp only [List.filter_append]
  split_ifs <;> simp [XmlEvent.isTagNamed, List.filter_cons]

theorem harmonyHeadEvents_name (h : Harmony) (r : Int × Int) (inv : Int) :
    (harmonyHeadEvents h r inv).filter (XmlEvent.isTagNamed "name")
      = if (harmonyWriteName h).isEmpty = false
        then [XmlEvent.tag "name" [] (PropertyValue.string (harmonyWriteName h))] else [] := by
  unfold harmonyHeadEvents
  simp only [List.filter_append]
  split_ifs <;> simp [XmlEvent.isTagNamed, List.filter_cons]

theorem harmonyTpcs_stored (h : Harmony) (w : WriteState)
    (hT : ¬ (h.text.item.staff.isSome = true ∧ w.ctx.clipboardmode = true
      ∧ w.styleB h.text.item.score Sid.concertPitch = false ∧ h.transpose.chromatic ≠ 0)) :
    harmonyTpcs h w = (h.rootTpc, h.baseTpc) := by
  unfold harmonyTpcs
  dsimp only
  split
  · rename_i hs
    rw [if_neg]
    rintro ⟨h1, h2, h3⟩
    exact hT ⟨hs, h1, by simpa using h2, h3⟩
  · rfl

theorem harmonyTpcs_transposed (h : Harmony) (w : WriteState)
    (hs : h.text.item.staff.isSome = true) (h1 : w.ctx.clipboardmode = true)
    (h2 : w.styleB h.text.item.score Sid.concertPitch = false)
    (h3 : h.transpose.chromatic ≠ 0) :
    harmonyTpcs h w = (w.globals.transposeTpc h.rootTpc h.transpose true,
      w.globals.transposeTpc h.baseTpc h.transpose true) := by
  unfold harmonyTpcs
  dsimp only
  rw [if_pos hs, if_pos ⟨h1, by simp [h2], h3⟩]

/-- C26: for a chord symbol that is written, the "root" and "base" tags carry transposed
pitch classes only when the harmony has a staff, the context is in clipboard mode, the score
is not in concert pitch and the transposition of the instrument has a non-zero chromatic
interval. In every other case the chord-symbol writer writes one "root" tag with the stored
`rootTpc` exactly when `rootTpc` is valid and no "root" tag otherwise, and one "base" tag with
the stored `baseTpc` exactly when `baseTpc` is valid and no "base" tag otherwise. When the
four conditions hold and the root or the base is valid, the two tags carry the transposed
pitch classes, each written exactly when the transposed value is valid. -/
theorem harmony_root_base_tags (h : Harmony) (w : WriteState)
    (hc : w.ctx.canWrite h.text.item.eid = true) :
    (¬ (h.text.item.staff.isSome = true ∧ w.ctx.clipboardmode = true
          ∧ w.styleB h.text.item.score Sid.concertPitch = false
          ∧ h.transpose.chromatic ≠ 0) →
        (w.emitted (write_Harmony h w)).filter (XmlEvent.isTagNamed "root")
            = (if h.rootTpc ≠ w.globals.TPC_INVALID
                then [XmlEvent.tag "root" [] (PropertyValue.int h.rootTpc)] else [])
          ∧ (w.emitted (write_Harmony h w)).filter (XmlEvent.isTagNamed "base")
            = (if h.baseTpc ≠ w.globals.TPC_INVALID
                then [XmlEvent.tag "base" [] (PropertyValue.int h.baseTpc)] else []))
      ∧ (h.text.item.staff.isSome = true → w.ctx.clipboardmode = true →
          w.styleB h.text.item.score Sid.concertPitch = false → h.transpose.chromatic ≠ 0 →
          (h.rootTpc ≠ w.globals.TPC_INVALID ∨ h.baseTpc ≠ w.globals.TPC_INVALID) →
          (w.emitted (write_Harmony h w)).filter (XmlEvent.isTagNamed "root")
              = (if w.globals.transposeTpc h.rootTpc h.transpose true ≠ w.globals.TPC_INVALID
                  then [XmlEvent.tag "root" []
                    (PropertyValue.int (w.globals.transposeTpc h.rootTpc h.transpose true))]
                  else [])
            ∧ (w.emitted (write_Harmony h w)).filter (XmlEvent.isTagNamed "base")
              = (if w.globals.transposeTpc h.baseTpc h.transpose true ≠ w.globals.TPC_INVALID
                  then [XmlEvent.tag "base" []
                    (PropertyValue.int (w.globals.transposeTpc h.baseTpc h.transpose true))]
                  else [])) := by
  have hr := write_Harmony_filter h w "root" hc (by decide) (by decide) (by decide)
  have hb := write_Harmony_filter h w "base" hc (by decide) (by decide) (by decide)
  constructor
  · intro hT
    rw [hr, hb, harmonyTpcs_stored h w hT]
    by_cases hv : h.rootTpc ≠ w.globals.TPC_INVALID ∨ h.baseTpc ≠ w.globals.TPC_INVALID
    · rw [if_pos hv, harmonyHeadEvents_root, harmonyHeadEvents_base]
      exact ⟨rfl, rfl⟩
    · rw [if_neg hv]
      have h1 : ¬ h.rootTpc ≠ w.globals.TPC_INVALID := fun x => hv (Or.inl x)
      have h2 : ¬ h.baseTpc ≠ w.globals.TPC_INVALID := fun x => hv (Or.inr x)
      rw [if_neg h1, if_neg h2]
      exact ⟨rfl, rfl⟩
  · intro hs h1 h2 h3 hv
    rw [hr, hb, harmonyTpcs_transposed h w hs h1 h2 h3, if_pos hv, harmonyHeadEvents_root,
      harmonyHeadEvents_base]
    exact ⟨rfl, rfl⟩

theorem harmony_root_base_tags_witness :
    (Fixture.state0.emitted (write_Harmony Fixture.harmony0 Fixture.state0)).filter
          (XmlEvent.isTagNamed "root")
        = [XmlEvent.tag "root" [] (PropertyValue.int 14)]
      ∧ (Fixture.state0.emitted (write_Harmony Fixture.harmony0 Fixture.state0)).filter
          (XmlEvent.isTagNamed "base") = [] :=
  (harmony_root_base_tags Fixture.harmony0 Fixture.state0 rfl).1 (by decide)

/-- C27: for a chord symbol that is written and has a valid root or base, the writer writes
one "name" tag with the name it has formed, and none exactly when that name is empty. The
name is formed thus: if the parsed form exists and its name starts with the marker "=", it
is the marker followed by the cached text name when the cached name does not start with the
marker, and the cached name unchanged when it does; if the parsed form is absent, or its
name does not start with the marker, it is the cached text name. -/
theorem harmony_name_tag (h : Harmony) (w : WriteState)
    (hc : w.ctx.canWrite h.text.item.eid = true)
    (hv : h.rootTpc ≠ w.globals.TPC_INVALID ∨ h.baseTpc ≠ w.globals.TPC_INVALID) :
    (w.emitted (write_Harmony h w)).filter (XmlEvent.isTagNamed "name")
        = (if (harmonyWriteName h).isEmpty = false
            then [XmlEvent.tag "name" [] (PropertyValue.string (harmonyWriteName h))] else [])
      ∧ ((w.emitted (write_Harmony h w)).any (XmlEvent.isTagNamed "name") = false
          ↔ (harmonyWriteName h).isEmpty = true)
      ∧ (∀ name, h.parsedForm = some name → startsWithChar name '=' = true →
          (startsWithChar h.hTextName '=' = false → harmonyWriteName h = "=" ++ h.hTextName)
            ∧ (startsWithChar h.hTextName '=' = true → harmonyWriteName h = h.hTextName))
      ∧ (h.parsedForm = none → harmonyWriteName h = h.hTextName)
      ∧ (∀ name, h.parsedForm = some name → startsWithChar name '=' = false →
          harmonyWriteName h = h.hTextName) := by
  have hn := write_Harmony_filter h w "name" hc (by decide) (by decide) (by decide)
  rw [if_pos hv, harmonyHeadEvents_name] at hn
  refine ⟨hn, ?_, ?_, ?_, ?_⟩
  · rw [any_eq_any_filter, hn]
    cases (harmonyWriteName h).isEmpty <;> simp [XmlEvent.isTagNamed]
  · intro name hp hs
    unfold harmonyWriteName
    rw [hp]
    constructor
    · intro hm
      simp [hs, hm]
    · intro hm
      simp [hs, hm]
  · intro hp
    unfold harmonyWriteName
    rw [hp]
  · intro name hp hs
    unfold harmonyWriteName
    rw [hp]
    simp [hs]

theorem harmony_name_tag_witness :
    (Fixture.state0.emitted (write_Harmony Fixture.harmony0 Fixture.state0)).filter
        (XmlEvent.isTagNamed "name")
      = [XmlEvent.tag "name" [] (PropertyValue.string "m7")] :=
  (harmony_name_tag Fixture.harmony0 Fixture.state0 rfl (Or.inl (by decide))).1

end ChordSymbolWriter

section LegacyFretScan

open TWrite

theorem foldl_flatMap_acc {α β γ : Type} (g : α → List β) (s : γ → β → γ) (l : List α)
    (a : γ) :
    (l.flatMap g).foldl s a = l.foldl (fun acc x => (g x).foldl s acc) a := by
  induction l generalizing a with
  | nil => rfl
  | cons x xs ih => simp [List.flatMap_cons, List.foldl_append, ih]

theorem scanString_eq (i : Int) (ds : List FretItem.Dot) (acc : Int × Int) :
    ds.foldl (fun (st : Int × Int) d =>
        if d.exists_ then
          if d.fret < st.1 ∨ st.1 = -1 then (d.fret, i)
          else if d.fret = st.1 ∧ (i < st.2 ∨ st.2 = -1) then (st.1, i)
          else st
        else st) acc
      = (ds.filterMap (fun d => if d.exists_ then some (i, d.fret) else none)).foldl
          lowestStep acc := by
  induction ds generalizing acc with
  | nil => rfl
  | cons d ds ih =>
    rw [List.foldl_cons, ih]
    cases hd : d.exists_
    · simp [hd]
    · simp [hd, lowestStep]

theorem filterMap_of_not_dotExists (i : Int) (ds : List FretItem.Dot)
    (h : FretDiagram.dotExists ds = false) :
    ds.filterMap (fun d => if d.exists_ then some (i, d.fret) else none) = [] := by
  unfold FretDiagram.dotExists at h
  rw [List.filterMap_eq_nil_iff]
  intro d hd
  have := List.any_eq_false.mp h d hd
  simp [this]

theorem scanLowestDot_eq (f : FretDiagram) :
    scanLowestDot f = (existingDots f).foldl lowestStep (-1, -1) := by
  unfold scanLowestDot existingDots
  rw [foldl_flatMap_acc]
  congr 1
  funext acc i
  dsimp only
  rw [scanString_eq]
  cases hde : FretDiagram.dotExists (f.dot (i : Int))
  · simp [filterMap_of_not_dotExists _ _ hde]
  · simp

/-- The state of the lowest-dot scan after the dots `P`: the initial state when `P` is empty,
otherwise a dot of `P` with the lowest fret and, among those, the lowest string. -/
theorem lowestStep_inv (P : List (Int × Int)) (st p : Int × Int)
    (hp : 0 ≤ p.1 ∧ 0 ≤ p.2)
    (h : (P = [] ∧ st = (-1, -1))
      ∨ (0 ≤ st.1 ∧ 0 ≤ st.2 ∧ (st.2, st.1) ∈ P
          ∧ ∀ q ∈ P, st.1 ≤ q.2 ∧ (q.2 = st.1 → st.2 ≤ q.1))) :
    0 ≤ (lowestStep st p).1 ∧ 0 ≤ (lowestStep st p).2
      ∧ ((lowestStep st p).2, (lowestStep st p).1) ∈ P ++ [p]
      ∧ ∀ q ∈ P ++ [p], (lowestStep st p).1 ≤ q.2
          ∧ (q.2 = (lowestStep st p).1 → (lowestStep st p).2 ≤ q.1) := by
  obtain ⟨i, fr⟩ := p
  obtain ⟨lo, left⟩ := st
  simp only at hp
  rcases h with ⟨hP, hst⟩ | ⟨h1, h2, hm, hall⟩
  · cases hst
    subst hP
    simp [lowestStep, hp.1, hp.2]
  · simp only at h1 h2 hm hall
    unfold lowestStep
    simp only
    by_cases c1 : fr < lo ∨ lo = -1
    · rw [if_pos c1]
      have hlt : fr < lo := by omega
      refine ⟨hp.2, hp.1, by simp, ?_⟩
      intro q hq
      rcases List.mem_append.mp hq with hq | hq
      · have := hall q hq
        constructor
        · omega
        · intro he; omega
      · simp at hq
        subst hq
        simp
    · rw [if_neg c1]
      by_cases c2 : fr = lo ∧ (i < left ∨ left = -1)
      · rw [if_pos c2]
        have hlt : i < left := by omega
        refine ⟨h1, hp.1, ?_, ?_⟩
        · simp [c2.1]
        · intro q hq
          rcases List.mem_append.mp hq with hq | hq
          · have := hall q hq
            refine ⟨this.1, fun he => ?_⟩
            have := this.2 he
            show i ≤ q.1
            omega
          · simp at hq
            subst hq
            simp [c2.1]
      · rw [if_neg c2]
        refine ⟨h1, h2, List.mem_append_left _ hm, ?_⟩
        intro q hq
        rcases List.mem_append.mp hq with hq | hq
        · exact hall q hq
        · simp at hq
          subst hq
          constructor
          · show lo ≤ fr
            omega
          · intro he
            show left ≤ i
            simp only at he
            omega

theorem lowestFold_inv (L : List (Int × Int)) :
    ∀ (P : List (Int × Int)) (st : Int × Int), (∀ p ∈ L, 0 ≤ p.1 ∧ 0 ≤ p.2) →
      ((P = [] ∧ st = (-1, -1))
        ∨ (0 ≤ st.1 ∧ 0 ≤ st.2 ∧ (st.2, st.1) ∈ P
            ∧ ∀ q ∈ P, st.1 ≤ q.2 ∧ (q.2 = st.1 → st.2 ≤ q.1))) →
      ((P ++ L = [] ∧ L.foldl lowestStep st = (-1, -1))
        ∨ (0 ≤ (L.foldl lowestStep st).1 ∧ 0 ≤ (L.foldl lowestStep st).2
            ∧ ((L.foldl lowestStep st).2, (L.foldl lowestStep st).1) ∈ P ++ L
            ∧ ∀ q ∈ P ++ L, (L.foldl lowestStep st).1 ≤ q.2
                ∧ (q.2 = (L.foldl lowestStep st).1 → (L.foldl lowestStep st).2 ≤ q.1))) := by
  induction L with
  | nil =>
    intro P st _ h
    simpa using h
  | cons p L ih =>
    intro P st hL h
    have hstep := lowestStep_inv P st p (hL p (by simp)) h
    have := ih (P ++ [p]) (lowestStep st p) (fun q hq => hL q (by simp [hq])) (Or.inr hstep)
    simpa [List.append_assoc] using this

theorem mem_existingDots (f : FretDiagram) (i fr : Int) :
    (i, fr) ∈ existingDots f
      ↔ 0 ≤ i ∧ i < f.strings ∧ ∃ d ∈ f.dot i, d.exists_ = true ∧ d.fret = fr := by
  unfold existingDots
  simp only [List.mem_flatMap, List.mem_range, List.mem_filterMap]
  constructor
  · rintro ⟨n, hn, d, hd, hsome⟩
    cases hde : d.exists_
    · simp [hde] at hsome
    · simp [hde] at hsome
      obtain ⟨h1, h2⟩ := hsome
      subst h1
      exact ⟨by omega, by omega, d, hd, hde, h2⟩
  · rintro ⟨h0, h1, d, hd, hde, hfr⟩
    refine ⟨i.toNat, by omega, d, ?_, ?_⟩
    · rw [Int.toNat_of_nonneg h0]
      exact hd
    · simp [hde, hfr, Int.toNat_of_nonneg h0]

/-- C24: assuming that the existing dots of the strings of the diagram have a fret that is
not negative, the scan of the legacy format ends with `lowestDotFret` and
`furthestLeftLowestDot` both -1 exactly when no string has an existing dot; otherwise
`lowestDotFret` is the least fret of an existing dot and `furthestLeftLowestDot` is the least
string that holds an existing dot at that fret. The existing dots are the pairs (string,
fret) of the dots that exist on the strings 0 up to `strings` - 1. -/
theorem lowest_dot_scan (f : FretDiagram) (hfret : ∀ p ∈ existingDots f, 0 ≤ p.2) :
    (∀ i fr : Int, (i, fr) ∈ existingDots f
        ↔ 0 ≤ i ∧ i < f.strings ∧ ∃ d ∈ f.dot i, d.exists_ = true ∧ d.fret = fr)
      ∧ ((scanLowestDot f).1 = -1 ↔ existingDots f = [])
      ∧ ((scanLowestDot f).2 = -1 ↔ existingDots f = [])
      ∧ (existingDots f ≠ [] →
          ((scanLowestDot f).2, (scanLowestDot f).1) ∈ existingDots f
            ∧ ∀ p ∈ existingDots f, (scanLowestDot f).1 ≤ p.2
                ∧ (p.2 = (scanLowestDot f).1 → (scanLowestDot f).2 ≤ p.1)) := by
  have hnn : ∀ p ∈ existingDots f, 0 ≤ p.1 ∧ 0 ≤ p.2 := by
    rintro ⟨i, fr⟩ hp
    exact ⟨((mem_existingDots f i fr).mp hp).1, hfret _ hp⟩
  have hinv := lowestFold_inv (existingDots f) [] (-1, -1) hnn (Or.inl ⟨rfl, rfl⟩)
  rw [← scanLowestDot_eq, List.nil_append] at hinv
  refine ⟨mem_existingDots f, ?_, ?_, ?_⟩
  · rcases hinv with ⟨h1, h2⟩ | ⟨h1, h2, h3, _⟩
    · simp [h1, h2]
    · constructor
      · intro h; omega
      · intro h; rw [h] at h3; cases h3
  · rcases hinv with ⟨h1, h2⟩ | ⟨h1, h2, h3, _⟩
    · simp [h1, h2]
    · constructor
      · intro h; omega
      · intro h; rw [h] at h3; cases h3
  · intro hne
    rcases hinv with ⟨h1, _⟩ | ⟨_, _, h3, h4⟩
    · exact absurd h1 hne
    · exact ⟨h3, h4⟩

theorem lowest_dot_scan_witness :
    ((scanLowestDot Fixture.barreDiagram).2, (scanLowestDot Fixture.barreDiagram).1)
        ∈ existingDots Fixture.barreDiagram
      ∧ ∀ p ∈ existingDots Fixture.barreDiagram,
          (scanLowestDot Fixture.barreDiagram).1 ≤ p.2
            ∧ (p.2 = (scanLowestDot Fixture.barreDiagram).1
                → (scanLowestDot Fixture.barreDiagram).2 ≤ p.1) :=
  (lowest_dot_scan Fixture.barreDiagram (by decide)).2.2.2 (by decide)

end LegacyFretScan

section LegacyFretEncoding

open TWrite

theorem find_first_least {β : Type} (p : Int × β → Bool) (l : List (Int × β))
    (hs : l.Pairwise (fun a b => a.1 < b.1)) :
    (l.find? p = none ∧ ∀ x ∈ l, p x = false)
      ∨ ∃ e, l.find? p = some e ∧ e ∈ l ∧ p e = true ∧ ∀ x ∈ l, p x = true → e.1 ≤ x.1 := by
  induction l with
  | nil => exact Or.inl ⟨rfl, by simp⟩
  | cons a t ih =>
    rw [List.pairwise_cons] at hs
    cases hpa : p a
    · rcases ih hs.2 with ⟨h1, h2⟩ | ⟨e, h1, h2, h3, h4⟩
      · left
        refine ⟨by simp [List.find?, hpa, h1], ?_⟩
        intro x hx
        rcases List.mem_cons.mp hx with rfl | hx
        · exact hpa
        · exact h2 x hx
      · right
        refine ⟨e, by simp [List.find?, hpa, h1], List.mem_cons_of_mem _ h2, h3, ?_⟩
        intro x hx hpx
        rcases List.mem_cons.mp hx with rfl | hx
        · rw [hpa] at hpx; cases hpx
        · exact h4 x hx hpx
    · right
      refine ⟨a, by simp [List.find?, hpa], List.mem_cons_self _ _, hpa, ?_⟩
      intro x hx _
      rcases List.mem_cons.mp hx with rfl | hx
      · exact le_refl _
      · exact le_of_lt (hs.1 x hx)

theorem legacyBarre_cases (f : FretDiagram) (hs : f.barres.Pairwise (fun a b => a.1 < b.1)) :
    (legacyBarre f = (-1, -1) ∧ ∀ x ∈ f.barres, ¬ qualifiesForLegacy f x)
      ∨ ∃ e ∈ f.barres, qualifiesForLegacy f e
          ∧ (∀ x ∈ f.barres, qualifiesForLegacy f x → e.1 ≤ x.1)
          ∧ legacyBarre f = (e.2.startString, e.1) := by
  have hq : ∀ x : Int × FretItem.Barre,
      (decide (x.2.exists_ = true ∧ (x.1 ≤ (scanLowestDot f).1 ∧ x.2.endString = -1
        ∧ ¬ (x.1 = (scanLowestDot f).1 ∧ x.2.startString > (scanLowestDot f).2))) = true)
      ↔ qualifiesForLegacy f x := by
    intro x
    unfold qualifiesForLegacy
    exact decide_eq_true_iff
  unfold legacyBarre findLegacyBarre
  rcases find_first_least (fun x : Int × FretItem.Barre =>
      decide (x.2.exists_ = true ∧ (x.1 ≤ (scanLowestDot f).1 ∧ x.2.endString = -1
        ∧ ¬ (x.1 = (scanLowestDot f).1 ∧ x.2.startString > (scanLowestDot f).2))))
      f.barres hs with ⟨h1, h2⟩ | ⟨e, h1, h2, h3, h4⟩
  · left
    rw [h1]
    refine ⟨rfl, fun x hx hqx => ?_⟩
    have := h2 x hx
    rw [(hq x).mpr hqx] at this
    cases this
  · right
    rw [h1]
    exact ⟨e, h2, (hq e).mp h3, fun x hx hqx => h4 x hx ((hq x).mpr hqx), rfl⟩

theorem legacyStringEvents_not_barre (f : FretDiagram) (i : Int) :
    ∀ e ∈ legacyStringEvents f i, XmlEvent.isTagNamed "barre" e = false := by
  intro e he
  unfold legacyStringEvents at he
  split at he
  · cases he
  · simp only [List.mem_append, List.mem_singleton, List.mem_flatMap] at he
    rcases he with (((he | he) | ⟨d, _, he⟩) | he) | he
    · subst he; rfl
    · split at he
      · simp at he; subst he; rfl
      · cases he
    · split at he
      · simp at he; subst he; rfl
      · cases he
    · split at he
      · simp at he; subst he; rfl
      · cases he
    · subst he; rfl

theorem writeOld_barre_tags (f : FretDiagram) (w : WriteState) :
    (w.emitted (writeOld f w)).filter (XmlEvent.isTagNamed "barre")
      = if 0 < (legacyBarre f).2 then [XmlEvent.tag "barre" [] (PropertyValue.int 1)]
        else [] := by
  rw [writeOld_eq, emitted_appendOut]
  unfold legacyEncoding
  rw [List.filter_append]
  have h1 : ((List.range f.strings.toNat).flatMap
      (fun i : Nat => legacyStringEvents f (i : Int))).filter (XmlEvent.isTagNamed "barre")
      = [] := by
    rw [List.filter_eq_nil_iff]
    intro e he
    obtain ⟨i, _, hi⟩ := List.mem_flatMap.mp he
    simp [legacyStringEvents_not_barre f i e hi]
  rw [h1, List.nil_append]
  by_cases hb : (legacyBarre f).2 > 0
  · rw [if_pos hb]
    rfl
  · rw [if_neg hb]
    rfl

theorem writeOld_barre_any (f : FretDiagram) (w : WriteState) :
    (w.emitted (writeOld f w)).any (XmlEvent.isTagNamed "barre") = true
      ↔ 0 < (legacyBarre f).2 := by
  rw [any_eq_any_filter, writeOld_barre_tags]
  by_cases hb : 0 < (legacyBarre f).2
  · simp [hb, XmlEvent.isTagNamed]
  · simp [hb]

theorem legacyStringEvents_dots (f : FretDiagram) (i : Int) :
    (legacyStringEvents f i).filter (XmlEvent.isTagNamed "dot")
      = ((existingFrets f i).filter
            (fun fr => decide (¬ (i = (legacyBarre f).1 ∧ fr = (legacyBarre f).2)))).map
          legacyDotTag
        ++ (if (legacyBarre f).1 = i then [legacyDotTag (legacyBarre f).2] else []) := by
  have hflat : ∀ ds : List FretItem.Dot,
      (ds.flatMap (fun d =>
          if d.exists_ ∧ ¬ (i = (legacyBarre f).1 ∧ d.fret = (legacyBarre f).2) then
            [XmlEvent.tag "dot" [] (PropertyValue.int d.fret)]
          else [])).filter (XmlEvent.isTagNamed "dot")
        = ((ds.filterMap (fun d => if d.exists_ then some d.fret else none)).filter
            (fun fr => decide (¬ (i = (legacyBarre f).1 ∧ fr = (legacyBarre f).2)))).map
          legacyDotTag := by
    intro ds
    induction ds with
    | nil => rfl
    | cons d ds ih =>
      rw [List.flatMap_cons, List.filter_append, ih]
      cases hd : d.exists_
      · simp [hd]
      · by_cases hc : i = (legacyBarre f).1 ∧ d.fret = (legacyBarre f).2
        · simp [hd, hc, List.filterMap_cons]
        · rcases not_and_or.mp hc with h | h
            <;> simp [hd, h, List.filterMap_cons, legacyDotTag, XmlEvent.isTagNamed]
  unfold legacyStringEvents existingFrets
  by_cases h : FretDiagram.dotExists (f.dot i) = false ∧ (f.marker i).exists_ = false
      ∧ i ≠ (legacyBarre f).1
  · rw [if_pos h]
    have hnil : (f.dot i).filterMap (fun d => if d.exists_ then some d.fret else none) = [] := by
      rw [List.filterMap_eq_nil_iff]
      intro d hd
      have := List.any_eq_false.mp h.1 d hd
      simp [this]
    rw [hnil, if_neg (fun hb => h.2.2 hb.symm)]
    rfl
  · rw [if_neg h]
    simp only [List.filter_append, hflat]
    by_cases hm : (f.marker i).exists_ = true <;> by_cases hb : (legacyBarre f).1 = i
      <;> simp [hm, hb, stringStart, XmlEvent.isTagNamed, legacyDotTag]

theorem mem_legacyStringEvents_iff (f : FretDiagram) (i j : Int) :
    stringStart i ∈ legacyStringEvents f j
      ↔ i = j ∧ (FretDiagram.dotExists (f.dot j) = true ∨ (f.marker j).exists_ = true
          ∨ j = (legacyBarre f).1) := by
  unfold legacyStringEvents
  by_cases h : FretDiagram.dotExists (f.dot j) = false ∧ (f.marker j).exists_ = false
      ∧ j ≠ (legacyBarre f).1
  · rw [if_pos h]
    simp [h.1, h.2.1, h.2.2]
  · rw [if_neg h]
    have hcond : FretDiagram.dotExists (f.dot j) = true ∨ (f.marker j).exists_ = true
        ∨ j = (legacyBarre f).1 := by
      by_contra hc
      apply h
      simp only [not_or] at hc
      exact ⟨by simpa using hc.1, by simpa using hc.2.1, hc.2.2⟩
    have hdots : stringStart i ∉ (f.dot j).flatMap (fun d =>
          if d.exists_ ∧ ¬ (j = (legacyBarre f).1 ∧ d.fret = (legacyBarre f).2) then
            [XmlEvent.tag "dot" [] (PropertyValue.int d.fret)]
          else []) := by
      apply stringStart_not_mem_flatMap
      intro d e he
      split at he
      · simp at he; subst he; rfl
      · simp at he
    simp only [List.mem_append, List.mem_singleton, hdots, or_false, hcond, and_true]
    constructor
    · rintro (((h1 | h1) | h1) | h1)
      · simpa [stringStart] using h1
      · split at h1
        · simp [stringStart] at h1
        · simp at h1
      · split at h1
        · simp [stringStart] at h1
        · simp at h1
      · simp [stringStart] at h1
    · rintro rfl
      exact Or.inl (Or.inl (Or.inl rfl))

theorem legacyEncoding_string_part (f : FretDiagram) (i : Nat) (hi : (i : Int) < f.strings) :
    ∃ A B, legacyEncoding f = A ++ legacyStringEvents f (i : Int) ++ B := by
  have hrange : i ∈ List.range f.strings.toNat := by
    rw [List.mem_range]
    omega
  obtain ⟨l1, l2, hl⟩ := List.append_of_mem hrange
  unfold legacyEncoding
  rw [hl]
  refine ⟨l1.flatMap (fun i : Nat => legacyStringEvents f (i : Int)),
    l2.flatMap (fun i : Nat => legacyStringEvents f (i : Int))
      ++ (if (legacyBarre f).2 > 0 then [XmlEvent.tag "barre" [] (PropertyValue.int 1)]
          else []), ?_⟩
  simp [List.flatMap_append, List.flatMap_cons, List.append_assoc]

theorem legacyStringEvents_dots_start (f : FretDiagram) (i : Int)
    (hi : i = (legacyBarre f).1) :
    (legacyStringEvents f i).filter (XmlEvent.isTagNamed "dot")
      = ((existingFrets f i).filter (fun fr => decide (fr ≠ (legacyBarre f).2))).map
          legacyDotTag
        ++ [legacyDotTag (legacyBarre f).2] := by
  rw [legacyStringEvents_dots, if_pos hi.symm]
  congr 2
  apply List.filter_congr
  intro fr _
  simp [hi]

theorem legacyStringEvents_dots_other (f : FretDiagram) (i : Int)
    (hi : i ≠ (legacyBarre f).1) :
    (legacyStringEvents f i).filter (XmlEvent.isTagNamed "dot")
      = (existingFrets f i).map legacyDotTag := by
  rw [legacyStringEvents_dots, if_neg (fun h => hi h.symm), List.append_nil]
  congr 1
  rw [List.filter_eq_self]
  intro fr _
  simp [hi]

/-- C25, as stated, fails: the diagram `Fixture.zeroBarreDiagram` has an existing barre at
fret 1 with 0 < 1 <= `lowestDotFret`, `endString` -1 and a start string that is not to the
right of the left-most lowest dot, and yet the legacy format writes no "barre" tag: the
search stops at the barre at fret 0, which passes the same test, and takes it. -/
theorem legacy_barre_tag_missing :
    Fixture.zeroBarreDiagram.barres.Pairwise (fun a b => a.1 < b.1)
      ∧ (∃ x ∈ Fixture.zeroBarreDiagram.barres,
          x.2.exists_ = true ∧ 0 < x.1 ∧ x.1 ≤ (scanLowestDot Fixture.zeroBarreDiagram).1
            ∧ x.2.endString = -1
            ∧ ¬ (x.1 = (scanLowestDot Fixture.zeroBarreDiagram).1
                ∧ x.2.startString > (scanLowestDot Fixture.zeroBarreDiagram).2))
      ∧ (Fixture.state0.emitted (writeOld Fixture.zeroBarreDiagram Fixture.state0)).any
          (XmlEvent.isTagNamed "barre") = false
      ∧ legacyBarre Fixture.zeroBarreDiagram = (0, 0) := by
  refine ⟨by simp [Fixture.zeroBarreDiagram], by decide, ?_, by decide⟩
  rw [writeOld_eq, emitted_appendOut]
  decide

/-- C25 (amended): with the barres listed by ascending fret, an existing barre qualifies when
its fret f satisfies f <= `lowestDotFret`, its `endString` is -1, and it does not start to the
right of the left-most lowest dot when f equals `lowestDotFret`. The barre chosen is the
qualifying one with the smallest fret, and none is chosen when no barre qualifies. The legacy
"barre" tag is written iff the fret of the chosen barre is positive; when every existing
barre has a positive fret, that is iff some existing barre with 0 < f qualifies. When the
start string of the chosen barre is a string of the diagram, the element of that string is
written, and its dot tags are the frets of its existing dots other than the barre fret,
followed by the legacy barre dot with the barre fret. -/
theorem legacy_barre_choice (f : FretDiagram) (w : WriteState)
    (hs : f.barres.Pairwise (fun a b => a.1 < b.1)) :
    ((w.emitted (writeOld f w)).any (XmlEvent.isTagNamed "barre") = true
        ↔ 0 < (legacyBarre f).2)
      ∧ ((∀ x ∈ f.barres, ¬ qualifiesForLegacy f x) → legacyBarre f = (-1, -1))
      ∧ ((∃ x ∈ f.barres, qualifiesForLegacy f x) →
          ∃ e ∈ f.barres, qualifiesForLegacy f e
            ∧ (∀ x ∈ f.barres, qualifiesForLegacy f x → e.1 ≤ x.1)
            ∧ legacyBarre f = (e.2.startString, e.1))
      ∧ ((∀ x ∈ f.barres, x.2.exists_ = true → 0 < x.1) →
          ((w.emitted (writeOld f w)).any (XmlEvent.isTagNamed "barre") = true
            ↔ ∃ x ∈ f.barres, 0 < x.1 ∧ qualifiesForLegacy f x))
      ∧ (∀ i : Nat, (i : Int) < f.strings → (i : Int) = (legacyBarre f).1 →
          (∃ A B, w.emitted (writeOld f w) = A ++ legacyStringEvents f (i : Int) ++ B)
            ∧ stringStart (i : Int) ∈ legacyStringEvents f (i : Int)
            ∧ (legacyStringEvents f (i : Int)).filter (XmlEvent.isTagNamed "dot")
              = ((existingFrets f (i : Int)).filter
                    (fun fr => decide (fr ≠ (legacyBarre f).2))).map legacyDotTag
                ++ [legacyDotTag (legacyBarre f).2]) := by
  have hany := writeOld_barre_any f w
  have hcases := legacyBarre_cases f hs
  refine ⟨hany, ?_, ?_, ?_, ?_⟩
  · intro hno
    rcases hcases with ⟨h1, _⟩ | ⟨e, he, hq, _⟩
    · exact h1
    · exact absurd hq (hno e he)
  · rintro ⟨x, hx, hqx⟩
    rcases hcases with ⟨_, h2⟩ | ⟨e, he, hq, hmin, hb⟩
    · exact absurd hqx (h2 x hx)
    · exact ⟨e, he, hq, hmin, hb⟩
  · intro hpos
    rw [hany]
    rcases hcases with ⟨h1, h2⟩ | ⟨e, he, hq, hmin, hb⟩
    · rw [h1]
      constructor
      · intro h
        exact absurd h (by decide)
      · rintro ⟨x, hx, _, hqx⟩
        exact absurd hqx (h2 x hx)
    · rw [hb]
      constructor
      · intro h
        exact ⟨e, he, h, hq⟩
      · intro _
        exact hpos e he hq.1
  · intro i hi hbs
    refine ⟨?_, ?_, legacyStringEvents_dots_start f i hbs⟩
    · rw [writeOld_eq, emitted_appendOut]
      exact legacyEncoding_string_part f i hi
    · rw [mem_legacyStringEvents_iff]
      exact ⟨rfl, Or.inr (Or.inr hbs)⟩

theorem legacy_barre_choice_witness :
    (Fixture.state0.emitted (writeOld Fixture.barreDiagram Fixture.state0)).any
        (XmlEvent.isTagNamed "barre") = true
      ↔ 0 < (legacyBarre Fixture.barreDiagram).2 :=
  (legacy_barre_choice Fixture.barreDiagram Fixture.state0
    (by simp [Fixture.barreDiagram])).1

/-- C30: the legacy format writes, for the strings 0 up to `strings` - 1 in order, the calls
of each string and then the "barre" tag if there is one. For every string `i` of the diagram:
if `i` is not the barre start string, its dot tags are exactly the frets of the existing dots
of string `i`, in their order; if `i` is the barre start string, they are the frets of the
existing dots of string `i` other than the barre fret, followed by exactly one dot tag with
the barre fret. The element of string `i` is written iff the string has an existing dot, an
existing marker, or is the barre start string. -/
theorem legacy_string_dots (f : FretDiagram) (w : WriteState) :
    w.emitted (writeOld f w)
        = (List.range f.strings.toNat).flatMap (fun i : Nat => legacyStringEvents f (i : Int))
          ++ (if 0 < (legacyBarre f).2 then [XmlEvent.tag "barre" [] (PropertyValue.int 1)]
              else [])
      ∧ ∀ i : Nat, (i : Int) < f.strings →
          w.emitted (writeOldString f (legacyBarre f).1 (legacyBarre f).2 w (i : Int))
              = legacyStringEvents f (i : Int)
            ∧ ((i : Int) ≠ (legacyBarre f).1 →
                (legacyStringEvents f (i : Int)).filter (XmlEvent.isTagNamed "dot")
                  = (existingFrets f (i : Int)).map legacyDotTag)
            ∧ ((i : Int) = (legacyBarre f).1 →
                (legacyStringEvents f (i : Int)).filter (XmlEvent.isTagNamed "dot")
                  = ((existingFrets f (i : Int)).filter
                        (fun fr => decide (fr ≠ (legacyBarre f).2))).map legacyDotTag
                    ++ [legacyDotTag (legacyBarre f).2])
            ∧ (stringStart (i : Int) ∈ w.emitted (writeOld f w)
                ↔ (FretDiagram.dotExists (f.dot (i : Int)) = true
                    ∨ (f.marker (i : Int)).exists_ = true
                    ∨ (i : Int) = (legacyBarre f).1)) := by
  have hw : w.emitted (writeOld f w) = legacyEncoding f := by
    rw [writeOld_eq, emitted_appendOut]
  refine ⟨by rw [hw]; rfl, fun i hi => ⟨?_, legacyStringEvents_dots_other f i,
    legacyStringEvents_dots_start f i, ?_⟩⟩
  · rw [writeOldString_eq, emitted_appendOut]
  · rw [hw]
    unfold legacyEncoding
    have hb : stringStart (i : Int)
        ∉ (if (legacyBarre f).2 > 0 then [XmlEvent.tag "barre" [] (PropertyValue.int 1)]
            else []) := by
      split <;> simp [stringStart]
    simp only [List.mem_append, hb, or_false, List.mem_flatMap, mem_legacyStringEvents_iff]
    constructor
    · rintro ⟨j, _, hij, hc⟩
      have : j = i := by exact_mod_cast hij.symm
      subst this
      exact hc
    · intro hc
      exact ⟨i, by rw [List.mem_range]; omega, rfl, hc⟩

theorem legacy_string_dots_witness :
    (legacyStringEvents Fixture.barreDiagram ((0 : Nat) : Int)).filter
        (XmlEvent.isTagNamed "dot")
      = ((existingFrets Fixture.barreDiagram ((0 : Nat) : Int)).filter
            (fun fr => decide (fr ≠ (legacyBarre Fixture.barreDiagram).2))).map legacyDotTag
        ++ [legacyDotTag (legacyBarre Fixture.barreDiagram).2] :=
  ((legacy_string_dots Fixture.barreDiagram Fixture.state0).2 0 (by decide)).2.2.1
    (by decide)

end LegacyFretEncoding

section FretDiagramEncodings

open TWrite

theorem legacyBarre_eq_encodedBarre (f : FretDiagram) : legacyBarre f = encodedBarre f := by
  unfold legacyBarre encodedBarre lowestDot findLegacyBarre
  rw [scanLowestDot_eq]

theorem legacyEncoding_eq_for (f : FretDiagram) :
    legacyEncoding f = legacyEncodingFor (encodedBarre f) f := by
  rw [← legacyBarre_eq_encodedBarre]
  rfl

theorem encodedBarre_found (f : FretDiagram) :
    ((∀ e ∈ f.barres, ¬ (e.2.exists_ = true ∧ e.1 ≤ (lowestDot f).1 ∧ e.2.endString = -1
          ∧ ¬ (e.1 = (lowestDot f).1 ∧ e.2.startString > (lowestDot f).2))) →
        encodedBarre f = (-1, -1))
      ∧ ((∃ e ∈ f.barres, e.2.exists_ = true ∧ e.1 ≤ (lowestDot f).1 ∧ e.2.endString = -1
          ∧ ¬ (e.1 = (lowestDot f).1 ∧ e.2.startString > (lowestDot f).2)) →
        ∃ e ∈ f.barres, (e.2.exists_ = true ∧ e.1 ≤ (lowestDot f).1 ∧ e.2.endString = -1
            ∧ ¬ (e.1 = (lowestDot f).1 ∧ e.2.startString > (lowestDot f).2))
          ∧ encodedBarre f = (e.2.startString, e.1)) := by
  unfold encodedBarre
  constructor
  · intro h
    have : f.barres.find? (fun e =>
        decide (e.2.exists_ = true ∧ (e.1 ≤ (lowestDot f).1 ∧ e.2.endString = -1
          ∧ ¬ (e.1 = (lowestDot f).1 ∧ e.2.startString > (lowestDot f).2)))) = none := by
      rw [List.find?_eq_none]
      intro e he hp
      exact h e he (of_decide_eq_true hp)
    rw [this]
  · rintro ⟨e, he, hq⟩
    cases hfind : f.barres.find? (fun e =>
        decide (e.2.exists_ = true ∧ (e.1 ≤ (lowestDot f).1 ∧ e.2.endString = -1
          ∧ ¬ (e.1 = (lowestDot f).1 ∧ e.2.startString > (lowestDot f).2)))) with
    | none =>
      rw [List.find?_eq_none] at hfind
      exact absurd (decide_eq_true hq) (hfind e he)
    | some x =>
      refine ⟨x, List.mem_of_find?_eq_some hfind, ?_, rfl⟩
      have hx := List.find?_some hfind
      exact of_decide_eq_true hx

theorem mem_newEncoding_stringStart (f : FretDiagram) (i : Nat)
    (hi : (i : Int) < f.strings) :
    stringStart i ∈ newEncoding f
      ↔ (FretDiagram.dotExists (f.dot i) = true ∨ (f.marker i).exists_ = true) := by
  have hrange : i ∈ List.range f.strings.toNat := by
    rw [List.mem_range]
    omega
  unfold newEncoding
  have hb : stringStart i ∉ (List.range' 1 f.frets.toNat).flatMap
      (fun fi : Nat => newBarreEvents f (fi : Int)) := by
    apply stringStart_not_mem_flatMap
    intro fi e he
    unfold newBarreEvents at he
    split at he
    · simp at he; subst he; rfl
    · simp at he
  simp only [List.mem_append, hb, or_false, List.mem_flatMap, mem_newStringEvents]
  constructor
  · rintro ⟨j, _, hij, hc⟩
    have : j = i := by exact_mod_cast hij.symm
    subst this
    exact hc
  · intro hc
    exact ⟨i, hrange, rfl, hc⟩

theorem mem_legacyEncoding_stringStart (f : FretDiagram) (i : Nat)
    (hi : (i : Int) < f.strings)
    (h : FretDiagram.dotExists (f.dot i) = true ∨ (f.marker i).exists_ = true) :
    stringStart i ∈ legacyEncoding f := by
  have hrange : i ∈ List.range f.strings.toNat := by
    rw [List.mem_range]
    omega
  unfold legacyEncoding
  apply List.mem_append_left
  rw [List.mem_flatMap]
  exact ⟨i, hrange, mem_legacyStringEvents f i h⟩

theorem mem_legacyEncoding_barre (f : FretDiagram) :
    XmlEvent.tag "barre" [] (PropertyValue.int 1) ∈ legacyEncoding f
      ↔ 0 < (legacyBarre f).2 := by
  have h := writeOld_barre_tags f Fixture.state0
  rw [writeOld_eq, emitted_appendOut] at h
  constructor
  · intro hm
    have hm2 : XmlEvent.tag "barre" [] (PropertyValue.int 1)
        ∈ (legacyEncoding f).filter (XmlEvent.isTagNamed "barre") :=
      List.mem_filter.mpr ⟨hm, rfl⟩
    rw [h] at hm2
    by_contra hc
    rw [if_neg hc] at hm2
    cases hm2
  · intro hp
    rw [if_pos hp] at h
    have : XmlEvent.tag "barre" [] (PropertyValue.int 1)
        ∈ (legacyEncoding f).filter (XmlEvent.isTagNamed "barre") := by
      rw [h]
      exact List.mem_singleton.mpr rfl
    exact (List.mem_filter.mp this).1

theorem legacyStringEvents_barre_start (f : FretDiagram) (i : Int)
    (hi : (legacyBarre f).1 = i) :
    ∃ C, legacyStringEvents f i
      = stringStart i :: C
          ++ [XmlEvent.tag "dot" [] (PropertyValue.int (legacyBarre f).2),
              XmlEvent.endElement] := by
  unfold legacyStringEvents
  have hn : ¬ (FretDiagram.dotExists (f.dot i) = false ∧ (f.marker i).exists_ = false
      ∧ i ≠ (legacyBarre f).1) := by
    rintro ⟨_, _, h3⟩
    exact h3 hi.symm
  rw [if_neg hn, if_pos hi]
  refine ⟨(if (f.marker i).exists_
        then [XmlEvent.tag "marker" [] (PropertyValue.int (f.markerToChar (f.marker i).mtype))]
        else [])
    ++ (f.dot i).flatMap (fun d =>
          if d.exists_ ∧ ¬ (i = (legacyBarre f).1 ∧ d.fret = (legacyBarre f).2) then
            [XmlEvent.tag "dot" [] (PropertyValue.int d.fret)]
          else []), ?_⟩
  simp only [List.append_assoc, List.singleton_append, List.cons_append, List.nil_append]

theorem lowestDot_spec (f : FretDiagram) (hfret : ∀ p ∈ existingDots f, 0 ≤ p.2) :
    (lowestDot f = (-1, -1) ↔ existingDots f = [])
      ∧ (existingDots f ≠ [] →
          ((lowestDot f).2, (lowestDot f).1) ∈ existingDots f
            ∧ ∀ p ∈ existingDots f, (lowestDot f).1 ≤ p.2
                ∧ (p.2 = (lowestDot f).1 → (lowestDot f).2 ≤ p.1)) := by
  have hnn : ∀ p ∈ existingDots f, 0 ≤ p.1 ∧ 0 ≤ p.2 := by
    rintro ⟨i, fr⟩ hp
    exact ⟨((mem_existingDots f i fr).mp hp).1, hfret _ hp⟩
  have hinv := lowestFold_inv (existingDots f) [] (-1, -1) hnn (Or.inl ⟨rfl, rfl⟩)
  rw [List.nil_append] at hinv
  unfold lowestDot
  refine ⟨?_, ?_⟩
  · rcases hinv with ⟨h1, h2⟩ | ⟨h1, h2, h3, _⟩
    · simp [h1, h2]
    · constructor
      · intro h
        rw [h] at h1
        omega
      · intro h; rw [h] at h3; cases h3
  · intro hne
    rcases hinv with ⟨h1, _⟩ | ⟨_, _, h3, h4⟩
    · exact absurd h1 hne
    · exact ⟨h3, h4⟩

/-- C9: for a fret diagram that passes the can-write guard, the calls of the writer are: the
opening of the element, calls of the property writers (and the harmony's own write), then
the "fretDiagram" element holding the new encoding, opened and closed, then the legacy
encoding, then the closing of the element. Both encodings are given as functions of the
strings, dots, markers and barres of the diagram: the legacy encoding is the one for the
barre `encodedBarre`, found from the lowest dot and the list of barres. For every string
index `i` below `strings`, the new encoding opens "string no=i" iff the string has an
existing dot or an existing marker, and then the legacy encoding opens it too. The legacy
encoding holds the boolean "barre" tag iff the fret of the encoded barre is positive, and
the dot of the barre when its start string is a string of the diagram. A barre is encoded
whenever an entry of `barres()` passes the test, and it is the start string and fret of
such an entry. With frets that are not negative, the lowest dot is an existing dot, no
existing dot has a lower fret, and none of the same fret lies on a string further left. -/
theorem write_FretDiagram_two_encodings (f : FretDiagram) (w : WriteState)
    (hcw : w.xml.context.canWrite f.item.eid = true) :
    (∃ P, (∀ e ∈ P, XmlEvent.isFretPrologue e = true)
      ∧ w.emitted (write_FretDiagram f w)
        = [XmlEvent.startElement f.item.typeName []] ++ P
          ++ [XmlEvent.startElement "fretDiagram" []] ++ newEncoding f ++ [XmlEvent.endElement]
          ++ legacyEncodingFor (encodedBarre f) f ++ [XmlEvent.endElement])
    ∧ (∀ i : Nat, (i : Int) < f.strings →
        (stringStart i ∈ newEncoding f
          ↔ (FretDiagram.dotExists (f.dot i) = true ∨ (f.marker i).exists_ = true))
        ∧ (stringStart i ∈ newEncoding f → stringStart i ∈ legacyEncodingFor (encodedBarre f) f))
    ∧ (XmlEvent.tag "barre" [] (PropertyValue.int 1) ∈ legacyEncodingFor (encodedBarre f) f
        ↔ 0 < (encodedBarre f).2)
    ∧ (∀ i : Nat, (i : Int) < f.strings → (encodedBarre f).1 = i →
        ∃ A C B, legacyEncodingFor (encodedBarre f) f
          = A ++ (stringStart i :: C
                ++ [XmlEvent.tag "dot" [] (PropertyValue.int (encodedBarre f).2),
                    XmlEvent.endElement]) ++ B)
    ∧ ((∀ e ∈ f.barres, ¬ (e.2.exists_ = true ∧ e.1 ≤ (lowestDot f).1 ∧ e.2.endString = -1
          ∧ ¬ (e.1 = (lowestDot f).1 ∧ e.2.startString > (lowestDot f).2))) →
        encodedBarre f = (-1, -1))
    ∧ ((∃ e ∈ f.barres, e.2.exists_ = true ∧ e.1 ≤ (lowestDot f).1 ∧ e.2.endString = -1
          ∧ ¬ (e.1 = (lowestDot f).1 ∧ e.2.startString > (lowestDot f).2)) →
        ∃ e ∈ f.barres, (e.2.exists_ = true ∧ e.1 ≤ (lowestDot f).1 ∧ e.2.endString = -1
            ∧ ¬ (e.1 = (lowestDot f).1 ∧ e.2.startString > (lowestDot f).2))
          ∧ encodedBarre f = (e.2.startString, e.1))
    ∧ ((∀ p ∈ existingDots f, 0 ≤ p.2) →
        (lowestDot f = (-1, -1) ↔ existingDots f = [])
        ∧ (existingDots f ≠ [] →
            ((lowestDot f).2, (lowestDot f).1) ∈ existingDots f
              ∧ ∀ p ∈ existingDots f, (lowestDot f).1 ≤ p.2
                  ∧ (p.2 = (lowestDot f).1 → (lowestDot f).2 ≤ p.1))) := by
  have he := legacyBarre_eq_encodedBarre f
  rw [← legacyEncoding_eq_for, ← he]
  refine ⟨write_FretDiagram_emitted f w hcw, ?_, mem_legacyEncoding_barre f, ?_, ?_, ?_, ?_⟩
  · intro i hi
    exact ⟨mem_newEncoding_stringStart f i hi,
      fun hm => mem_legacyEncoding_stringStart f i hi ((mem_newEncoding_stringStart f i hi).mp hm)⟩
  · intro i hi hb
    obtain ⟨A, B, hAB⟩ := legacyEncoding_string_part f i hi
    obtain ⟨C, hC⟩ := legacyStringEvents_barre_start f (i : Int) hb
    exact ⟨A, C, B, by rw [hAB, hC]⟩
  · rw [he]
    exact (encodedBarre_found f).1
  · rw [he]
    exact (encodedBarre_found f).2
  · exact lowestDot_spec f

theorem write_FretDiagram_two_encodings_witness :
    encodedBarre Fixture.barreDiagram = (0, 1)
      ∧ XmlEvent.tag "barre" [] (PropertyValue.int 1)
          ∈ legacyEncodingFor (encodedBarre Fixture.barreDiagram) Fixture.barreDiagram
      ∧ (stringStart 2 ∈ newEncoding Fixture.barreDiagram
          ↔ (FretDiagram.dotExists (Fixture.barreDiagram.dot 2) = true
              ∨ (Fixture.barreDiagram.marker 2).exists_ = true)) :=
  ⟨by decide,
   (write_FretDiagram_two_encodings Fixture.barreDiagram Fixture.state0 rfl).2.2.1.mpr
     (by decide),
   ((write_FretDiagram_two_encodings Fixture.barreDiagram Fixture.state0 rfl).2.1 2
     (by decide)).1⟩

end FretDiagramEncodings

section DotlessFretDiagram

open TWrite

theorem existingDots_nil_of_no_dot (f : FretDiagram)
    (hnodot : ∀ i : Nat, (i : Int) < f.strings →
      FretDiagram.dotExists (f.dot (i : Int)) = false) :
    existingDots f = [] := by
  unfold existingDots
  rw [List.flatMap_eq_nil_iff]
  intro i hi
  rw [List.mem_range] at hi
  exact filterMap_of_not_dotExists _ _ (hnodot i (by omega))

theorem existingFrets_nil_of_no_dot (f : FretDiagram) (i : Int)
    (h : FretDiagram.dotExists (f.dot i) = false) : existingFrets f i = [] := by
  unfold existingFrets
  unfold FretDiagram.dotExists at h
  rw [List.filterMap_eq_nil_iff]
  intro d hd
  have := List.any_eq_false.mp h d hd
  simp [this]

theorem legacyBarre_of_no_dot (f : FretDiagram)
    (hnodot : ∀ i : Nat, (i : Int) < f.strings →
      FretDiagram.dotExists (f.dot (i : Int)) = false)
    (hfret : ∀ e ∈ f.barres, e.2.exists_ = true → 0 ≤ e.1) :
    legacyBarre f = (-1, -1) := by
  have hscan : scanLowestDot f = (-1, -1) := by
    rw [scanLowestDot_eq, existingDots_nil_of_no_dot f hnodot]
    rfl
  unfold legacyBarre findLegacyBarre
  rw [hscan]
  have hnone : f.barres.find? (fun e =>
      decide (e.2.exists_ = true ∧ (e.1 ≤ (-1 : Int) ∧ e.2.endString = -1
        ∧ ¬ (e.1 = (-1 : Int) ∧ e.2.startString > (-1 : Int))))) = none := by
    rw [List.find?_eq_none]
    intro e he
    simp only [decide_eq_true_eq]
    rintro ⟨hex, hle, -⟩
    have := hfret e he hex
    omega
  simp only [hnone]

theorem newStringEvents_not_barre (f : FretDiagram) (i : Int) :
    ∀ e ∈ newStringEvents f i, XmlEvent.isTagNamed "barre" e = false := by
  intro e he
  unfold newStringEvents at he
  split at he
  · cases he
  · simp only [List.mem_append, List.mem_singleton, List.mem_flatMap] at he
    rcases he with ((he | he) | ⟨d, _, he⟩) | he
    · subst he; rfl
    · split at he
      · simp at he; subst he; rfl
      · cases he
    · split at he
      · simp at he; subst he; rfl
      · cases he
    · subst he; rfl

theorem newEncoding_barre_tags (f : FretDiagram) :
    (newEncoding f).filter (XmlEvent.isTagNamed "barre")
      = (List.range' 1 f.frets.toNat).flatMap (fun fi : Nat => newBarreEvents f (fi : Int)) := by
  unfold newEncoding
  rw [List.filter_append]
  have h1 : ((List.range f.strings.toNat).flatMap
      (fun i : Nat => newStringEvents f (i : Int))).filter (XmlEvent.isTagNamed "barre")
      = [] := by
    rw [List.filter_eq_nil_iff]
    intro e he
    obtain ⟨i, _, hi⟩ := List.mem_flatMap.mp he
    simp [newStringEvents_not_barre f i e hi]
  rw [h1, List.nil_append, List.filter_eq_self]
  intro e he
  obtain ⟨fi, _, hfi⟩ := List.mem_flatMap.mp he
  unfold newBarreEvents at hfi
  split at hfi
  · simp at hfi; subst hfi; rfl
  · cases hfi

/-- C31: if no string of a fret diagram has an existing dot and the existing barres have a
fret that is not negative, the legacy format chooses no barre and its encoding holds neither
the "barre" tag nor any "dot" tag, so no barre dot either; the new format all the same
writes, among its calls, one "barre" tag for every fret from 1 to `frets` whose barre
exists, with the start string, the end string and the fret of that barre, and no other
"barre" tag. -/
theorem no_dots_no_legacy_barre (f : FretDiagram) (w : WriteState)
    (hnodot : ∀ i : Nat, (i : Int) < f.strings →
      FretDiagram.dotExists (f.dot (i : Int)) = false)
    (hfret : ∀ e ∈ f.barres, e.2.exists_ = true → 0 ≤ e.1) :
    legacyBarre f = (-1, -1)
      ∧ (w.emitted (writeOld f w)).any (XmlEvent.isTagNamed "barre") = false
      ∧ (w.emitted (writeOld f w)).any (XmlEvent.isTagNamed "dot") = false
      ∧ (w.emitted (writeNew f w)).filter (XmlEvent.isTagNamed "barre")
          = (List.range' 1 f.frets.toNat).flatMap (fun fi : Nat => newBarreEvents f (fi : Int))
      ∧ ∀ fi : Nat, 1 ≤ fi → (fi : Int) ≤ f.frets → (f.barre (fi : Int)).exists_ = true →
          XmlEvent.tag "barre"
              [("start", PropertyValue.int (f.barre (fi : Int)).startString),
               ("end", PropertyValue.int (f.barre (fi : Int)).endString)]
              (PropertyValue.int (fi : Int))
            ∈ w.emitted (writeNew f w) := by
  have hb := legacyBarre_of_no_dot f hnodot hfret
  have hnew : w.emitted (writeNew f w) = newEncoding f := by
    rw [writeNew_eq, emitted_appendOut]
  refine ⟨hb, ?_, ?_, ?_, ?_⟩
  · have h := writeOld_barre_any f w
    rw [hb] at h
    cases hany : (w.emitted (writeOld f w)).any (XmlEvent.isTagNamed "barre")
    · rfl
    · exact absurd (h.mp hany) (by decide)
  · rw [writeOld_eq, emitted_appendOut, List.any_eq_false]
    intro e he
    unfold legacyEncoding at he
    rw [hb] at he
    simp only [List.mem_append, List.mem_flatMap, List.mem_range] at he
    rcases he with ⟨i, hi, he⟩ | he
    · have hi' : (i : Int) < f.strings := by omega
      have hne : (i : Int) ≠ (legacyBarre f).1 := by
        rw [hb]
        simp only
        omega
      have hd := legacyStringEvents_dots_other f i hne
      rw [existingFrets_nil_of_no_dot f i (hnodot i hi'), List.map_nil,
        List.filter_eq_nil_iff] at hd
      exact hd e he
    · simp at he
  · rw [hnew]
    exact newEncoding_barre_tags f
  · intro fi h1 h2 hex
    rw [hnew]
    unfold newEncoding
    apply List.mem_append_right
    rw [List.mem_flatMap]
    refine ⟨fi, ?_, ?_⟩
    · rw [List.mem_range']
      exact ⟨fi - 1, by omega, by omega⟩
    · unfold newBarreEvents
      rw [if_pos hex]
      simp

theorem no_dots_no_legacy_barre_witness :
    (Fixture.state0.emitted (writeOld Fixture.barreOnlyDiagram Fixture.state0)).any
          (XmlEvent.isTagNamed "barre") = false
      ∧ XmlEvent.tag "barre"
            [("start", PropertyValue.int 0), ("end", PropertyValue.int (-1))]
            (PropertyValue.int 1)
          ∈ Fixture.state0.emitted (writeNew Fixture.barreOnlyDiagram Fixture.state0) :=
  have h := no_dots_no_legacy_barre Fixture.barreOnlyDiagram Fixture.state0
    (fun _ _ => rfl) (by decide)
  ⟨h.2.1, h.2.2.2.2 1 (by decide) (by decide) rfl⟩

end DotlessFretDiagram

section DuplicateProperties

open TWrite

theorem reaches_refl (w : WriteState) : Reaches w w [] :=
  ⟨by simp, rfl, rfl, rfl⟩

theorem reaches_trans {w u v : WriteState} {a b : List XmlEvent}
    (h1 : Reaches w u a) (h2 : Reaches u v b) : Reaches w v (a ++ b) := by
  obtain ⟨ha, hs1, hc1, hg1⟩ := h1
  obtain ⟨hb, hs2, hc2, hg2⟩ := h2
  exact ⟨by rw [hb, ha, List.append_assoc], hs2.trans hs1, hc2.trans hc1, hg2.trans hg1⟩

theorem reaches_appendOut (w : WriteState) (es : List XmlEvent) :
    Reaches w (w.appendOut es) es :=
  ⟨rfl, rfl, rfl, rfl⟩

theorem reaches_emitted {w v : WriteState} {es : List XmlEvent} (h : Reaches w v es) :
    w.emitted v = es := by
  unfold WriteState.emitted
  rw [h.1]
  simp

theorem writeFontStyle_uniform (p d : PropertyValue) :
    ∃ es : List XmlEvent, ∀ v : WriteState, writeFontStyle v p d = v.appendOut es := by
  refine ⟨(if FontStyle.and (FontStyle.ofInt p.toInt) FontStyle.Bold
          != FontStyle.and (FontStyle.ofInt (if d.isValid then d.toInt else 0)) FontStyle.Bold
        then [XmlEvent.tag "bold" []
          (PropertyValue.bool (FontStyle.and (FontStyle.ofInt p.toInt) FontStyle.Bold))]
        else [])
      ++ (if FontStyle.and (FontStyle.ofInt p.toInt) FontStyle.Italic
          != FontStyle.and (FontStyle.ofInt (if d.isValid then d.toInt else 0)) FontStyle.Italic
        then [XmlEvent.tag "italic" []
          (PropertyValue.bool (FontStyle.and (FontStyle.ofInt p.toInt) FontStyle.Italic))]
        else [])
      ++ (if FontStyle.and (FontStyle.ofInt p.toInt) FontStyle.Underline
          != FontStyle.and (FontStyle.ofInt (if d.isValid then d.toInt else 0))
              FontStyle.Underline
        then [XmlEvent.tag "underline" []
          (PropertyValue.bool (FontStyle.and (FontStyle.ofInt p.toInt) FontStyle.Underline))]
        else [])
      ++ (if FontStyle.and (FontStyle.ofInt p.toInt) FontStyle.Strike
          != FontStyle.and (FontStyle.ofInt (if d.isValid then d.toInt else 0)) FontStyle.Strike
        then [XmlEvent.tag "strike" []
          (PropertyValue.bool (FontStyle.and (FontStyle.ofInt p.toInt) FontStyle.Strike))]
        else []), fun v => ?_⟩
  unfold writeFontStyle
  dsimp only
  split_ifs <;> simp [tag_eq_appendOut, appendOut_appendOut, appendOut_nil]

theorem writeProperty_uniform (item : EngravingItem) (w : WriteState) (pid : Pid) :
    ∃ es : List XmlEvent, (pid ≠ Pid.FONT_STYLE → es.length ≤ 1) ∧
      ∀ v : WriteState, v.styles = w.styles → v.scores = w.scores → v.globals = w.globals →
        writeProperty item v pid = v.appendOut es := by
  have hst : ∀ v : WriteState, v.styles = w.styles → v.styleOf item = w.styleOf item :=
    fun v h => by unfold WriteState.styleOf; rw [h]
  have hcv : ∀ (v : WriteState) (p d : PropertyValue), v.scores = w.scores →
      v.globals = w.globals →
      convertProperty item v pid p d = convertProperty item w pid p d := by
    intro v p d h1 h2
    unfold convertProperty WriteState.scoreOf
    rw [h1, h2]
  by_cases h1 : item.isStyled pid = true
  · refine ⟨[], fun _ => by simp, fun v _ _ _ => ?_⟩
    unfold writeProperty
    rw [if_pos h1, appendOut_nil]
  by_cases h2 : (!(item.getProperty (w.styleOf item) pid).isValid) = true
  · refine ⟨[], fun _ => by simp, fun v hs _ _ => ?_⟩
    unfold writeProperty
    rw [if_neg h1]
    dsimp only
    rw [hst v hs, if_pos h2, appendOut_nil]
  by_cases h3 : pid = Pid.FONT_STYLE
  · obtain ⟨es, hes⟩ := writeFontStyle_uniform (item.getProperty (w.styleOf item) pid)
      (if item.propertyFlags pid ≠ PropertyFlags.STYLED
        then item.propertyDefault (w.styleOf item) pid else PropertyValue.invalid)
    refine ⟨es, fun h => absurd h3 h, fun v hs _ _ => ?_⟩
    unfold writeProperty
    rw [if_neg h1]
    dsimp only
    rw [hst v hs, if_neg h2, if_pos h3]
    exact hes v
  · cases hc : convertProperty item w pid (item.getProperty (w.styleOf item) pid)
        (if item.propertyFlags pid ≠ PropertyFlags.STYLED
          then item.propertyDefault (w.styleOf item) pid else PropertyValue.invalid) with
    | none =>
      refine ⟨[], fun _ => by simp, fun v hs hsc hg => ?_⟩
      unfold writeProperty
      rw [if_neg h1]
      dsimp only
      rw [hst v hs, if_neg h2, if_neg h3, hcv v _ _ hsc hg, hc, appendOut_nil]
    | some pd =>
      refine ⟨if pd.1 = pd.2 then [] else [XmlEvent.tagProperty pid pd.1],
        fun _ => by split <;> simp, fun v hs hsc hg => ?_⟩
      unfold writeProperty
      rw [if_neg h1]
      dsimp only
      rw [hst v hs, if_neg h2, if_neg h3, hcv v _ _ hsc hg, hc]
      dsimp only
      unfold WriteState.tagProperty
      split
      · exact (appendOut_nil v).symm
      · rfl

theorem reaches_writeProperty {w u : WriteState} {a : List XmlEvent} (item : EngravingItem)
    (pid : Pid) (h : Reaches w u a) :
    Reaches w (writeProperty item u pid) (a ++ w.emitted (writeProperty item w pid)) := by
  obtain ⟨es, -, H⟩ := writeProperty_uniform item w pid
  have hw : w.emitted (writeProperty item w pid) = es := by
    rw [H w rfl rfl rfl, emitted_appendOut]
  rw [hw, H u h.2.1 h.2.2.1 h.2.2.2]
  exact reaches_trans h (reaches_appendOut u es)

theorem writeProperty_emitted_length (item : EngravingItem) (w : WriteState) (pid : Pid)
    (hpid : pid ≠ Pid.FONT_STYLE) : (w.emitted (writeProperty item w pid)).length ≤ 1 := by
  obtain ⟨es, hl, H⟩ := writeProperty_uniform item w pid
  rw [H w rfl rfl rfl, emitted_appendOut]
  exact hl hpid

theorem writeProperty_emitted_write (item : EngravingItem) (w : WriteState) (pid : Pid) :
    ∀ e ∈ w.emitted (writeProperty item w pid), XmlEvent.isPropertyWrite pid e = true := by
  obtain ⟨es, hes, hP⟩ := writeProperty_appends_write item w pid
  rw [hes, emitted_appendOut]
  exact hP

theorem propertyWrite_not_propertyOf {q pid : Pid} (hq : q ≠ pid) :
    ∀ e, XmlEvent.isPropertyWrite q e = true → XmlEvent.isPropertyOf pid e = false := by
  intro e he
  cases e with
  | tagProperty p v =>
    simp only [XmlEvent.isPropertyWrite, beq_iff_eq] at he
    simp only [XmlEvent.isPropertyOf, beq_eq_false_iff_ne, ne_eq]
    rw [he]
    exact hq
  | _ => rfl

theorem writeProperty_emitted_other (item : EngravingItem) (w : WriteState) {q pid : Pid}
    (hq : q ≠ pid) :
    (w.emitted (writeProperty item w q)).filter (XmlEvent.isPropertyOf pid) = [] :=
  filter_eq_nil_of_forall _ _ (propertyWrite_not_propertyOf hq) _
    (writeProperty_emitted_write item w q)

theorem writeProperty_emitted_self (item : EngravingItem) (w : WriteState) (pid : Pid)
    (hpid : pid ≠ Pid.FONT_STYLE) :
    (w.emitted (writeProperty item w pid)).filter (XmlEvent.isPropertyOf pid)
      = w.emitted (writeProperty item w pid) := by
  obtain ⟨es, hes, hP⟩ := writeProperty_appends_property item w pid hpid
  rw [hes, emitted_appendOut]
  exact filter_eq_self_of_forall _ _ hP

theorem reaches_foldl_properties {w : WriteState} (item : EngravingItem) (c : Pid → Prop)
    [DecidablePred c] (qs : List Pid) :
    ∀ {u : WriteState} {a : List XmlEvent}, Reaches w u a →
      Reaches w (qs.foldl (fun x q => if c q then writeProperty item x q else x) u)
        (a ++ qs.flatMap (fun q => if c q then w.emitted (writeProperty item w q) else [])) := by
  induction qs with
  | nil =>
    intro u a h
    simpa using h
  | cons q qs ih =>
    intro u a h
    rw [List.foldl_cons, List.flatMap_cons, ← List.append_assoc]
    apply ih
    by_cases hq : c q
    · rw [if_pos hq, if_pos hq]
      exact reaches_writeProperty item q h
    · rw [if_neg hq, if_neg hq, List.append_nil]
      exact h

theorem filter_flatMap_properties_nil (item : EngravingItem) (w : WriteState) (c : Pid → Prop)
    [DecidablePred c] (pid : Pid) (qs : List Pid) (hq : pid ∉ qs) :
    (qs.flatMap (fun q => if c q then w.emitted (writeProperty item w q) else [])).filter
      (XmlEvent.isPropertyOf pid) = [] := by
  rw [List.filter_eq_nil_iff]
  intro e he
  obtain ⟨q, hqm, hqe⟩ := List.mem_flatMap.mp he
  split at hqe
  · have hne : q ≠ pid := fun h => hq (h ▸ hqm)
    simp [propertyWrite_not_propertyOf hne e (writeProperty_emitted_write item w q e hqe)]
  · cases hqe

theorem filter_flatMap_properties_once (item : EngravingItem) (w : WriteState) (c : Pid → Prop)
    [DecidablePred c] (pid : Pid) (l1 l2 : List Pid) (h1 : pid ∉ l1) (h2 : pid ∉ l2)
    (hpid : pid ≠ Pid.FONT_STYLE) :
    ((l1 ++ pid :: l2).flatMap
        (fun q => if c q then w.emitted (writeProperty item w q) else [])).filter
      (XmlEvent.isPropertyOf pid)
      = if c pid then w.emitted (writeProperty item w pid) else [] := by
  rw [List.flatMap_append, List.flatMap_cons, List.filter_append, List.filter_append,
    filter_flatMap_properties_nil item w c pid l1 h1,
    filter_flatMap_properties_nil item w c pid l2 h2, List.nil_append, List.append_nil]
  split
  · exact writeProperty_emitted_self item w pid hpid
  · rfl

theorem reaches_itemHead (item : EngravingItem) (u : WriteState) (b : Bool) (pid : Pid)
    (hb : u.styles item.score Sid.autoplaceEnabled = PropertyValue.bool b)
    (hpa : pid ≠ Pid.AUTOPLACE) (hpp : pid ≠ Pid.POSITION) :
    ∃ es, Reaches u (writeLayerTag item (writePositionTag item (writeTrackTag item
          (writeLinkTag item (writeAutoplace item u))))) es
      ∧ es.filter (XmlEvent.isPropertyOf pid) = [] := by
  obtain ⟨A, hA, -, hAeq⟩ := writeAutoplace_eq item u
  have hst := styles_writeAutoplace item u b hb
  have r1 : Reaches u (writeAutoplace item u) A := by
    refine ⟨?_, hst, ?_, ?_⟩
    · rw [hAeq]; rfl
    · rw [hAeq]; rfl
    · rw [hAeq]; rfl
  have r2 : ∀ x : WriteState, Reaches x (writeLinkTag item x)
      (linkEvents item x.xml.context x.scores x.globals) := by
    intro x
    rw [writeLinkTag_eq]
    exact ⟨rfl, rfl, rfl, rfl⟩
  have r3 : ∀ x : WriteState, ∃ es, Reaches x (writeTrackTag item x) es
      ∧ es.filter (XmlEvent.isPropertyOf pid) = [] := by
    intro x
    rw [writeTrackTag_eq]
    refine ⟨_, reaches_appendOut x _, ?_⟩
    split <;> rfl
  have r4 : ∀ x : WriteState, ∃ es, Reaches x (writePositionTag item x) es
      ∧ es.filter (XmlEvent.isPropertyOf pid) = [] := by
    intro x
    unfold writePositionTag WriteState.tagProperty
    split
    · split
      · exact ⟨[], reaches_refl x, rfl⟩
      · refine ⟨_, reaches_appendOut x [_], ?_⟩
        simp only [List.filter_cons, XmlEvent.isPropertyOf, List.filter_nil]
        rw [if_neg]
        simpa using Ne.symm hpp
    · exact ⟨[], reaches_refl x, rfl⟩
  have r5 : ∀ x : WriteState, ∃ es, Reaches x (writeLayerTag item x) es
      ∧ es.filter (XmlEvent.isPropertyOf pid) = [] := by
    intro x
    unfold writeLayerTag
    split
    · split
      · exact ⟨_, reaches_appendOut x [_], rfl⟩
      · exact ⟨[], reaches_refl x, rfl⟩
    · exact ⟨[], reaches_refl x, rfl⟩
  obtain ⟨e3, q3, f3⟩ := r3 (writeLinkTag item (writeAutoplace item u))
  obtain ⟨e4, q4, f4⟩ := r4 (writeTrackTag item (writeLinkTag item (writeAutoplace item u)))
  obtain ⟨e5, q5, f5⟩ := r5 (writePositionTag item (writeTrackTag item
    (writeLinkTag item (writeAutoplace item u))))
  refine ⟨_, reaches_trans (reaches_trans (reaches_trans (reaches_trans r1
    (r2 (writeAutoplace item u))) q3) q4) q5, ?_⟩
  have fA : A.filter (XmlEvent.isPropertyOf pid) = [] :=
    filter_eq_nil_of_forall _ (XmlEvent.isPropertyOf Pid.AUTOPLACE) (fun e he => by
      cases e with
      | tagProperty p v =>
        simp only [XmlEvent.isPropertyOf, beq_iff_eq] at he
        simp only [XmlEvent.isPropertyOf, beq_eq_false_iff_ne, ne_eq]
        rw [he]
        exact Ne.symm hpa
      | _ => rfl) A hA
  have fL : (linkEvents item (writeAutoplace item u).xml.context (writeAutoplace item u).scores
      (writeAutoplace item u).globals).filter (XmlEvent.isPropertyOf pid) = [] :=
    filter_eq_nil_of_forall _ _ (linkEvent_not_property pid) _
      (mem_linkEvents_isLinkEvent _ _ _ _)
  simp only [List.filter_append, fA, fL, f3, f4, f5, List.append_nil]

theorem reaches_writeItemProperties {w u : WriteState} {a : List XmlEvent}
    (item : EngravingItem) (b : Bool) (pid : Pid)
    (hb : w.styles item.score Sid.autoplaceEnabled = PropertyValue.bool b)
    (hmem : pid ∈ [Pid.OFFSET, Pid.COLOR, Pid.VISIBLE, Pid.Z, Pid.PLACEMENT])
    (h : Reaches w u a) :
    ∃ es, Reaches w (writeItemProperties item u) (a ++ es)
      ∧ es.filter (XmlEvent.isPropertyOf pid)
        = if item.propertyFlags pid = PropertyFlags.NOSTYLE
          then w.emitted (writeProperty item w pid) else [] := by
  have hpa : pid ≠ Pid.AUTOPLACE := by
    simp only [List.mem_cons, List.mem_singleton, List.not_mem_nil, or_false] at hmem
    rcases hmem with rfl | rfl | rfl | rfl | rfl <;> decide
  have hpp : pid ≠ Pid.POSITION := by
    simp only [List.mem_cons, List.mem_singleton, List.not_mem_nil, or_false] at hmem
    rcases hmem with rfl | rfl | rfl | rfl | rfl <;> decide
  have hbu : u.styles item.score Sid.autoplaceEnabled = PropertyValue.bool b := by
    rw [h.2.1]
    exact hb
  obtain ⟨hs, hr, hf⟩ := reaches_itemHead item u b pid hbu hpa hpp
  have hloop := reaches_foldl_properties item
    (fun q => item.propertyFlags q = PropertyFlags.NOSTYLE)
    [Pid.OFFSET, Pid.COLOR, Pid.VISIBLE, Pid.Z, Pid.PLACEMENT] (reaches_trans h hr)
  refine ⟨hs ++ [Pid.OFFSET, Pid.COLOR, Pid.VISIBLE, Pid.Z, Pid.PLACEMENT].flatMap
    (fun q => if item.propertyFlags q = PropertyFlags.NOSTYLE
      then w.emitted (writeProperty item w q) else []), ?_, ?_⟩
  · rw [← List.append_assoc]
    exact hloop
  · rw [List.filter_append, hf, List.nil_append]
    simp only [List.mem_cons, List.mem_singleton, List.not_mem_nil, or_false] at hmem
    rcases hmem with rfl | rfl | rfl | rfl | rfl
    · exact filter_flatMap_properties_once item w _ Pid.OFFSET []
        [Pid.COLOR, Pid.VISIBLE, Pid.Z, Pid.PLACEMENT] (by decide) (by decide) (by decide)
    · exact filter_flatMap_properties_once item w _ Pid.COLOR [Pid.OFFSET]
        [Pid.VISIBLE, Pid.Z, Pid.PLACEMENT] (by decide) (by decide) (by decide)
    · exact filter_flatMap_properties_once item w _ Pid.VISIBLE [Pid.OFFSET, Pid.COLOR]
        [Pid.Z, Pid.PLACEMENT] (by decide) (by decide) (by decide)
    · exact filter_flatMap_properties_once item w _ Pid.Z
        [Pid.OFFSET, Pid.COLOR, Pid.VISIBLE] [Pid.PLACEMENT] (by decide) (by decide)
        (by decide)
    · exact filter_flatMap_properties_once item w _ Pid.PLACEMENT
        [Pid.OFFSET, Pid.COLOR, Pid.VISIBLE, Pid.Z] [] (by decide) (by decide) (by decide)

theorem reachesWith_refl (p : XmlEvent → Bool) (w : WriteState) : ReachesWith p w w [] :=
  ⟨[], reaches_refl w, rfl⟩

theorem reachesWith_emit {p : XmlEvent → Bool} {w u : WriteState} {X : List XmlEvent}
    (e : XmlEvent) (he : p e = false) (h : ReachesWith p w u X) :
    ReachesWith p w (u.emit e) X := by
  obtain ⟨a, ha, hX⟩ := h
  refine ⟨a ++ [e], reaches_trans ha (reaches_appendOut u [e]), ?_⟩
  rw [List.filter_append, hX]
  simp [he]

theorem reachesWith_ite {p : XmlEvent → Bool} {w x y : WriteState} {X : List XmlEvent}
    (c : Prop) [Decidable c] (hx : ReachesWith p w x X) (hy : ReachesWith p w y X) :
    ReachesWith p w (if c then x else y) X := by
  split
  · exact hx
  · exact hy

theorem reachesWith_emitted {p : XmlEvent → Bool} {w v : WriteState} {X : List XmlEvent}
    (h : ReachesWith p w v X) : (w.emitted v).filter p = X := by
  obtain ⟨a, ha, hX⟩ := h
  rw [reaches_emitted ha, hX]

theorem reachesWith_writeProperty_other {w u : WriteState} {X : List XmlEvent}
    (item : EngravingItem) {q pid : Pid} (hq : q ≠ pid)
    (h : ReachesWith (XmlEvent.isPropertyOf pid) w u X) :
    ReachesWith (XmlEvent.isPropertyOf pid) w (writeProperty item u q) X := by
  obtain ⟨a, ha, hX⟩ := h
  refine ⟨_, reaches_writeProperty item q ha, ?_⟩
  rw [List.filter_append, hX, writeProperty_emitted_other item w hq, List.append_nil]

theorem reachesWith_writeProperty_self {w u : WriteState} {X : List XmlEvent}
    (item : EngravingItem) (pid : Pid) (hpid : pid ≠ Pid.FONT_STYLE)
    (h : ReachesWith (XmlEvent.isPropertyOf pid) w u X) :
    ReachesWith (XmlEvent.isPropertyOf pid) w (writeProperty item u pid)
      (X ++ w.emitted (writeProperty item w pid)) := by
  obtain ⟨a, ha, hX⟩ := h
  refine ⟨_, reaches_writeProperty item pid ha, ?_⟩
  rw [List.filter_append, hX, writeProperty_emitted_self item w pid hpid]

theorem reachesWith_writeItemProperties {w u : WriteState} {X : List XmlEvent}
    (item : EngravingItem) (b : Bool) (pid : Pid)
    (hb : w.styles item.score Sid.autoplaceEnabled = PropertyValue.bool b)
    (hmem : pid ∈ [Pid.OFFSET, Pid.COLOR, Pid.VISIBLE, Pid.Z, Pid.PLACEMENT])
    (h : ReachesWith (XmlEvent.isPropertyOf pid) w u X) :
    ReachesWith (XmlEvent.isPropertyOf pid) w (writeItemProperties item u)
      (X ++ if item.propertyFlags pid = PropertyFlags.NOSTYLE
        then w.emitted (writeProperty item w pid) else []) := by
  obtain ⟨a, ha, hX⟩ := h
  obtain ⟨es, hr, hf⟩ := reaches_writeItemProperties item b pid hb hmem ha
  exact ⟨_, hr, by rw [List.filter_append, hX, hf]⟩

theorem reachesWith_foldl_other {w : WriteState} {X : List XmlEvent} (item : EngravingItem)
    (pid : Pid) (c : Pid → Prop) [DecidablePred c] (qs : List Pid) (hq : pid ∉ qs) :
    ∀ {u : WriteState}, ReachesWith (XmlEvent.isPropertyOf pid) w u X →
      ReachesWith (XmlEvent.isPropertyOf pid) w
        (qs.foldl (fun x q => if c q then writeProperty item x q else x) u) X := by
  induction qs with
  | nil =>
    intro u h
    exact h
  | cons q qs ih =>
    intro u h
    rw [List.foldl_cons]
    apply ih (fun hm => hq (List.mem_cons_of_mem _ hm))
    have hne : q ≠ pid := fun he => hq (he ▸ List.mem_cons_self _ _)
    exact reachesWith_ite _ (reachesWith_writeProperty_other item hne h) h

theorem writeProperty_guarded (item : EngravingItem) (x : WriteState) (pid : Pid) :
    (if !item.isStyled pid then writeProperty item x pid else x) = writeProperty item x pid := by
  cases hs : item.isStyled pid
  · simp
  · simp only [Bool.not_true, Bool.false_eq_true, if_false]
    unfold writeProperty
    rw [if_pos hs]

/-- The output of the fermata writer holds the offset property once for the write of the
writer itself and once more for the closing loop of `writeItemProperties` when the flag of
the offset is `NOSTYLE`. -/
theorem fermata_offset_writes (f : Fermata) (w : WriteState) (b : Bool)
    (hc : w.ctx.canWrite f.item.eid = true)
    (hb : w.styles f.item.score Sid.autoplaceEnabled = PropertyValue.bool b) :
    (w.emitted (write_Fermata f w)).filter (XmlEvent.isPropertyOf Pid.OFFSET)
      = w.emitted (writeProperty f.item w Pid.OFFSET)
        ++ (if f.item.propertyFlags Pid.OFFSET = PropertyFlags.NOSTYLE
            then w.emitted (writeProperty f.item w Pid.OFFSET) else []) := by
  unfold write_Fermata
  rw [if_neg (by simp [hc])]
  dsimp only
  rw [writeProperty_guarded]
  have h0 : ReachesWith (XmlEvent.isPropertyOf Pid.OFFSET) w
      ((w.startElement f.item.typeName []).tag "subtype"
        (PropertyValue.string ((w.startElement f.item.typeName []).globals.names.symId f.symId)))
      [] :=
    reachesWith_emit _ rfl (reachesWith_emit _ rfl (reachesWith_refl _ w))
  have h1 := reachesWith_writeProperty_self f.item Pid.OFFSET (by decide)
    (reachesWith_writeProperty_other f.item (q := Pid.MIN_DISTANCE) (by decide)
      (reachesWith_writeProperty_other f.item (q := Pid.PLAY) (by decide)
        (reachesWith_writeProperty_other f.item (q := Pid.TIME_STRETCH) (by decide) h0)))
  have h2 := reachesWith_emit XmlEvent.endElement rfl
    (reachesWith_writeItemProperties f.item b Pid.OFFSET hb (by decide) h1)
  simpa using reachesWith_emitted h2

theorem reachesWith_lineHead {w u : WriteState} {X : List XmlEvent} (l : SLine) (b : Bool)
    (pid : Pid) (hb : w.styles l.item.score Sid.autoplaceEnabled = PropertyValue.bool b)
    (hmem : pid ∈ [Pid.OFFSET, Pid.COLOR, Pid.VISIBLE, Pid.Z, Pid.PLACEMENT])
    (h : ReachesWith (XmlEvent.isPropertyOf pid) w u X) :
    ReachesWith (XmlEvent.isPropertyOf pid) w (writeLineHead l u)
      (X ++ (if l.item.propertyFlags pid = PropertyFlags.NOSTYLE
          then w.emitted (writeProperty l.item w pid) else [])
        ++ (if pid = Pid.COLOR then w.emitted (writeProperty l.item w pid) else [])) := by
  have hne : ∀ q ∈ [Pid.LINE_WIDTH, Pid.LINE_STYLE, Pid.ANCHOR, Pid.DASH_LINE_LEN,
      Pid.DASH_GAP_LEN], q ≠ pid := by
    simp only [List.mem_cons, List.mem_singleton, List.not_mem_nil, or_false] at hmem
    rcases hmem with rfl | rfl | rfl | rfl | rfl <;> decide
  unfold writeLineHead writeProperties_Spanner
  dsimp only
  have h0 : ReachesWith (XmlEvent.isPropertyOf pid) w
      (if l.endElement.isNone = true then
        if l.computedEndElement.isNone = true then u.tagFraction "ticks" l.ticks else u
       else u) X :=
    reachesWith_ite _ (reachesWith_ite _ (reachesWith_emit _ rfl h) h) h
  generalize (if l.endElement.isNone = true then
        if l.computedEndElement.isNone = true then u.tagFraction "ticks" l.ticks else u
       else u) = u0 at h0 ⊢
  have h1 : ReachesWith (XmlEvent.isPropertyOf pid) w
      (if u0.ctx.clipboardmode = true then u0.tagFraction "ticks_f" l.ticks else u0) X :=
    reachesWith_ite _ (reachesWith_emit _ rfl h0) h0
  have h2 := reachesWith_writeItemProperties l.item b pid hb hmem h1
  generalize writeItemProperties l.item
    (if u0.ctx.clipboardmode = true then u0.tagFraction "ticks_f" l.ticks else u0) = u2
    at h2 ⊢
  have h3 : ReachesWith (XmlEvent.isPropertyOf pid) w
      (if l.diagonal = true then u2.tag "diagonal" (PropertyValue.bool l.diagonal) else u2)
      (X ++ if l.item.propertyFlags pid = PropertyFlags.NOSTYLE
        then w.emitted (writeProperty l.item w pid) else []) :=
    reachesWith_ite _ (reachesWith_emit _ rfl h2) h2
  generalize (if l.diagonal = true then u2.tag "diagonal" (PropertyValue.bool l.diagonal)
    else u2) = u3 at h3 ⊢
  have h4 := reachesWith_writeProperty_other l.item (hne Pid.LINE_STYLE (by simp))
    (reachesWith_writeProperty_other l.item (hne Pid.LINE_WIDTH (by simp)) h3)
  have htail : ∀ {v : WriteState} {Y : List XmlEvent},
      ReachesWith (XmlEvent.isPropertyOf pid) w v Y →
      ReachesWith (XmlEvent.isPropertyOf pid) w
        (writeProperty l.item (writeProperty l.item (writeProperty l.item v Pid.ANCHOR)
          Pid.DASH_LINE_LEN) Pid.DASH_GAP_LEN) Y := fun hv =>
    reachesWith_writeProperty_other l.item (hne Pid.DASH_GAP_LEN (by simp))
      (reachesWith_writeProperty_other l.item (hne Pid.DASH_LINE_LEN (by simp))
        (reachesWith_writeProperty_other l.item (hne Pid.ANCHOR (by simp)) hv))
  by_cases hcol : pid = Pid.COLOR
  · subst hcol
    rw [if_pos rfl]
    exact htail (reachesWith_writeProperty_self l.item Pid.COLOR (by decide) h4)
  · rw [if_neg hcol, List.append_nil]
    exact htail (reachesWith_writeProperty_other l.item (Ne.symm hcol) h4)

theorem reachesWith_line_noSegments {w u : WriteState} {X : List XmlEvent} (l : SLine)
    (b : Bool) (pid : Pid)
    (hb : w.styles l.item.score Sid.autoplaceEnabled = PropertyValue.bool b)
    (hmem : pid ∈ [Pid.OFFSET, Pid.COLOR, Pid.VISIBLE, Pid.Z, Pid.PLACEMENT])
    (hseg : l.spannerSegments = [])
    (h : ReachesWith (XmlEvent.isPropertyOf pid) w u X) :
    ReachesWith (XmlEvent.isPropertyOf pid) w (writeProperties_SLine l u)
      (X ++ (if l.item.propertyFlags pid = PropertyFlags.NOSTYLE
          then w.emitted (writeProperty l.item w pid) else [])
        ++ (if pid = Pid.COLOR then w.emitted (writeProperty l.item w pid) else [])) := by
  have h1 := reachesWith_lineHead l b pid hb hmem h
  unfold writeProperties_SLine writeLineSegments
  dsimp only
  generalize writeLineHead l u = v at h1 ⊢
  rw [hseg]
  simp only [List.head?_nil, List.any_nil, Bool.not_false, if_true]
  exact reachesWith_ite _ (reachesWith_emit _ rfl h1) h1

/-- The output of the line writer, for a line without segments, holds the color property
once for the closing loop of `writeItemProperties` when the flag of the color is `NOSTYLE`,
and once more for the write of the line writer itself. -/
theorem line_color_writes (l : SLine) (w : WriteState) (b : Bool)
    (hb : w.styles l.item.score Sid.autoplaceEnabled = PropertyValue.bool b)
    (hseg : l.spannerSegments = []) :
    (w.emitted (writeProperties_SLine l w)).filter (XmlEvent.isPropertyOf Pid.COLOR)
      = (if l.item.propertyFlags Pid.COLOR = PropertyFlags.NOSTYLE
          then w.emitted (writeProperty l.item w Pid.COLOR) else [])
        ++ w.emitted (writeProperty l.item w Pid.COLOR) := by
  have h := reachesWith_emitted (reachesWith_line_noSegments l b Pid.COLOR hb (by decide) hseg
    (reachesWith_refl _ w))
  simpa using h

/-- The output of the writer of a gradual tempo change without segments, when the placement
is not one of the text-line properties, holds the placement property once for the write of
the writer itself and once more for the closing loop of `writeItemProperties` when the flag
of the placement is `NOSTYLE`. -/
theorem tempoChange_placement_writes (g : SLine) (w : WriteState) (b : Bool)
    (hb : w.styles g.item.score Sid.autoplaceEnabled = PropertyValue.bool b)
    (hseg : g.spannerSegments = [])
    (hids : Pid.PLACEMENT ∉ w.globals.textLineBasePropertyIds) :
    (w.emitted (write_GradualTempoChange g w)).filter (XmlEvent.isPropertyOf Pid.PLACEMENT)
      = w.emitted (writeProperty g.item w Pid.PLACEMENT)
        ++ (if g.item.propertyFlags Pid.PLACEMENT = PropertyFlags.NOSTYLE
            then w.emitted (writeProperty g.item w Pid.PLACEMENT) else []) := by
  unfold write_GradualTempoChange writeProperties_TextLineBase
  dsimp only
  have h0 : ReachesWith (XmlEvent.isPropertyOf Pid.PLACEMENT) w
      (w.startElement g.item.typeName []) [] :=
    reachesWith_emit _ rfl (reachesWith_refl _ w)
  have h1 := reachesWith_writeProperty_self g.item Pid.PLACEMENT (by decide)
    (reachesWith_writeProperty_other g.item (q := Pid.TEMPO_CHANGE_FACTOR) (by decide)
      (reachesWith_writeProperty_other g.item (q := Pid.TEMPO_EASING_METHOD) (by decide)
        (reachesWith_writeProperty_other g.item (q := Pid.TEMPO_CHANGE_TYPE) (by decide)
          h0)))
  generalize writeProperty g.item (writeProperty g.item (writeProperty g.item
    (writeProperty g.item (w.startElement g.item.typeName []) Pid.TEMPO_CHANGE_TYPE)
    Pid.TEMPO_EASING_METHOD) Pid.TEMPO_CHANGE_FACTOR) Pid.PLACEMENT = x at h1 ⊢
  have hg : x.globals = w.globals := by
    obtain ⟨a, ha, -⟩ := h1
    exact ha.2.2.2
  rw [hg]
  have h2 := reachesWith_foldl_other g.item Pid.PLACEMENT
    (fun q => (!g.item.isStyled q) = true) w.globals.textLineBasePropertyIds hids h1
  have h3 := reachesWith_emit XmlEvent.endElement rfl
    (reachesWith_line_noSegments g b Pid.PLACEMENT hb (by decide) hseg h2)
  have h4 := reachesWith_emitted h3
  have hpc : ¬ (Pid.PLACEMENT = Pid.COLOR) := by decide
  rw [if_neg hpc, List.append_nil] at h4
  simpa using h4

theorem movedFermata_offset :
    Fixture.state0.emitted (writeProperty Fixture.movedFermata.item Fixture.state0 Pid.OFFSET)
      = [XmlEvent.tagProperty Pid.OFFSET (PropertyValue.point (3 / 25) (4 / 25))] := by
  have hw : writeProperty Fixture.movedFermata.item Fixture.state0 Pid.OFFSET
      = Fixture.state0.emit
          (XmlEvent.tagProperty Pid.OFFSET (PropertyValue.point (3 / 25) (4 / 25))) := by
    rw [writeProperty_point Fixture.movedFermata.item Fixture.state0 Pid.OFFSET
      (by simp [Fixture.movedFermata, Fixture.item0]) rfl (by decide) rfl, if_neg]
    · rfl
    · rintro ⟨-, h, -⟩
      have hx : (Fixture.movedFermata.item.getProperty
          (Fixture.state0.styleOf Fixture.movedFermata.item) Pid.OFFSET).toPointF.1
            - (Fixture.movedFermata.item.propertyDefault
                (Fixture.state0.styleOf Fixture.movedFermata.item) Pid.OFFSET).toPointF.1
            = 3 - 0 := rfl
      rw [hx] at h
      exact fuzzy_far (by norm_num [abs_of_pos]) h
  rw [hw, emit_eq_appendOut, emitted_appendOut]

theorem tintedLine_color :
    Fixture.state0.emitted (writeProperty Fixture.tintedLine.item Fixture.state0 Pid.COLOR)
      = [XmlEvent.tagProperty Pid.COLOR (PropertyValue.int 1)] := by
  decide

theorem placedTempoChange_placement :
    Fixture.state0.emitted
        (writeProperty Fixture.placedTempoChange.item Fixture.state0 Pid.PLACEMENT)
      = [XmlEvent.tagProperty Pid.PLACEMENT (PropertyValue.int 1)] := by
  decide

/-- C32 fails on the code when the flag of the property is `NOSTYLE`: the fermata
`Fixture.movedFermata` has its offset written twice inside its element, the line
`Fixture.tintedLine` its color and the gradual tempo change `Fixture.placedTempoChange` its
placement; each time one write is the one of the writer itself and the other the one of the
closing loop of `writeItemProperties`. -/
theorem nostyle_property_written_twice :
    (Fixture.movedFermata.item.propertyFlags Pid.OFFSET = PropertyFlags.NOSTYLE
        ∧ (Fixture.state0.emitted (write_Fermata Fixture.movedFermata Fixture.state0)).filter
            (XmlEvent.isPropertyOf Pid.OFFSET)
          = [XmlEvent.tagProperty Pid.OFFSET (PropertyValue.point (3 / 25) (4 / 25)),
             XmlEvent.tagProperty Pid.OFFSET (PropertyValue.point (3 / 25) (4 / 25))])
      ∧ (Fixture.tintedLine.item.propertyFlags Pid.COLOR = PropertyFlags.NOSTYLE
        ∧ (Fixture.state0.emitted
            (writeProperties_SLine Fixture.tintedLine Fixture.state0)).filter
            (XmlEvent.isPropertyOf Pid.COLOR)
          = [XmlEvent.tagProperty Pid.COLOR (PropertyValue.int 1),
             XmlEvent.tagProperty Pid.COLOR (PropertyValue.int 1)])
      ∧ (Fixture.placedTempoChange.item.propertyFlags Pid.PLACEMENT = PropertyFlags.NOSTYLE
        ∧ (Fixture.state0.emitted
            (write_GradualTempoChange Fixture.placedTempoChange Fixture.state0)).filter
            (XmlEvent.isPropertyOf Pid.PLACEMENT)
          = [XmlEvent.tagProperty Pid.PLACEMENT (PropertyValue.int 1),
             XmlEvent.tagProperty Pid.PLACEMENT (PropertyValue.int 1)]) := by
  refine ⟨⟨rfl, ?_⟩, ⟨rfl, ?_⟩, ⟨rfl, ?_⟩⟩
  · rw [fermata_offset_writes Fixture.movedFermata Fixture.state0 true rfl rfl,
      movedFermata_offset]
    rfl
  · rw [line_color_writes Fixture.tintedLine Fixture.state0 true rfl rfl, tintedLine_color]
    rfl
  · rw [tempoChange_placement_writes Fixture.placedTempoChange Fixture.state0 true rfl rfl
      (by decide), placedTempoChange_placement]
    rfl

end DuplicateProperties

end MuseScore
